import Mathlib

/-!
# TIPS subset interpreter and parser (Lab3), sentence parser and printer (Lab2):
embedding and verified properties

The C++ program keeps one global `symbolTable` (a `std::map` from names to
`std::variant<int, double>`), an expression tree (`ValueNode`) and a statement
tree (`Statement`), each with an `interpret` member function.  The embedding
follows `ast.h` function by function and threads the global table explicitly.

Modelling conventions

* `int` is the 32-bit two's complement integer.  An integer operation (`+`,
  `-`, `*`, `/`, `%`, unary `-`, `+=`) whose mathematical result does not fit is
  given that result reduced by `wrapInt`; ISO C++ leaves signed overflow
  undefined, the embedding fixes the two's complement result, and the theorems
  say separately when the result is the exact number.
* `double` is a type parameter `R` with the operations of class `Double`; no
  law about rounding is assumed, so every theorem holds for IEEE arithmetic.
* A C++ exception is an `Err`; an evaluation returns the outcome together with
  the table as it stands when the evaluation ends (normally or by a throw).
* An operation that has no result at all in C++ (dereferencing `end()` or an
  empty pointer, integer division by zero, a `double` to `int` cast of a value
  that has no `int` truncation) is the outcome `Err.undefined`, with the
  table as it stood at that point.
* The functions of `parser.cpp` transform the globals of scanner and parser
  (`ParserState`); the scanner is represented by the results its calls are
  going to deliver.  The mutually recursive parse functions carry a bound on
  nested calls and loop iterations.
* The grammar of the specification is a set of relations between token lists
  and trees (`Derives`, `StmtDerives`, `DeclsDerive`); the parser is compared
  with them through the tokens still to come (`ParserState.ahead`).
* The sources of Lab 2 (sentence parser and tree printer) are embedded in the
  namespace `Lab2`, the output stream as the text written to it.
* Two properties of the recursive parse functions are proved through
  combinators over their sequencing: `TableBlind` (the symbol table is neither
  read nor changed) and `Extends` (a larger bound gives the same result), so
  that a result found with one bound is the result with every larger one.
-/

namespace CustomLang

/-! ## lexer.h -/

/-- Token kinds: the constants defined in `lexer.h`. -/
inductive Token where
  | TOK_BEGIN | ELSE | END | IF | PROGRAM | READ | THEN | VAR | WHILE | WRITE | CUSTOM
  | INTEGER | REAL
  | SEMICOLON | COLON | OPENPAREN | CLOSEPAREN
  | PLUS | MINUS | MULTIPLY | DIVIDE | ASSIGN | EQUALTO | LESSTHAN | GREATERTHAN
  | NOTEQUALTO | MOD | TOK_NOT | TOK_OR | TOK_AND | CUSTOM_OPER | INCREMENT | DECREMENT
  | IDENT | INTLIT | FLOATLIT | STRINGLIT
  | TOK_EOF | UNKNOWN
  deriving DecidableEq, Repr

/-! ## Machine numbers -/

/-- Smallest value of the C++ type int. -/
def INT_MIN : Int := -2147483648

/-- Largest value of the C++ type int. -/
def INT_MAX : Int := 2147483647

/-- Representable in the C++ type int. -/
def InIntRange (n : Int) : Prop := INT_MIN ≤ n ∧ n ≤ INT_MAX

instance (n : Int) : Decidable (InIntRange n) := by
  unfold InIntRange; exact inferInstance

/-- Two's complement reduction of an integer to the 32-bit range. -/
def wrapInt (n : Int) : Int := (n + 2147483648) % 4294967296 - 2147483648

/-- Operations of the C++ type double used by the interpreter. -/
class Double (R : Type) where
  /-- The conversion static_cast<double>(int). -/
  ofInt : Int → R
  /-- The conversion static_cast<int>(double): truncation toward zero, with no
  result when the truncated value is not representable (undefined in C++). -/
  toInt : R → Option Int
  /-- The sum a + b. -/
  add : R → R → R
  /-- The difference a - b. -/
  sub : R → R → R
  /-- The product a * b. -/
  mul : R → R → R
  /-- The quotient a / b. -/
  div : R → R → R
  /-- The library function std::pow. -/
  pow : R → R → R
  /-- The text that operator<< writes for a double. -/
  toString : R → String

/-- Formatted extraction from the input stream: what cin >> value does to an
int or a double variable that currently holds the given value. -/
class Cin (R I : Type) where
  /-- Extraction into an int: the stored value and the remaining stream. -/
  readInt : I → Int → Int × I
  /-- Extraction into a double: the stored value and the remaining stream. -/
  readDouble : I → R → R × I

/-! ## ast.h: values, errors and the symbol table -/

/-- The type Value = variant<int, double>. -/
inductive Value (R : Type) where
  | int (n : Int)
  | real (r : R)
  deriving DecidableEq, Repr

/-- The test holds_alternative<int>(v). -/
def Value.holdsInt {R : Type} : Value R → Bool
  | .int _ => true
  | .real _ => false

/-- Ways an evaluation ends abnormally. -/
inductive Err where
  /-- The statement throw runtime_error(what). -/
  | runtime_error (what : String)
  /-- The exception std::bad_variant_access thrown by get<T> on the other alternative. -/
  | bad_variant_access
  /-- An operation without a result in C++ (undefined behaviour). -/
  | undefined
  /-- The exception std::out_of_range thrown by std::stoi and std::stod. -/
  | out_of_range
  /-- The exception std::invalid_argument thrown by std::stoi and std::stod. -/
  | invalid_argument
  deriving DecidableEq, Repr

/-- The global symbolTable: a std::map, kept as a list of entries sorted by key. -/
abbrev SymbolTable (R : Type) := List (String × Value R)

/-- The call symbolTable.find(name): the mapped value, or none for end(). -/
def SymbolTable.find {R : Type} : SymbolTable R → String → Option (Value R)
  | [], _ => none
  | (k, v) :: rest, name => if name = k then some v else SymbolTable.find rest name

/-- Store v under name: overwrite the entry if the key exists, else add it in key order. -/
def SymbolTable.insert {R : Type} : SymbolTable R → String → Value R → SymbolTable R
  | [], name, v => [(name, v)]
  | (k, w) :: rest, name, v =>
    if name = k then (k, v) :: rest
    else if name.data < k.data then (name, v) :: (k, w) :: rest
    else (k, w) :: SymbolTable.insert rest name v

/-- The access symbolTable[name]: the slot's content and the table afterwards; an
absent key is first inserted with the value-initialised variant, int 0. -/
def SymbolTable.subscript {R : Type} (t : SymbolTable R) (name : String) :
    Value R × SymbolTable R :=
  match t.find name with
  | some v => (v, t)
  | none => (.int 0, t.insert name (.int 0))

/-- The helper as_double. -/
def as_double {R : Type} [Double R] : Value R → R
  | .int n => Double.ofInt n
  | .real r => r

/-- The helper as_int_strict. -/
def as_int_strict {R : Type} : Value R → Except Err Int
  | .int n => .ok n
  | .real _ => .error (.runtime_error "MOD requires INTEGER operands")

/-! ## ast.h: expressions -/

/-- Expression nodes; null stands for an empty unique_ptr<ValueNode>. -/
inductive ValueNode (R : Type) where
  | null
  | IntLitNode (v : Int)
  | RealLitNode (v : R)
  | IdentNode (name : String)
  | UnaryOp (op : Token) (sub : ValueNode R)
  | BinaryOp (op : Token) (left right : ValueNode R)
  deriving DecidableEq, Repr

/-- The switch of BinaryOp::interpret on the two operand values. -/
def BinaryOp.apply {R : Type} [Double R] (op : Token) (a b : Value R) : Except Err (Value R) :=
  match op with
  | .PLUS =>
    match a, b with
    | .int x, .int y => .ok (.int (wrapInt (x + y)))
    | _, _ => .ok (.real (Double.add (as_double a) (as_double b)))
  | .MINUS =>
    match a, b with
    | .int x, .int y => .ok (.int (wrapInt (x - y)))
    | _, _ => .ok (.real (Double.sub (as_double a) (as_double b)))
  | .MULTIPLY =>
    match a, b with
    | .int x, .int y => .ok (.int (wrapInt (x * y)))
    | _, _ => .ok (.real (Double.mul (as_double a) (as_double b)))
  | .DIVIDE =>
    match a, b with
    | .int x, .int y => if y = 0 then .error .undefined else .ok (.int (wrapInt (Int.tdiv x y)))
    | _, _ => .ok (.real (Double.div (as_double a) (as_double b)))
  | .MOD =>
    match as_int_strict a with
    | .error e => .error e
    | .ok intA =>
      match as_int_strict b with
      | .error e => .error e
      | .ok intB => if intB = 0 then .error .undefined else .ok (.int (wrapInt (Int.tmod intA intB)))
  | .CUSTOM_OPER =>
    match a, b with
    | .int _, .int _ => .error (.runtime_error "EXPON must only have doubles.")
    | _, _ => .ok (.real (Double.pow (as_double a) (as_double b)))
  | _ => .error (.runtime_error "BinaryOp: Fails to match any case.")

/-- The second branch of UnaryOp::interpret, taken for INCREMENT and DECREMENT:
the dynamic_cast of the operand to IdentNode, then the update of its slot. -/
def UnaryOp.step {R : Type} [Double R] (op : Token) (sub : ValueNode R) (t : SymbolTable R) :
    Except Err (Value R) × SymbolTable R :=
  match sub with
  | .IdentNode name =>
    match t.subscript name with
    | (.int x, t1) =>
      let x1 := wrapInt (x + (if op = .INCREMENT then 1 else -1))
      (.ok (.int x1), t1.insert name (.int x1))
    | (.real x, t1) =>
      let x1 := Double.add x (Double.ofInt (if op = .INCREMENT then 1 else -1))
      (.ok (.real x1), t1.insert name (.real x1))
  | _ => (.error (.runtime_error "++/-- must apply to an identifier"), t)

/-- The member functions interpret of IntLitNode, RealLitNode, IdentNode, UnaryOp
and BinaryOp: the outcome and the symbol table afterwards. -/
def ValueNode.interpret {R : Type} [Double R] :
    ValueNode R → SymbolTable R → Except Err (Value R) × SymbolTable R
  | .null, t => (.error .undefined, t)
  | .IntLitNode v, t => (.ok (.int v), t)
  | .RealLitNode v, t => (.ok (.real v), t)
  | .IdentNode name, t =>
    match t.find name with
    | some v => (.ok v, t)
    | none => (.error .undefined, t)
  | .UnaryOp op sub, t =>
    if op = .MINUS then
      match sub.interpret t with
      | (.error e, t1) => (.error e, t1)
      | (.ok (.int n), t1) => (.ok (.int (wrapInt (-n))), t1)
      | (.ok (.real _), t1) => (.error (.runtime_error "Unknown unary operator"), t1)
    else if op = .INCREMENT ∨ op = .DECREMENT then UnaryOp.step op sub t
    else (.error (.runtime_error "Unknown unary operator"), t)
  | .BinaryOp op left right, t =>
    match left.interpret t with
    | (.error e, t1) => (.error e, t1)
    | (.ok a, t1) =>
      match right.interpret t1 with
      | (.error e, t2) => (.error e, t2)
      | (.ok b, t2) => (BinaryOp.apply op a b, t2)

/-! ## ast.h: statements -/

/-- Statement nodes. -/
inductive Statement (R : Type) where
  | assignStmt (id : String) (rhs : ValueNode R)
  | readStmt (target : String)
  | writeStmt (content : String) (type : Token)
  | compoundStmt (stmts : List (Statement R))

/-- The mutable world of a run: the global symbolTable, std::cin and the ostream. -/
structure State (R I : Type) where
  symbolTable : SymbolTable R
  cin : I
  out : String

mutual
/-- The member functions interpret of assignStmt, readStmt, writeStmt and
compoundStmt: none when the statement completes, the exception otherwise, and
the state afterwards. -/
def Statement.interpret {R I : Type} [Double R] [Cin R I] :
    Statement R → State R I → Option Err × State R I
  | .assignStmt id rhs, st =>
    match rhs.interpret st.symbolTable with
    | (.error e, t1) => (some e, { st with symbolTable := t1 })
    | (.ok val, t1) =>
      match t1.subscript id with
      | (.real _, t2) => (some .bad_variant_access, { st with symbolTable := t2 })
      | (.int p, t2) =>
        if p ≠ 0 then
          match val with
          | .int _ => (none, { st with symbolTable := t2 })
          | .real r =>
            match Double.toInt r with
            | some _ => (none, { st with symbolTable := t2 })
            | none => (some .undefined, { st with symbolTable := t2 })
        else (none, { st with symbolTable := t2 })
  | .readStmt target, st =>
    match st.symbolTable.find target with
    | none => (some .undefined, st)
    | some (.int n) =>
      let r := Cin.readInt R st.cin n
      (none, { st with symbolTable := st.symbolTable.insert target (.int r.1), cin := r.2 })
    | some (.real x) =>
      let r := Cin.readDouble st.cin x
      (none, { st with symbolTable := st.symbolTable.insert target (.real r.1), cin := r.2 })
  | .writeStmt content type, st =>
    if type = .IDENT then
      match st.symbolTable.find content with
      | none => (some .undefined, st)
      | some (.int n) => (none, { st with out := st.out ++ toString n ++ "\n" })
      | some (.real x) => (none, { st with out := st.out ++ Double.toString x ++ "\n" })
    else (none, { st with out := st.out ++ content ++ "\n" })
  | .compoundStmt stmts, st => Statement.interpretAll stmts st
/-- The loop of compoundStmt::interpret over the remaining statements. -/
def Statement.interpretAll {R I : Type} [Double R] [Cin R I] :
    List (Statement R) → State R I → Option Err × State R I
  | [], st => (none, st)
  | s :: rest, st =>
    match s.interpret st with
    | (some e, st1) => (some e, st1)
    | (none, st1) => Statement.interpretAll rest st1
end

/-! ## Reference interpretations used in the worked examples -/

/-- Largest k within the fuel such that den * 10 ^ k ≤ num, counted up from k. -/
def log10Up (num den : Nat) : Nat → Nat → Nat
  | 0, k => k
  | fuel + 1, k => if den * 10 ^ (k + 1) ≤ num then log10Up num den fuel (k + 1) else k

/-- Smallest k within the fuel such that den ≤ num * 10 ^ k, counted up from k. -/
def log10Down (num den : Nat) : Nat → Nat → Nat
  | 0, k => k
  | fuel + 1, k => if den ≤ num * 10 ^ k then k else log10Down num den fuel (k + 1)

/-- Quotient of num by den rounded to nearest, ties to even. -/
def roundHalfEven (num den : Nat) : Nat :=
  let q := num / den
  let r := num % den
  if den < 2 * r ∨ (2 * r = den ∧ q % 2 = 1) then q + 1 else q

/-- Drop the zeros at the end of a digit list. -/
def stripZeros (ds : List Char) : List Char :=
  (ds.reverse.dropWhile (fun c => c == '0')).reverse

/-- The text of the positive rational num / den in the default ostream format
(six significant digits, fixed or scientific form as printf's g conversion). -/
def showPositive (num den : Nat) : String :=
  let e0 : Int := if den ≤ num then (log10Up num den num 0 : Nat) else -(log10Down num den den 0 : Nat)
  let m0 := if e0 ≤ 5 then roundHalfEven (num * 10 ^ (5 - e0).toNat) den
            else roundHalfEven num (den * 10 ^ (e0 - 5).toNat)
  let e : Int := if m0 = 1000000 then e0 + 1 else e0
  let m := if m0 = 1000000 then 100000 else m0
  let ds := Nat.toDigits 10 m
  if e < -4 ∨ 6 ≤ e then
    let frac := stripZeros (ds.drop 1)
    let ex := Nat.toDigits 10 e.natAbs
    String.mk (ds.take 1 ++ (if frac = [] then [] else '.' :: frac) ++ ['e']
      ++ [if e < 0 then '-' else '+'] ++ (if ex.length < 2 then '0' :: ex else ex))
  else if 0 ≤ e then
    let frac := stripZeros (ds.drop (e.toNat + 1))
    String.mk (ds.take (e.toNat + 1) ++ (if frac = [] then [] else '.' :: frac))
  else
    String.mk ('0' :: '.' :: List.replicate ((-e).toNat - 1) '0' ++ stripZeros ds)

/-- Exact rational arithmetic as an interpretation of double.  It agrees with
IEEE arithmetic on finite values wherever the IEEE result is exact; division by
zero and powers with a fractional exponent lie outside that fragment. -/
instance exactDouble : Double ℚ where
  ofInt n := n
  toInt q := if InIntRange (Int.tdiv q.num q.den) then some (Int.tdiv q.num q.den) else none
  add a b := a + b
  sub a b := a - b
  mul a b := a * b
  div a b := a / b
  pow a b := if b.den = 1 then a ^ b.num else 0
  toString q :=
    if q = 0 then "0"
    else if q < 0 then "-" ++ showPositive q.num.natAbs q.den
    else showPositive q.num.natAbs q.den

/-- An exhausted standard input: every extraction fails at end of file and
leaves the variable as it was. -/
instance emptyInput (R : Type) : Cin R Unit where
  readInt _ old := (old, ())
  readDouble _ old := (old, ())

/-! ## ast.h: block and program -/

/-- The node Block; compound holds the statements of its compoundStmt, none for
an empty pointer. -/
structure Block (R : Type) where
  compound : Option (List (Statement R))

/-- The node Program; block is none for an empty pointer. -/
structure Program (R : Type) where
  name : String
  block : Option (Block R)

/-- The member function Block::interpret. -/
def Block.interpret {R I : Type} [Double R] [Cin R I] (b : Block R) (st : State R I) :
    Option Err × State R I :=
  match b.compound with
  | some stmts => (Statement.compoundStmt stmts).interpret st
  | none => (none, st)

/-- The member function Program::interpret. -/
def Program.interpret {R I : Type} [Double R] [Cin R I] (p : Program R) (st : State R I) :
    Option Err × State R I :=
  match p.block with
  | some b => b.interpret st
  | none => (none, st)

/-! ## lexer.h and parser.cpp: the scanner interface and the one-token lookahead

The scanner itself is not part of the sources; `yylex` is modelled by the list
of results it is going to deliver.  The debug trace of `dbg::line` goes to the
error stream and is left out. -/

/-- The helper tokName of lexer.h. -/
def tokName : Token → String
  | .TOK_BEGIN => "BEGIN"
  | .ELSE => "ELSE"
  | .END => "END"
  | .IF => "IF"
  | .PROGRAM => "PROGRAM"
  | .READ => "READ"
  | .THEN => "THEN"
  | .VAR => "VAR"
  | .WHILE => "WHILE"
  | .WRITE => "WRITE"
  | .CUSTOM => "CUSTOM KEYWORD"
  | .INTEGER => "INTEGER"
  | .REAL => "REAL"
  | .SEMICOLON => "SEMICOLON"
  | .COLON => "COLON"
  | .OPENPAREN => "OPENPAREN"
  | .CLOSEPAREN => "CLOSEPAREN"
  | .PLUS => "PLUS"
  | .MINUS => "MINUS"
  | .MULTIPLY => "MULTIPLY"
  | .DIVIDE => "DIVIDE"
  | .ASSIGN => "ASSIGN"
  | .EQUALTO => "EQUALTO"
  | .LESSTHAN => "LESSTHAN"
  | .GREATERTHAN => "GREATERTHAN"
  | .NOTEQUALTO => "NOTEQUALTO"
  | .MOD => "MOD"
  | .INCREMENT => "INCREMENT"
  | .DECREMENT => "DECREMENT"
  | .TOK_NOT => "NOT"
  | .TOK_OR => "OR"
  | .TOK_AND => "AND"
  | .CUSTOM_OPER => "CUSTOM OPERATOR"
  | .IDENT => "IDENT"
  | .INTLIT => "INTLIT"
  | .FLOATLIT => "FLOATLIT"
  | .STRINGLIT => "STRINGLIT"
  | .TOK_EOF => "EOF"
  | .UNKNOWN => "UNKNOWN"

/-- What one call of yylex delivers: the token kind it returns, the lexeme it
leaves in yytext and the line number it leaves in yylineno. -/
structure Lexeme where
  kind : Token
  text : String
  line : Nat
  deriving DecidableEq, Repr

/-- The globals of the scanner and of parser.cpp, with the global symbolTable.
The field input lists the results of the coming calls of yylex; once it is
used up yylex returns 0 (TOK_EOF) and leaves eofText and eofLine in yytext and
yylineno. -/
structure ParserState (R : Type) where
  input : List Lexeme
  eofText : String
  eofLine : Nat
  yytext : String
  yylineno : Nat
  havePeek : Bool
  peekTok : Token
  peekLex : String
  symbolTable : SymbolTable R

/-- The state in which the driver calls parseProgram: nothing scanned yet,
yylineno set to 1, no lookahead, an empty symbol table. -/
def ParserState.init (R : Type) (input : List Lexeme) (eofText : String) (eofLine : Nat) :
    ParserState R :=
  { input := input, eofText := eofText, eofLine := eofLine, yytext := "", yylineno := 1,
    havePeek := false, peekTok := .TOK_EOF, peekLex := "", symbolTable := [] }

/-- One call of the scanner. -/
def yylex {R : Type} (s : ParserState R) : Token × ParserState R :=
  match s.input with
  | [] => (.TOK_EOF, { s with yytext := s.eofText, yylineno := s.eofLine })
  | l :: rest => (l.kind, { s with input := rest, yytext := l.text, yylineno := l.line })

/-- A function of parser.cpp as a transformer of the globals: the value returned
or the exception thrown, and the globals afterwards. -/
def Parse (R α : Type) : Type := ParserState R → Except Err α × ParserState R

/-- Return a value, leaving the globals alone. -/
def Parse.pure {R α : Type} (a : α) : Parse R α := fun s => (.ok a, s)

/-- Run m, then f on its value; an exception of m ends the sequence. -/
def Parse.bind {R α β : Type} (m : Parse R α) (f : α → Parse R β) : Parse R β := fun s =>
  match m s with
  | (.ok a, s1) => f a s1
  | (.error e, s1) => (.error e, s1)

instance (R : Type) : Monad (Parse R) where
  pure := Parse.pure
  bind := Parse.bind

/-- The statement throw. -/
def Parse.throw {R α : Type} (e : Err) : Parse R α := fun s => (.error e, s)

/-- Read the globals. -/
def Parse.get {R : Type} : Parse R (ParserState R) := fun s => (.ok s, s)

/-- Change the globals. -/
def Parse.modify {R : Type} (f : ParserState R → ParserState R) : Parse R Unit :=
  fun s => (.ok (), f s)

/-- A library call that returns a value or throws. -/
def Parse.ofExcept {R α : Type} : Except Err α → Parse R α
  | .ok a => Parse.pure a
  | .error e => Parse.throw e

/-- The function peek of parser.cpp. -/
def peek {R : Type} : Parse R Token := fun s =>
  if s.havePeek then (.ok s.peekTok, s)
  else
    match yylex s with
    | (t, s1) =>
      (.ok t, { s1 with peekTok := t, peekLex := if t = .TOK_EOF then "" else s1.yytext,
                        havePeek := true })

/-- The function nextTok of parser.cpp. -/
def nextTok {R : Type} : Parse R Token := do
  let t ← peek
  Parse.modify (fun s => { s with havePeek := false })
  pure t

/-- The text of the exception that expect throws. -/
def expectMessage (line : Nat) (want : Token) (msg : String) (got : Token) (text : String) :
    String :=
  "Parse error (line " ++ toString line ++ "): expected " ++ tokName want ++ " — " ++ msg
    ++ ", got " ++ tokName got ++ " [" ++ text ++ "]"

/-- The function expect of parser.cpp. -/
def expect {R : Type} (want : Token) (msg : String) : Parse R Token := do
  let got ← nextTok
  if got ≠ want then
    let s ← Parse.get
    Parse.throw (.runtime_error (expectMessage s.yylineno want msg got s.yytext))
  else
    pure got

/-- The function parseWrite of parser.cpp. -/
def parseWrite {R : Type} : Parse R (Statement R) := do
  let _ ← expect .WRITE "parseWrite: Start of a write"
  let _ ← expect .OPENPAREN "parseWrite: Must follow WRITE"
  let type ← peek
  if type ≠ .STRINGLIT ∧ type ≠ .IDENT then
    Parse.throw (.runtime_error "parseWrite: Expected a String Lit or an Identifier")
  else
    let s ← Parse.get
    let contentLex := s.peekLex
    let _ ← expect type "parseWrite: Expected a String Lit or an Identifier"
    let _ ← expect .CLOSEPAREN "To close write"
    pure (.writeStmt contentLex type)

/-- The function parseDeclaration of parser.cpp. -/
def parseDeclaration {R : Type} [Double R] : Parse R Unit := do
  let _ ← expect .IDENT "parseDeclaration: Expected an Identifier"
  let s ← Parse.get
  let idLex := s.peekLex
  let _ ← expect .COLON "parseDeclaration: Expected a Colon after after Identifier"
  let type ← peek
  if type ≠ .INTEGER ∧ type ≠ .REAL then
    Parse.throw (.runtime_error "parseDeclaration: Expect type to be an integer or real")
  else
    let _ ← expect type "parseDeclaration: Expected type"
    let _ ← expect .SEMICOLON "parseDeclaration: Expected a semicolon"
    let s1 ← Parse.get
    if (s1.symbolTable.find idLex).isSome then
      Parse.throw (.runtime_error "parseDeclaration: duplicate")
    else if type = .INTEGER then
      Parse.modify (fun s2 => { s2 with symbolTable := s2.symbolTable.insert idLex (.int 0) })
    else
      Parse.modify (fun s2 =>
        { s2 with symbolTable := s2.symbolTable.insert idLex (.real (Double.ofInt 0)) })

/-- The function parseRead of parser.cpp. -/
def parseRead {R : Type} : Parse R (Statement R) := do
  let _ ← expect .READ "parseRead: Expected Read"
  let _ ← expect .OPENPAREN "parseRead: Expected Open Parentheses"
  let _ ← expect .IDENT "parseRead: Expected Identifier"
  let s ← Parse.get
  let targetLex := s.peekLex
  let _ ← expect .CLOSEPAREN "parseRead: Expected Close Parentheses"
  pure (.readStmt targetLex)

/-! ## parser.cpp: the recursive functions

The functions that call each other recursively carry a bound on the number of
nested calls and loop iterations still allowed; `none` means that the bound was
reached, and says nothing about the C++ program. -/

/-- The test isspace of the C locale. -/
def isspace (c : Char) : Bool :=
  c = ' ' ∨ c = '\t' ∨ c = '\n' ∨ c = '\r' ∨ c.toNat = 11 ∨ c.toNat = 12

/-- The number written by a list of decimal digits. -/
def digitsValue (ds : List Char) : Nat :=
  ds.foldl (fun acc c => 10 * acc + (c.toNat - '0'.toNat)) 0

/-- The library function std::stoi (base 10): leading white space, an optional
sign, then the longest run of digits; std::invalid_argument when there is no
digit, std::out_of_range when the number is not an int. -/
def stoi (str : String) : Except Err Int :=
  let cs := str.data.dropWhile isspace
  let body := match cs with
    | '-' :: r => r
    | '+' :: r => r
    | _ => cs
  let ds := body.takeWhile Char.isDigit
  if ds = [] then .error .invalid_argument
  else
    let v : Int := if cs.head? = some '-' then -(digitsValue ds : Int) else (digitsValue ds : Int)
    if InIntRange v then .ok v else .error .out_of_range

/-- The library function std::stod: the double written by a lexeme, or the
exception it throws. -/
class Stod (R : Type) where
  /-- The call stod(str). -/
  stod : String → Except Err R

/-- A recursive function of parser.cpp run under a bound: none when the bound
is reached, else the value or exception and the globals afterwards. -/
def ParseF (R α : Type) : Type := ParserState R → Option (Except Err α × ParserState R)

/-- Return a value, leaving the globals alone. -/
def ParseF.pure {R α : Type} (a : α) : ParseF R α := fun s => some (.ok a, s)

/-- Run m, then f on its value; an exception of m, or the bound reached in m,
ends the sequence. -/
def ParseF.bind {R α β : Type} (m : ParseF R α) (f : α → ParseF R β) : ParseF R β := fun s =>
  match m s with
  | none => none
  | some (.ok a, s1) => f a s1
  | some (.error e, s1) => some (.error e, s1)

instance (R : Type) : Monad (ParseF R) where
  pure := ParseF.pure
  bind := ParseF.bind

/-- A function without recursion, used inside a recursive one. -/
def ParseF.lift {R α : Type} (m : Parse R α) : ParseF R α := fun s => some (m s)

/-- The bound is reached. -/
def ParseF.stop {R α : Type} : ParseF R α := fun _ => none

mutual
/-- The function parseValue of parser.cpp. -/
def parseValue {R : Type} [Stod R] : Nat → ParseF R (ValueNode R)
  | 0 => ParseF.stop
  | fuel + 1 => do
    let node ← parseTerm fuel
    parseValueLoop fuel node
/-- The loop of parseValue, entered with the tree built so far. -/
def parseValueLoop {R : Type} [Stod R] : Nat → ValueNode R → ParseF R (ValueNode R)
  | 0, _ => ParseF.stop
  | fuel + 1, node => do
    let t ← ParseF.lift peek
    if t = .PLUS ∨ t = .MINUS then
      let _ ← ParseF.lift (expect t "additive operator (+/-) in value")
      let rhs ← parseTerm fuel
      parseValueLoop fuel (.BinaryOp t node rhs)
    else
      pure node
/-- The function parseTerm of parser.cpp. -/
def parseTerm {R : Type} [Stod R] : Nat → ParseF R (ValueNode R)
  | 0 => ParseF.stop
  | fuel + 1 => do
    let node ← parseFactor fuel
    parseTermLoop fuel node
/-- The loop of parseTerm, entered with the tree built so far. -/
def parseTermLoop {R : Type} [Stod R] : Nat → ValueNode R → ParseF R (ValueNode R)
  | 0, _ => ParseF.stop
  | fuel + 1, node => do
    let t ← ParseF.lift peek
    if t = .MULTIPLY ∨ t = .DIVIDE ∨ t = .MOD ∨ t = .CUSTOM_OPER then
      let _ ← ParseF.lift (expect t "parseTerm: Expected multiple, divide, mod, or exponential")
      let rhs ← parseFactor fuel
      parseTermLoop fuel (.BinaryOp t node rhs)
    else
      pure node
/-- The function parseFactor of parser.cpp.  In the branch for ++ and -- the
UnaryOp is moved into the local node and the moved-from pointer bin, which is
empty, is returned. -/
def parseFactor {R : Type} [Stod R] : Nat → ParseF R (ValueNode R)
  | 0 => ParseF.stop
  | fuel + 1 => do
    let type ← ParseF.lift peek
    if type = .INCREMENT ∨ type = .DECREMENT then
      let _ ← ParseF.lift (expect type "parseFactor: Expected an increment or decrement")
      let _ ← parsePrimary fuel
      pure .null
    else
      parsePrimary fuel
/-- The function parsePrimary of parser.cpp. -/
def parsePrimary {R : Type} [Stod R] : Nat → ParseF R (ValueNode R)
  | 0 => ParseF.stop
  | fuel + 1 => do
    let type ← ParseF.lift peek
    match type with
    | .FLOATLIT => do
      let s ← ParseF.lift Parse.get
      let vLex := s.peekLex
      let _ ← ParseF.lift (expect .FLOATLIT "parsePrimary: Expected a FLOATLIT token")
      let v ← ParseF.lift (Parse.ofExcept (Stod.stod vLex))
      pure (.RealLitNode v)
    | .INTLIT => do
      let s ← ParseF.lift Parse.get
      let valLex := s.peekLex
      let _ ← ParseF.lift (expect .INTLIT "parsePrimary: Expected a INTLIT token")
      let v ← ParseF.lift (Parse.ofExcept (stoi valLex))
      pure (.IntLitNode v)
    | .IDENT => do
      let s ← ParseF.lift Parse.get
      let nameLex := s.peekLex
      let _ ← ParseF.lift (expect .IDENT "parsePrimary: Expected a IDENT token")
      pure (.IdentNode nameLex)
    | .OPENPAREN => do
      let _ ← ParseF.lift (expect .OPENPAREN "parsePrimary: Expected an OPENPAREN")
      let node ← parseValue fuel
      let _ ← ParseF.lift (expect .CLOSEPAREN "parsePrimary: Expected a CLOSEPAREN")
      pure node
    | _ => ParseF.lift (Parse.throw (.runtime_error "parsePrimary: Invalid Token"))
end

/-- The function parseAssign of parser.cpp. -/
def parseAssign {R : Type} [Stod R] (fuel : Nat) : ParseF R (Statement R) := do
  let _ ← ParseF.lift (expect .IDENT "Expected identifier (name) for assignment")
  let s ← ParseF.lift Parse.get
  let idLex := s.peekLex
  let _ ← ParseF.lift (expect .ASSIGN "Expected an assignment (:=) after identifier (name)")
  let valLex ← parseValue fuel
  pure (.assignStmt idLex valLex)

mutual
/-- The function parseCompound of parser.cpp; the value is the vector stmts of
the compoundStmt it builds. -/
def parseCompound {R : Type} [Stod R] : Nat → ParseF R (List (Statement R))
  | 0 => ParseF.stop
  | fuel + 1 => do
    let _ ← ParseF.lift (expect .TOK_BEGIN "parseCompound: Expected a Begin Token")
    let first ← parseStatement fuel
    parseCompoundLoop fuel [first]
/-- The loop of parseCompound, entered with the statements pushed so far, and
the final expect of END. -/
def parseCompoundLoop {R : Type} [Stod R] :
    Nat → List (Statement R) → ParseF R (List (Statement R))
  | 0, _ => ParseF.stop
  | fuel + 1, stmts => do
    let t ← ParseF.lift peek
    if t = .SEMICOLON then
      let _ ← ParseF.lift (expect .SEMICOLON "parseCompound: Expected a semicolon")
      let t2 ← ParseF.lift peek
      if t2 = .END then
        let _ ← ParseF.lift (expect .END "parseCompound: Expected an End Token")
        pure stmts
      else
        let next ← parseStatement fuel
        parseCompoundLoop fuel (stmts ++ [next])
    else
      let _ ← ParseF.lift (expect .END "parseCompound: Expected an End Token")
      pure stmts
/-- The function parseStatement of parser.cpp. -/
def parseStatement {R : Type} [Stod R] : Nat → ParseF R (Statement R)
  | 0 => ParseF.stop
  | fuel + 1 => do
    let t ← ParseF.lift peek
    match t with
    | .IDENT => parseAssign fuel
    | .TOK_BEGIN => do
      let stmts ← parseCompound fuel
      pure (.compoundStmt stmts)
    | .READ => ParseF.lift parseRead
    | .WRITE => ParseF.lift parseWrite
    | _ => ParseF.lift (Parse.throw (.runtime_error "parseStatement: Token Not accepted"))
end

/-- The loop while (peek() == IDENT) parseDeclaration() of parseBlock. -/
def parseDeclarations {R : Type} [Double R] : Nat → ParseF R Unit
  | 0 => ParseF.stop
  | fuel + 1 => do
    let t ← ParseF.lift peek
    if t = .IDENT then
      ParseF.lift parseDeclaration
      parseDeclarations fuel
    else
      pure ()

/-- The function parseBlock of parser.cpp. -/
def parseBlock {R : Type} [Double R] [Stod R] (fuel : Nat) : ParseF R (Block R) := do
  let t ← ParseF.lift peek
  if t = .VAR then
    let _ ← ParseF.lift (expect .VAR "parseBlock: Expected a VAR token")
    parseDeclarations fuel
  let stmts ← parseCompound fuel
  pure { compound := some stmts }

/-- The function parseProgram of parser.cpp. -/
def parseProgram {R : Type} [Double R] [Stod R] (fuel : Nat) : ParseF R (Program R) := do
  let _ ← ParseF.lift (expect .PROGRAM "start of program")
  let _ ← ParseF.lift (expect .IDENT "program name")
  let s ← ParseF.lift Parse.get
  let nameLex := s.peekLex
  let _ ← ParseF.lift (expect .SEMICOLON "after program name")
  let block ← parseBlock fuel
  let _ ← ParseF.lift (expect .TOK_EOF "at end of file (no trailing tokens after program)")
  pure { name := nameLex, block := some block }

/-! ## Views of the parser globals used to state properties -/

/-- Kind of the lookahead token: what peek returns. -/
def ParserState.lookahead {R : Type} (s : ParserState R) : Token := (peek s).2.peekTok

/-- The globals after a call of peek. -/
def ParserState.peeked {R : Type} (s : ParserState R) : ParserState R := (peek s).2

/-- Lexeme of the lookahead token as peek leaves it in peekLex. -/
def ParserState.lookaheadLex {R : Type} (s : ParserState R) : String := (peek s).2.peekLex

/-- The globals once the lookahead token has been consumed: peek, then havePeek
set to false. -/
def ParserState.advance {R : Type} (s : ParserState R) : ParserState R :=
  { (peek s).2 with havePeek := false }

/-- The four lexemes of one declaration. -/
structure DeclLexemes where
  ident : Lexeme
  colon : Lexeme
  type : Lexeme
  semi : Lexeme

/-- The lexemes have the kinds IDENT, COLON, INTEGER or REAL, SEMICOLON. -/
def DeclLexemes.WellFormed (d : DeclLexemes) : Prop :=
  d.ident.kind = .IDENT ∧ d.colon.kind = .COLON
    ∧ (d.type.kind = .INTEGER ∨ d.type.kind = .REAL) ∧ d.semi.kind = .SEMICOLON

/-- The lexemes in source order. -/
def DeclLexemes.toList (d : DeclLexemes) : List Lexeme := [d.ident, d.colon, d.type, d.semi]

/-- The value a declaration of the given type stores: int 0 for INTEGER, the
double 0.0 otherwise. -/
def declDefault {R : Type} [Double R] (type : Token) : Value R :=
  if type = .INTEGER then .int 0 else .real (Double.ofInt 0)

/-- The decimal literals digits or digits.digits read exactly, as an interpretation of
std::stod for the exact arithmetic; other lexemes are outside this fragment. -/
instance exactStod : Stod ℚ where
  stod str :=
    let ip := str.data.takeWhile Char.isDigit
    let rest := str.data.dropWhile Char.isDigit
    let fp := match rest with
      | '.' :: r => r.takeWhile Char.isDigit
      | _ => []
    if ip = [] ∧ fp = [] then .error .invalid_argument
    else .ok ((digitsValue ip : ℚ) + (digitsValue fp : ℚ) / (10 : ℚ) ^ fp.length)

/-- Globals used in a worked example: x holds int 7, and the scanner is about to
deliver x : REAL ; -/
def redeclareX : ParserState ℚ :=
  { input := [Lexeme.mk .IDENT "x" 1, Lexeme.mk .COLON ":" 1, Lexeme.mk .REAL "REAL" 1,
              Lexeme.mk .SEMICOLON ";" 1],
    eofText := "", eofLine := 2, yytext := "", yylineno := 1, havePeek := false,
    peekTok := .TOK_EOF, peekLex := "", symbolTable := [("x", .int 7)] }

/-- Globals used in a worked example: the scanner is about to deliver ++ x -/
def incrementX : ParserState ℚ :=
  ParserState.init ℚ [Lexeme.mk .INCREMENT "++" 1, Lexeme.mk .IDENT "x" 1] "" 2

/-- Globals used in a worked example: the scanner is about to deliver
PROGRAM p ; BEGIN END, one lexeme per line. -/
def emptyBody : ParserState ℚ :=
  ParserState.init ℚ [Lexeme.mk .PROGRAM "PROGRAM" 1, Lexeme.mk .IDENT "p" 2,
    Lexeme.mk .SEMICOLON ";" 3, Lexeme.mk .TOK_BEGIN "BEGIN" 4, Lexeme.mk .END "END" 5] "" 6

/-! ## Lab 2: the sentence parser and the tree printer

The sources of Lab2_sjh529: lexer.h, ast.h, parser.cpp and printer.cpp.  The
scanner is again given by the results it is going to deliver.  The children of
a node are owned pointers that the parser always sets; they are embedded as
the nodes themselves.  The debug trace goes to the error stream and is left
out. -/

namespace Lab2

/-- The token kinds of lexer.h; other stands for any other value of the int that
yylex returns. -/
inductive Token where
  | TOK_EOF | ARTICLE | POSSESSIVE | ADJECTIVE | NOUN | VERB | ADVERB | UNKNOWN
  | other (code : Int)
  deriving DecidableEq, Repr

/-- The scoped enum AdjectivePhrase::DetType of ast.h. -/
inductive DetType where
  | Article | Possessive
  deriving DecidableEq, Repr

/-- The node AdjectivePhrase of ast.h. -/
structure AdjectivePhrase where
  detType : DetType := .Article
  detLexeme : String
  adjLexeme : String
  deriving DecidableEq, Repr

/-- The node NounPhrase of ast.h. -/
structure NounPhrase where
  adj : AdjectivePhrase
  nounLexeme : String
  deriving DecidableEq, Repr

/-- The node VerbPhrase of ast.h. -/
structure VerbPhrase where
  adverbs : List String
  verbLexeme : String
  deriving DecidableEq, Repr

/-- The node Sentence of ast.h. -/
structure Sentence where
  subjectNP : NounPhrase
  verbP : VerbPhrase
  objectNP : NounPhrase
  deriving DecidableEq, Repr

/-- The globals of the scanner and of parser.cpp.  The field input lists the
results of the coming calls of yylex, kind and lexeme; once it is used up yylex
returns TOK_EOF and leaves eofText in yytext. -/
structure Globals where
  input : List (Token × String)
  eofText : String
  lookahead : Token
  yytext : String
  deriving DecidableEq, Repr

/-- The globals in which the driver calls parseStart: lookahead is 0. -/
def Globals.init (input : List (Token × String)) (eofText : String) : Globals :=
  { input := input, eofText := eofText, lookahead := .TOK_EOF, yytext := "" }

/-- A function of parser.cpp as a transformer of the globals: the value returned
or the exception thrown, and the globals afterwards. -/
def Parser (α : Type) : Type := Globals → Except Err α × Globals

/-- Return a value, leaving the globals alone. -/
def Parser.pure {α : Type} (a : α) : Parser α := fun s => (.ok a, s)

/-- Run m, then f on its value; an exception of m ends the sequence. -/
def Parser.bind {α β : Type} (m : Parser α) (f : α → Parser β) : Parser β := fun s =>
  match m s with
  | (.ok a, s1) => f a s1
  | (.error e, s1) => (.error e, s1)

instance : Monad Parser where
  pure := Parser.pure
  bind := Parser.bind

/-- The statement throw runtime_error(msg). -/
def Parser.throw {α : Type} (msg : String) : Parser α := fun s => (.error (.runtime_error msg), s)

/-- Read the global lookahead. -/
def Parser.lookahead : Parser Token := fun s => (.ok s.lookahead, s)

/-- The function next of parser.cpp: lookahead = yylex(). -/
def next : Parser Unit := fun s =>
  match s.input with
  | [] => (.ok (), { s with lookahead := .TOK_EOF, yytext := s.eofText })
  | (k, t) :: rest => (.ok (), { s with input := rest, lookahead := k, yytext := t })

/-- The function expect of parser.cpp. -/
def expect (tok : Token) (msgIfMismatch : String) : Parser String := fun s =>
  if s.lookahead = tok then
    let lex := s.yytext
    match next s with
    | (_, s1) => (.ok lex, s1)
  else
    (.error (.runtime_error msgIfMismatch), s)

/-- The function parseAdjectivePhrase of parser.cpp. -/
def parseAdjectivePhrase : Parser AdjectivePhrase := do
  let la ← Parser.lookahead
  if la ≠ .ARTICLE ∧ la ≠ .POSSESSIVE then
    Parser.throw "<adjective phrase> did not start with an article or possessive."
  else
    let la1 ← Parser.lookahead
    if la1 = .ARTICLE then
      let detLexeme ← expect .ARTICLE
        "<adjective phrase> did not start with an article or possessive."
      let adjLexeme ← expect .ADJECTIVE "<adjective phrase> did not have an adjective."
      pure { detType := .Article, detLexeme := detLexeme, adjLexeme := adjLexeme }
    else
      let detLexeme ← expect .POSSESSIVE
        "<adjective phrase> did not start with an article or possessive."
      let adjLexeme ← expect .ADJECTIVE "<adjective phrase> did not have an adjective."
      pure { detType := .Possessive, detLexeme := detLexeme, adjLexeme := adjLexeme }

/-- The function parseNounPhrase of parser.cpp. -/
def parseNounPhrase : Parser NounPhrase := do
  let la ← Parser.lookahead
  if la ≠ .ARTICLE ∧ la ≠ .POSSESSIVE then
    Parser.throw "<noun phrase> did not start with an article or possessive"
  else
    let adj ← parseAdjectivePhrase
    let nounLexeme ← expect .NOUN "<noun phrase> did not have a noun."
    pure { adj := adj, nounLexeme := nounLexeme }

/-- The loop while (lookahead == ADVERB) of parseVerbPhrase, entered with the
adverbs pushed so far.  Every turn takes one result from the scanner or meets
the end of the input. -/
def parseAdverbs (adverbs : List String) (s : Globals) : Except Err (List String) × Globals :=
  if _h : s.lookahead = .ADVERB then
    match _h1 : expect .ADVERB "..." s with
    | (.ok lex, s1) => parseAdverbs (adverbs ++ [lex]) s1
    | (.error e, s1) => (.error e, s1)
  else
    (.ok adverbs, s)
termination_by s.input.length + (if s.lookahead = .ADVERB then 1 else 0)
decreasing_by
  unfold expect next at _h1
  rw [if_pos _h] at _h1
  rcases hi : s.input with _ | ⟨⟨k, t⟩, rest⟩
  · rw [hi] at _h1
    simp only [Prod.mk.injEq, Except.ok.injEq] at _h1
    rw [← _h1.2, if_pos _h]
    simp
  · rw [hi] at _h1
    simp only [Prod.mk.injEq, Except.ok.injEq] at _h1
    rw [← _h1.2, if_pos _h]
    simp only [List.length_cons]
    split <;> omega

/-- The function parseVerbPhrase of parser.cpp. -/
def parseVerbPhrase : Parser VerbPhrase := do
  let la ← Parser.lookahead
  if la ≠ .VERB ∧ la ≠ .ADVERB then
    Parser.throw "<verb phrase> did not start with a verb or an adverb."
  else
    let adverbs ← parseAdverbs []
    let verbLexeme ← expect .VERB "<verb phrase> did not start with a verb or an adverb"
    pure { adverbs := adverbs, verbLexeme := verbLexeme }

/-- The function parseSentence of parser.cpp. -/
def parseSentence : Parser Sentence := do
  let la ← Parser.lookahead
  if la ≠ .ARTICLE ∧ la ≠ .POSSESSIVE then
    Parser.throw "<sentence> did not start with an article or possessive."
  else
    let subjectNP ← parseNounPhrase
    let verbP ← parseVerbPhrase
    let objectNP ← parseNounPhrase
    pure { subjectNP := subjectNP, verbP := verbP, objectNP := objectNP }

/-- The function parseStart of parser.cpp. -/
def parseStart : Parser Sentence := do
  next
  let root ← parseSentence
  let la ← Parser.lookahead
  if la ≠ .TOK_EOF then
    Parser.throw "Extra input after complete sentence."
  else
    pure root

/-- The members of Printer: the text sent to os so far, and branchStack. -/
structure Printer where
  os : String
  branchStack : List Bool
  deriving DecidableEq, Repr

/-- The constructor of Printer on a stream that holds the text os. -/
def Printer.new (os : String) : Printer := { os := os, branchStack := [] }

/-- The helper currentIsLast of printer.cpp. -/
def currentIsLast (stk : List Bool) : Bool :=
  match stk.getLast? with
  | none => true
  | some b => !b

/-- The function Printer::printLine. -/
def Printer.printLine (tag lexeme : String) (isLast : Bool) (p : Printer) : Printer :=
  let indent :=
    if p.branchStack.isEmpty then ""
    else
      String.join (p.branchStack.dropLast.map (fun b => if b then "│  " else "   "))
        ++ (if isLast then "└─ " else "├─ ")
  let text := if lexeme = "" then tag ++ "\n" else tag ++ "  (" ++ lexeme ++ ")\n"
  { p with os := p.os ++ indent ++ text }

/-- The function Printer::beginChildren. -/
def Printer.beginChildren (p : Printer) : Printer :=
  { p with branchStack := p.branchStack ++ [false] }

/-- The function Printer::endChildren. -/
def Printer.endChildren (p : Printer) : Printer :=
  if p.branchStack.isEmpty then p else { p with branchStack := p.branchStack.dropLast }

/-- The assignment branchStack.back() = b; every visit makes it after
beginChildren, on a stack that is not empty. -/
def Printer.setBack (b : Bool) (p : Printer) : Printer :=
  { p with branchStack := p.branchStack.dropLast ++ [b] }

/-- The function Printer::printNonterminal. -/
def Printer.printNonterminal (tag : String) (p : Printer) : Printer :=
  let isLast := currentIsLast p.branchStack
  p.printLine tag "" isLast

/-- The function Printer::printARTICLE. -/
def Printer.printARTICLE (word : String) (isLast : Bool) (p : Printer) : Printer :=
  p.printLine "ARTICLE" word isLast

/-- The function Printer::printPOSSESSIVE. -/
def Printer.printPOSSESSIVE (word : String) (isLast : Bool) (p : Printer) : Printer :=
  p.printLine "POSSESSIVE" word isLast

/-- The function Printer::printADJECTIVE. -/
def Printer.printADJECTIVE (word : String) (isLast : Bool) (p : Printer) : Printer :=
  p.printLine "ADJECTIVE" word isLast

/-- The function Printer::printNOUN. -/
def Printer.printNOUN (word : String) (isLast : Bool) (p : Printer) : Printer :=
  p.printLine "NOUN" word isLast

/-- The function Printer::printADVERB. -/
def Printer.printADVERB (word : String) (isLast : Bool) (p : Printer) : Printer :=
  p.printLine "ADVERB" word isLast

/-- The function Printer::printVERB. -/
def Printer.printVERB (word : String) (isLast : Bool) (p : Printer) : Printer :=
  p.printLine "VERB" word isLast

/-- The function Printer::visit(AdjectivePhrase&). -/
def Printer.visitAdjectivePhrase (node : AdjectivePhrase) (p : Printer) : Printer :=
  let p := p.printNonterminal "<adjective phrase>"
  let p := p.beginChildren
  let p := p.setBack true
  let p := if node.detType = .Article then p.printARTICLE node.detLexeme false
           else p.printPOSSESSIVE node.detLexeme false
  let p := p.setBack false
  let p := p.printADJECTIVE node.adjLexeme true
  p.endChildren

/-- The function Printer::visit(NounPhrase&). -/
def Printer.visitNounPhrase (node : NounPhrase) (p : Printer) : Printer :=
  let p := p.printNonterminal "<noun phrase>"
  let p := p.beginChildren
  let p := p.setBack true
  let p := p.visitAdjectivePhrase node.adj
  let p := p.setBack false
  let p := p.printNOUN node.nounLexeme true
  p.endChildren

/-- The function Printer::visit(VerbPhrase&). -/
def Printer.visitVerbPhrase (node : VerbPhrase) (p : Printer) : Printer :=
  let p := p.printNonterminal "<verb phrase>"
  let p := p.beginChildren
  let p := node.adverbs.foldl (fun q adverb => (q.setBack true).printADVERB adverb false) p
  let p := p.setBack false
  let p := p.printVERB node.verbLexeme true
  p.endChildren

/-- The function Printer::visit(Sentence&). -/
def Printer.visitSentence (node : Sentence) (p : Printer) : Printer :=
  let p := { p with os := p.os ++ "<sentence>\n" }
  let p := p.beginChildren
  let p := p.setBack true
  let p := p.visitNounPhrase node.subjectNP
  let p := p.setBack true
  let p := p.visitVerbPhrase node.verbP
  let p := p.setBack false
  let p := p.visitNounPhrase node.objectNP
  p.endChildren

end Lab2
/-! ### The required tree shape in words

The lines the printer is required to write, built from the rule of the
indentation model: one column per ancestor below the root, then the branch of
the line itself, then the text. -/

namespace Lab2

/-- The branch drawn in front of a line: └─ for a last child, ├─ otherwise. -/
def branch (isLast : Bool) : String := if isLast then "└─ " else "├─ "

/-- The column drawn below a node for its descendants: blank under a last
child, a vertical bar otherwise. -/
def column (isLast : Bool) : String := if isLast then "   " else "│  "

/-- The text of a leaf: the tag, two spaces, the lexeme in parentheses. -/
def leafText (tag lexeme : String) : String := tag ++ "  (" ++ lexeme ++ ")"

/-- The text of a leaf with the case printLine makes for a lexeme that is
empty: the tag alone. -/
def leafShown (tag lexeme : String) : String :=
  if lexeme = "" then tag else leafText tag lexeme

/-- The tag of the determiner leaf. -/
def detTag : DetType → String
  | .Article => "ARTICLE"
  | .Possessive => "POSSESSIVE"

/-- The three lines of an adjective phrase. -/
def adjectivePhraseLines (leaf : String → String → String) (cols : String) (isLast : Bool)
    (node : AdjectivePhrase) : List String :=
  [cols ++ branch isLast ++ "<adjective phrase>",
   cols ++ column isLast ++ branch false ++ leaf (detTag node.detType) node.detLexeme,
   cols ++ column isLast ++ branch true ++ leaf "ADJECTIVE" node.adjLexeme]

/-- The five lines of a noun phrase; its adjective phrase is not a last child. -/
def nounPhraseLines (leaf : String → String → String) (cols : String) (isLast : Bool)
    (node : NounPhrase) : List String :=
  [cols ++ branch isLast ++ "<noun phrase>"]
    ++ adjectivePhraseLines leaf (cols ++ column isLast) false node.adj
    ++ [cols ++ column isLast ++ branch true ++ leaf "NOUN" node.nounLexeme]

/-- The lines of a verb phrase: the header, one line per adverb, the verb. -/
def verbPhraseLines (leaf : String → String → String) (cols : String) (isLast : Bool)
    (node : VerbPhrase) : List String :=
  [cols ++ branch isLast ++ "<verb phrase>"]
    ++ node.adverbs.map (fun a => cols ++ column isLast ++ branch false ++ leaf "ADVERB" a)
    ++ [cols ++ column isLast ++ branch true ++ leaf "VERB" node.verbLexeme]

/-- The lines of a sentence: the header, the subject, the verb phrase, and the
object as last child. -/
def sentenceLines (leaf : String → String → String) (node : Sentence) : List String :=
  ["<sentence>"]
    ++ nounPhraseLines leaf "" false node.subjectNP
    ++ verbPhraseLines leaf "" false node.verbP
    ++ nounPhraseLines leaf "" true node.objectNP

/-- The text made of the given lines, each ended by a newline. -/
def unlines (lines : List String) : String := String.join (lines.map (fun l => l ++ "\n"))

/-- The columns printLine draws for the entries of branchStack below the last. -/
def columns (stk : List Bool) : String :=
  String.join (stk.map (fun b => if b then "│  " else "   "))

/-- A sentence used in worked examples: the green dog quickly eats my red bone. -/
def greenDog : Sentence :=
  { subjectNP := { adj := { detType := .Article, detLexeme := "the", adjLexeme := "green" },
                   nounLexeme := "dog" },
    verbP := { adverbs := ["quickly"], verbLexeme := "eats" },
    objectNP := { adj := { detType := .Possessive, detLexeme := "my", adjLexeme := "red" },
                  nounLexeme := "bone" } }

/-- A sentence whose object noun has the empty lexeme. -/
def emptyNoun : Sentence :=
  { greenDog with objectNP := { greenDog.objectNP with nounLexeme := "" } }

end Lab2

namespace Lab2

/-- The globals after a call of next. -/
def Globals.step (s : Globals) : Globals := (next s).2

/-- The current token and the results the scanner is going to deliver, up to the
first TOK_EOF: kind and lexeme of each. -/
def Globals.stream (s : Globals) : List (Token × String) :=
  ((s.lookahead, s.yytext) :: s.input).takeWhile (fun p => p.1 ≠ .TOK_EOF)

/-- The value of detType for a determiner of the given kind. -/
def detTypeOf (k : Token) : DetType := if k = .ARTICLE then .Article else .Possessive

/-- The token kinds and lexemes of a noun phrase. -/
def NounPhrase.tokens (k : Token) (node : NounPhrase) : List (Token × String) :=
  [(k, node.adj.detLexeme), (.ADJECTIVE, node.adj.adjLexeme), (.NOUN, node.nounLexeme)]

/-- The token kinds and lexemes of a verb phrase. -/
def VerbPhrase.tokens (node : VerbPhrase) : List (Token × String) :=
  node.adverbs.map (fun a => (Token.ADVERB, a)) ++ [(.VERB, node.verbLexeme)]

/-- The tokens are (ARTICLE | POSSESSIVE) ADJECTIVE NOUN ADVERB* VERB
(ARTICLE | POSSESSIVE) ADJECTIVE NOUN and the sentence holds their lexemes,
the kinds of the two determiners and the adverbs in order. -/
def IsSentence (toks : List (Token × String)) (node : Sentence) : Prop :=
  ∃ k1 k2 : Token, (k1 = .ARTICLE ∨ k1 = .POSSESSIVE) ∧ (k2 = .ARTICLE ∨ k2 = .POSSESSIVE)
    ∧ node.subjectNP.adj.detType = detTypeOf k1 ∧ node.objectNP.adj.detType = detTypeOf k2
    ∧ toks = node.subjectNP.tokens k1 ++ node.verbP.tokens ++ node.objectNP.tokens k2

/-- The tokens of the sentence greenDog. -/
def greenDogTokens : List (Token × String) :=
  [(.ARTICLE, "the"), (.ADJECTIVE, "green"), (.NOUN, "dog"), (.ADVERB, "quickly"),
   (.VERB, "eats"), (.POSSESSIVE, "my"), (.ADJECTIVE, "red"), (.NOUN, "bone")]

end Lab2

/-! ## The tokens still to come, and the grammar of the specification

The productions of the grammar, each with the tree it builds, as relations
between a list of tokens (kind and lexeme) and the tree.  A repetition builds
its tree from left to right.  They are what the parser is compared with. -/

/-- The tokens that are not consumed yet, up to the first TOK_EOF, kind and
lexeme of each: the held lookahead if there is one, then the coming results
of the scanner. -/
def ParserState.ahead {R : Type} (s : ParserState R) : List (Token × String) :=
  ((if s.havePeek then [(s.peekTok, s.peekLex)] else [])
      ++ s.input.map (fun l => (l.kind, l.text))).takeWhile (fun p => p.1 ≠ .TOK_EOF)

/-- The additive operators. -/
def Token.isAdditive (t : Token) : Prop := t = .PLUS ∨ t = .MINUS

/-- The operators of a term: multiply, divide, MOD and the power operator. -/
def Token.isMultiplicative (t : Token) : Prop :=
  t = .MULTIPLY ∨ t = .DIVIDE ∨ t = .MOD ∨ t = .CUSTOM_OPER

instance (t : Token) : Decidable t.isAdditive := by
  unfold Token.isAdditive
  exact inferInstance

instance (t : Token) : Decidable t.isMultiplicative := by
  unfold Token.isMultiplicative
  exact inferInstance

/-- The nonterminals of the expression grammar. -/
inductive Phrase where
  | primary | factor | term | value
  deriving DecidableEq, Repr

/-- The expression grammar with its trees:
Primary := INTLIT | FLOATLIT | IDENT | ( Value ),
Factor := Primary | (++ | --) Primary,
Term := Factor | Term (* | / | MOD | ^^) Factor,
Value := Term | Value (+ | -) Term.
The left operand of an operator is the tree of everything to its left at the
same level.  The parameter unary is the node built for ++ or -- and its
operand. -/
inductive Derives {R : Type} [Stod R] (unary : Token → ValueNode R → ValueNode R) :
    Phrase → List (Token × String) → ValueNode R → Prop where
  | intlit (x : String) (v : Int) (h : stoi x = .ok v) :
    Derives unary .primary [(.INTLIT, x)] (.IntLitNode v)
  | floatlit (x : String) (v : R) (h : Stod.stod x = .ok v) :
    Derives unary .primary [(.FLOATLIT, x)] (.RealLitNode v)
  | ident (x : String) : Derives unary .primary [(.IDENT, x)] (.IdentNode x)
  | paren (a b : String) (toks : List (Token × String)) (e : ValueNode R)
    (h : Derives unary .value toks e) :
    Derives unary .primary ((.OPENPAREN, a) :: toks ++ [(.CLOSEPAREN, b)]) e
  | plain (toks : List (Token × String)) (e : ValueNode R)
    (h : Derives unary .primary toks e) : Derives unary .factor toks e
  | incdec (op : Token) (x : String) (toks : List (Token × String)) (e : ValueNode R)
    (hop : op = .INCREMENT ∨ op = .DECREMENT) (h : Derives unary .primary toks e) :
    Derives unary .factor ((op, x) :: toks) (unary op e)
  | single (toks : List (Token × String)) (e : ValueNode R)
    (h : Derives unary .factor toks e) : Derives unary .term toks e
  | mulOp (op : Token) (x : String) (l r : List (Token × String)) (el er : ValueNode R)
    (hl : Derives unary .term l el) (hop : op.isMultiplicative)
    (hr : Derives unary .factor r er) :
    Derives unary .term (l ++ (op, x) :: r) (.BinaryOp op el er)
  | lone (toks : List (Token × String)) (e : ValueNode R)
    (h : Derives unary .term toks e) : Derives unary .value toks e
  | addOp (op : Token) (x : String) (l r : List (Token × String)) (el er : ValueNode R)
    (hl : Derives unary .value l el) (hop : op.isAdditive)
    (hr : Derives unary .term r er) :
    Derives unary .value (l ++ (op, x) :: r) (.BinaryOp op el er)

/-- The node the grammar asks for ++ or -- and its operand. -/
def requiredUnary {R : Type} : Token → ValueNode R → ValueNode R := fun op e => .UnaryOp op e

/-- The node parseFactor returns for ++ or -- and its operand: the empty
pointer. -/
def returnedUnary {R : Type} : Token → ValueNode R → ValueNode R := fun _ _ => .null

/-- The nonterminals of the statement grammar, each with the tree it builds:
a statement, a sequence Statement (; Statement)*, a compound. -/
inductive StmtPhrase (R : Type) where
  | statement (st : Statement R)
  | sequence (stmts : List (Statement R))
  | compound (stmts : List (Statement R))

/-- The statement grammar with its trees:
Statement := IDENT := Value | READ ( IDENT ) | WRITE ( (STRINGLIT | IDENT) ) | Compound,
Compound := BEGIN Statement (; Statement)* END,
and, when trailing is true, also BEGIN Statement (; Statement)* ; END.
The statements of a compound are held in source order. -/
inductive StmtDerives {R : Type} [Stod R] (unary : Token → ValueNode R → ValueNode R)
    (trailing : Bool) : StmtPhrase R → List (Token × String) → Prop where
  | assign (x a : String) (toks : List (Token × String)) (e : ValueNode R)
    (h : Derives unary .value toks e) :
    StmtDerives unary trailing (.statement (.assignStmt x e))
      ((.IDENT, x) :: (.ASSIGN, a) :: toks)
  | read (r o x c : String) :
    StmtDerives unary trailing (.statement (.readStmt x))
      [(.READ, r), (.OPENPAREN, o), (.IDENT, x), (.CLOSEPAREN, c)]
  | write (w o x c : String) (k : Token) (hk : k = .STRINGLIT ∨ k = .IDENT) :
    StmtDerives unary trailing (.statement (.writeStmt x k))
      [(.WRITE, w), (.OPENPAREN, o), (k, x), (.CLOSEPAREN, c)]
  | nested (toks : List (Token × String)) (stmts : List (Statement R))
    (h : StmtDerives unary trailing (.compound stmts) toks) :
    StmtDerives unary trailing (.statement (.compoundStmt stmts)) toks
  | first (toks : List (Token × String)) (st : Statement R)
    (h : StmtDerives unary trailing (.statement st) toks) :
    StmtDerives unary trailing (.sequence [st]) toks
  | next (m : String) (l r : List (Token × String)) (stmts : List (Statement R))
    (st : Statement R) (hl : StmtDerives unary trailing (.sequence stmts) l)
    (hr : StmtDerives unary trailing (.statement st) r) :
    StmtDerives unary trailing (.sequence (stmts ++ [st])) (l ++ (.SEMICOLON, m) :: r)
  | compound (b e : String) (toks : List (Token × String)) (stmts : List (Statement R))
    (h : StmtDerives unary trailing (.sequence stmts) toks) :
    StmtDerives unary trailing (.compound stmts) ((.TOK_BEGIN, b) :: toks ++ [(.END, e)])
  | compoundSemi (b m e : String) (toks : List (Token × String))
    (stmts : List (Statement R)) (ht : trailing = true)
    (h : StmtDerives unary trailing (.sequence stmts) toks) :
    StmtDerives unary trailing (.compound stmts)
      ((.TOK_BEGIN, b) :: toks ++ [(.SEMICOLON, m), (.END, e)])

/-- The declarations Declaration* with the names and types they declare:
Declaration := IDENT : (INTEGER | REAL) ; -/
inductive DeclsDerive : List (Token × String) → List (String × Token) → Prop where
  | nil : DeclsDerive [] []
  | cons (x c t m : String) (k : Token) (rest : List (Token × String))
    (ds : List (String × Token)) (hk : k = .INTEGER ∨ k = .REAL) (h : DeclsDerive rest ds) :
    DeclsDerive ((.IDENT, x) :: (.COLON, c) :: (k, t) :: (.SEMICOLON, m) :: rest)
      ((x, k) :: ds)

/-- The production Block := [ VAR Declaration* ] Compound with the declared
names and the block it builds. -/
def BlockDerives {R : Type} [Stod R] (unary : Token → ValueNode R → ValueNode R)
    (trailing : Bool) (toks : List (Token × String)) (ds : List (String × Token))
    (b : Block R) : Prop :=
  ∃ (decls body : List (Token × String)) (stmts : List (Statement R)),
    toks = decls ++ body
      ∧ ((decls = [] ∧ ds = []) ∨ ∃ v dtoks, decls = (.VAR, v) :: dtoks ∧ DeclsDerive dtoks ds)
      ∧ StmtDerives unary trailing (.compound stmts) body
      ∧ b = { compound := some stmts }

/-- The production Program := PROGRAM IDENT ; Block with the program it
builds; the end of the input follows. -/
def ProgramDerives {R : Type} [Stod R] (unary : Token → ValueNode R → ValueNode R)
    (trailing : Bool) (toks : List (Token × String)) (p : Program R) : Prop :=
  ∃ (a x m : String) (rest : List (Token × String)) (ds : List (String × Token))
    (b : Block R),
    toks = (.PROGRAM, a) :: (.IDENT, x) :: (.SEMICOLON, m) :: rest
      ∧ BlockDerives unary trailing rest ds b
      ∧ p = { name := x, block := some b }

/-- What a successful parse of one phrase means: the tokens consumed derive the
returned tree. -/
def ParsesAs {R : Type} [Stod R] (c : Phrase) (m : ParseF R (ValueNode R)) : Prop :=
  ∀ s e s', m s = some (.ok e, s') →
    ∃ toks, s.ahead = toks ++ s'.ahead ∧ Derives returnedUnary c toks e

/-- What a successful run of a loop means: the tokens consumed, put behind the
tokens of the tree built so far, derive the returned tree. -/
def ContinuesAs {R : Type} [Stod R] (c : Phrase)
    (m : ValueNode R → ParseF R (ValueNode R)) : Prop :=
  ∀ s acc e s' pre, Derives returnedUnary c pre acc → m acc s = some (.ok e, s') →
    ∃ toks, s.ahead = toks ++ s'.ahead ∧ Derives returnedUnary c (pre ++ toks) e

/-- What a successful parse of a statement means: the tokens consumed derive the
returned statement, in the grammar that allows a semicolon before END. -/
def ParsesStatement {R : Type} [Stod R] (m : ParseF R (Statement R)) : Prop :=
  ∀ s st s', m s = some (.ok st, s') →
    ∃ toks, s.ahead = toks ++ s'.ahead
      ∧ StmtDerives returnedUnary true (.statement st) toks

/-- What a successful parse of a compound means: the tokens consumed derive the
returned list of statements. -/
def ParsesCompound {R : Type} [Stod R] (m : ParseF R (List (Statement R))) : Prop :=
  ∀ s stmts s', m s = some (.ok stmts, s') →
    ∃ toks, s.ahead = toks ++ s'.ahead
      ∧ StmtDerives returnedUnary true (.compound stmts) toks

/-- What a successful run of the loop of parseCompound means: the tokens consumed,
put behind BEGIN and the tokens of the statements pushed so far, derive the
returned list of statements. -/
def ContinuesCompound {R : Type} [Stod R]
    (m : List (Statement R) → ParseF R (List (Statement R))) : Prop :=
  ∀ s acc stmts s' pre, StmtDerives returnedUnary true (.sequence acc) pre →
    m acc s = some (.ok stmts, s') →
    ∃ toks, s.ahead = toks ++ s'.ahead
      ∧ ∀ b : String, StmtDerives returnedUnary true (.compound stmts)
          ((.TOK_BEGIN, b) :: (pre ++ toks))

/-- The table after the declarations ds, made in this order on the table t. -/
def declare {R : Type} [Double R] (ds : List (String × Token)) (t : SymbolTable R) :
    SymbolTable R :=
  ds.foldl (fun acc d => acc.insert d.1 (declDefault d.2)) t

/-- Globals used in a worked example: the scanner is about to deliver
BEGIN WRITE ( x ) ; END -/
def trailingSemicolon : ParserState ℚ :=
  ParserState.init ℚ [Lexeme.mk .TOK_BEGIN "BEGIN" 1, Lexeme.mk .WRITE "WRITE" 1,
    Lexeme.mk .OPENPAREN "(" 1, Lexeme.mk .IDENT "x" 1, Lexeme.mk .CLOSEPAREN ")" 1,
    Lexeme.mk .SEMICOLON ";" 1, Lexeme.mk .END "END" 1] "" 2

/-- Globals used in a worked example: the scanner is about to deliver
PROGRAM p ; BEGIN READ ( x ) END END -/
def extraEnd : ParserState ℚ :=
  ParserState.init ℚ [Lexeme.mk .PROGRAM "PROGRAM" 1, Lexeme.mk .IDENT "p" 1,
    Lexeme.mk .SEMICOLON ";" 1, Lexeme.mk .TOK_BEGIN "BEGIN" 1, Lexeme.mk .READ "READ" 1,
    Lexeme.mk .OPENPAREN "(" 1, Lexeme.mk .IDENT "x" 1, Lexeme.mk .CLOSEPAREN ")" 1,
    Lexeme.mk .END "END" 1, Lexeme.mk .END "END" 2] "" 3

/-- Globals used in a worked example: the scanner is about to deliver
BEGIN READ ( x ) ; WRITE ( x ) END -/
def twoStatements : ParserState ℚ :=
  ParserState.init ℚ [Lexeme.mk .TOK_BEGIN "BEGIN" 1, Lexeme.mk .READ "READ" 1,
    Lexeme.mk .OPENPAREN "(" 1, Lexeme.mk .IDENT "x" 1, Lexeme.mk .CLOSEPAREN ")" 1,
    Lexeme.mk .SEMICOLON ";" 1, Lexeme.mk .WRITE "WRITE" 2, Lexeme.mk .OPENPAREN "(" 2,
    Lexeme.mk .IDENT "x" 2, Lexeme.mk .CLOSEPAREN ")" 2, Lexeme.mk .END "END" 3] "" 4

/-- The run of m with the bound fuel returns or throws on every state that has
at most (fuel - k) / 4 tokens in front of the end of the input. -/
def ReturnsWithin {R α : Type} (k fuel : Nat) (m : ParseF R α) : Prop :=
  ∀ s : ParserState R, 4 * s.ahead.length + k ≤ fuel → m s ≠ none

/-- Globals used in a worked example: the scanner is about to deliver
PROGRAM p ; BEGIN READ ( x ) ; ? END, where ? is a lexeme of kind UNKNOWN. -/
def unknownInside : ParserState ℚ :=
  ParserState.init ℚ [Lexeme.mk .PROGRAM "PROGRAM" 1, Lexeme.mk .IDENT "p" 1,
    Lexeme.mk .SEMICOLON ";" 1, Lexeme.mk .TOK_BEGIN "BEGIN" 1, Lexeme.mk .READ "READ" 1,
    Lexeme.mk .OPENPAREN "(" 1, Lexeme.mk .IDENT "x" 1, Lexeme.mk .CLOSEPAREN ")" 1,
    Lexeme.mk .SEMICOLON ";" 1, Lexeme.mk .UNKNOWN "?" 2, Lexeme.mk .END "END" 3] "" 4

/-- The function m, run with any bound that is large enough, gives r on s. -/
def Runs {R α : Type} (m : Nat → ParseF R α) (s : ParserState R)
    (r : Except Err α × ParserState R) : Prop :=
  ∃ f0, ∀ f, f0 ≤ f → m f s = some r

/-- No operator of a term comes next in the tokens rest. -/
def NoMultiplicativeNext (rest : List (Token × String)) : Prop :=
  ∀ t, rest.head? = some t → ¬ t.1.isMultiplicative

/-- No operator of a value or of a term comes next in the tokens rest. -/
def NoOperatorNext (rest : List (Token × String)) : Prop :=
  ∀ t, rest.head? = some t → ¬ t.1.isAdditive ∧ ¬ t.1.isMultiplicative

/-- What the parser owes to a phrase of the grammar in front of the tokens rest:
a primary or a factor is parsed into its tree and consumed; after a term, or
after a value that no operator of a term follows, the parser stands in the
loop of parseTerm, or of parseValue, with the tree of the phrase built and
the phrase consumed. -/
def Completes {R : Type} [Stod R] (c : Phrase) (toks : List (Token × String))
    (e : ValueNode R) : Prop :=
  match c with
  | .primary => ∀ (s : ParserState R) rest, s.ahead = toks ++ rest →
      ∃ s1, s1.ahead = rest ∧ Runs parsePrimary s (.ok e, s1)
  | .factor => ∀ (s : ParserState R) rest, s.ahead = toks ++ rest →
      ∃ s1, s1.ahead = rest ∧ Runs parseFactor s (.ok e, s1)
  | .term => ∀ (s : ParserState R) rest, s.ahead = toks ++ rest →
      ∃ s1, s1.ahead = rest
        ∧ ∀ r, Runs (fun f => parseTermLoop f e) s1 r → Runs parseTerm s r
  | .value => ∀ (s : ParserState R) rest, s.ahead = toks ++ rest →
      NoMultiplicativeNext rest →
      ∃ s1, s1.ahead = rest
        ∧ ∀ r, Runs (fun f => parseValueLoop f e) s1 r → Runs parseValue s r

/-- Globals used in a worked example: the scanner is about to deliver a - b - c -/
def aMinusBMinusC : ParserState ℚ :=
  ParserState.init ℚ [Lexeme.mk .IDENT "a" 1, Lexeme.mk .MINUS "-" 1, Lexeme.mk .IDENT "b" 1,
    Lexeme.mk .MINUS "-" 1, Lexeme.mk .IDENT "c" 1] "" 2

/-- Globals used in a worked example: the scanner is about to deliver a + b * c -/
def aPlusBTimesC : ParserState ℚ :=
  ParserState.init ℚ [Lexeme.mk .IDENT "a" 1, Lexeme.mk .PLUS "+" 1, Lexeme.mk .IDENT "b" 1,
    Lexeme.mk .MULTIPLY "*" 1, Lexeme.mk .IDENT "c" 1] "" 2

/-- Globals used in a worked example: the scanner is about to deliver a / b * c -/
def aDivBTimesC : ParserState ℚ :=
  ParserState.init ℚ [Lexeme.mk .IDENT "a" 1, Lexeme.mk .DIVIDE "/" 1, Lexeme.mk .IDENT "b" 1,
    Lexeme.mk .MULTIPLY "*" 1, Lexeme.mk .IDENT "c" 1] "" 2

/-- The expression holds a UnaryOp node whose operator is ++ or --. -/
def ValueNode.hasIncDec {R : Type} : ValueNode R → Bool
  | .UnaryOp op sub => decide (op = .INCREMENT ∨ op = .DECREMENT) || sub.hasIncDec
  | .BinaryOp _ left right => left.hasIncDec || right.hasIncDec
  | _ => false

/-- The globals with the symbol table replaced by t. -/
def ParserState.withTable {R : Type} (s : ParserState R) (t : SymbolTable R) : ParserState R :=
  { s with symbolTable := t }

/-- The function m makes the same steps whatever the symbol table holds and
leaves the table alone: run with the table replaced by t it gives the same
outcome, and the same final globals but for the table, which is t. -/
def TableBlind {R α : Type} (m : ParseF R α) : Prop :=
  ∀ (s : ParserState R) (t : SymbolTable R),
    m (s.withTable t) = (m s).map (fun r => (r.1, r.2.withTable t))

/-- The same for a function without recursion. -/
def TableBlindP {R α : Type} (m : Parse R α) : Prop :=
  ∀ (s : ParserState R) (t : SymbolTable R),
    m (s.withTable t) = ((m s).1, (m s).2.withTable t)

/-- Whatever m returns or throws, m2 returns or throws the same, with the same
globals; m2 may also give a result where the bound is reached in m. -/
def Extends {R α : Type} (m m2 : ParseF R α) : Prop :=
  ∀ s r, m s = some r → m2 s = some r

/-- Globals used in a worked example: the scanner is about to deliver
PROGRAM prog ; BEGIN x := y + 2 ; WRITE ( hi ) END, where hi is a
string literal -/
def namedProgram : ParserState ℚ :=
  ParserState.init ℚ [Lexeme.mk .PROGRAM "PROGRAM" 1, Lexeme.mk .IDENT "prog" 1,
    Lexeme.mk .SEMICOLON ";" 1, Lexeme.mk .TOK_BEGIN "BEGIN" 2, Lexeme.mk .IDENT "x" 3,
    Lexeme.mk .ASSIGN ":=" 3, Lexeme.mk .IDENT "y" 3, Lexeme.mk .PLUS "+" 3,
    Lexeme.mk .INTLIT "2" 3, Lexeme.mk .SEMICOLON ";" 3, Lexeme.mk .WRITE "WRITE" 4,
    Lexeme.mk .OPENPAREN "(" 4, Lexeme.mk .STRINGLIT "hi" 4, Lexeme.mk .CLOSEPAREN ")" 4,
    Lexeme.mk .END "END" 5] "" 6

/-- The program parseProgram builds from namedProgram. -/
def namedProgramTree : Program ℚ :=
  Program.mk "prog" (some (Block.mk (some
    [.assignStmt "x" (.BinaryOp .PLUS (.IdentNode "y") (.IntLitNode 2)),
     .writeStmt "hi" .STRINGLIT])))

/-- Every BinaryOp node of the tree has one of the operators + - * / MOD ^^, and
every UnaryOp node has ++ or --. -/
def ValueNode.OperatorsKnown {R : Type} : ValueNode R → Prop
  | .UnaryOp op sub => (op = .INCREMENT ∨ op = .DECREMENT) ∧ sub.OperatorsKnown
  | .BinaryOp op left right =>
    (op.isAdditive ∨ op.isMultiplicative) ∧ left.OperatorsKnown ∧ right.OperatorsKnown
  | _ => True

mutual
/-- Every expression of the statement has known operators. -/
def Statement.OperatorsKnown {R : Type} : Statement R → Prop
  | .assignStmt _ rhs => rhs.OperatorsKnown
  | .compoundStmt stmts => Statement.AllOperatorsKnown stmts
  | _ => True
/-- Every expression of the statements has known operators. -/
def Statement.AllOperatorsKnown {R : Type} : List (Statement R) → Prop
  | [] => True
  | s :: rest => s.OperatorsKnown ∧ Statement.AllOperatorsKnown rest
end

/-- Every expression of the tree of a phrase has known operators. -/
def StmtPhrase.OperatorsKnown {R : Type} : StmtPhrase R → Prop
  | .statement st => st.OperatorsKnown
  | .sequence stmts => Statement.AllOperatorsKnown stmts
  | .compound stmts => Statement.AllOperatorsKnown stmts

/-- Every expression of the program has known operators. -/
def Program.OperatorsKnown {R : Type} (p : Program R) : Prop :=
  ∀ b, p.block = some b → ∀ stmts, b.compound = some stmts →
    Statement.AllOperatorsKnown stmts

/-- The two exceptions for an operator tag that interpret does not handle. -/
def Err.isOperatorError (e : Err) : Prop :=
  e = .runtime_error "BinaryOp: Fails to match any case."
    ∨ e = .runtime_error "Unknown unary operator"

/-- Globals used in a worked example: the scanner is about to deliver - b -/
def minusB : ParserState ℚ :=
  ParserState.init ℚ [Lexeme.mk .MINUS "-" 1, Lexeme.mk .IDENT "b" 1] "" 2

/-! ## Facts about machine integers and the symbol table -/

section Lemmas

variable {R : Type}

theorem wrapInt_of_inRange (n : Int) (h : InIntRange n) : wrapInt n = n := by
  unfold InIntRange INT_MIN INT_MAX at h
  unfold wrapInt
  omega

theorem wrapInt_inRange (n : Int) : InIntRange (wrapInt n) := by
  unfold InIntRange INT_MIN INT_MAX wrapInt
  omega

theorem SymbolTable.find_insert_self (t : SymbolTable R) (name : String) (v : Value R) :
    (t.insert name v).find name = some v := by
  induction t with
  | nil => simp [SymbolTable.insert, SymbolTable.find]
  | cons e rest ih =>
    obtain ⟨k, w⟩ := e
    by_cases h1 : name = k
    · simp [SymbolTable.insert, SymbolTable.find, h1]
    · by_cases h2 : name.data < k.data
      · simp [SymbolTable.insert, SymbolTable.find, h1, h2]
      · simp [SymbolTable.insert, SymbolTable.find, h1, h2, ih]

theorem SymbolTable.find_insert_of_ne (t : SymbolTable R) (name other : String) (v : Value R)
    (h : other ≠ name) : (t.insert name v).find other = t.find other := by
  induction t with
  | nil => simp [SymbolTable.insert, SymbolTable.find, h]
  | cons e rest ih =>
    obtain ⟨k, w⟩ := e
    by_cases h1 : name = k
    · subst h1
      simp [SymbolTable.insert, SymbolTable.find, h]
    · by_cases h2 : name.data < k.data
      · simp [SymbolTable.insert, SymbolTable.find, h1, h2, h]
      · by_cases h3 : other = k
        · simp [SymbolTable.insert, SymbolTable.find, h1, h2, h3]
        · simp [SymbolTable.insert, SymbolTable.find, h1, h2, h3, ih]

/-- Every name of t is a name of t2 and holds the same alternative there. -/
def SymbolTable.KeepsVariants (t t2 : SymbolTable R) : Prop :=
  ∀ name v, t.find name = some v → ∃ w, t2.find name = some w ∧ w.holdsInt = v.holdsInt

theorem SymbolTable.keepsVariants_refl (t : SymbolTable R) : t.KeepsVariants t :=
  fun _ v h => ⟨v, h, rfl⟩

theorem SymbolTable.keepsVariants_trans {t t2 t3 : SymbolTable R}
    (h12 : t.KeepsVariants t2) (h23 : t2.KeepsVariants t3) : t.KeepsVariants t3 := by
  intro name v h
  obtain ⟨w, hw, hv⟩ := h12 name v h
  obtain ⟨u, hu, hw2⟩ := h23 name w hw
  exact ⟨u, hu, hw2.trans hv⟩

theorem SymbolTable.keepsVariants_insert_fresh (t : SymbolTable R) (name : String)
    (v : Value R) (h : t.find name = none) : t.KeepsVariants (t.insert name v) := by
  intro other w hw
  have hne : other ≠ name := by
    intro heq
    rw [heq, h] at hw
    cases hw
  exact ⟨w, by rw [SymbolTable.find_insert_of_ne t name other v hne]; exact hw, rfl⟩

theorem SymbolTable.keepsVariants_insert_same (t : SymbolTable R) (name : String)
    (old v : Value R) (h : t.find name = some old) (hv : v.holdsInt = old.holdsInt) :
    t.KeepsVariants (t.insert name v) := by
  intro other w hw
  by_cases hne : other = name
  · subst hne
    rw [h] at hw
    cases hw
    exact ⟨v, SymbolTable.find_insert_self t other v, hv⟩
  · exact ⟨w, by rw [SymbolTable.find_insert_of_ne t name other v hne]; exact hw, rfl⟩

end Lemmas

/-! ## The symbol table under evaluation -/

section Invariants

variable {R I : Type}

theorem SymbolTable.subscript_keepsVariants (t : SymbolTable R) (name : String) :
    t.KeepsVariants (t.subscript name).2 := by
  unfold SymbolTable.subscript
  cases h : t.find name with
  | none => exact SymbolTable.keepsVariants_insert_fresh t name _ h
  | some v => exact SymbolTable.keepsVariants_refl t

theorem SymbolTable.subscript_find (t : SymbolTable R) (name : String) :
    (t.subscript name).2.find name = some (t.subscript name).1 := by
  unfold SymbolTable.subscript
  cases h : t.find name with
  | none => exact SymbolTable.find_insert_self t name _
  | some v => exact h

theorem SymbolTable.subscript_find_of_ne (t : SymbolTable R) (name other : String)
    (h : other ≠ name) : (t.subscript name).2.find other = t.find other := by
  unfold SymbolTable.subscript
  cases hf : t.find name with
  | none => exact SymbolTable.find_insert_of_ne t name other _ h
  | some v => rfl

variable [Double R] [Cin R I]

theorem UnaryOp.step_keepsVariants (op : Token) (sub : ValueNode R) (t : SymbolTable R) :
    t.KeepsVariants (UnaryOp.step op sub t).2 := by
  have h1 := fun name => SymbolTable.subscript_keepsVariants t name
  have h2 := fun name => SymbolTable.subscript_find t name
  unfold UnaryOp.step
  split
  · rename_i name
    split
    · rename_i x t1 hs
      have h1 := h1 name
      have h2 := h2 name
      rw [hs] at h1 h2
      exact SymbolTable.keepsVariants_trans h1
        (SymbolTable.keepsVariants_insert_same t1 name _ _ h2 rfl)
    · rename_i x t1 hs
      have h1 := h1 name
      have h2 := h2 name
      rw [hs] at h1 h2
      exact SymbolTable.keepsVariants_trans h1
        (SymbolTable.keepsVariants_insert_same t1 name _ _ h2 rfl)
  · exact SymbolTable.keepsVariants_refl t

theorem ValueNode.eval_keepsVariants (e : ValueNode R) :
    ∀ t : SymbolTable R, t.KeepsVariants (e.interpret t).2 := by
  induction e with
  | null => intro t; exact SymbolTable.keepsVariants_refl t
  | IntLitNode v => intro t; exact SymbolTable.keepsVariants_refl t
  | RealLitNode v => intro t; exact SymbolTable.keepsVariants_refl t
  | IdentNode name =>
    intro t
    unfold ValueNode.interpret
    cases t.find name <;> exact SymbolTable.keepsVariants_refl t
  | UnaryOp op sub ih =>
    intro t
    have h := ih t
    unfold ValueNode.interpret
    split
    · split
      · rename_i hs; rw [hs] at h; exact h
      · rename_i hs; rw [hs] at h; exact h
      · rename_i hs; rw [hs] at h; exact h
    · split
      · exact UnaryOp.step_keepsVariants op sub t
      · exact SymbolTable.keepsVariants_refl t
  | BinaryOp op left right ihl ihr =>
    intro t
    have hl := ihl t
    unfold ValueNode.interpret
    split
    · rename_i hls; rw [hls] at hl; exact hl
    · rename_i a t1 hls
      rw [hls] at hl
      have hr := ihr t1
      split
      · rename_i hrs; rw [hrs] at hr; exact SymbolTable.keepsVariants_trans hl hr
      · rename_i hrs; rw [hrs] at hr; exact SymbolTable.keepsVariants_trans hl hr

mutual
theorem Statement.exec_keepsVariants :
    ∀ (s : Statement R) (st : State R I),
      st.symbolTable.KeepsVariants (s.interpret st).2.symbolTable
  | .assignStmt id rhs, st => by
    have h := ValueNode.eval_keepsVariants rhs st.symbolTable
    unfold Statement.interpret
    split
    · rename_i hs; rw [hs] at h; exact h
    · rename_i val t1 hs
      rw [hs] at h
      have h1 := SymbolTable.subscript_keepsVariants t1 id
      split
      · rename_i hq; rw [hq] at h1; exact SymbolTable.keepsVariants_trans h h1
      · rename_i hq
        rw [hq] at h1
        have h2 := SymbolTable.keepsVariants_trans h h1
        split
        · split
          · exact h2
          · split <;> exact h2
        · exact h2
  | .readStmt target, st => by
    unfold Statement.interpret
    split
    · exact SymbolTable.keepsVariants_refl _
    · rename_i n hf
      exact SymbolTable.keepsVariants_insert_same _ target _ _ hf rfl
    · rename_i x hf
      exact SymbolTable.keepsVariants_insert_same _ target _ _ hf rfl
  | .writeStmt content type, st => by
    unfold Statement.interpret
    split
    · split <;> exact SymbolTable.keepsVariants_refl _
    · exact SymbolTable.keepsVariants_refl _
  | .compoundStmt stmts, st => by
    unfold Statement.interpret
    exact Statement.execAll_keepsVariants stmts st
theorem Statement.execAll_keepsVariants :
    ∀ (l : List (Statement R)) (st : State R I),
      st.symbolTable.KeepsVariants (Statement.interpretAll l st).2.symbolTable
  | [], st => by
    unfold Statement.interpretAll
    exact SymbolTable.keepsVariants_refl _
  | s :: rest, st => by
    have h := Statement.exec_keepsVariants s st
    unfold Statement.interpretAll
    split
    · rename_i hs; rw [hs] at h; exact h
    · rename_i st1 hs
      rw [hs] at h
      exact SymbolTable.keepsVariants_trans h (Statement.execAll_keepsVariants rest st1)
end

end Invariants

/-! ## Claims about the evaluator -/

section Claims

variable {R I : Type} [Double R] [Cin R I]

/-- C1 (the code on the scenario): from the table x = int 0, y = double zero, the
compound statement x := 3; y := x + c; WRITE(y) ends with the exception
std::bad_variant_access raised by the second assignment; nothing has been
written to the output and both slots still hold their initial values. -/
theorem C1_scenario_throws (zero c : R) (input : I) :
    Statement.interpret
      (.compoundStmt
        [.assignStmt "x" (.IntLitNode 3),
         .assignStmt "y" (.BinaryOp .PLUS (.IdentNode "x") (.RealLitNode c)),
         .writeStmt "y" .IDENT])
      (State.mk [("x", .int 0), ("y", .real zero)] input "")
    = (some .bad_variant_access, State.mk [("x", .int 0), ("y", .real zero)] input "") := by
  rfl

/-- C2 (the code on assignment): when the right-hand side evaluates to a value and
the target name is in the table, assignStmt::interpret leaves the state exactly
as the evaluation of the right-hand side left it: the value is never stored in
the slot.  It completes when the slot holds an int and the value is an int, and
throws std::bad_variant_access when the slot holds a double. -/
theorem C2_assignment_never_stores (st : State R I) (id : String) (rhs : ValueNode R)
    (val old : Value R) (t1 : SymbolTable R)
    (hrhs : rhs.interpret st.symbolTable = (.ok val, t1)) (hold : t1.find id = some old) :
    ((Statement.assignStmt id rhs).interpret st).2 = { st with symbolTable := t1 }
    ∧ (old.holdsInt = true → val.holdsInt = true →
        ((Statement.assignStmt id rhs).interpret st).1 = none)
    ∧ (old.holdsInt = false →
        ((Statement.assignStmt id rhs).interpret st).1 = some .bad_variant_access) := by
  have hsub : t1.subscript id = (old, t1) := by
    unfold SymbolTable.subscript
    rw [hold]
  unfold Statement.interpret
  rw [hrhs]
  simp only [hsub]
  cases old with
  | real r => simp [Value.holdsInt]
  | int p =>
    cases val with
    | int n =>
      by_cases hp : p = 0 <;> simp [Value.holdsInt, hp]
    | real r =>
      by_cases hp : p = 0
      · simp [Value.holdsInt, hp]
      · cases hr : Double.toInt r <;> simp [Value.holdsInt, hp, hr]

/-- A worked instance of C2: with x = int 0, the statement x := 3 completes and x
still holds 0. -/
theorem C2_assignment_never_stores_witness :
    (ValueNode.IntLitNode 3 : ValueNode ℚ).interpret
        (State.mk [("x", Value.int 0)] () "" : State ℚ Unit).symbolTable
      = (.ok (.int 3), [("x", .int 0)])
    ∧ SymbolTable.find [("x", (Value.int 0 : Value ℚ))] "x" = some (.int 0)
    ∧ ((Statement.assignStmt "x" (.IntLitNode 3)).interpret
          (State.mk [("x", Value.int 0)] () "" : State ℚ Unit)).2
        = { (State.mk [("x", Value.int 0)] () "" : State ℚ Unit) with
            symbolTable := [("x", .int 0)] } :=
  ⟨rfl, rfl,
    (C2_assignment_never_stores (State.mk [("x", Value.int 0)] () "" : State ℚ Unit) "x"
      (.IntLitNode 3) (.int 3) (.int 0) [("x", .int 0)] rfl rfl).1⟩

/-- C3: every identifier in the symbol table before an expression is evaluated or
a statement (assignment, read, write, compound) is executed is still in the
table afterwards and holds the same alternative (int stays int, double stays
double), whether the step completes or ends with an error. -/
theorem C3_slot_variant_invariant :
    (∀ (e : ValueNode R) (t : SymbolTable R) (name : String) (v : Value R),
        t.find name = some v →
        ∃ w, (e.interpret t).2.find name = some w ∧ w.holdsInt = v.holdsInt)
    ∧ (∀ (s : Statement R) (st : State R I) (name : String) (v : Value R),
        st.symbolTable.find name = some v →
        ∃ w, (s.interpret st).2.symbolTable.find name = some w ∧ w.holdsInt = v.holdsInt) :=
  ⟨fun e t => ValueNode.eval_keepsVariants e t,
   fun s st => Statement.exec_keepsVariants s st⟩

/-- A worked instance of C3: x = int 4 and y = double 1/2; after x := ++y the name
y is still bound to a double. -/
theorem C3_slot_variant_invariant_witness :
    SymbolTable.find [("x", (Value.int 4 : Value ℚ)), ("y", .real (1 / 2))] "y"
      = some (.real (1 / 2))
    ∧ ∃ w, ((Statement.assignStmt "x" (.UnaryOp .INCREMENT (.IdentNode "y"))).interpret
              (State.mk [("x", (Value.int 4 : Value ℚ)), ("y", .real (1 / 2))] () "")).2.symbolTable.find
              "y" = some w
          ∧ w.holdsInt = (Value.real (1 / 2 : ℚ)).holdsInt :=
  ⟨rfl,
   (C3_slot_variant_invariant (R := ℚ) (I := Unit)).2
      (.assignStmt "x" (.UnaryOp .INCREMENT (.IdentNode "y")))
      (State.mk [("x", (Value.int 4 : Value ℚ)), ("y", .real (1 / 2))] () "") "y" (.real (1 / 2)) rfl⟩

/-- C4 (the code on undeclared targets): in the empty symbol table, evaluating ++x
adds the key x (bound to int 1), and executing x := 5 adds the key x (bound to
int 0): both go through symbolTable[name], which inserts a missing key. -/
theorem C4_undeclared_target_creates_slot (input : I) :
    (ValueNode.UnaryOp .INCREMENT (.IdentNode "x") : ValueNode R).interpret []
      = (.ok (.int 1), [("x", .int 1)])
    ∧ (Statement.assignStmt "x" (.IntLitNode 5) : Statement R).interpret (State.mk [] input "")
      = (none, State.mk [("x", .int 0)] input "") := by
  constructor <;> rfl

/-- C5 (the code on identifiers): IdentNode::interpret returns the value stored
under a name that is in the table; for a name that is not in the table it
dereferences end(), which is undefined behaviour: no exception is thrown.  The
table is the same afterwards in both cases. -/
theorem C5_identifier_lookup (t : SymbolTable R) (name : String) :
    (∀ v, t.find name = some v → (ValueNode.IdentNode name).interpret t = (.ok v, t))
    ∧ (t.find name = none → (ValueNode.IdentNode name).interpret t = (.error .undefined, t)) := by
  constructor
  · intro v h
    unfold ValueNode.interpret
    rw [h]
  · intro h
    unfold ValueNode.interpret
    rw [h]

/-- A worked instance of C5: y is read from a table that declares only x. -/
theorem C5_identifier_lookup_witness :
    SymbolTable.find [("x", (Value.int 4 : Value ℚ))] "y" = none
    ∧ (ValueNode.IdentNode "y").interpret [("x", (Value.int 4 : Value ℚ))]
        = (.error .undefined, [("x", .int 4)]) :=
  ⟨rfl, (C5_identifier_lookup [("x", (Value.int 4 : Value ℚ))] "y").2 rfl⟩

/-- C6 (the code on an undeclared operand): when x is not in the table, ++x and
--x throw nothing: symbolTable[x] first inserts x with int 0, the slot is then
stepped, and the value int 1 (for ++) or int -1 (for --) is returned and
stored. -/
theorem C6_incdec_undeclared (t : SymbolTable R) (x : String) (h : t.find x = none) :
    (ValueNode.UnaryOp .INCREMENT (.IdentNode x)).interpret t
      = (.ok (.int 1), (t.insert x (.int 0)).insert x (.int 1))
    ∧ (ValueNode.UnaryOp .DECREMENT (.IdentNode x)).interpret t
      = (.ok (.int (-1)), (t.insert x (.int 0)).insert x (.int (-1))) := by
  have hsub : t.subscript x = (.int 0, t.insert x (.int 0)) := by
    unfold SymbolTable.subscript
    rw [h]
  constructor <;>
  · unfold ValueNode.interpret UnaryOp.step
    simp [hsub, wrapInt]

/-- A worked instance of C6: ++x in the empty table returns 1 and creates x. -/
theorem C6_incdec_undeclared_witness :
    SymbolTable.find ([] : SymbolTable ℚ) "x" = none
    ∧ (ValueNode.UnaryOp .INCREMENT (.IdentNode "x")).interpret ([] : SymbolTable ℚ)
        = (.ok (.int 1), (SymbolTable.insert [] "x" (.int 0)).insert "x" (.int 1)) :=
  ⟨rfl, (C6_incdec_undeclared ([] : SymbolTable ℚ) "x" rfl).1⟩

/-- C7: when x holds int n, ++x returns int n+1 and --x returns int n-1: the sum
is computed in int, and it is the number n+1 resp. n-1 whenever that number is
representable.  When x holds the double r they return r + 1.0 resp. r + (-1.0).
In each case the returned value is stored in slot x, and storing a value in
slot x leaves every other slot as it was. -/
theorem C7_incdec_declared (t : SymbolTable R) (x : String) :
    (∀ n, t.find x = some (.int n) →
        (ValueNode.UnaryOp .INCREMENT (.IdentNode x)).interpret t
          = (.ok (.int (wrapInt (n + 1))), t.insert x (.int (wrapInt (n + 1))))
        ∧ (ValueNode.UnaryOp .DECREMENT (.IdentNode x)).interpret t
          = (.ok (.int (wrapInt (n - 1))), t.insert x (.int (wrapInt (n - 1))))
        ∧ (InIntRange (n + 1) →
            (ValueNode.UnaryOp .INCREMENT (.IdentNode x)).interpret t
              = (.ok (.int (n + 1)), t.insert x (.int (n + 1))))
        ∧ (InIntRange (n - 1) →
            (ValueNode.UnaryOp .DECREMENT (.IdentNode x)).interpret t
              = (.ok (.int (n - 1)), t.insert x (.int (n - 1)))))
    ∧ (∀ r, t.find x = some (.real r) →
        (ValueNode.UnaryOp .INCREMENT (.IdentNode x)).interpret t
          = (.ok (.real (Double.add r (Double.ofInt 1))),
             t.insert x (.real (Double.add r (Double.ofInt 1))))
        ∧ (ValueNode.UnaryOp .DECREMENT (.IdentNode x)).interpret t
          = (.ok (.real (Double.add r (Double.ofInt (-1)))),
             t.insert x (.real (Double.add r (Double.ofInt (-1))))))
    ∧ (∀ v : Value R, (t.insert x v).find x = some v
        ∧ ∀ other, other ≠ x → (t.insert x v).find other = t.find other) := by
  refine ⟨?_, ?_, ?_⟩
  · intro n h
    have hsub : t.subscript x = (.int n, t) := by
      unfold SymbolTable.subscript
      rw [h]
    have hinc : (ValueNode.UnaryOp .INCREMENT (.IdentNode x)).interpret t
        = (.ok (.int (wrapInt (n + 1))), t.insert x (.int (wrapInt (n + 1)))) := by
      unfold ValueNode.interpret UnaryOp.step
      simp [hsub]
    have hdec : (ValueNode.UnaryOp .DECREMENT (.IdentNode x)).interpret t
        = (.ok (.int (wrapInt (n - 1))), t.insert x (.int (wrapInt (n - 1)))) := by
      unfold ValueNode.interpret UnaryOp.step
      simp [hsub, Int.sub_eq_add_neg]
    refine ⟨hinc, hdec, ?_, ?_⟩
    · intro hr
      rw [hinc, wrapInt_of_inRange _ hr]
    · intro hr
      rw [hdec, wrapInt_of_inRange _ hr]
  · intro r h
    have hsub : t.subscript x = (.real r, t) := by
      unfold SymbolTable.subscript
      rw [h]
    constructor
    · unfold ValueNode.interpret UnaryOp.step
      simp [hsub]
    · unfold ValueNode.interpret UnaryOp.step
      simp [hsub]
  · intro v
    exact ⟨SymbolTable.find_insert_self t x v,
      fun other hne => SymbolTable.find_insert_of_ne t x other v hne⟩

/-- A worked instance of C7: with x = int 4 and y = int 7, ++x returns 5, slot x
becomes 5 and y keeps 7. -/
theorem C7_incdec_declared_witness :
    SymbolTable.find [("x", (Value.int 4 : Value ℚ)), ("y", .int 7)] "x" = some (.int 4)
    ∧ (ValueNode.UnaryOp .INCREMENT (.IdentNode "x")).interpret
        [("x", (Value.int 4 : Value ℚ)), ("y", .int 7)]
        = (.ok (.int 5), [("x", .int 5), ("y", .int 7)]) :=
  ⟨rfl,
   ((C7_incdec_declared [("x", (Value.int 4 : Value ℚ)), ("y", .int 7)] "x").1 4 rfl).2.2.1
      (by decide)⟩

/-- C8: when the operand of ++ or -- is not an IdentNode (a literal, a unary or
binary operation, or an empty pointer), UnaryOp::interpret throws the
runtime_error whose message says that the operator must apply to an identifier
(the string of ast.h line 155); the operand is not evaluated and the symbol
table is unchanged. -/
theorem C8_incdec_non_identifier (op : Token) (sub : ValueNode R) (t : SymbolTable R)
    (hop : op = .INCREMENT ∨ op = .DECREMENT) (hsub : ∀ name, sub ≠ .IdentNode name) :
    (ValueNode.UnaryOp op sub).interpret t
      = (.error (.runtime_error "++/-- must apply to an identifier"), t) := by
  have hm : op ≠ .MINUS := by
    rcases hop with h | h <;> rw [h] <;> decide
  unfold ValueNode.interpret
  rw [if_neg hm, if_pos hop]
  cases sub with
  | IdentNode name => exact absurd rfl (hsub name)
  | null => rfl
  | IntLitNode _ => rfl
  | RealLitNode _ => rfl
  | UnaryOp _ _ => rfl
  | BinaryOp _ _ _ => rfl

/-- A worked instance of C8: with x = int 4, the expression ++(++x) throws the
message and x keeps 4, although the operand ++x on its own would store 5. -/
theorem C8_incdec_non_identifier_witness :
    (Token.INCREMENT = .INCREMENT ∨ Token.INCREMENT = .DECREMENT)
    ∧ (∀ name, (ValueNode.UnaryOp .INCREMENT (.IdentNode "x") : ValueNode ℚ) ≠ .IdentNode name)
    ∧ (ValueNode.UnaryOp .INCREMENT (.UnaryOp .INCREMENT (.IdentNode "x"))).interpret
        [("x", (Value.int 4 : Value ℚ))]
        = (.error (.runtime_error "++/-- must apply to an identifier"), [("x", .int 4)])
    ∧ (ValueNode.UnaryOp .INCREMENT (.IdentNode "x")).interpret [("x", (Value.int 4 : Value ℚ))]
        = (.ok (.int 5), [("x", .int 5)]) :=
  ⟨Or.inl rfl, fun _ h => ValueNode.noConfusion h,
   C8_incdec_non_identifier .INCREMENT (.UnaryOp .INCREMENT (.IdentNode "x"))
     [("x", (Value.int 4 : Value ℚ))] (Or.inl rfl) (fun _ h => ValueNode.noConfusion h),
   rfl⟩

/-- C9 (the code on unary minus): when the operand evaluates to int n the result
is int -n (computed in int, and the number -n whenever that is representable);
when the operand evaluates to a double, control falls out of the MINUS branch
and UnaryOp::interpret throws the runtime_error "Unknown unary operator" instead
of returning the negated double. -/
theorem C9_unary_minus (sub : ValueNode R) (t t1 : SymbolTable R) :
    (∀ n, sub.interpret t = (.ok (.int n), t1) →
        (ValueNode.UnaryOp .MINUS sub).interpret t = (.ok (.int (wrapInt (-n))), t1)
        ∧ (InIntRange (-n) →
            (ValueNode.UnaryOp .MINUS sub).interpret t = (.ok (.int (-n)), t1)))
    ∧ (∀ r, sub.interpret t = (.ok (.real r), t1) →
        (ValueNode.UnaryOp .MINUS sub).interpret t
          = (.error (.runtime_error "Unknown unary operator"), t1)) := by
  constructor
  · intro n h
    have hneg : (ValueNode.UnaryOp .MINUS sub).interpret t
        = (.ok (.int (wrapInt (-n))), t1) := by
      unfold ValueNode.interpret
      simp [h]
    exact ⟨hneg, fun hr => by rw [hneg, wrapInt_of_inRange _ hr]⟩
  · intro r h
    unfold ValueNode.interpret
    simp [h]

/-- A worked instance of C9: the negation of the double literal 3/2 throws. -/
theorem C9_unary_minus_witness :
    (ValueNode.RealLitNode (3 / 2 : ℚ)).interpret [] = (.ok (.real (3 / 2)), [])
    ∧ (ValueNode.UnaryOp .MINUS (.RealLitNode (3 / 2 : ℚ))).interpret []
        = (.error (.runtime_error "Unknown unary operator"), []) :=
  ⟨rfl, (C9_unary_minus (.RealLitNode (3 / 2 : ℚ)) [] []).2 (3 / 2) rfl⟩

/-- C10: for the operators +, -, * and / (with a divisor other than int 0), the
switch of BinaryOp::interpret returns a value; that value is an int exactly when
both operands are ints, and it is then the int sum, difference, product or
truncated quotient (computed in int, and the exact number whenever that is
representable); in every other case both operands go through as_double (an int
n becoming the double of n) and the result is the double sum, difference,
product or quotient.  A BinaryOp node whose operands evaluate to a and b returns
what the switch returns for a and b. -/
theorem C10_promotion (op : Token) (a b : Value R)
    (hop : op = .PLUS ∨ op = .MINUS ∨ op = .MULTIPLY ∨ op = .DIVIDE)
    (hdiv : op = .DIVIDE → b ≠ .int 0) :
    (∃ v, BinaryOp.apply op a b = .ok v
        ∧ (v.holdsInt = true ↔ (a.holdsInt = true ∧ b.holdsInt = true)))
    ∧ (∀ x y, a = .int x → b = .int y →
        BinaryOp.apply op a b = .ok (.int (wrapInt
          (if op = .PLUS then x + y else if op = .MINUS then x - y
           else if op = .MULTIPLY then x * y else Int.tdiv x y)))
        ∧ (InIntRange (if op = .PLUS then x + y else if op = .MINUS then x - y
              else if op = .MULTIPLY then x * y else Int.tdiv x y) →
            BinaryOp.apply op a b = .ok (.int
              (if op = .PLUS then x + y else if op = .MINUS then x - y
               else if op = .MULTIPLY then x * y else Int.tdiv x y))))
    ∧ (¬ (a.holdsInt = true ∧ b.holdsInt = true) →
        BinaryOp.apply op a b = .ok (.real
          (if op = .PLUS then Double.add (as_double a) (as_double b)
           else if op = .MINUS then Double.sub (as_double a) (as_double b)
           else if op = .MULTIPLY then Double.mul (as_double a) (as_double b)
           else Double.div (as_double a) (as_double b))))
    ∧ (∀ n : Int, as_double (Value.int n : Value R) = Double.ofInt n)
    ∧ (∀ r : R, as_double (Value.real r) = r)
    ∧ (∀ (l r : ValueNode R) (t t1 t2 : SymbolTable R),
        l.interpret t = (.ok a, t1) → r.interpret t1 = (.ok b, t2) →
        (ValueNode.BinaryOp op l r).interpret t = (BinaryOp.apply op a b, t2)) := by
  have hint : ∀ x y, a = .int x → b = .int y →
      BinaryOp.apply op a b = .ok (.int (wrapInt
        (if op = .PLUS then x + y else if op = .MINUS then x - y
         else if op = .MULTIPLY then x * y else Int.tdiv x y))) := by
    intro x y ha hb
    subst ha hb
    rcases hop with h | h | h | h <;> subst h
    · simp [BinaryOp.apply]
    · simp [BinaryOp.apply]
    · simp [BinaryOp.apply]
    · have hy : y ≠ 0 := fun h0 => hdiv rfl (by rw [h0])
      simp [BinaryOp.apply, hy]
  refine ⟨?_, ?_, ?_, fun _ => rfl, fun _ => rfl, ?_⟩
  · rcases hop with h | h | h | h <;> subst h
    · cases a <;> cases b <;> simp [BinaryOp.apply, Value.holdsInt]
    · cases a <;> cases b <;> simp [BinaryOp.apply, Value.holdsInt]
    · cases a <;> cases b <;> simp [BinaryOp.apply, Value.holdsInt]
    · cases a with
      | real r => cases b <;> simp [BinaryOp.apply, Value.holdsInt]
      | int x =>
        cases b with
        | real r => simp [BinaryOp.apply, Value.holdsInt]
        | int y =>
          have hy : y ≠ 0 := fun h0 => hdiv rfl (by rw [h0])
          simp [BinaryOp.apply, Value.holdsInt, hy]
  · intro x y ha hb
    exact ⟨hint x y ha hb, fun hr => by rw [hint x y ha hb, wrapInt_of_inRange _ hr]⟩
  · intro hnot
    rcases hop with h | h | h | h <;> subst h <;>
      cases a <;> cases b <;> simp_all [BinaryOp.apply, Value.holdsInt]
  · intro l r t t1 t2 hl hr
    unfold ValueNode.interpret
    simp [hl, hr]

/-- A worked instance of C10: 7 / 2 on two ints is int 3, and the node over the
two literals evaluates to it. -/
theorem C10_promotion_witness :
    (Token.DIVIDE = .PLUS ∨ Token.DIVIDE = .MINUS ∨ Token.DIVIDE = .MULTIPLY
        ∨ Token.DIVIDE = .DIVIDE)
    ∧ (Token.DIVIDE = .DIVIDE → (Value.int 2 : Value ℚ) ≠ .int 0)
    ∧ BinaryOp.apply .DIVIDE (Value.int 7 : Value ℚ) (.int 2) = .ok (.int 3)
    ∧ (ValueNode.BinaryOp .DIVIDE (.IntLitNode 7) (.IntLitNode 2)).interpret ([] : SymbolTable ℚ)
        = (BinaryOp.apply .DIVIDE (Value.int 7 : Value ℚ) (.int 2), []) :=
  ⟨(by decide), (fun _ => by simp),
   ((C10_promotion .DIVIDE (Value.int 7 : Value ℚ) (.int 2) (by decide)
      (fun _ => by simp)).2.1 7 2 rfl rfl).2 (by decide),
   (C10_promotion .DIVIDE (Value.int 7 : Value ℚ) (.int 2) (by decide)
      (fun _ => by simp)).2.2.2.2.2 (.IntLitNode 7) (.IntLitNode 2) [] [] [] rfl rfl⟩

/-! ### Integer division, remainder and power -/

theorem tmod_neg_left (x y : Int) : Int.tmod (-x) y = -Int.tmod x y := by
  rw [Int.tmod_def, Int.tmod_def, Int.neg_tdiv]
  ring

theorem tmod_nonpos (x y : Int) (hx : x ≤ 0) : Int.tmod x y ≤ 0 := by
  have h := Int.tmod_nonneg y (Int.neg_nonneg_of_nonpos hx)
  rw [tmod_neg_left] at h
  omega

theorem abs_tmod_lt (x y : Int) (hy : y ≠ 0) : |Int.tmod x y| < |y| := by
  have key : ∀ z : Int, 0 ≤ z → |Int.tmod z y| < |y| := by
    intro z hz
    have h1 := Int.tmod_nonneg y hz
    rw [abs_of_nonneg h1]
    have h2 : Int.tmod z y = Int.tmod z |y| := by
      rcases abs_choice y with h | h <;> rw [h]
      rw [Int.tmod_neg]
    rw [h2]
    exact Int.tmod_lt_of_pos z (abs_pos.mpr hy)
  rcases Int.le_total 0 x with hx | hx
  · exact key x hx
  · have h := key (-x) (Int.neg_nonneg_of_nonpos hx)
    rw [tmod_neg_left, abs_neg] at h
    exact h

/-- A quotient with a remainder that is smaller than the divisor in absolute
value and is zero or has the sign of the dividend is determined uniquely. -/
theorem trunc_quotient_unique (x y q r q2 r2 : Int)
    (h1 : x = q * y + r) (hr : |r| < |y|) (hp : 0 ≤ x → 0 ≤ r) (hn : x ≤ 0 → r ≤ 0)
    (h2 : x = q2 * y + r2) (hr2 : |r2| < |y|) (hp2 : 0 ≤ x → 0 ≤ r2) (hn2 : x ≤ 0 → r2 ≤ 0) :
    q2 = q := by
  have hd : (q2 - q) * y = r - r2 := by linarith
  have hlt : |r - r2| < |y| := by
    rcases Int.le_total 0 x with hx | hx
    · have a1 := hp hx
      have a2 := hp2 hx
      rw [abs_of_nonneg a1] at hr
      rw [abs_of_nonneg a2] at hr2
      rw [abs_lt]
      constructor <;> linarith [abs_nonneg y]
    · have a1 := hn hx
      have a2 := hn2 hx
      rw [abs_of_nonpos a1] at hr
      rw [abs_of_nonpos a2] at hr2
      rw [abs_lt]
      constructor <;> linarith [abs_nonneg y]
  rw [← hd, abs_mul] at hlt
  have hy : 0 < |y| := lt_of_le_of_lt (abs_nonneg _) hr
  have hq : |q2 - q| < 1 := by
    by_contra hc
    push_neg at hc
    have h3 := mul_le_mul_of_nonneg_right hc (le_of_lt hy)
    linarith
  have h0 : q2 - q = 0 := by
    have h4 := abs_nonneg (q2 - q)
    have h5 : |q2 - q| = 0 := by omega
    exact abs_eq_zero.mp h5
  omega

/-- C11: for ints x and y with y nonzero and a representable quotient, x / y
evaluates to the int q = x.tdiv y, and q is the quotient truncated toward zero:
x = q * y + r with the remainder r smaller than y in absolute value and zero
or of the sign of x; q is the only integer with such a remainder. -/
theorem C11_division_truncates (x y : Int) (hy : y ≠ 0) (hq : InIntRange (Int.tdiv x y)) :
    BinaryOp.apply .DIVIDE (Value.int x : Value R) (.int y) = .ok (.int (Int.tdiv x y))
    ∧ (∀ t : SymbolTable R,
        (ValueNode.BinaryOp .DIVIDE (.IntLitNode x) (.IntLitNode y)).interpret t
          = (.ok (.int (Int.tdiv x y)), t))
    ∧ (∃ r : Int, x = Int.tdiv x y * y + r ∧ |r| < |y| ∧ (0 ≤ x → 0 ≤ r) ∧ (x ≤ 0 → r ≤ 0))
    ∧ (∀ q2 r2 : Int, x = q2 * y + r2 → |r2| < |y| → (0 ≤ x → 0 ≤ r2) → (x ≤ 0 → r2 ≤ 0) →
        q2 = Int.tdiv x y) := by
  have happ : BinaryOp.apply .DIVIDE (Value.int x : Value R) (.int y)
      = .ok (.int (Int.tdiv x y)) := by
    simp [BinaryOp.apply, hy, wrapInt_of_inRange _ hq]
  have hdecomp : x = Int.tdiv x y * y + Int.tmod x y := (Int.tdiv_add_tmod' x y).symm
  refine ⟨happ, ?_, ⟨Int.tmod x y, hdecomp, abs_tmod_lt x y hy,
    fun hx => Int.tmod_nonneg y hx, fun hx => tmod_nonpos x y hx⟩, ?_⟩
  · intro t
    unfold ValueNode.interpret
    simp [ValueNode.interpret, happ]
  · intro q2 r2 h2 hr2 hp2 hn2
    exact trunc_quotient_unique x y (Int.tdiv x y) (Int.tmod x y) q2 r2 hdecomp
      (abs_tmod_lt x y hy) (fun hx => Int.tmod_nonneg y hx) (fun hx => tmod_nonpos x y hx)
      h2 hr2 hp2 hn2

/-- A worked instance of C11: 7 / 2 is 3 and -7 / 2 is -3. -/
theorem C11_division_truncates_witness :
    ((2 : Int) ≠ 0 ∧ InIntRange (Int.tdiv 7 2) ∧ InIntRange (Int.tdiv (-7) 2))
    ∧ BinaryOp.apply .DIVIDE (Value.int 7 : Value ℚ) (.int 2) = .ok (.int 3)
    ∧ BinaryOp.apply .DIVIDE (Value.int (-7) : Value ℚ) (.int 2) = .ok (.int (-3)) :=
  ⟨⟨by decide, by decide, by decide⟩,
   (C11_division_truncates (R := ℚ) 7 2 (by decide) (by decide)).1,
   (C11_division_truncates (R := ℚ) (-7) 2 (by decide) (by decide)).1⟩

/-- C12: MOD throws the runtime_error "MOD requires INTEGER operands" exactly when
at least one operand holds a double; for ints x and y with y nonzero the result
is the int x - (x / y) * y with the truncated quotient x / y (computed in int,
and that exact number whenever y is representable). -/
theorem C12_mod_typing (a b : Value R) :
    (BinaryOp.apply .MOD a b = .error (.runtime_error "MOD requires INTEGER operands")
        ↔ (a.holdsInt = false ∨ b.holdsInt = false))
    ∧ (∀ x y : Int, a = .int x → b = .int y → y ≠ 0 →
        BinaryOp.apply .MOD a b = .ok (.int (wrapInt (x - Int.tdiv x y * y)))
        ∧ (InIntRange y → BinaryOp.apply .MOD a b = .ok (.int (x - Int.tdiv x y * y)))) := by
  constructor
  · cases a with
    | real r => simp [BinaryOp.apply, as_int_strict, Value.holdsInt]
    | int x =>
      cases b with
      | real r => simp [BinaryOp.apply, as_int_strict, Value.holdsInt]
      | int y =>
        by_cases hy : y = 0 <;> simp [BinaryOp.apply, as_int_strict, Value.holdsInt, hy]
  · intro x y ha hb hy
    subst ha hb
    have hmod : Int.tmod x y = x - Int.tdiv x y * y := by
      rw [Int.tmod_def]
      ring
    have happ : BinaryOp.apply .MOD (Value.int x : Value R) (.int y)
        = .ok (.int (wrapInt (x - Int.tdiv x y * y))) := by
      simp [BinaryOp.apply, as_int_strict, hy, hmod]
    refine ⟨happ, fun hr => ?_⟩
    rw [happ, wrapInt_of_inRange]
    have hlt := abs_tmod_lt x y hy
    rw [hmod] at hlt
    unfold InIntRange INT_MIN INT_MAX at hr ⊢
    rw [abs_lt] at hlt
    rcases abs_cases y with ⟨h1, _⟩ | ⟨h1, _⟩ <;> rw [h1] at hlt <;> omega

/-- A worked instance of C12: 7 MOD 2 is 1, and 7 MOD 2.0 throws. -/
theorem C12_mod_typing_witness :
    ((2 : Int) ≠ 0 ∧ InIntRange 2 ∧ (Value.real (2 : ℚ)).holdsInt = false)
    ∧ BinaryOp.apply .MOD (Value.int 7 : Value ℚ) (.int 2) = .ok (.int 1)
    ∧ BinaryOp.apply .MOD (Value.int 7 : Value ℚ) (.real 2)
        = .error (.runtime_error "MOD requires INTEGER operands") :=
  ⟨⟨by decide, by decide, rfl⟩,
   ((C12_mod_typing (Value.int 7 : Value ℚ) (.int 2)).2 7 2 rfl rfl (by decide)).2 (by decide),
   (C12_mod_typing (Value.int 7 : Value ℚ) (.real 2)).1.mpr (Or.inr rfl)⟩

/-- C13: the power operator throws the runtime_error "EXPON must only have
doubles." exactly when both operands hold ints; when at least one operand
holds a double (the other may hold an int) nothing is thrown and the result
is the double std::pow of the two operands after as_double. -/
theorem C13_power_typing (a b : Value R) :
    (BinaryOp.apply .CUSTOM_OPER a b = .error (.runtime_error "EXPON must only have doubles.")
        ↔ (a.holdsInt = true ∧ b.holdsInt = true))
    ∧ (¬ (a.holdsInt = true ∧ b.holdsInt = true) →
        BinaryOp.apply .CUSTOM_OPER a b
          = .ok (.real (Double.pow (as_double a) (as_double b)))) := by
  cases a <;> cases b <;> simp [BinaryOp.apply, Value.holdsInt]

/-- A worked instance of C13: 2.0 to the power int 3 is the double pow(2.0, 3.0),
which is 8 in exact arithmetic. -/
theorem C13_power_typing_witness :
    ¬ ((Value.real (2 : ℚ)).holdsInt = true ∧ (Value.int 3 : Value ℚ).holdsInt = true)
    ∧ BinaryOp.apply .CUSTOM_OPER (Value.real (2 : ℚ)) (.int 3)
        = .ok (.real (Double.pow (2 : ℚ) (Double.ofInt 3)))
    ∧ Double.pow (2 : ℚ) (Double.ofInt 3) = 8 :=
  ⟨(by simp [Value.holdsInt]),
   (C13_power_typing (Value.real (2 : ℚ)) (.int 3)).2 (by simp [Value.holdsInt]),
   (by simp [Double.pow, Double.ofInt]; norm_num)⟩

/-! ### Write and compound statements -/

/-- The loop of compoundStmt::interpret over a concatenation runs the first part
and, if that completes, the second part from the state reached. -/
theorem Statement.interpretAll_append (l1 l2 : List (Statement R)) :
    ∀ st : State R I,
      Statement.interpretAll (l1 ++ l2) st
        = match Statement.interpretAll l1 st with
          | (some e, st1) => (some e, st1)
          | (none, st1) => Statement.interpretAll l2 st1 := by
  induction l1 with
  | nil =>
    intro st
    simp [Statement.interpretAll]
  | cons s rest ih =>
    intro st
    simp only [List.cons_append, Statement.interpretAll]
    rcases hs : s.interpret st with ⟨_ | e, st1⟩
    · simp only []
      exact ih st1
    · simp only []

mutual
/-- Executing a statement only appends to the output stream. -/
theorem Statement.exec_out_extends :
    ∀ (s : Statement R) (st : State R I), ∃ w, (s.interpret st).2.out = st.out ++ w
  | .assignStmt id rhs, st => by
    refine ⟨"", ?_⟩
    unfold Statement.interpret
    split
    · simp
    · split
      · simp
      · split
        · split
          · simp
          · split <;> simp
        · simp
  | .readStmt target, st => by
    refine ⟨"", ?_⟩
    unfold Statement.interpret
    split <;> simp
  | .writeStmt content type, st => by
    unfold Statement.interpret
    split
    · split
      · exact ⟨"", by simp⟩
      · exact ⟨_, String.append_assoc _ _ _⟩
      · exact ⟨_, String.append_assoc _ _ _⟩
    · exact ⟨_, String.append_assoc _ _ _⟩
  | .compoundStmt stmts, st => by
    unfold Statement.interpret
    exact Statement.execAll_out_extends stmts st
/-- Executing a statement list only appends to the output stream. -/
theorem Statement.execAll_out_extends :
    ∀ (l : List (Statement R)) (st : State R I),
      ∃ w, (Statement.interpretAll l st).2.out = st.out ++ w
  | [], st => by
    unfold Statement.interpretAll
    exact ⟨"", by simp⟩
  | s :: rest, st => by
    obtain ⟨w1, h1⟩ := Statement.exec_out_extends s st
    unfold Statement.interpretAll
    split
    · rename_i hs
      rw [hs] at h1
      exact ⟨w1, h1⟩
    · rename_i st1 hs
      rw [hs] at h1
      obtain ⟨w2, h2⟩ := Statement.execAll_out_extends rest st1
      exact ⟨w1 ++ w2, by rw [h2, h1, String.append_assoc]⟩
end

/-- C15: a writeStmt whose type is not IDENT appends its content and a newline to
the output; a writeStmt of type IDENT whose content is a name in the table
appends the text of the value stored there and a newline (decimal digits for an
int, the ostream text for a double; int 4 gives "4" and a newline).  Both
complete, and the symbol table and the input are unchanged. -/
theorem C15_write_output (st : State R I) (content : String) :
    (∀ type : Token, type ≠ .IDENT →
        (Statement.writeStmt content type : Statement R).interpret st
          = (none, { st with out := st.out ++ content ++ "\n" }))
    ∧ (∀ n : Int, st.symbolTable.find content = some (.int n) →
        (Statement.writeStmt content .IDENT : Statement R).interpret st
          = (none, { st with out := st.out ++ toString n ++ "\n" }))
    ∧ (∀ r : R, st.symbolTable.find content = some (.real r) →
        (Statement.writeStmt content .IDENT : Statement R).interpret st
          = (none, { st with out := st.out ++ Double.toString r ++ "\n" }))
    ∧ toString (4 : Int) ++ "\n" = "4\n" := by
  refine ⟨?_, ?_, ?_, by decide⟩
  · intro type h
    unfold Statement.interpret
    simp [h]
  · intro n h
    unfold Statement.interpret
    simp [h]
  · intro r h
    unfold Statement.interpret
    simp [h]

/-- A worked instance of C15: WRITE of the string hello and WRITE(x) with x = 4. -/
theorem C15_write_output_witness :
    (Token.STRINGLIT ≠ Token.IDENT
      ∧ SymbolTable.find [("x", (Value.int 4 : Value ℚ))] "x" = some (.int 4))
    ∧ (Statement.writeStmt "hello" .STRINGLIT : Statement ℚ).interpret
        (State.mk [("x", .int 4)] () "")
        = (none, State.mk [("x", .int 4)] () "hello\n")
    ∧ (Statement.writeStmt "x" .IDENT : Statement ℚ).interpret
        (State.mk [("x", .int 4)] () "")
        = (none, State.mk [("x", .int 4)] () "4\n") :=
  ⟨⟨by decide, rfl⟩,
   (C15_write_output (State.mk [("x", (Value.int 4 : Value ℚ))] () "") "hello").1
      .STRINGLIT (by decide),
   (C15_write_output (State.mk [("x", (Value.int 4 : Value ℚ))] () "") "x").2.1 4 rfl⟩

/-- C16: executing the compound statement over s1 ++ s2 gives the same outcome
and final state as executing the compound over s1 and then, if that completed,
the compound over s2 from the state reached (an exception of the first part is
the outcome, with the state at the throw); a compound of one statement behaves
as that statement. -/
theorem C16_compound_sequential (st : State R I) :
    (∀ s1 s2 : List (Statement R),
        (Statement.compoundStmt (s1 ++ s2)).interpret st
          = match (Statement.compoundStmt s1).interpret st with
            | (some e, st1) => (some e, st1)
            | (none, st1) => (Statement.compoundStmt s2).interpret st1)
    ∧ (∀ s : Statement R, (Statement.compoundStmt [s]).interpret st = s.interpret st) := by
  constructor
  · intro s1 s2
    simp only [Statement.interpret]
    exact Statement.interpretAll_append s1 s2 st
  · intro s
    simp only [Statement.interpret, Statement.interpretAll]
    rcases s.interpret st with ⟨_ | e, st1⟩ <;> rfl

/-- C17: when the children before the k-th complete (reaching state st1) and the
k-th child throws e (reaching state stk), the compound throws e and ends in
stk, whatever children follow: they are not executed.  The output at the end is
the output after the first k-1 children followed by what the k-th wrote, and
that in turn starts with the output present at the start. -/
theorem C17_first_failure (pre post : List (Statement R)) (s : Statement R)
    (st st1 stk : State R I) (e : Err)
    (hpre : Statement.interpretAll pre st = (none, st1))
    (hs : s.interpret st1 = (some e, stk)) :
    (Statement.compoundStmt (pre ++ s :: post)).interpret st = (some e, stk)
    ∧ (∃ w1 w2, st1.out = st.out ++ w1 ∧ stk.out = st1.out ++ w2) := by
  constructor
  · simp only [Statement.interpret]
    rw [Statement.interpretAll_append, hpre]
    simp only [Statement.interpretAll, hs]
  · obtain ⟨w1, h1⟩ := Statement.execAll_out_extends pre st
    obtain ⟨w2, h2⟩ := Statement.exec_out_extends s st1
    rw [hpre] at h1
    rw [hs] at h2
    exact ⟨w1, w2, h1, h2⟩

/-- A worked instance of C17: with y a double slot, WRITE of hello; y := 1; WRITE
of bye throws at the assignment; the output is hello and a newline. -/
theorem C17_first_failure_witness :
    (Statement.interpretAll [(Statement.writeStmt "hello" .STRINGLIT : Statement ℚ)]
        (State.mk [("y", .real 0)] () "")
        = (none, State.mk [("y", .real 0)] () "hello\n")
      ∧ (Statement.assignStmt "y" (.IntLitNode 1) : Statement ℚ).interpret
          (State.mk [("y", .real 0)] () "hello\n")
        = (some .bad_variant_access, State.mk [("y", .real 0)] () "hello\n"))
    ∧ (Statement.compoundStmt
          ([(Statement.writeStmt "hello" .STRINGLIT : Statement ℚ)]
            ++ .assignStmt "y" (.IntLitNode 1) :: [.writeStmt "bye" .STRINGLIT])).interpret
        (State.mk [("y", .real 0)] () "")
        = (some .bad_variant_access, State.mk [("y", .real 0)] () "hello\n") :=
  ⟨⟨rfl, rfl⟩,
   (C17_first_failure [(Statement.writeStmt "hello" .STRINGLIT : Statement ℚ)]
      [.writeStmt "bye" .STRINGLIT] (.assignStmt "y" (.IntLitNode 1))
      (State.mk [("y", .real 0)] () "") (State.mk [("y", .real 0)] () "hello\n")
      (State.mk [("y", .real 0)] () "hello\n") .bad_variant_access rfl rfl).1⟩

/-! ### Order of evaluation, frame and division -/

theorem ValueNode.interpret_pure (e : ValueNode R) (h : e.hasIncDec = false) :
    ∀ t : SymbolTable R, (e.interpret t).2 = t := by
  induction e with
  | null => intro t; rfl
  | IntLitNode v => intro t; rfl
  | RealLitNode v => intro t; rfl
  | IdentNode name =>
    intro t
    unfold ValueNode.interpret
    cases t.find name <;> rfl
  | UnaryOp op sub ih =>
    intro t
    simp only [ValueNode.hasIncDec, Bool.or_eq_false_iff, decide_eq_false_iff_not] at h
    have hs := ih h.2 t
    unfold ValueNode.interpret
    rw [if_neg h.1]
    split
    · split
      · rename_i hq; rw [hq] at hs; exact hs
      · rename_i hq; rw [hq] at hs; exact hs
      · rename_i hq; rw [hq] at hs; exact hs
    · rfl
  | BinaryOp op left right ihl ihr =>
    intro t
    simp only [ValueNode.hasIncDec, Bool.or_eq_false_iff] at h
    have hl := ihl h.1 t
    unfold ValueNode.interpret
    split
    · rename_i hq; rw [hq] at hl; exact hl
    · rename_i a t1 hq
      rw [hq] at hl
      subst hl
      have hr := ihr h.2 t1
      split
      · rename_i hq2; rw [hq2] at hr; exact hr
      · rename_i hq2; rw [hq2] at hr; exact hr

theorem tdiv_inRange (a b : Int) (ha : InIntRange a) (hb : b ≠ 0)
    (hmin : ¬ (a = INT_MIN ∧ b = -1)) : InIntRange (Int.tdiv a b) := by
  have hq := Int.natAbs_tdiv a b
  unfold InIntRange INT_MIN INT_MAX at ha ⊢
  unfold INT_MIN at hmin
  by_cases hb1 : b = 1
  · subst hb1
    rw [Int.tdiv_one]
    exact ha
  · have hle : (Int.tdiv a b).natAbs ≤ 2147483647 := by
      rw [hq]
      show a.natAbs / b.natAbs ≤ 2147483647
      by_cases hn : a.natAbs ≤ 2147483647
      · exact le_trans (Nat.div_le_self _ _) hn
      · have h1 : a.natAbs = 2147483648 := by omega
        have h2 : 2 ≤ b.natAbs := by omega
        rw [h1]
        have h3 : 2147483648 / b.natAbs ≤ 2147483648 / 2 :=
          Nat.div_le_div_left h2 (by decide)
        omega
    omega

/-- C31: BinaryOp::interpret evaluates the left operand first, then the right
operand on the symbol table the left operand left, and only then enters the
switch on the operator: whatever the operator tag, the result is the switch on
the two values, with the table as the right operand left it; an exception of
the right operand comes with the table after both, one of the left operand
leaves the right operand unevaluated.  With x = int 4, ++x + x is int 10 and
x + ++x is int 9, both leaving x = 5.  The type errors of MOD and of the power
operator come with the table after both operands. -/
theorem C31_left_then_right (op : Token) (l r : ValueNode R) (t : SymbolTable R) :
    (∀ a t1 b t2, l.interpret t = (.ok a, t1) → r.interpret t1 = (.ok b, t2) →
        (ValueNode.BinaryOp op l r).interpret t = (BinaryOp.apply op a b, t2))
    ∧ (∀ a t1 e t2, l.interpret t = (.ok a, t1) → r.interpret t1 = (.error e, t2) →
        (ValueNode.BinaryOp op l r).interpret t = (.error e, t2))
    ∧ (∀ e t1, l.interpret t = (.error e, t1) →
        (ValueNode.BinaryOp op l r).interpret t = (.error e, t1))
    ∧ (∀ x : String, t.find x = some (.int 4) →
        (ValueNode.BinaryOp .PLUS (.UnaryOp .INCREMENT (.IdentNode x))
              (.IdentNode x)).interpret t
          = (.ok (.int 10), t.insert x (.int 5))
        ∧ (ValueNode.BinaryOp .PLUS (.IdentNode x)
              (.UnaryOp .INCREMENT (.IdentNode x))).interpret t
          = (.ok (.int 9), t.insert x (.int 5)))
    ∧ (∀ a t1 b t2, l.interpret t = (.ok a, t1) → r.interpret t1 = (.ok b, t2) →
        (a.holdsInt = false ∨ b.holdsInt = false) →
        (ValueNode.BinaryOp .MOD l r).interpret t
          = (.error (.runtime_error "MOD requires INTEGER operands"), t2))
    ∧ (∀ a t1 b t2, l.interpret t = (.ok a, t1) → r.interpret t1 = (.ok b, t2) →
        a.holdsInt = true → b.holdsInt = true →
        (ValueNode.BinaryOp .CUSTOM_OPER l r).interpret t
          = (.error (.runtime_error "EXPON must only have doubles."), t2)) := by
  have hbin : ∀ (o : Token) a t1 b t2, l.interpret t = (.ok a, t1) →
      r.interpret t1 = (.ok b, t2) →
      (ValueNode.BinaryOp o l r).interpret t = (BinaryOp.apply o a b, t2) := by
    intro o a t1 b t2 hl hr
    unfold ValueNode.interpret
    simp only [hl, hr]
  refine ⟨hbin op, ?_, ?_, ?_, ?_, ?_⟩
  · intro a t1 e t2 hl hr
    unfold ValueNode.interpret
    simp only [hl, hr]
  · intro e t1 hl
    unfold ValueNode.interpret
    simp only [hl]
  · intro x hx
    have hsub : t.subscript x = (.int 4, t) := by
      unfold SymbolTable.subscript
      rw [hx]
    have hinc : (ValueNode.UnaryOp .INCREMENT (.IdentNode x)).interpret t
        = (.ok (.int 5), t.insert x (.int 5)) := by
      unfold ValueNode.interpret UnaryOp.step
      simp [hsub, wrapInt]
    have hid : (ValueNode.IdentNode x).interpret (t.insert x (.int 5))
        = (.ok (.int 5), t.insert x (.int 5)) := by
      unfold ValueNode.interpret
      rw [SymbolTable.find_insert_self]
    have hid0 : (ValueNode.IdentNode x).interpret t = (.ok (.int 4), t) := by
      unfold ValueNode.interpret
      rw [hx]
    constructor
    · rw [ValueNode.interpret]
      simp only [hinc, hid]
      rfl
    · rw [ValueNode.interpret]
      simp only [hinc, hid0]
      rfl
  · intro a t1 b t2 hl hr hab
    rw [hbin .MOD a t1 b t2 hl hr]
    clear hl hr hbin
    cases a <;> cases b <;> simp_all [BinaryOp.apply, as_int_strict, Value.holdsInt]
  · intro a t1 b t2 hl hr ha hb
    rw [hbin .CUSTOM_OPER a t1 b t2 hl hr]
    clear hl hr hbin
    cases a <;> cases b <;> simp_all [BinaryOp.apply, Value.holdsInt]

/-- A worked instance of C31: with x = int 4, the node ++x MOD 1.5 throws the
type error of MOD, and x holds 5 at that point. -/
theorem C31_left_then_right_witness :
    (SymbolTable.find [("x", (Value.int 4 : Value ℚ))] "x" = some (.int 4)
      ∧ (ValueNode.UnaryOp .INCREMENT (.IdentNode "x")).interpret
            [("x", (Value.int 4 : Value ℚ))]
          = (.ok (.int 5), [("x", .int 5)])
      ∧ (ValueNode.RealLitNode (3 / 2 : ℚ)).interpret [("x", .int 5)]
          = (.ok (.real (3 / 2)), [("x", .int 5)]))
    ∧ (ValueNode.BinaryOp .PLUS (.UnaryOp .INCREMENT (.IdentNode "x")) (.IdentNode "x")).interpret
          [("x", (Value.int 4 : Value ℚ))]
        = (.ok (.int 10), SymbolTable.insert [("x", (Value.int 4 : Value ℚ))] "x" (.int 5))
    ∧ (ValueNode.BinaryOp .MOD (.UnaryOp .INCREMENT (.IdentNode "x"))
          (.RealLitNode (3 / 2 : ℚ))).interpret [("x", (Value.int 4 : Value ℚ))]
        = (.error (.runtime_error "MOD requires INTEGER operands"), [("x", .int 5)]) :=
  ⟨⟨rfl, rfl, rfl⟩,
   ((C31_left_then_right .PLUS (.IdentNode "x") (.IdentNode "x")
      [("x", (Value.int 4 : Value ℚ))]).2.2.2.1 "x" rfl).1,
   (C31_left_then_right .MOD (.UnaryOp .INCREMENT (.IdentNode "x")) (.RealLitNode (3 / 2 : ℚ))
      [("x", (Value.int 4 : Value ℚ))]).2.2.2.2.1 (.int 5) [("x", .int 5)] (.real (3 / 2))
      [("x", .int 5)] rfl rfl (Or.inr rfl)⟩

/-- C32: when the right-hand side holds no ++ or --, assignStmt::interpret
leaves every slot other than the target as it was (present or absent, same
alternative, same value), and leaves the output and the input stream as they
were, whether it completes or throws. -/
theorem C32_assignment_frame (st : State R I) (id : String) (rhs : ValueNode R)
    (h : rhs.hasIncDec = false) :
    (∀ other, other ≠ id →
        ((Statement.assignStmt id rhs).interpret st).2.symbolTable.find other
          = st.symbolTable.find other)
    ∧ ((Statement.assignStmt id rhs).interpret st).2.out = st.out
    ∧ ((Statement.assignStmt id rhs).interpret st).2.cin = st.cin := by
  have hp := ValueNode.interpret_pure rhs h st.symbolTable
  have hs := fun other (hne : other ≠ id) =>
    SymbolTable.subscript_find_of_ne st.symbolTable id other hne
  unfold Statement.interpret
  split
  · rename_i e t1 hq
    rw [hq] at hp
    subst hp
    exact ⟨fun _ _ => rfl, rfl, rfl⟩
  · rename_i val t1 hq
    rw [hq] at hp
    subst hp
    split
    · rename_i x t2 hq2
      rw [hq2] at hs
      exact ⟨hs, rfl, rfl⟩
    · rename_i p t2 hq2
      rw [hq2] at hs
      split
      · split
        · exact ⟨hs, rfl, rfl⟩
        · split <;> exact ⟨hs, rfl, rfl⟩
      · exact ⟨hs, rfl, rfl⟩

/-- A worked instance of C32: with x = int 4 and y = int 7, the statement
x := y + 1 leaves y at 7 and writes nothing. -/
theorem C32_assignment_frame_witness :
    (ValueNode.BinaryOp .PLUS (.IdentNode "y") (.IntLitNode 1) : ValueNode ℚ).hasIncDec = false
    ∧ "y" ≠ "x"
    ∧ ((Statement.assignStmt "x" (.BinaryOp .PLUS (.IdentNode "y") (.IntLitNode 1))).interpret
          (State.mk [("x", (Value.int 4 : Value ℚ)), ("y", .int 7)] () "")).2.symbolTable.find "y"
        = some (.int 7)
    ∧ ((Statement.assignStmt "x" (.BinaryOp .PLUS (.IdentNode "y") (.IntLitNode 1))).interpret
          (State.mk [("x", (Value.int 4 : Value ℚ)), ("y", .int 7)] () "")).2.out = "" :=
  ⟨rfl, by decide,
   (C32_assignment_frame (State.mk [("x", (Value.int 4 : Value ℚ)), ("y", .int 7)] () "") "x"
      (.BinaryOp .PLUS (.IdentNode "y") (.IntLitNode 1)) rfl).1 "y" (by decide),
   (C32_assignment_frame (State.mk [("x", (Value.int 4 : Value ℚ)), ("y", .int 7)] () "") "x"
      (.BinaryOp .PLUS (.IdentNode "y") (.IntLitNode 1)) rfl).2.1⟩

/-- C33: an expression that holds no ++ or -- leaves the symbol table exactly as
it was, whether it returns a value or throws, and whether or not its
identifiers are in the table; evaluated again on the table it left, it gives
the same value or the same exception, and the same table. -/
theorem C33_expression_purity (e : ValueNode R) (t : SymbolTable R)
    (h : e.hasIncDec = false) :
    (e.interpret t).2 = t
    ∧ (e.interpret (e.interpret t).2).1 = (e.interpret t).1
    ∧ e.interpret (e.interpret t).2 = e.interpret t := by
  have hp := ValueNode.interpret_pure e h t
  rw [hp]
  exact ⟨rfl, rfl, rfl⟩

/-- A worked instance of C33: with x = int 4 and y = double 1/2, the expression
(x + y) MOD 2 throws the type error of MOD and leaves the table as it was. -/
theorem C33_expression_purity_witness :
    (ValueNode.BinaryOp .MOD (.BinaryOp .PLUS (.IdentNode "x") (.IdentNode "y"))
        (.IntLitNode 2) : ValueNode ℚ).hasIncDec = false
    ∧ (ValueNode.BinaryOp .MOD (.BinaryOp .PLUS (.IdentNode "x") (.IdentNode "y"))
        (.IntLitNode 2)).interpret [("x", (Value.int 4 : Value ℚ)), ("y", .real (1 / 2))]
        = (.error (.runtime_error "MOD requires INTEGER operands"),
            [("x", .int 4), ("y", .real (1 / 2))])
    ∧ ((ValueNode.BinaryOp .MOD (.BinaryOp .PLUS (.IdentNode "x") (.IdentNode "y"))
        (.IntLitNode 2)).interpret [("x", (Value.int 4 : Value ℚ)), ("y", .real (1 / 2))]).2
        = [("x", .int 4), ("y", .real (1 / 2))] :=
  ⟨rfl, rfl,
   (C33_expression_purity (.BinaryOp .MOD (.BinaryOp .PLUS (.IdentNode "x") (.IdentNode "y"))
      (.IntLitNode 2)) [("x", (Value.int 4 : Value ℚ)), ("y", .real (1 / 2))] rfl).1⟩

/-- C35: for ints a and b with b nonzero, other than the pair of the smallest
int and -1, a / b is the int quotient truncated toward zero and a MOD b the int
remainder, both returned without an exception.  For the divisor int 0 the
switch of BinaryOp::interpret goes straight to the division: the outcome is
that of the C++ operation on a zero divisor (no result), and is not a
runtime_error with any message.  A division with a double operand returns the
double quotient for every divisor, zero included.  A BinaryOp node whose
operands evaluate to two values returns what the switch returns for them. -/
theorem C35_no_zero_divisor_check (a b : Int) (ha : InIntRange a) (hb : InIntRange b) :
    (b ≠ 0 → ¬ (a = INT_MIN ∧ b = -1) →
        BinaryOp.apply .DIVIDE (Value.int a : Value R) (.int b) = .ok (.int (Int.tdiv a b))
        ∧ BinaryOp.apply .MOD (Value.int a : Value R) (.int b) = .ok (.int (Int.tmod a b))
        ∧ InIntRange (Int.tdiv a b) ∧ InIntRange (Int.tmod a b))
    ∧ BinaryOp.apply .DIVIDE (Value.int a : Value R) (.int 0) = .error .undefined
    ∧ BinaryOp.apply .MOD (Value.int a : Value R) (.int 0) = .error .undefined
    ∧ (∀ msg : String,
        BinaryOp.apply .DIVIDE (Value.int a : Value R) (.int 0) ≠ .error (.runtime_error msg)
        ∧ BinaryOp.apply .MOD (Value.int a : Value R) (.int 0) ≠ .error (.runtime_error msg))
    ∧ (∀ x y : R,
        BinaryOp.apply .DIVIDE (Value.real x) (.real y) = .ok (.real (Double.div x y))
        ∧ BinaryOp.apply .DIVIDE (Value.int a : Value R) (.real y)
          = .ok (.real (Double.div (Double.ofInt a) y)))
    ∧ (∀ (op : Token) (l r : ValueNode R) (t t1 t2 : SymbolTable R) (x y : Value R),
        l.interpret t = (.ok x, t1) → r.interpret t1 = (.ok y, t2) →
        (ValueNode.BinaryOp op l r).interpret t = (BinaryOp.apply op x y, t2)) := by
  refine ⟨?_, ?_, ?_, ?_, ?_, ?_⟩
  · intro h0 hmin
    have hq := tdiv_inRange a b ha h0 hmin
    have hm : InIntRange (Int.tmod a b) := by
      have hlt := abs_tmod_lt a b h0
      unfold InIntRange INT_MIN INT_MAX at hb ⊢
      rw [abs_lt] at hlt
      rcases abs_cases b with ⟨h1, _⟩ | ⟨h1, _⟩ <;> rw [h1] at hlt <;> omega
    refine ⟨?_, ?_, hq, hm⟩
    · simp [BinaryOp.apply, h0, wrapInt_of_inRange _ hq]
    · simp [BinaryOp.apply, as_int_strict, h0, wrapInt_of_inRange _ hm]
  · simp [BinaryOp.apply]
  · simp [BinaryOp.apply, as_int_strict]
  · intro msg
    constructor
    · simp [BinaryOp.apply]
    · simp [BinaryOp.apply, as_int_strict]
  · intro x y
    constructor
    · simp [BinaryOp.apply, as_double]
    · simp [BinaryOp.apply, as_double]
  · intro op l r t t1 t2 x y hl hr
    unfold ValueNode.interpret
    simp only [hl, hr]

/-- A worked instance of C35: -7 / 2 is -3 and -7 MOD 2 is -1; 1 / 0 on ints has
no result, and 1.0 / 0.0 returns the double quotient. -/
theorem C35_no_zero_divisor_check_witness :
    (InIntRange (-7) ∧ InIntRange 2 ∧ (2 : Int) ≠ 0
      ∧ ¬ ((-7 : Int) = INT_MIN ∧ (2 : Int) = -1))
    ∧ BinaryOp.apply .DIVIDE (Value.int (-7) : Value ℚ) (.int 2) = .ok (.int (-3))
    ∧ BinaryOp.apply .MOD (Value.int (-7) : Value ℚ) (.int 2) = .ok (.int (-1))
    ∧ BinaryOp.apply .DIVIDE (Value.int (-7) : Value ℚ) (.int 0) = .error .undefined
    ∧ BinaryOp.apply .DIVIDE (Value.real (1 : ℚ)) (.real 0) = .ok (.real (Double.div 1 0)) :=
  ⟨⟨by decide, by decide, by decide, by decide⟩,
   ((C35_no_zero_divisor_check (R := ℚ) (-7) 2 (by decide) (by decide)).1 (by decide)
      (by decide)).1,
   ((C35_no_zero_divisor_check (R := ℚ) (-7) 2 (by decide) (by decide)).1 (by decide)
      (by decide)).2.1,
   (C35_no_zero_divisor_check (R := ℚ) (-7) 2 (by decide) (by decide)).2.1,
   ((C35_no_zero_divisor_check (R := ℚ) (-7) 2 (by decide) (by decide)).2.2.2.2.1 1 0).1⟩

end Claims

/-! ## Claims about the parser -/

section ParserLemmas

variable {R : Type}

theorem peek_eq (s : ParserState R) : peek s = (.ok s.lookahead, s.peeked) := by
  unfold ParserState.lookahead ParserState.peeked peek
  by_cases h : s.havePeek = true
  · simp [h]
  · simp [h]

theorem peek_peek (s : ParserState R) : peek (peek s).2 = peek s := by
  unfold peek
  by_cases h : s.havePeek = true
  · simp [h]
  · simp [h]

theorem lookahead_peeked (s : ParserState R) : s.peeked.lookahead = s.lookahead := by
  unfold ParserState.lookahead ParserState.peeked
  rw [peek_peek]

theorem lookaheadLex_peeked (s : ParserState R) : s.peeked.lookaheadLex = s.lookaheadLex := by
  unfold ParserState.lookaheadLex ParserState.peeked
  rw [peek_peek]

theorem advance_peeked (s : ParserState R) : s.peeked.advance = s.advance := by
  unfold ParserState.advance ParserState.peeked
  rw [peek_peek]

theorem peekLex_peeked (s : ParserState R) : s.peeked.peekLex = s.lookaheadLex := rfl

theorem symbolTable_peeked (s : ParserState R) : s.peeked.symbolTable = s.symbolTable := by
  unfold ParserState.peeked peek
  by_cases h : s.havePeek = true
  · simp [h]
  · simp only [h]
    unfold yylex
    cases s.input <;> rfl

theorem peekLex_advance (s : ParserState R) : s.advance.peekLex = s.lookaheadLex := rfl

theorem symbolTable_advance (s : ParserState R) : s.advance.symbolTable = s.symbolTable :=
  symbolTable_peeked s

theorem havePeek_advance (s : ParserState R) : s.advance.havePeek = false := rfl

theorem nextTok_eq (s : ParserState R) : nextTok s = (.ok s.lookahead, s.advance) := by
  show Parse.bind peek _ s = _
  unfold Parse.bind
  rw [peek_eq]
  rfl

theorem expect_eq (s : ParserState R) (want : Token) (msg : String) :
    expect want msg s
      = if s.lookahead = want then (.ok want, s.advance)
        else (.error (.runtime_error
                (expectMessage s.advance.yylineno want msg s.lookahead s.advance.yytext)),
              s.advance) := by
  show Parse.bind nextTok _ s = _
  unfold Parse.bind
  rw [nextTok_eq]
  by_cases h : s.lookahead = want
  · simp only [h, ne_eq, not_true_eq_false, if_false, if_true]
    rfl
  · simp only [h, ne_eq, not_false_eq_true, if_true, if_false]
    rfl

theorem expect_peeked (s : ParserState R) (want : Token) (msg : String) :
    expect want msg s.peeked = expect want msg s := by
  rw [expect_eq, expect_eq, lookahead_peeked, advance_peeked]

/-- On globals without a held lookahead, the lookahead is the next result of
the scanner. -/
theorem lookahead_fresh (s : ParserState R) (l : Lexeme) (rest : List Lexeme)
    (hp : s.havePeek = false) (hi : s.input = l :: rest) :
    s.lookahead = l.kind
    ∧ s.lookaheadLex = (if l.kind = .TOK_EOF then "" else l.text)
    ∧ s.advance = { s with input := rest, yytext := l.text, yylineno := l.line,
                           peekTok := l.kind,
                           peekLex := (if l.kind = .TOK_EOF then "" else l.text),
                           havePeek := false } := by
  unfold ParserState.lookahead ParserState.lookaheadLex ParserState.advance peek yylex
  simp [hp, hi]

/-- At the end of the input the lookahead is TOK_EOF. -/
theorem lookahead_fresh_eof (s : ParserState R)
    (hp : s.havePeek = false) (hi : s.input = []) :
    s.lookahead = .TOK_EOF
    ∧ s.advance = { s with yytext := s.eofText, yylineno := s.eofLine,
                           peekTok := .TOK_EOF, peekLex := "", havePeek := false } := by
  unfold ParserState.lookahead ParserState.advance peek yylex
  simp [hp, hi]

/-- With a held lookahead, peek changes nothing. -/
theorem lookahead_held (s : ParserState R) (hp : s.havePeek = true) :
    s.lookahead = s.peekTok ∧ s.lookaheadLex = s.peekLex
    ∧ s.advance = { s with havePeek := false } := by
  unfold ParserState.lookahead ParserState.lookaheadLex ParserState.advance peek
  simp [hp]

theorem parseDeclaration_eq [Double R] (s : ParserState R) (x : String) (ty : Token)
    (h1 : s.lookahead = .IDENT) (hx : s.lookaheadLex = x)
    (h2 : s.advance.lookahead = .COLON)
    (h3 : s.advance.advance.lookahead = ty) (hty : ty = .INTEGER ∨ ty = .REAL)
    (h4 : s.advance.advance.advance.lookahead = .SEMICOLON) :
    parseDeclaration s
      = if (s.symbolTable.find x).isSome then
          (.error (.runtime_error "parseDeclaration: duplicate"),
            s.advance.advance.advance.advance)
        else
          (.ok (), { s.advance.advance.advance.advance with
                      symbolTable := s.symbolTable.insert x (declDefault ty) }) := by
  have hne : ¬ (ty ≠ .INTEGER ∧ ty ≠ .REAL) := by
    rcases hty with h | h <;> simp [h]
  have ht : s.advance.advance.advance.advance.symbolTable = s.symbolTable := by
    simp only [symbolTable_advance]
  unfold parseDeclaration
  simp only [bind, Parse.bind, expect_eq, h1, if_true, Parse.get, peekLex_advance, hx, h2,
    peek_eq, h3, hne, if_false, expect_peeked, advance_peeked, lookahead_peeked, h4, ht]
  by_cases hf : (s.symbolTable.find x).isSome = true
  · simp [hf, Parse.throw]
  · rcases hty with h | h
    · subst h
      simp [hf, Parse.modify, declDefault, ht, peekLex_advance]
    · subst h
      simp [hf, Parse.modify, declDefault, ht, peekLex_advance]

theorem parseDeclaration_peeked [Double R] (s : ParserState R) :
    parseDeclaration s.peeked = parseDeclaration s := by
  unfold parseDeclaration
  simp only [bind, Parse.bind, expect_peeked]

/-- A well-formed declaration at the front of the scanner's results: the
declaration is consumed whole; it throws if the name is in the table and
stores the default value otherwise. -/
theorem parseDeclaration_fresh [Double R] (s : ParserState R) (d : DeclLexemes)
    (tail : List Lexeme) (hp : s.havePeek = false) (hi : s.input = d.toList ++ tail)
    (hd : d.WellFormed) :
    ∃ s4 : ParserState R, s4.havePeek = false ∧ s4.input = tail
      ∧ s4.symbolTable = s.symbolTable
      ∧ parseDeclaration s
          = if (s.symbolTable.find d.ident.text).isSome then
              (.error (.runtime_error "parseDeclaration: duplicate"), s4)
            else
              (.ok (), { s4 with symbolTable :=
                          s.symbolTable.insert d.ident.text (declDefault d.type.kind) }) := by
  obtain ⟨k1, k2, k3, k4⟩ := hd
  have hi1 : s.input = d.ident :: (d.colon :: d.type :: d.semi :: tail) := by
    rw [hi]
    rfl
  obtain ⟨a1, a2, a3⟩ := lookahead_fresh s _ _ hp hi1
  obtain ⟨b1, _, b3⟩ := lookahead_fresh s.advance d.colon (d.type :: d.semi :: tail)
    rfl (by rw [a3])
  obtain ⟨c1, _, c3⟩ := lookahead_fresh s.advance.advance d.type (d.semi :: tail)
    rfl (by rw [b3])
  obtain ⟨e1, _, e3⟩ := lookahead_fresh s.advance.advance.advance d.semi tail
    rfl (by rw [c3])
  have hx : s.lookaheadLex = d.ident.text := by
    rw [a2, k1]
    simp
  refine ⟨s.advance.advance.advance.advance, rfl, by rw [e3], by
    simp only [symbolTable_advance], ?_⟩
  exact parseDeclaration_eq s d.ident.text d.type.kind (a1.trans k1) hx (b1.trans k2)
    c1 k3 (e1.trans k4)

theorem parseDeclarations_succ [Double R] (fuel : Nat) (s : ParserState R) :
    parseDeclarations (fuel + 1) s
      = if s.lookahead = .IDENT then
          match parseDeclaration s with
          | (.ok _, s1) => parseDeclarations fuel s1
          | (.error e, s1) => some (.error e, s1)
        else some (.ok (), s.peeked) := by
  rw [parseDeclarations]
  simp only [bind, ParseF.bind, ParseF.lift, peek_eq]
  by_cases h : s.lookahead = .IDENT
  · simp only [h, if_true]
    unfold ParseF.bind ParseF.lift
    simp only [parseDeclaration_peeked]
    rcases parseDeclaration s with ⟨_ | _, s1⟩ <;> rfl
  · simp only [h, if_false]
    rfl

/-- The declaration loop throws the duplicate error when the coming
declarations are well formed and one of them names an identifier that is in
the table or that an earlier one of them names. -/
theorem parseDeclarations_duplicate [Double R] (ds : List DeclLexemes)
    (hwf : ∀ d ∈ ds, d.WellFormed) :
    ∀ (s : ParserState R) (tail : List Lexeme) (fuel : Nat),
      s.havePeek = false →
      s.input = (ds.map DeclLexemes.toList).flatten ++ tail →
      ds.length ≤ fuel →
      ((∃ d ∈ ds, (s.symbolTable.find d.ident.text).isSome)
        ∨ ¬ (ds.map (fun d => d.ident.text)).Nodup) →
      ∃ s1, parseDeclarations fuel s
        = some (.error (.runtime_error "parseDeclaration: duplicate"), s1) := by
  induction ds with
  | nil =>
    intro s tail fuel _ _ _ h
    rcases h with ⟨d, hd, _⟩ | h
    · cases hd
    · exact absurd List.nodup_nil h
  | cons d rest ih =>
    intro s tail fuel hp hi hfuel h
    obtain ⟨f, rfl⟩ : ∃ f, fuel = f + 1 := ⟨fuel - 1, by simp at hfuel; omega⟩
    have hdwf := hwf d (List.mem_cons_self _ _)
    have hi1 : s.input = d.toList ++ ((rest.map DeclLexemes.toList).flatten ++ tail) := by
      rw [hi]
      simp
    obtain ⟨s4, q1, q2, q3, q4⟩ := parseDeclaration_fresh s d _ hp hi1 hdwf
    have hlook : s.lookahead = .IDENT := by
      have hi2 : s.input = d.ident :: (d.colon :: d.type :: d.semi ::
          ((rest.map DeclLexemes.toList).flatten ++ tail)) := by
        rw [hi1]
        rfl
      exact (lookahead_fresh s _ _ hp hi2).1.trans hdwf.1
    rw [parseDeclarations_succ, if_pos hlook, q4]
    by_cases hf : (s.symbolTable.find d.ident.text).isSome = true
    · rw [if_pos hf]
      exact ⟨s4, rfl⟩
    · rw [if_neg hf]
      simp only []
      apply ih (fun e he => hwf e (List.mem_cons_of_mem _ he))
        { s4 with symbolTable := s.symbolTable.insert d.ident.text (declDefault d.type.kind) }
        tail f q1 q2 (by simp at hfuel; omega)
      rcases h with ⟨e, he, hsome⟩ | hnd
      · rcases List.mem_cons.mp he with rfl | he2
        · exact absurd hsome hf
        · left
          refine ⟨e, he2, ?_⟩
          show ((s.symbolTable.insert d.ident.text _).find e.ident.text).isSome = true
          by_cases hne : e.ident.text = d.ident.text
          · rw [hne, SymbolTable.find_insert_self]
            rfl
          · rw [SymbolTable.find_insert_of_ne _ _ _ _ hne]
            exact hsome
      · simp only [List.map_cons, List.nodup_cons, not_and_or, not_not] at hnd
        rcases hnd with hmem | hnd2
        · left
          obtain ⟨e, he, hname⟩ := List.mem_map.mp hmem
          refine ⟨e, he, ?_⟩
          show ((s.symbolTable.insert d.ident.text _).find e.ident.text).isSome = true
          rw [hname, SymbolTable.find_insert_self]
          rfl
        · right
          exact hnd2

/-- A block that opens with VAR and well-formed declarations, one of which
repeats a name, throws the duplicate error. -/
theorem parseBlock_duplicate [Double R] [Stod R] (ds : List DeclLexemes)
    (hwf : ∀ d ∈ ds, d.WellFormed) (s : ParserState R) (v : Lexeme) (tail : List Lexeme)
    (fuel : Nat) (hp : s.havePeek = false) (hv : v.kind = .VAR)
    (hi : s.input = v :: ((ds.map DeclLexemes.toList).flatten ++ tail))
    (hfuel : ds.length ≤ fuel)
    (hdup : (∃ d ∈ ds, (s.symbolTable.find d.ident.text).isSome)
      ∨ ¬ (ds.map (fun d => d.ident.text)).Nodup) :
    ∃ s1, parseBlock fuel s
      = some (.error (.runtime_error "parseDeclaration: duplicate"), s1) := by
  obtain ⟨a1, _, a3⟩ := lookahead_fresh s v _ hp hi
  have hlook : s.lookahead = .VAR := a1.trans hv
  have hdup2 : (∃ d ∈ ds, (s.advance.symbolTable.find d.ident.text).isSome)
      ∨ ¬ (ds.map (fun d => d.ident.text)).Nodup := by
    rw [symbolTable_advance]
    exact hdup
  obtain ⟨s1, h1⟩ := parseDeclarations_duplicate ds hwf s.advance tail fuel rfl
    (by rw [a3]) hfuel hdup2
  refine ⟨s1, ?_⟩
  unfold parseBlock
  simp only [bind, ParseF.bind, ParseF.lift, peek_eq, hlook, if_true, expect_peeked, expect_eq,
    lookahead_peeked, advance_peeked, h1]

/-- A program whose VAR block repeats a name throws the duplicate error. -/
theorem parseProgram_duplicate [Double R] [Stod R] (ds : List DeclLexemes)
    (hwf : ∀ d ∈ ds, d.WellFormed) (s : ParserState R) (p n sc v : Lexeme)
    (tail : List Lexeme) (fuel : Nat) (hp : s.havePeek = false)
    (hk : p.kind = .PROGRAM ∧ n.kind = .IDENT ∧ sc.kind = .SEMICOLON ∧ v.kind = .VAR)
    (hi : s.input = p :: n :: sc :: v :: ((ds.map DeclLexemes.toList).flatten ++ tail))
    (hfuel : ds.length ≤ fuel)
    (hdup : (∃ d ∈ ds, (s.symbolTable.find d.ident.text).isSome)
      ∨ ¬ (ds.map (fun d => d.ident.text)).Nodup) :
    ∃ s1, parseProgram fuel s
      = some (.error (.runtime_error "parseDeclaration: duplicate"), s1) := by
  obtain ⟨k1, k2, k3, k4⟩ := hk
  obtain ⟨a1, _, a3⟩ := lookahead_fresh s p _ hp hi
  obtain ⟨b1, _, b3⟩ := lookahead_fresh s.advance n _ rfl (by rw [a3])
  obtain ⟨c1, _, c3⟩ := lookahead_fresh s.advance.advance sc _ rfl (by rw [b3])
  have hdup2 : (∃ d ∈ ds, (s.advance.advance.advance.symbolTable.find d.ident.text).isSome)
      ∨ ¬ (ds.map (fun d => d.ident.text)).Nodup := by
    simp only [symbolTable_advance]
    exact hdup
  obtain ⟨s1, h1⟩ := parseBlock_duplicate ds hwf s.advance.advance.advance v tail fuel rfl k4
    (by rw [c3]) hfuel hdup2
  refine ⟨s1, ?_⟩
  unfold parseProgram
  simp only [bind, ParseF.bind, ParseF.lift, expect_eq, a1.trans k1, b1.trans k2, c1.trans k3,
    if_true, Parse.get, h1]

theorem isDigit_not_isspace (c : Char) (h : c.isDigit = true) : isspace c = false := by
  have h48 : 48 ≤ c.toNat := by
    simp only [Char.isDigit, Bool.and_eq_true, decide_eq_true_eq] at h
    exact h.1
  unfold isspace
  simp only [Bool.decide_or, Bool.or_eq_false_iff, decide_eq_false_iff_not]
  refine ⟨?_, ?_, ?_, ?_, ?_, ?_⟩
  · rintro rfl; revert h48; decide
  · rintro rfl; revert h48; decide
  · rintro rfl; revert h48; decide
  · rintro rfl; revert h48; decide
  · omega
  · omega

theorem isDigit_not_sign (c : Char) (h : c.isDigit = true) : c ≠ '-' ∧ c ≠ '+' := by
  constructor <;> (rintro rfl; revert h; decide)

theorem stoi_digits (cs : List Char) (hne : cs ≠ []) (hd : ∀ c ∈ cs, c.isDigit = true) :
    stoi (String.mk cs)
      = if digitsValue cs ≤ 2147483647 then .ok (digitsValue cs : Int)
        else .error .out_of_range := by
  obtain ⟨c, t, rfl⟩ := List.exists_cons_of_ne_nil hne
  have hc := hd c (List.mem_cons_self _ _)
  have hsp := isDigit_not_isspace c hc
  obtain ⟨hm, hpl⟩ := isDigit_not_sign c hc
  have htw : List.takeWhile Char.isDigit (c :: t) = c :: t :=
    List.takeWhile_eq_self_iff.mpr hd
  have hdrop : List.dropWhile isspace (c :: t) = c :: t := by
    simp [List.dropWhile_cons, hsp]
  have hbody : (match c :: t with
      | '-' :: r => r
      | '+' :: r => r
      | _ => c :: t) = c :: t := by
    split
    · rename_i heq; exact absurd (List.cons.inj heq).1 hm
    · rename_i heq; exact absurd (List.cons.inj heq).1 hpl
    · rfl
  have hhead : ((c :: t).head? = some '-') = False := by
    simp [hm]
  unfold stoi
  simp only [hdrop, hbody, htw, hhead, if_false]
  have hr : InIntRange (digitsValue (c :: t) : Int) ↔ digitsValue (c :: t) ≤ 2147483647 := by
    unfold InIntRange INT_MIN INT_MAX
    omega
  by_cases hle : digitsValue (c :: t) ≤ 2147483647
  · simp [hle, hr.mpr hle]
  · simp [hle, mt hr.mp hle]

theorem stoi_neg_digits (ds : List Char) (hne : ds ≠ []) (hd : ∀ c ∈ ds, c.isDigit = true) :
    stoi (String.mk ('-' :: ds))
      = if digitsValue ds ≤ 2147483648 then .ok (-(digitsValue ds : Int))
        else .error .out_of_range := by
  have htw : List.takeWhile Char.isDigit ds = ds := List.takeWhile_eq_self_iff.mpr hd
  have hdrop : List.dropWhile isspace ('-' :: ds) = '-' :: ds := by
    rw [List.dropWhile_cons]
    have h : isspace '-' = false := by decide
    simp [h]
  have hnil : (ds = []) = False := by simp [hne]
  unfold stoi
  simp only [hdrop, htw, List.head?_cons, if_true, hnil, if_false]
  have hr : InIntRange (-(digitsValue ds : Int)) ↔ digitsValue ds ≤ 2147483648 := by
    unfold InIntRange INT_MIN INT_MAX
    omega
  by_cases hle : digitsValue ds ≤ 2147483648
  · simp [hle, hr.mpr hle]
  · simp [hle, mt hr.mp hle]

theorem foldl_toDigitsCore (fuel : Nat) :
    ∀ (n : Nat) (ds : List Char), n < fuel →
      List.foldl (fun acc c => 10 * acc + (c.toNat - '0'.toNat)) 0 (Nat.toDigitsCore 10 fuel n ds)
        = List.foldl (fun acc c => 10 * acc + (c.toNat - '0'.toNat)) n ds := by
  induction fuel with
  | zero => intro n ds h; omega
  | succ f ih =>
    intro n ds h
    have hdig : (Nat.digitChar (n % 10)).toNat - '0'.toNat = n % 10 := by
      have : n % 10 < 10 := Nat.mod_lt _ (by decide)
      interval_cases (n % 10) <;> rfl
    unfold Nat.toDigitsCore
    by_cases h0 : n / 10 = 0
    · simp only [h0, if_true, List.foldl_cons, Nat.mul_zero, Nat.zero_add, hdig]
      have : n % 10 = n := Nat.mod_eq_of_lt (by omega)
      rw [this]
    · simp only [h0, if_false]
      rw [ih (n / 10) _ (by omega)]
      simp only [List.foldl_cons, hdig]
      have : 10 * (n / 10) + n % 10 = n := Nat.div_add_mod n 10
      rw [this]

theorem isDigit_toDigitsCore (fuel : Nat) :
    ∀ (n : Nat) (ds : List Char), (∀ c ∈ ds, c.isDigit = true) →
      ∀ c ∈ Nat.toDigitsCore 10 fuel n ds, c.isDigit = true := by
  induction fuel with
  | zero => intro n ds h; simpa [Nat.toDigitsCore] using h
  | succ f ih =>
    intro n ds h
    have hdig : (Nat.digitChar (n % 10)).isDigit = true := by
      have : n % 10 < 10 := Nat.mod_lt _ (by decide)
      interval_cases (n % 10) <;> rfl
    have hcons : ∀ c ∈ Nat.digitChar (n % 10) :: ds, c.isDigit = true := by
      intro c hc
      rcases List.mem_cons.mp hc with rfl | hc
      · exact hdig
      · exact h c hc
    unfold Nat.toDigitsCore
    by_cases h0 : n / 10 = 0
    · simp only [h0, if_true]
      exact hcons
    · simp only [h0, if_false]
      exact ih _ _ hcons

theorem toDigitsCore_ne_nil (fuel n : Nat) (ds : List Char) (h : 0 < fuel ∨ ds ≠ []) :
    Nat.toDigitsCore 10 fuel n ds ≠ [] := by
  induction fuel generalizing n ds with
  | zero =>
    rcases h with h | h
    · omega
    · simpa [Nat.toDigitsCore] using h
  | succ f ih =>
    unfold Nat.toDigitsCore
    by_cases h0 : n / 10 = 0
    · simp [h0]
    · simp only [h0, if_false]
      exact ih _ _ (Or.inr (by simp))

theorem parsePrimary_intlit [Stod R] (fuel : Nat) (s : ParserState R) (str : String)
    (hlook : s.lookahead = .INTLIT) (hlex : s.lookaheadLex = str) :
    parsePrimary (fuel + 1) s
      = match stoi str with
        | .ok v => some (.ok (.IntLitNode v), s.advance)
        | .error e => some (.error e, s.advance) := by
  rw [parsePrimary]
  simp only [bind, ParseF.bind, ParseF.lift, peek_eq, hlook, Parse.get, peekLex_peeked, hlex,
    expect_peeked, expect_eq, lookahead_peeked, advance_peeked, if_true]
  cases stoi str <;> rfl

/-! ### The steps of a recursive function -/

theorem bind_peek {β : Type} (f : Token → ParseF R β) (s : ParserState R) :
    (ParseF.lift peek >>= f) s = f s.lookahead s.peeked := by
  show ParseF.bind _ _ s = _
  unfold ParseF.bind ParseF.lift
  rw [peek_eq]

theorem bind_get {β : Type} (f : ParserState R → ParseF R β) (s : ParserState R) :
    (ParseF.lift Parse.get >>= f) s = f s s := rfl

theorem bind_expect {β : Type} (want : Token) (msg : String) (f : Token → ParseF R β)
    (s : ParserState R) :
    (ParseF.lift (expect want msg) >>= f) s
      = if s.lookahead = want then f want s.advance
        else some (.error (.runtime_error
                (expectMessage s.advance.yylineno want msg s.lookahead s.advance.yytext)),
              s.advance) := by
  show ParseF.bind _ _ s = _
  unfold ParseF.bind ParseF.lift
  rw [expect_eq]
  by_cases h : s.lookahead = want
  · simp only [h, if_true]
  · simp only [h, if_false]

theorem bind_apply {α β : Type} (m : ParseF R α) (f : α → ParseF R β) (s : ParserState R) :
    (m >>= f) s
      = match m s with
        | none => none
        | some (.ok a, s1) => f a s1
        | some (.error e, s1) => some (.error e, s1) := rfl

theorem pure_apply {α : Type} (a : α) (s : ParserState R) :
    (pure a : ParseF R α) s = some (.ok a, s) := rfl

theorem lift_throw_apply {α : Type} (e : Err) (s : ParserState R) :
    (ParseF.lift (Parse.throw e) : ParseF R α) s = some (.error e, s) := rfl

/-! ### Stepping through given scanner results -/

theorem lookahead_cons (l : Lexeme) (rest : List Lexeme) (et : String) (el : Nat) (yt : String)
    (yl : Nat) (pt : Token) (pl : String) (tbl : SymbolTable R) :
    (ParserState.mk (l :: rest) et el yt yl false pt pl tbl).lookahead = l.kind := rfl

theorem lookaheadLex_cons (l : Lexeme) (rest : List Lexeme) (et : String) (el : Nat)
    (yt : String) (yl : Nat) (pt : Token) (pl : String) (tbl : SymbolTable R) :
    (ParserState.mk (l :: rest) et el yt yl false pt pl tbl).lookaheadLex
      = if l.kind = .TOK_EOF then "" else l.text := rfl

theorem peeked_cons (l : Lexeme) (rest : List Lexeme) (et : String) (el : Nat) (yt : String)
    (yl : Nat) (pt : Token) (pl : String) (tbl : SymbolTable R) :
    (ParserState.mk (l :: rest) et el yt yl false pt pl tbl).peeked
      = ParserState.mk rest et el l.text l.line true l.kind
          (if l.kind = .TOK_EOF then "" else l.text) tbl := rfl

theorem advance_cons (l : Lexeme) (rest : List Lexeme) (et : String) (el : Nat) (yt : String)
    (yl : Nat) (pt : Token) (pl : String) (tbl : SymbolTable R) :
    (ParserState.mk (l :: rest) et el yt yl false pt pl tbl).advance
      = ParserState.mk rest et el l.text l.line false l.kind
          (if l.kind = .TOK_EOF then "" else l.text) tbl := rfl

theorem lookahead_nil (et : String) (el : Nat) (yt : String)
    (yl : Nat) (pt : Token) (pl : String) (tbl : SymbolTable R) :
    (ParserState.mk [] et el yt yl false pt pl tbl).lookahead = .TOK_EOF := rfl

theorem peeked_nil (et : String) (el : Nat) (yt : String)
    (yl : Nat) (pt : Token) (pl : String) (tbl : SymbolTable R) :
    (ParserState.mk [] et el yt yl false pt pl tbl).peeked
      = ParserState.mk [] et el et el true .TOK_EOF "" tbl := rfl

theorem advance_nil (et : String) (el : Nat) (yt : String)
    (yl : Nat) (pt : Token) (pl : String) (tbl : SymbolTable R) :
    (ParserState.mk [] et el yt yl false pt pl tbl).advance
      = ParserState.mk [] et el et el false .TOK_EOF "" tbl := rfl

theorem lookahead_mk_held (i : List Lexeme) (et : String) (el : Nat) (yt : String)
    (yl : Nat) (pt : Token) (pl : String) (tbl : SymbolTable R) :
    (ParserState.mk i et el yt yl true pt pl tbl).lookahead = pt := rfl

theorem lookaheadLex_mk_held (i : List Lexeme) (et : String) (el : Nat) (yt : String)
    (yl : Nat) (pt : Token) (pl : String) (tbl : SymbolTable R) :
    (ParserState.mk i et el yt yl true pt pl tbl).lookaheadLex = pl := rfl

theorem peeked_mk_held (i : List Lexeme) (et : String) (el : Nat) (yt : String)
    (yl : Nat) (pt : Token) (pl : String) (tbl : SymbolTable R) :
    (ParserState.mk i et el yt yl true pt pl tbl).peeked
      = ParserState.mk i et el yt yl true pt pl tbl := rfl

theorem advance_mk_held (i : List Lexeme) (et : String) (el : Nat) (yt : String)
    (yl : Nat) (pt : Token) (pl : String) (tbl : SymbolTable R) :
    (ParserState.mk i et el yt yl true pt pl tbl).advance
      = ParserState.mk i et el yt yl false pt pl tbl := rfl

theorem bind_bind {α β γ : Type} (m : ParseF R α) (g : α → ParseF R β) (f : β → ParseF R γ)
    (s : ParserState R) :
    ((m >>= g) >>= f) s = (m >>= fun a => g a >>= f) s := by
  show ParseF.bind (ParseF.bind m g) f s = ParseF.bind m (fun a => ParseF.bind (g a) f) s
  unfold ParseF.bind
  rcases m s with _ | ⟨_ | _, _⟩ <;> rfl

theorem bind_pure {α β : Type} (a : α) (f : α → ParseF R β) (s : ParserState R) :
    ((pure a : ParseF R α) >>= f) s = f a s := rfl

theorem bind_throw {α β : Type} (e : Err) (f : α → ParseF R β) (s : ParserState R) :
    ((ParseF.lift (Parse.throw e) : ParseF R α) >>= f) s = some (.error e, s) := rfl

theorem bind_stop {α β : Type} (f : α → ParseF R β) (s : ParserState R) :
    ((ParseF.stop : ParseF R α) >>= f) s = none := rfl

/-! ### The tokens still to come -/

theorem ahead_peeked (s : ParserState R) : s.peeked.ahead = s.ahead := by
  unfold ParserState.ahead ParserState.peeked peek yylex
  by_cases h : s.havePeek = true
  · simp [h]
  · rcases hi : s.input with _ | ⟨l, rest⟩
    · simp [h]
    · by_cases hk : l.kind = .TOK_EOF
      · simp [h, hk]
      · simp [h, hk]

theorem ahead_of_eof (s : ParserState R) (h : s.lookahead = .TOK_EOF) : s.ahead = [] := by
  unfold ParserState.lookahead peek yylex at h
  unfold ParserState.ahead
  by_cases hp : s.havePeek = true
  · simp [hp] at h
    simp [hp, h]
  · rcases hi : s.input with _ | ⟨l, rest⟩
    · simp [hp]
    · simp [hp, hi] at h
      simp [hp, h]

theorem ahead_of_ne (s : ParserState R) (h : s.lookahead ≠ .TOK_EOF) :
    s.ahead = (s.lookahead, s.lookaheadLex) :: s.advance.ahead := by
  unfold ParserState.lookahead peek yylex at h
  unfold ParserState.ahead ParserState.lookahead ParserState.lookaheadLex ParserState.advance
    peek yylex
  by_cases hp : s.havePeek = true
  · simp [hp] at h
    simp [hp, h]
  · rcases hi : s.input with _ | ⟨l, rest⟩
    · simp [hp, hi] at h
    · simp [hp, hi] at h
      simp [hp, h]

theorem ahead_symbolTable (s : ParserState R) (t : SymbolTable R) :
    ({ s with symbolTable := t } : ParserState R).ahead = s.ahead := rfl

theorem ahead_init (input : List Lexeme) (et : String) (el : Nat) :
    (ParserState.init R input et el).ahead
      = (input.map (fun l => (l.kind, l.text))).takeWhile (fun p => p.1 ≠ .TOK_EOF) := rfl

/-! ### Normal returns of a sequence -/

theorem bind_ok_iff {α β : Type} (m : ParseF R α) (f : α → ParseF R β) (s s' : ParserState R)
    (b : β) :
    (m >>= f) s = some (.ok b, s')
      ↔ ∃ a s1, m s = some (.ok a, s1) ∧ f a s1 = some (.ok b, s') := by
  rw [bind_apply]
  constructor
  · intro h
    split at h
    · cases h
    · rename_i a s1 h1
      exact ⟨a, s1, h1, h⟩
    · cases h
  · rintro ⟨a, s1, h1, h2⟩
    rw [h1]
    exact h2

theorem expect_ahead (s : ParserState R) (want : Token) (h : s.lookahead = want)
    (hne : want ≠ .TOK_EOF) : s.ahead = (want, s.lookaheadLex) :: s.advance.ahead := by
  rw [ahead_of_ne s (h ▸ hne), h]

/-! ### One step of each recursive function -/

theorem bind_ofExcept {α β : Type} (x : Except Err α) (f : α → ParseF R β)
    (s : ParserState R) :
    (ParseF.lift (Parse.ofExcept x) >>= f) s
      = match x with
        | .ok a => f a s
        | .error e => some (.error e, s) := by
  cases x <;> rfl

theorem parsePrimary_succ [Stod R] (fuel : Nat) (s : ParserState R) :
    parsePrimary (fuel + 1) s
      = if s.lookahead = .FLOATLIT then
          match (Stod.stod s.lookaheadLex : Except Err R) with
          | .ok v => some (.ok (.RealLitNode v), s.advance)
          | .error e => some (.error e, s.advance)
        else if s.lookahead = .INTLIT then
          match stoi s.lookaheadLex with
          | .ok v => some (.ok (.IntLitNode v), s.advance)
          | .error e => some (.error e, s.advance)
        else if s.lookahead = .IDENT then some (.ok (.IdentNode s.lookaheadLex), s.advance)
        else if s.lookahead = .OPENPAREN then
          match parseValue fuel s.advance with
          | none => none
          | some (.ok node, s1) =>
            if s1.lookahead = .CLOSEPAREN then some (.ok node, s1.advance)
            else some (.error (.runtime_error (expectMessage s1.advance.yylineno .CLOSEPAREN
                    "parsePrimary: Expected a CLOSEPAREN" s1.lookahead s1.advance.yytext)),
                  s1.advance)
          | some (.error e, s1) => some (.error e, s1)
        else some (.error (.runtime_error "parsePrimary: Invalid Token"), s.peeked) := by
  rw [parsePrimary]
  simp only [bind_peek]
  by_cases h1 : s.lookahead = .FLOATLIT
  · simp only [h1, if_true, bind_get, bind_expect, lookahead_peeked, advance_peeked,
      bind_ofExcept, peekLex_peeked]
    rcases (Stod.stod s.lookaheadLex : Except Err R) with e | v <;> rfl
  · by_cases h2 : s.lookahead = .INTLIT
    · simp only [h2, if_true, bind_get, bind_expect, lookahead_peeked, advance_peeked,
        bind_ofExcept, peekLex_peeked, reduceCtorEq, if_false]
      rcases stoi s.lookaheadLex with e | v <;> rfl
    · by_cases h3 : s.lookahead = .IDENT
      · simp only [h3, if_true, bind_get, bind_expect, lookahead_peeked, advance_peeked,
          peekLex_peeked, reduceCtorEq, if_false]
        rfl
      · by_cases h4 : s.lookahead = .OPENPAREN
        · simp only [h4, if_true, bind_expect, lookahead_peeked, advance_peeked,
            reduceCtorEq, if_false]
          rw [bind_apply]
          rcases parseValue fuel s.advance with _ | ⟨_ | node, s1⟩
          · rfl
          · rfl
          · simp only [bind_expect]
            rfl
        · simp only [h1, h2, h3, h4, if_false]
          rfl

theorem peeked_peeked (s : ParserState R) : s.peeked.peeked = s.peeked := by
  unfold ParserState.peeked
  rw [peek_peek]

theorem parsePrimary_peeked [Stod R] (fuel : Nat) (s : ParserState R) :
    parsePrimary fuel s.peeked = parsePrimary fuel s := by
  cases fuel with
  | zero => rfl
  | succ n =>
    rw [parsePrimary_succ, parsePrimary_succ]
    simp only [lookahead_peeked, lookaheadLex_peeked, advance_peeked, peeked_peeked]

theorem parseFactor_succ [Stod R] (fuel : Nat) (s : ParserState R) :
    parseFactor (fuel + 1) s
      = if s.lookahead = .INCREMENT ∨ s.lookahead = .DECREMENT then
          match parsePrimary fuel s.advance with
          | none => none
          | some (.ok _, s1) => some (.ok .null, s1)
          | some (.error e, s1) => some (.error e, s1)
        else parsePrimary fuel s := by
  rw [parseFactor]
  simp only [bind_peek]
  by_cases h : s.lookahead = .INCREMENT ∨ s.lookahead = .DECREMENT
  · simp only [h, if_true, bind_expect, lookahead_peeked, advance_peeked]
    rw [bind_apply]
    rcases parsePrimary fuel s.advance with _ | ⟨_ | node, s1⟩ <;> rfl
  · simp only [h, if_false, parsePrimary_peeked]

theorem parseFactor_peeked [Stod R] (fuel : Nat) (s : ParserState R) :
    parseFactor fuel s.peeked = parseFactor fuel s := by
  cases fuel with
  | zero => rfl
  | succ n =>
    rw [parseFactor_succ, parseFactor_succ]
    simp only [lookahead_peeked, advance_peeked, parsePrimary_peeked]

theorem parseTermLoop_succ [Stod R] (fuel : Nat) (node : ValueNode R) (s : ParserState R) :
    parseTermLoop (fuel + 1) node s
      = if s.lookahead.isMultiplicative then
          match parseFactor fuel s.advance with
          | none => none
          | some (.ok rhs, s1) => parseTermLoop fuel (.BinaryOp s.lookahead node rhs) s1
          | some (.error e, s1) => some (.error e, s1)
        else some (.ok node, s.peeked) := by
  rw [parseTermLoop]
  simp only [bind_peek]
  unfold Token.isMultiplicative
  by_cases h : s.lookahead = .MULTIPLY ∨ s.lookahead = .DIVIDE ∨ s.lookahead = .MOD
      ∨ s.lookahead = .CUSTOM_OPER
  · simp only [h, if_true, bind_expect, lookahead_peeked, advance_peeked]
    rw [bind_apply]
    rcases parseFactor fuel s.advance with _ | ⟨_ | rhs, s1⟩ <;> rfl
  · simp only [h, if_false]
    rfl

theorem parseTerm_succ [Stod R] (fuel : Nat) (s : ParserState R) :
    parseTerm (fuel + 1) s
      = match parseFactor fuel s with
        | none => none
        | some (.ok node, s1) => parseTermLoop fuel node s1
        | some (.error e, s1) => some (.error e, s1) := by
  rw [parseTerm, bind_apply]
  rcases parseFactor fuel s with _ | ⟨_ | node, s1⟩ <;> rfl

theorem parseTerm_peeked [Stod R] (fuel : Nat) (s : ParserState R) :
    parseTerm fuel s.peeked = parseTerm fuel s := by
  cases fuel with
  | zero => rfl
  | succ n => rw [parseTerm_succ, parseTerm_succ, parseFactor_peeked]

theorem parseValueLoop_succ [Stod R] (fuel : Nat) (node : ValueNode R) (s : ParserState R) :
    parseValueLoop (fuel + 1) node s
      = if s.lookahead.isAdditive then
          match parseTerm fuel s.advance with
          | none => none
          | some (.ok rhs, s1) => parseValueLoop fuel (.BinaryOp s.lookahead node rhs) s1
          | some (.error e, s1) => some (.error e, s1)
        else some (.ok node, s.peeked) := by
  rw [parseValueLoop]
  simp only [bind_peek]
  unfold Token.isAdditive
  by_cases h : s.lookahead = .PLUS ∨ s.lookahead = .MINUS
  · simp only [h, if_true, bind_expect, lookahead_peeked, advance_peeked]
    rw [bind_apply]
    rcases parseTerm fuel s.advance with _ | ⟨_ | rhs, s1⟩ <;> rfl
  · simp only [h, if_false]
    rfl

theorem parseValue_succ [Stod R] (fuel : Nat) (s : ParserState R) :
    parseValue (fuel + 1) s
      = match parseTerm fuel s with
        | none => none
        | some (.ok node, s1) => parseValueLoop fuel node s1
        | some (.error e, s1) => some (.error e, s1) := by
  rw [parseValue, bind_apply]
  rcases parseTerm fuel s with _ | ⟨_ | node, s1⟩ <;> rfl

theorem parseValue_peeked [Stod R] (fuel : Nat) (s : ParserState R) :
    parseValue fuel s.peeked = parseValue fuel s := by
  cases fuel with
  | zero => rfl
  | succ n => rw [parseValue_succ, parseValue_succ, parseTerm_peeked]

theorem parseAssign_eq [Stod R] (fuel : Nat) (s : ParserState R) :
    parseAssign fuel s
      = if s.lookahead = .IDENT then
          if s.advance.lookahead = .ASSIGN then
            match parseValue fuel s.advance.advance with
            | none => none
            | some (.ok v, s1) => some (.ok (.assignStmt s.lookaheadLex v), s1)
            | some (.error e, s1) => some (.error e, s1)
          else
            some (.error (.runtime_error (expectMessage s.advance.advance.yylineno .ASSIGN
                    "Expected an assignment (:=) after identifier (name)" s.advance.lookahead
                    s.advance.advance.yytext)),
                  s.advance.advance)
        else
          some (.error (.runtime_error (expectMessage s.advance.yylineno .IDENT
                  "Expected identifier (name) for assignment" s.lookahead s.advance.yytext)),
                s.advance) := by
  unfold parseAssign
  simp only [bind_expect, bind_get, peekLex_advance]
  by_cases h1 : s.lookahead = .IDENT
  · simp only [h1, if_true]
    by_cases h2 : s.advance.lookahead = .ASSIGN
    · simp only [h2, if_true]
      rw [bind_apply]
      rcases parseValue fuel s.advance.advance with _ | ⟨_ | v, s1⟩ <;> rfl
    · simp only [h2, if_false]
  · simp only [h1, if_false]

theorem parseAssign_peeked [Stod R] (fuel : Nat) (s : ParserState R) :
    parseAssign fuel s.peeked = parseAssign fuel s := by
  rw [parseAssign_eq, parseAssign_eq]
  simp only [lookahead_peeked, lookaheadLex_peeked, advance_peeked]

theorem parseRead_eq (s : ParserState R) :
    (parseRead s : Except Err (Statement R) × ParserState R)
      = if s.lookahead = .READ then
          if s.advance.lookahead = .OPENPAREN then
            if s.advance.advance.lookahead = .IDENT then
              if s.advance.advance.advance.lookahead = .CLOSEPAREN then
                (.ok (.readStmt s.advance.advance.lookaheadLex), s.advance.advance.advance.advance)
              else
                (.error (.runtime_error (expectMessage
                    s.advance.advance.advance.advance.yylineno .CLOSEPAREN
                    "parseRead: Expected Close Parentheses"
                    s.advance.advance.advance.lookahead
                    s.advance.advance.advance.advance.yytext)),
                  s.advance.advance.advance.advance)
            else
              (.error (.runtime_error (expectMessage s.advance.advance.advance.yylineno .IDENT
                  "parseRead: Expected Identifier" s.advance.advance.lookahead
                  s.advance.advance.advance.yytext)),
                s.advance.advance.advance)
          else
            (.error (.runtime_error (expectMessage s.advance.advance.yylineno .OPENPAREN
                "parseRead: Expected Open Parentheses" s.advance.lookahead
                s.advance.advance.yytext)),
              s.advance.advance)
        else
          (.error (.runtime_error (expectMessage s.advance.yylineno .READ
              "parseRead: Expected Read" s.lookahead s.advance.yytext)),
            s.advance) := by
  unfold parseRead
  simp only [bind, Parse.bind, expect_eq, Parse.get]
  by_cases h1 : s.lookahead = .READ
  · simp only [h1, if_true]
    by_cases h2 : s.advance.lookahead = .OPENPAREN
    · simp only [h2, if_true]
      by_cases h3 : s.advance.advance.lookahead = .IDENT
      · simp only [h3, if_true, peekLex_advance]
        by_cases h4 : s.advance.advance.advance.lookahead = .CLOSEPAREN
        · simp only [h4, if_true]
          rfl
        · simp only [h4, if_false]
      · simp only [h3, if_false]
    · simp only [h2, if_false]
  · simp only [h1, if_false]

theorem parseWrite_eq (s : ParserState R) :
    (parseWrite s : Except Err (Statement R) × ParserState R)
      = if s.lookahead = .WRITE then
          if s.advance.lookahead = .OPENPAREN then
            if s.advance.advance.lookahead = .STRINGLIT
                ∨ s.advance.advance.lookahead = .IDENT then
              if s.advance.advance.advance.lookahead = .CLOSEPAREN then
                (.ok (.writeStmt s.advance.advance.lookaheadLex s.advance.advance.lookahead),
                  s.advance.advance.advance.advance)
              else
                (.error (.runtime_error (expectMessage
                    s.advance.advance.advance.advance.yylineno .CLOSEPAREN
                    "To close write" s.advance.advance.advance.lookahead
                    s.advance.advance.advance.advance.yytext)),
                  s.advance.advance.advance.advance)
            else
              (.error (.runtime_error "parseWrite: Expected a String Lit or an Identifier"),
                s.advance.advance.peeked)
          else
            (.error (.runtime_error (expectMessage s.advance.advance.yylineno .OPENPAREN
                "parseWrite: Must follow WRITE" s.advance.lookahead
                s.advance.advance.yytext)),
              s.advance.advance)
        else
          (.error (.runtime_error (expectMessage s.advance.yylineno .WRITE
              "parseWrite: Start of a write" s.lookahead s.advance.yytext)),
            s.advance) := by
  unfold parseWrite
  simp only [bind, Parse.bind, expect_eq, Parse.get, peek_eq]
  by_cases h1 : s.lookahead = .WRITE
  · simp only [h1, if_true]
    by_cases h2 : s.advance.lookahead = .OPENPAREN
    · simp only [h2, if_true]
      by_cases h3 : s.advance.advance.lookahead = .STRINGLIT
          ∨ s.advance.advance.lookahead = .IDENT
      · have hn : ¬ (s.advance.advance.lookahead ≠ .STRINGLIT
            ∧ s.advance.advance.lookahead ≠ .IDENT) := by
          rcases h3 with h | h <;> simp [h]
        simp only [hn, if_false, h3, if_true, lookahead_peeked, advance_peeked,
          peekLex_peeked, Parse.bind, Parse.get, expect_eq]
        by_cases h4 : s.advance.advance.advance.lookahead = .CLOSEPAREN
        · simp only [h4, if_true]
          rfl
        · simp only [h4, if_false]
      · have hn : s.advance.advance.lookahead ≠ .STRINGLIT
            ∧ s.advance.advance.lookahead ≠ .IDENT := by
          constructor
          · intro h
            exact h3 (Or.inl h)
          · intro h
            exact h3 (Or.inr h)
        rw [if_pos hn, if_neg h3]
        rfl
    · simp only [h2, if_false]
  · simp only [h1, if_false]

theorem parseRead_peeked (s : ParserState R) :
    (parseRead s.peeked : Except Err (Statement R) × ParserState R) = parseRead s := by
  rw [parseRead_eq, parseRead_eq]
  simp only [lookahead_peeked, advance_peeked]

theorem parseWrite_peeked (s : ParserState R) :
    (parseWrite s.peeked : Except Err (Statement R) × ParserState R) = parseWrite s := by
  rw [parseWrite_eq, parseWrite_eq]
  simp only [lookahead_peeked, advance_peeked]

theorem parseCompound_succ [Stod R] (fuel : Nat) (s : ParserState R) :
    parseCompound (fuel + 1) s
      = if s.lookahead = .TOK_BEGIN then
          match parseStatement fuel s.advance with
          | none => none
          | some (.ok first, s1) => parseCompoundLoop fuel [first] s1
          | some (.error e, s1) => some (.error e, s1)
        else
          some (.error (.runtime_error (expectMessage s.advance.yylineno .TOK_BEGIN
                  "parseCompound: Expected a Begin Token" s.lookahead s.advance.yytext)),
                s.advance) := by
  rw [parseCompound]
  simp only [bind_expect]
  by_cases h : s.lookahead = .TOK_BEGIN
  · simp only [h, if_true]
    rw [bind_apply]
    rcases parseStatement fuel s.advance with _ | ⟨_ | first, s1⟩ <;> rfl
  · simp only [h, if_false]

theorem parseCompound_peeked [Stod R] (fuel : Nat) (s : ParserState R) :
    parseCompound fuel s.peeked = parseCompound fuel s := by
  cases fuel with
  | zero => rfl
  | succ n =>
    rw [parseCompound_succ, parseCompound_succ]
    simp only [lookahead_peeked, advance_peeked]

theorem parseStatement_succ [Stod R] (fuel : Nat) (s : ParserState R) :
    parseStatement (fuel + 1) s
      = if s.lookahead = .IDENT then parseAssign fuel s
        else if s.lookahead = .TOK_BEGIN then
          match parseCompound fuel s with
          | none => none
          | some (.ok stmts, s1) => some (.ok (.compoundStmt stmts), s1)
          | some (.error e, s1) => some (.error e, s1)
        else if s.lookahead = .READ then some (parseRead s)
        else if s.lookahead = .WRITE then some (parseWrite s)
        else some (.error (.runtime_error "parseStatement: Token Not accepted"), s.peeked) := by
  rw [parseStatement]
  simp only [bind_peek]
  by_cases h1 : s.lookahead = .IDENT
  · simp only [h1, if_true]
    exact parseAssign_peeked fuel s
  · by_cases h2 : s.lookahead = .TOK_BEGIN
    · simp only [h2, if_true, reduceCtorEq, if_false]
      rw [bind_apply, parseCompound_peeked]
      rcases parseCompound fuel s with _ | ⟨_ | stmts, s1⟩ <;> rfl
    · by_cases h3 : s.lookahead = .READ
      · simp only [h3, if_true, reduceCtorEq, if_false]
        show some (parseRead s.peeked) = _
        rw [parseRead_peeked]
      · by_cases h4 : s.lookahead = .WRITE
        · simp only [h4, if_true, reduceCtorEq, if_false]
          show some (parseWrite s.peeked) = _
          rw [parseWrite_peeked]
        · simp only [h1, h2, h3, h4, if_false]
          rfl

theorem parseStatement_peeked [Stod R] (fuel : Nat) (s : ParserState R) :
    parseStatement fuel s.peeked = parseStatement fuel s := by
  cases fuel with
  | zero => rfl
  | succ n =>
    rw [parseStatement_succ, parseStatement_succ]
    simp only [lookahead_peeked, parseAssign_peeked, parseCompound_peeked, parseRead_peeked,
      parseWrite_peeked, peeked_peeked]

theorem parseCompoundLoop_succ [Stod R] (fuel : Nat) (stmts : List (Statement R))
    (s : ParserState R) :
    parseCompoundLoop (fuel + 1) stmts s
      = if s.lookahead = .SEMICOLON then
          if s.advance.lookahead = .END then some (.ok stmts, s.advance.advance)
          else
            match parseStatement fuel s.advance with
            | none => none
            | some (.ok next, s1) => parseCompoundLoop fuel (stmts ++ [next]) s1
            | some (.error e, s1) => some (.error e, s1)
        else if s.lookahead = .END then some (.ok stmts, s.advance)
        else
          some (.error (.runtime_error (expectMessage s.advance.yylineno .END
                  "parseCompound: Expected an End Token" s.lookahead s.advance.yytext)),
                s.advance) := by
  rw [parseCompoundLoop]
  simp only [bind_peek]
  by_cases h1 : s.lookahead = .SEMICOLON
  · simp only [h1, if_true, bind_expect, lookahead_peeked, advance_peeked, bind_peek]
    by_cases h2 : s.advance.lookahead = .END
    · simp only [h2, if_true, bind_expect, lookahead_peeked, advance_peeked]
      rfl
    · simp only [h2, if_false]
      rw [bind_apply, parseStatement_peeked]
      rcases parseStatement fuel s.advance with _ | ⟨_ | next, s1⟩ <;> rfl
  · simp only [h1, if_false, bind_expect, lookahead_peeked, advance_peeked]
    by_cases h2 : s.lookahead = .END
    · simp only [h2, if_true]
      rfl
    · simp only [h2, if_false]

theorem parseDeclarations_peeked [Double R] (fuel : Nat) (s : ParserState R) :
    parseDeclarations fuel s.peeked = parseDeclarations fuel s := by
  cases fuel with
  | zero => rfl
  | succ n =>
    rw [parseDeclarations_succ, parseDeclarations_succ]
    simp only [lookahead_peeked, parseDeclaration_peeked, peeked_peeked]

theorem parseBlock_eq [Double R] [Stod R] (fuel : Nat) (s : ParserState R) :
    parseBlock fuel s
      = if s.lookahead = .VAR then
          match parseDeclarations fuel s.advance with
          | none => none
          | some (.ok _, s1) =>
            match parseCompound fuel s1 with
            | none => none
            | some (.ok stmts, s2) => some (.ok { compound := some stmts }, s2)
            | some (.error e, s2) => some (.error e, s2)
          | some (.error e, s1) => some (.error e, s1)
        else
          match parseCompound fuel s with
          | none => none
          | some (.ok stmts, s2) => some (.ok { compound := some stmts }, s2)
          | some (.error e, s2) => some (.error e, s2) := by
  unfold parseBlock
  simp only [bind_peek]
  by_cases h : s.lookahead = .VAR
  · simp only [h, if_true, bind_bind, bind_expect, lookahead_peeked, advance_peeked]
    rw [bind_apply]
    rcases parseDeclarations fuel s.advance with _ | ⟨_ | u, s1⟩
    · rfl
    · rfl
    · simp only
      rw [bind_apply]
      rcases parseCompound fuel s1 with _ | ⟨_ | stmts, s2⟩ <;> rfl
  · simp only [h, if_false, bind_pure]
    rw [bind_apply, parseCompound_peeked]
    rcases parseCompound fuel s with _ | ⟨_ | stmts, s2⟩ <;> rfl

theorem parseProgram_eq [Double R] [Stod R] (fuel : Nat) (s : ParserState R) :
    parseProgram fuel s
      = if s.lookahead = .PROGRAM then
          if s.advance.lookahead = .IDENT then
            if s.advance.advance.lookahead = .SEMICOLON then
              match parseBlock fuel s.advance.advance.advance with
              | none => none
              | some (.ok block, s1) =>
                if s1.lookahead = .TOK_EOF then
                  some (.ok { name := s.advance.lookaheadLex, block := some block }, s1.advance)
                else
                  some (.error (.runtime_error (expectMessage s1.advance.yylineno .TOK_EOF
                          "at end of file (no trailing tokens after program)" s1.lookahead
                          s1.advance.yytext)),
                        s1.advance)
              | some (.error e, s1) => some (.error e, s1)
            else
              some (.error (.runtime_error (expectMessage
                      s.advance.advance.advance.yylineno .SEMICOLON "after program name"
                      s.advance.advance.lookahead s.advance.advance.advance.yytext)),
                    s.advance.advance.advance)
          else
            some (.error (.runtime_error (expectMessage s.advance.advance.yylineno .IDENT
                    "program name" s.advance.lookahead s.advance.advance.yytext)),
                  s.advance.advance)
        else
          some (.error (.runtime_error (expectMessage s.advance.yylineno .PROGRAM
                  "start of program" s.lookahead s.advance.yytext)),
                s.advance) := by
  unfold parseProgram
  simp only [bind_expect, bind_get, peekLex_advance]
  by_cases h1 : s.lookahead = .PROGRAM
  · simp only [h1, if_true]
    by_cases h2 : s.advance.lookahead = .IDENT
    · simp only [h2, if_true]
      by_cases h3 : s.advance.advance.lookahead = .SEMICOLON
      · simp only [h3, if_true]
        rw [bind_apply]
        rcases parseBlock fuel s.advance.advance.advance with _ | ⟨_ | block, s1⟩
        · rfl
        · rfl
        · simp only [bind_expect]
          rfl
      · simp only [h3, if_false]
    · simp only [h2, if_false]
  · simp only [h1, if_false]

/-! ### The expression parser builds the trees of the grammar -/

theorem parsePrimary_sound [Stod R] (fuel : Nat)
    (hv : ParsesAs (R := R) .value (parseValue fuel)) :
    ParsesAs (R := R) .primary (parsePrimary (fuel + 1)) := by
  intro s e s' h
  rw [parsePrimary_succ] at h
  split at h
  · rename_i hk
    split at h
    · rename_i v hv1
      cases h
      exact ⟨[(.FLOATLIT, s.lookaheadLex)],
        expect_ahead s _ hk (by decide), Derives.floatlit _ _ hv1⟩
    · cases h
  · rename_i hk0 hk
    split at h
    · rename_i hk
      split at h
      · rename_i v hv1
        cases h
        exact ⟨[(.INTLIT, s.lookaheadLex)],
          expect_ahead s _ hk (by decide), Derives.intlit _ _ hv1⟩
      · cases h
    · split at h
      · rename_i hk
        cases h
        exact ⟨[(.IDENT, s.lookaheadLex)], expect_ahead s _ hk (by decide), Derives.ident _⟩
      · split at h
        · rename_i hk
          split at h
          · cases h
          · rename_i node s1 h1
            split at h
            · rename_i hc
              cases h
              obtain ⟨toks, ht, hd⟩ := hv _ _ _ h1
              refine ⟨(.OPENPAREN, s.lookaheadLex) :: toks ++ [(.CLOSEPAREN, s1.lookaheadLex)],
                ?_, Derives.paren _ _ _ _ hd⟩
              rw [expect_ahead s _ hk (by decide), ht, expect_ahead s1 _ hc (by decide)]
              simp
            · cases h
          · cases h
        · cases h

theorem parseFactor_sound [Stod R] (fuel : Nat)
    (hp : ParsesAs (R := R) .primary (parsePrimary fuel)) :
    ParsesAs (R := R) .factor (parseFactor (fuel + 1)) := by
  intro s e s' h
  rw [parseFactor_succ] at h
  split at h
  · rename_i hop
    split at h
    · cases h
    · rename_i p s1 h1
      cases h
      obtain ⟨toks, ht, hd⟩ := hp _ _ _ h1
      have hne : s.lookahead ≠ .TOK_EOF := by
        rcases hop with h | h <;> rw [h] <;> decide
      refine ⟨(s.lookahead, s.lookaheadLex) :: toks, ?_, Derives.incdec _ _ _ _ hop hd⟩
      rw [ahead_of_ne s hne, ht]
      rfl
    · cases h
  · obtain ⟨toks, ht, hd⟩ := hp _ _ _ h
    exact ⟨toks, ht, Derives.plain _ _ hd⟩

theorem isMultiplicative_ne_eof (t : Token) (h : t.isMultiplicative) : t ≠ .TOK_EOF := by
  rcases h with h | h | h | h <;> rw [h] <;> decide

theorem isAdditive_ne_eof (t : Token) (h : t.isAdditive) : t ≠ .TOK_EOF := by
  rcases h with h | h <;> rw [h] <;> decide

theorem parseTermLoop_sound [Stod R] (fuel : Nat)
    (hf : ParsesAs (R := R) .factor (parseFactor fuel))
    (hl : ContinuesAs (R := R) .term (parseTermLoop fuel)) :
    ContinuesAs (R := R) .term (parseTermLoop (fuel + 1)) := by
  intro s acc e s' pre hpre h
  rw [parseTermLoop_succ] at h
  split at h
  · rename_i hop
    split at h
    · cases h
    · rename_i rhs s1 h1
      obtain ⟨toks, ht, hd⟩ := hf _ _ _ h1
      obtain ⟨toks2, ht2, hd2⟩ := hl _ _ _ _ _ (Derives.mulOp _ s.lookaheadLex _ _ _ _ hpre hop hd) h
      refine ⟨(s.lookahead, s.lookaheadLex) :: toks ++ toks2, ?_, ?_⟩
      · rw [ahead_of_ne s (isMultiplicative_ne_eof _ hop), ht, ht2]
        simp
      · simpa using hd2
    · cases h
  · cases h
    exact ⟨[], by rw [ahead_peeked]; rfl, by simpa using hpre⟩

theorem parseTerm_sound [Stod R] (fuel : Nat)
    (hf : ParsesAs (R := R) .factor (parseFactor fuel))
    (hl : ContinuesAs (R := R) .term (parseTermLoop fuel)) :
    ParsesAs (R := R) .term (parseTerm (fuel + 1)) := by
  intro s e s' h
  rw [parseTerm_succ] at h
  split at h
  · cases h
  · rename_i node s1 h1
    obtain ⟨toks, ht, hd⟩ := hf _ _ _ h1
    obtain ⟨toks2, ht2, hd2⟩ := hl _ _ _ _ _ (Derives.single _ _ hd) h
    exact ⟨toks ++ toks2, by rw [ht, ht2, List.append_assoc], hd2⟩
  · cases h

theorem parseValueLoop_sound [Stod R] (fuel : Nat)
    (hf : ParsesAs (R := R) .term (parseTerm fuel))
    (hl : ContinuesAs (R := R) .value (parseValueLoop fuel)) :
    ContinuesAs (R := R) .value (parseValueLoop (fuel + 1)) := by
  intro s acc e s' pre hpre h
  rw [parseValueLoop_succ] at h
  split at h
  · rename_i hop
    split at h
    · cases h
    · rename_i rhs s1 h1
      obtain ⟨toks, ht, hd⟩ := hf _ _ _ h1
      obtain ⟨toks2, ht2, hd2⟩ := hl _ _ _ _ _ (Derives.addOp _ s.lookaheadLex _ _ _ _ hpre hop hd) h
      refine ⟨(s.lookahead, s.lookaheadLex) :: toks ++ toks2, ?_, ?_⟩
      · rw [ahead_of_ne s (isAdditive_ne_eof _ hop), ht, ht2]
        simp
      · simpa using hd2
    · cases h
  · cases h
    exact ⟨[], by rw [ahead_peeked]; rfl, by simpa using hpre⟩

theorem parseValue_sound [Stod R] (fuel : Nat)
    (hf : ParsesAs (R := R) .term (parseTerm fuel))
    (hl : ContinuesAs (R := R) .value (parseValueLoop fuel)) :
    ParsesAs (R := R) .value (parseValue (fuel + 1)) := by
  intro s e s' h
  rw [parseValue_succ] at h
  split at h
  · cases h
  · rename_i node s1 h1
    obtain ⟨toks, ht, hd⟩ := hf _ _ _ h1
    obtain ⟨toks2, ht2, hd2⟩ := hl _ _ _ _ _ (Derives.lone _ _ hd) h
    exact ⟨toks ++ toks2, by rw [ht, ht2, List.append_assoc], hd2⟩
  · cases h

/-- Every normal return of the expression parser has consumed the tokens of the
phrase it is named after and returns the tree the grammar gives them. -/
theorem expression_sound [Stod R] (fuel : Nat) :
    ParsesAs (R := R) .primary (parsePrimary fuel)
      ∧ ParsesAs (R := R) .factor (parseFactor fuel)
      ∧ ParsesAs (R := R) .term (parseTerm fuel)
      ∧ ContinuesAs (R := R) .term (parseTermLoop fuel)
      ∧ ParsesAs (R := R) .value (parseValue fuel)
      ∧ ContinuesAs (R := R) .value (parseValueLoop fuel) := by
  induction fuel with
  | zero =>
    refine ⟨?_, ?_, ?_, ?_, ?_, ?_⟩
    · intro s e s' h
      cases h
    · intro s e s' h
      cases h
    · intro s e s' h
      cases h
    · intro s acc e s' pre _ h
      cases h
    · intro s e s' h
      cases h
    · intro s acc e s' pre _ h
      cases h
  | succ n ih =>
    obtain ⟨h1, h2, h3, h4, h5, h6⟩ := ih
    exact ⟨parsePrimary_sound n h5, parseFactor_sound n h1, parseTerm_sound n h2 h4,
      parseTermLoop_sound n h2 h4, parseValue_sound n h3 h6, parseValueLoop_sound n h3 h6⟩

/-! ### The statement parser builds the trees of the grammar -/

theorem parseAssign_sound [Stod R] (fuel : Nat) (s s' : ParserState R) (st : Statement R)
    (h : parseAssign fuel s = some (.ok st, s')) :
    ∃ toks, s.ahead = toks ++ s'.ahead
      ∧ StmtDerives returnedUnary true (.statement st) toks := by
  rw [parseAssign_eq] at h
  split at h
  · rename_i h1
    split at h
    · rename_i h2
      split at h
      · cases h
      · rename_i v s1 hv
        cases h
        obtain ⟨toks, ht, hd⟩ := (expression_sound fuel).2.2.2.2.1 _ _ _ hv
        refine ⟨(.IDENT, s.lookaheadLex) :: (.ASSIGN, s.advance.lookaheadLex) :: toks, ?_,
          StmtDerives.assign _ _ _ _ hd⟩
        rw [expect_ahead s _ h1 (by decide), expect_ahead s.advance _ h2 (by decide), ht]
        rfl
      · cases h
    · cases h
  · cases h

theorem parseRead_sound [Stod R] (s s' : ParserState R) (st : Statement R)
    (h : parseRead s = (.ok st, s')) :
    ∃ toks, s.ahead = toks ++ s'.ahead
      ∧ StmtDerives returnedUnary true (.statement st) toks := by
  rw [parseRead_eq] at h
  split at h
  · rename_i h1
    split at h
    · rename_i h2
      split at h
      · rename_i h3
        split at h
        · rename_i h4
          cases h
          refine ⟨[(.READ, s.lookaheadLex), (.OPENPAREN, s.advance.lookaheadLex),
            (.IDENT, s.advance.advance.lookaheadLex),
            (.CLOSEPAREN, s.advance.advance.advance.lookaheadLex)], ?_,
            StmtDerives.read _ _ _ _⟩
          rw [expect_ahead s _ h1 (by decide), expect_ahead s.advance _ h2 (by decide),
            expect_ahead s.advance.advance _ h3 (by decide),
            expect_ahead s.advance.advance.advance _ h4 (by decide)]
          rfl
        · cases h
      · cases h
    · cases h
  · cases h

theorem parseWrite_sound [Stod R] (s s' : ParserState R) (st : Statement R)
    (h : parseWrite s = (.ok st, s')) :
    ∃ toks, s.ahead = toks ++ s'.ahead
      ∧ StmtDerives returnedUnary true (.statement st) toks := by
  rw [parseWrite_eq] at h
  split at h
  · rename_i h1
    split at h
    · rename_i h2
      split at h
      · rename_i h3
        split at h
        · rename_i h4
          cases h
          have hne : s.advance.advance.lookahead ≠ .TOK_EOF := by
            rcases h3 with h | h <;> rw [h] <;> decide
          refine ⟨[(.WRITE, s.lookaheadLex), (.OPENPAREN, s.advance.lookaheadLex),
            (s.advance.advance.lookahead, s.advance.advance.lookaheadLex),
            (.CLOSEPAREN, s.advance.advance.advance.lookaheadLex)], ?_,
            StmtDerives.write _ _ _ _ _ h3⟩
          rw [expect_ahead s _ h1 (by decide), expect_ahead s.advance _ h2 (by decide),
            ahead_of_ne s.advance.advance hne,
            expect_ahead s.advance.advance.advance _ h4 (by decide)]
          rfl
        · cases h
      · cases h
    · cases h
  · cases h

theorem parseStatement_sound [Stod R] (fuel : Nat)
    (hc : ParsesCompound (R := R) (parseCompound fuel)) :
    ParsesStatement (R := R) (parseStatement (fuel + 1)) := by
  intro s st s' h
  rw [parseStatement_succ] at h
  split at h
  · exact parseAssign_sound fuel s s' st h
  · split at h
    · split at h
      · cases h
      · rename_i stmts s1 h1
        cases h
        obtain ⟨toks, ht, hd⟩ := hc _ _ _ h1
        exact ⟨toks, ht, StmtDerives.nested _ _ hd⟩
      · cases h
    · split at h
      · exact parseRead_sound s s' st (Option.some.inj h)
      · split at h
        · exact parseWrite_sound s s' st (Option.some.inj h)
        · cases h

theorem parseCompoundLoop_sound [Stod R] (fuel : Nat)
    (hs : ParsesStatement (R := R) (parseStatement fuel))
    (hl : ContinuesCompound (R := R) (parseCompoundLoop fuel)) :
    ContinuesCompound (R := R) (parseCompoundLoop (fuel + 1)) := by
  intro s acc stmts s' pre hpre h
  rw [parseCompoundLoop_succ] at h
  split at h
  · rename_i h1
    split at h
    · rename_i h2
      cases h
      refine ⟨[(.SEMICOLON, s.lookaheadLex), (.END, s.advance.lookaheadLex)], ?_, ?_⟩
      · rw [expect_ahead s _ h1 (by decide), expect_ahead s.advance _ h2 (by decide)]
        rfl
      · intro b
        exact StmtDerives.compoundSemi b _ _ _ _ rfl hpre
    · split at h
      · cases h
      · rename_i next s1 hn
        obtain ⟨toks, ht, hd⟩ := hs _ _ _ hn
        obtain ⟨toks2, ht2, hd2⟩ := hl _ _ _ _ _
          (StmtDerives.next s.lookaheadLex _ _ _ _ hpre hd) h
        refine ⟨(.SEMICOLON, s.lookaheadLex) :: toks ++ toks2, ?_, ?_⟩
        · rw [expect_ahead s _ h1 (by decide), ht, ht2]
          simp
        · intro b
          simpa using hd2 b
      · cases h
  · split at h
    · rename_i h2
      cases h
      refine ⟨[(.END, s.lookaheadLex)], ?_, ?_⟩
      · rw [expect_ahead s _ h2 (by decide)]
        rfl
      · intro b
        exact StmtDerives.compound b _ _ _ hpre
    · cases h

theorem parseCompound_sound [Stod R] (fuel : Nat)
    (hs : ParsesStatement (R := R) (parseStatement fuel))
    (hl : ContinuesCompound (R := R) (parseCompoundLoop fuel)) :
    ParsesCompound (R := R) (parseCompound (fuel + 1)) := by
  intro s stmts s' h
  rw [parseCompound_succ] at h
  split at h
  · rename_i h1
    split at h
    · cases h
    · rename_i first s1 hf
      obtain ⟨toks, ht, hd⟩ := hs _ _ _ hf
      obtain ⟨toks2, ht2, hd2⟩ := hl _ _ _ _ _ (StmtDerives.first _ _ hd) h
      refine ⟨(.TOK_BEGIN, s.lookaheadLex) :: (toks ++ toks2), ?_, hd2 _⟩
      rw [expect_ahead s _ h1 (by decide), ht, ht2]
      simp
    · cases h
  · cases h

/-- Every normal return of the statement parser has consumed the tokens of a
statement, or of a compound, and returns the tree the grammar gives them. -/
theorem statement_sound [Stod R] (fuel : Nat) :
    ParsesStatement (R := R) (parseStatement fuel)
      ∧ ParsesCompound (R := R) (parseCompound fuel)
      ∧ ContinuesCompound (R := R) (parseCompoundLoop fuel) := by
  induction fuel with
  | zero =>
    refine ⟨?_, ?_, ?_⟩
    · intro s st s' h
      cases h
    · intro s st s' h
      cases h
    · intro s acc st s' pre _ h
      cases h
  | succ n ih =>
    obtain ⟨h1, h2, h3⟩ := ih
    exact ⟨parseStatement_sound n h2, parseCompound_sound n h1 h3,
      parseCompoundLoop_sound n h1 h3⟩

/-! ### Declarations, block and program -/

theorem parseDeclaration_unfold [Double R] (s : ParserState R) :
    parseDeclaration s
      = if s.lookahead = .IDENT then
          if s.advance.lookahead = .COLON then
            if s.advance.advance.lookahead = .INTEGER ∨ s.advance.advance.lookahead = .REAL then
              if s.advance.advance.advance.lookahead = .SEMICOLON then
                if (s.symbolTable.find s.lookaheadLex).isSome then
                  (.error (.runtime_error "parseDeclaration: duplicate"),
                    s.advance.advance.advance.advance)
                else
                  (.ok (), { s.advance.advance.advance.advance with
                      symbolTable := s.symbolTable.insert s.lookaheadLex
                        (declDefault s.advance.advance.lookahead) })
              else
                (.error (.runtime_error (expectMessage
                    s.advance.advance.advance.advance.yylineno .SEMICOLON
                    "parseDeclaration: Expected a semicolon"
                    s.advance.advance.advance.lookahead
                    s.advance.advance.advance.advance.yytext)),
                  s.advance.advance.advance.advance)
            else
              (.error (.runtime_error "parseDeclaration: Expect type to be an integer or real"),
                s.advance.advance.peeked)
          else
            (.error (.runtime_error (expectMessage s.advance.advance.yylineno .COLON
                "parseDeclaration: Expected a Colon after after Identifier" s.advance.lookahead
                s.advance.advance.yytext)),
              s.advance.advance)
        else
          (.error (.runtime_error (expectMessage s.advance.yylineno .IDENT
              "parseDeclaration: Expected an Identifier" s.lookahead s.advance.yytext)),
            s.advance) := by
  by_cases h1 : s.lookahead = .IDENT
  · by_cases h2 : s.advance.lookahead = .COLON
    · by_cases h3 : s.advance.advance.lookahead = .INTEGER
          ∨ s.advance.advance.lookahead = .REAL
      · by_cases h4 : s.advance.advance.advance.lookahead = .SEMICOLON
        · rw [parseDeclaration_eq s s.lookaheadLex s.advance.advance.lookahead h1 rfl h2 rfl h3 h4]
          simp only [h1, h2, h3, h4, if_true]
        · have hn : ¬ (s.advance.advance.lookahead ≠ .INTEGER
              ∧ s.advance.advance.lookahead ≠ .REAL) := by
            rcases h3 with h | h <;> simp [h]
          unfold parseDeclaration
          simp only [bind, Parse.bind, expect_eq, h1, h2, if_true, peek_eq, hn, if_false,
            Parse.get, lookahead_peeked, advance_peeked, h4, h3]
      · have hn : s.advance.advance.lookahead ≠ .INTEGER
            ∧ s.advance.advance.lookahead ≠ .REAL := by
          constructor
          · intro h
            exact h3 (Or.inl h)
          · intro h
            exact h3 (Or.inr h)
        unfold parseDeclaration
        simp only [bind, Parse.bind, expect_eq, h1, h2, if_true, peek_eq, Parse.get]
        rw [if_pos hn, if_neg h3]
        rfl
    · unfold parseDeclaration
      simp only [bind, Parse.bind, expect_eq, h1, h2, if_true, if_false, Parse.get]
  · unfold parseDeclaration
    simp only [bind, Parse.bind, expect_eq, h1, if_false]

/-- Every normal return of the declaration loop has consumed the tokens of a
list of declarations and has inserted their names, in order, with the default
value of their type. -/
theorem parseDeclarations_sound [Double R] (fuel : Nat) :
    ∀ (s s' : ParserState R), parseDeclarations fuel s = some (.ok (), s') →
      ∃ toks ds, s.ahead = toks ++ s'.ahead ∧ DeclsDerive toks ds
        ∧ s'.symbolTable = declare ds s.symbolTable := by
  induction fuel with
  | zero =>
    intro s s' h
    cases h
  | succ n ih =>
    intro s s' h
    rw [parseDeclarations_succ] at h
    split at h
    · rename_i h1
      rw [parseDeclaration_unfold] at h
      simp only [h1, if_true] at h
      split at h
      · rename_i u s1 hd
        split at hd
        · rename_i h2
          split at hd
          · rename_i h3
            split at hd
            · rename_i h4
              split at hd
              · cases hd
              · simp only [Prod.mk.injEq, Except.ok.injEq, true_and] at hd
                subst hd
                obtain ⟨toks, ds, ht, hdd, htab⟩ := ih _ _ h
                have hne : s.advance.advance.lookahead ≠ .TOK_EOF := by
                  rcases h3 with h | h <;> rw [h] <;> decide
                refine ⟨(.IDENT, s.lookaheadLex) :: (.COLON, s.advance.lookaheadLex)
                  :: (s.advance.advance.lookahead, s.advance.advance.lookaheadLex)
                  :: (.SEMICOLON, s.advance.advance.advance.lookaheadLex) :: toks,
                  (s.lookaheadLex, s.advance.advance.lookahead) :: ds, ?_,
                  DeclsDerive.cons _ _ _ _ _ _ _ h3 hdd, ?_⟩
                · rw [expect_ahead s _ h1 (by decide), expect_ahead s.advance _ h2 (by decide),
                    ahead_of_ne s.advance.advance hne,
                    expect_ahead s.advance.advance.advance _ h4 (by decide)]
                  rw [ahead_symbolTable] at ht
                  rw [ht]
                  rfl
                · rw [htab]
                  rfl
            · cases hd
          · cases hd
        · cases hd
      · cases h
    · cases h
      exact ⟨[], [], by rw [ahead_peeked]; rfl, DeclsDerive.nil,
        by rw [symbolTable_peeked]; rfl⟩

/-- Every normal return of parseBlock has consumed the tokens of a block. -/
theorem parseBlock_sound [Double R] [Stod R] (fuel : Nat) (s s' : ParserState R)
    (b : Block R) (h : parseBlock fuel s = some (.ok b, s')) :
    ∃ toks ds, s.ahead = toks ++ s'.ahead ∧ BlockDerives returnedUnary true toks ds b := by
  rw [parseBlock_eq] at h
  split at h
  · rename_i h1
    split at h
    · cases h
    · rename_i u s1 hd
      split at h
      · cases h
      · rename_i stmts s2 hc
        cases h
        obtain ⟨dtoks, ds, ht, hdd, -⟩ := parseDeclarations_sound fuel _ _ hd
        obtain ⟨ctoks, ht2, hcd⟩ := (statement_sound fuel).2.1 _ _ _ hc
        refine ⟨((.VAR, s.lookaheadLex) :: dtoks) ++ ctoks, ds, ?_,
          (.VAR, s.lookaheadLex) :: dtoks, ctoks, stmts, rfl,
          Or.inr ⟨_, _, rfl, hdd⟩, hcd, rfl⟩
        rw [expect_ahead s _ h1 (by decide), ht, ht2]
        simp
      · cases h
    · cases h
  · split at h
    · cases h
    · rename_i stmts s2 hc
      cases h
      obtain ⟨ctoks, ht2, hcd⟩ := (statement_sound fuel).2.1 _ _ _ hc
      exact ⟨ctoks, [], ht2, [], ctoks, stmts, rfl, Or.inl ⟨rfl, rfl⟩, hcd, rfl⟩
    · cases h

/-- Every normal return of parseProgram has consumed all tokens up to the end
of the input, and they are the tokens of a program. -/
theorem parseProgram_sound [Double R] [Stod R] (fuel : Nat) (s s' : ParserState R)
    (p : Program R) (h : parseProgram fuel s = some (.ok p, s')) :
    ProgramDerives returnedUnary true s.ahead p := by
  rw [parseProgram_eq] at h
  split at h
  · rename_i h1
    split at h
    · rename_i h2
      split at h
      · rename_i h3
        split at h
        · cases h
        · rename_i block s1 hb
          split at h
          · rename_i h4
            cases h
            obtain ⟨toks, ds, ht, hbd⟩ := parseBlock_sound fuel _ _ _ hb
            refine ⟨s.lookaheadLex, s.advance.lookaheadLex, s.advance.advance.lookaheadLex,
              toks, ds, block, ?_, hbd, rfl⟩
            rw [expect_ahead s _ h1 (by decide), expect_ahead s.advance _ h2 (by decide),
              expect_ahead s.advance.advance _ h3 (by decide), ht, ahead_of_eof s1 h4]
            simp
          · cases h
        · cases h
      · cases h
    · cases h
  · cases h

theorem bind_parseRead {R β : Type} (f : Statement R → ParseF R β) (s : ParserState R) :
    (ParseF.lift parseRead >>= f) s
      = if s.lookahead = .READ then
          if s.advance.lookahead = .OPENPAREN then
            if s.advance.advance.lookahead = .IDENT then
              if s.advance.advance.advance.lookahead = .CLOSEPAREN then
                f (.readStmt s.advance.advance.lookaheadLex) s.advance.advance.advance.advance
              else
                some (.error (.runtime_error (expectMessage
                    s.advance.advance.advance.advance.yylineno .CLOSEPAREN
                    "parseRead: Expected Close Parentheses"
                    s.advance.advance.advance.lookahead
                    s.advance.advance.advance.advance.yytext)),
                  s.advance.advance.advance.advance)
            else
              some (.error (.runtime_error (expectMessage s.advance.advance.advance.yylineno .IDENT
                  "parseRead: Expected Identifier" s.advance.advance.lookahead
                  s.advance.advance.advance.yytext)),
                s.advance.advance.advance)
          else
            some (.error (.runtime_error (expectMessage s.advance.advance.yylineno .OPENPAREN
                "parseRead: Expected Open Parentheses" s.advance.lookahead
                s.advance.advance.yytext)),
              s.advance.advance)
        else
          some (.error (.runtime_error (expectMessage s.advance.yylineno .READ
              "parseRead: Expected Read" s.lookahead s.advance.yytext)),
            s.advance) := by
  show ParseF.bind _ _ s = _
  unfold ParseF.bind ParseF.lift
  rw [parseRead_eq]
  by_cases h1 : s.lookahead = .READ
  · by_cases h2 : s.advance.lookahead = .OPENPAREN
    · by_cases h3 : s.advance.advance.lookahead = .IDENT
      · by_cases h4 : s.advance.advance.advance.lookahead = .CLOSEPAREN
        · simp only [h1, h2, h3, h4, if_true]
        · simp only [h1, h2, h3, h4, if_true, if_false]
      · simp only [h1, h2, h3, if_true, if_false]
    · simp only [h1, h2, if_true, if_false]
  · simp only [h1, if_false]

theorem bind_parseWrite {R β : Type} (f : Statement R → ParseF R β) (s : ParserState R) :
    (ParseF.lift parseWrite >>= f) s
      = if s.lookahead = .WRITE then
          if s.advance.lookahead = .OPENPAREN then
            if s.advance.advance.lookahead = .STRINGLIT
                ∨ s.advance.advance.lookahead = .IDENT then
              if s.advance.advance.advance.lookahead = .CLOSEPAREN then
                f (.writeStmt s.advance.advance.lookaheadLex s.advance.advance.lookahead)
                  s.advance.advance.advance.advance
              else
                some (.error (.runtime_error (expectMessage
                    s.advance.advance.advance.advance.yylineno .CLOSEPAREN
                    "To close write" s.advance.advance.advance.lookahead
                    s.advance.advance.advance.advance.yytext)),
                  s.advance.advance.advance.advance)
            else
              some (.error (.runtime_error
                  "parseWrite: Expected a String Lit or an Identifier"),
                s.advance.advance.peeked)
          else
            some (.error (.runtime_error (expectMessage s.advance.advance.yylineno .OPENPAREN
                "parseWrite: Must follow WRITE" s.advance.lookahead
                s.advance.advance.yytext)),
              s.advance.advance)
        else
          some (.error (.runtime_error (expectMessage s.advance.yylineno .WRITE
              "parseWrite: Start of a write" s.lookahead s.advance.yytext)),
            s.advance) := by
  show ParseF.bind _ _ s = _
  unfold ParseF.bind ParseF.lift
  rw [parseWrite_eq]
  by_cases h1 : s.lookahead = .WRITE
  · by_cases h2 : s.advance.lookahead = .OPENPAREN
    · by_cases h3 : s.advance.advance.lookahead = .STRINGLIT
          ∨ s.advance.advance.lookahead = .IDENT
      · by_cases h4 : s.advance.advance.advance.lookahead = .CLOSEPAREN
        · simp only [h1, h2, h3, h4, if_true]
        · simp only [h1, h2, h3, h4, if_true, if_false]
      · simp only [h1, h2, h3, if_true, if_false]
    · simp only [h1, h2, if_true, if_false]
  · simp only [h1, if_false]

/-! ### The grammar without the semicolon before END -/

theorem Derives.value_last_ne_semicolon [Stod R] {unary : Token → ValueNode R → ValueNode R}
    {c : Phrase} {toks : List (Token × String)} {e : ValueNode R}
    (h : Derives unary c toks e) :
    ∃ init last, toks = init ++ [last] ∧ last.1 ≠ .SEMICOLON := by
  induction h with
  | intlit x v h => exact ⟨[], _, rfl, by simp⟩
  | floatlit x v h => exact ⟨[], _, rfl, by simp⟩
  | ident x => exact ⟨[], _, rfl, by simp⟩
  | paren a b toks e h ih => exact ⟨(.OPENPAREN, a) :: toks, (.CLOSEPAREN, b), rfl, by simp⟩
  | plain toks e h ih => exact ih
  | incdec op x toks e hop h ih =>
    obtain ⟨init, last, rfl, hl⟩ := ih
    exact ⟨(op, x) :: init, last, rfl, hl⟩
  | single toks e h ih => exact ih
  | mulOp op x l r el er hl hop hr ihl ihr =>
    obtain ⟨init, last, rfl, hlast⟩ := ihr
    exact ⟨l ++ (op, x) :: init, last, by simp, hlast⟩
  | lone toks e h ih => exact ih
  | addOp op x l r el er hl hop hr ihl ihr =>
    obtain ⟨init, last, rfl, hlast⟩ := ihr
    exact ⟨l ++ (op, x) :: init, last, by simp, hlast⟩

theorem StmtDerives.stmt_last_ne_semicolon [Stod R] {unary : Token → ValueNode R → ValueNode R}
    {c : StmtPhrase R} {toks : List (Token × String)}
    (h : StmtDerives unary false c toks) :
    ∃ init last, toks = init ++ [last] ∧ last.1 ≠ .SEMICOLON := by
  induction h with
  | assign x a toks e h =>
    obtain ⟨init, last, rfl, hl⟩ := h.value_last_ne_semicolon
    exact ⟨(.IDENT, x) :: (.ASSIGN, a) :: init, last, rfl, hl⟩
  | read r o x c =>
    exact ⟨[(.READ, r), (.OPENPAREN, o), (.IDENT, x)], (.CLOSEPAREN, c), rfl, by simp⟩
  | write w o x c k hk =>
    exact ⟨[(.WRITE, w), (.OPENPAREN, o), (k, x)], (.CLOSEPAREN, c), rfl, by simp⟩
  | nested toks stmts h ih => exact ih
  | first toks st h ih => exact ih
  | next m l r stmts st hl hr ihl ihr =>
    obtain ⟨init, last, rfl, hlast⟩ := ihr
    exact ⟨l ++ (.SEMICOLON, m) :: init, last, by simp, hlast⟩
  | compound b e toks stmts h ih =>
    exact ⟨(.TOK_BEGIN, b) :: toks, (.END, e), rfl, by simp⟩
  | compoundSemi b m e toks stmts ht h ih => cases ht

theorem StmtDerives.compound_inv [Stod R] {unary : Token → ValueNode R → ValueNode R}
    {stmts : List (Statement R)} {toks : List (Token × String)}
    (h : StmtDerives unary false (.compound stmts) toks) :
    ∃ b e body, toks = (.TOK_BEGIN, b) :: body ++ [(.END, e)]
      ∧ StmtDerives unary false (.sequence stmts) body := by
  cases h with
  | compound b e body _ h => exact ⟨b, e, body, rfl, h⟩
  | compoundSemi b m e body _ ht h => cases ht

/-- In the grammar of the specification no compound ends in a semicolon
followed by END. -/
theorem StmtDerives.not_semicolon_end [Stod R] {unary : Token → ValueNode R → ValueNode R}
    (stmts : List (Statement R)) (front : List (Token × String)) (m e : String) :
    ¬ StmtDerives unary false (.compound stmts) (front ++ [(.SEMICOLON, m), (.END, e)]) := by
  intro h
  obtain ⟨b, e1, body, heq, hb⟩ := h.compound_inv
  obtain ⟨init, last, rfl, hlast⟩ := hb.stmt_last_ne_semicolon
  have h1 : (front ++ [(Token.SEMICOLON, m)]) ++ [(Token.END, e)]
      = ((Token.TOK_BEGIN, b) :: init ++ [last]) ++ [(Token.END, e1)] := by
    simpa using heq
  have h2 := (List.append_inj' h1 rfl).1
  have h3 : front ++ [(Token.SEMICOLON, m)] = ((Token.TOK_BEGIN, b) :: init) ++ [last] := by
    simpa using h2
  have h4 := (List.append_inj' h3 rfl).2
  simp only [List.cons.injEq, and_true] at h4
  rw [← h4] at hlast
  exact hlast rfl

/-! ### The parser returns or throws when the bound is large enough -/

theorem ahead_length_advance (s : ParserState R) (h : s.lookahead ≠ .TOK_EOF) :
    s.ahead.length = s.advance.ahead.length + 1 := by
  rw [ahead_of_ne s h]
  rfl

theorem ahead_length_le {s s' : ParserState R} {toks : List (Token × String)}
    (h : s.ahead = toks ++ s'.ahead) : s'.ahead.length ≤ s.ahead.length := by
  rw [h, List.length_append]
  omega

theorem parsePrimary_returns [Stod R] (fuel : Nat)
    (hv : ReturnsWithin (R := R) 4 fuel (parseValue fuel)) :
    ReturnsWithin (R := R) 1 (fuel + 1) (parsePrimary (fuel + 1)) := by
  intro s hf
  rw [parsePrimary_succ]
  split
  · split <;> simp
  · split
    · split <;> simp
    · split
      · simp
      · split
        · rename_i hk
          have hlen := ahead_length_advance s (by rw [hk]; decide)
          have h1 := hv s.advance (by omega)
          rcases hx : parseValue fuel s.advance with _ | ⟨_ | node, s1⟩
          · exact absurd hx h1
          · simp
          · simp only
            split <;> simp
        · simp

theorem parseFactor_returns [Stod R] (fuel : Nat)
    (hp : ReturnsWithin (R := R) 1 fuel (parsePrimary fuel)) :
    ReturnsWithin (R := R) 2 (fuel + 1) (parseFactor (fuel + 1)) := by
  intro s hf
  rw [parseFactor_succ]
  split
  · rename_i hop
    have hne : s.lookahead ≠ .TOK_EOF := by
      rcases hop with h | h <;> rw [h] <;> decide
    have hlen := ahead_length_advance s hne
    have h1 := hp s.advance (by omega)
    rcases hx : parsePrimary fuel s.advance with _ | ⟨_ | node, s1⟩
    · exact absurd hx h1
    · simp
    · simp
  · exact hp s (by omega)

theorem parseTermLoop_returns [Stod R] (fuel : Nat)
    (hf : ReturnsWithin (R := R) 2 fuel (parseFactor fuel))
    (hl : ∀ node, ReturnsWithin (R := R) 1 fuel (parseTermLoop fuel node)) (node : ValueNode R) :
    ReturnsWithin (R := R) 1 (fuel + 1) (parseTermLoop (fuel + 1) node) := by
  intro s hs
  rw [parseTermLoop_succ]
  split
  · rename_i hop
    have hlen := ahead_length_advance s (isMultiplicative_ne_eof _ hop)
    have h1 := hf s.advance (by omega)
    rcases hx : parseFactor fuel s.advance with _ | ⟨_ | rhs, s1⟩
    · exact absurd hx h1
    · simp
    · simp only
      obtain ⟨toks, ht, -⟩ := (expression_sound fuel).2.1 _ _ _ hx
      have hle := ahead_length_le ht
      exact hl _ s1 (by omega)
  · simp

theorem parseTerm_returns [Stod R] (fuel : Nat)
    (hf : ReturnsWithin (R := R) 2 fuel (parseFactor fuel))
    (hl : ∀ node, ReturnsWithin (R := R) 1 fuel (parseTermLoop fuel node)) :
    ReturnsWithin (R := R) 3 (fuel + 1) (parseTerm (fuel + 1)) := by
  intro s hs
  rw [parseTerm_succ]
  have h1 := hf s (by omega)
  rcases hx : parseFactor fuel s with _ | ⟨_ | node, s1⟩
  · exact absurd hx h1
  · simp
  · simp only
    obtain ⟨toks, ht, -⟩ := (expression_sound fuel).2.1 _ _ _ hx
    have hle := ahead_length_le ht
    exact hl _ s1 (by omega)

theorem parseValueLoop_returns [Stod R] (fuel : Nat)
    (hf : ReturnsWithin (R := R) 3 fuel (parseTerm fuel))
    (hl : ∀ node, ReturnsWithin (R := R) 1 fuel (parseValueLoop fuel node))
    (node : ValueNode R) :
    ReturnsWithin (R := R) 1 (fuel + 1) (parseValueLoop (fuel + 1) node) := by
  intro s hs
  rw [parseValueLoop_succ]
  split
  · rename_i hop
    have hlen := ahead_length_advance s (isAdditive_ne_eof _ hop)
    have h1 := hf s.advance (by omega)
    rcases hx : parseTerm fuel s.advance with _ | ⟨_ | rhs, s1⟩
    · exact absurd hx h1
    · simp
    · simp only
      obtain ⟨toks, ht, -⟩ := (expression_sound fuel).2.2.1 _ _ _ hx
      have hle := ahead_length_le ht
      exact hl _ s1 (by omega)
  · simp

theorem parseValue_returns [Stod R] (fuel : Nat)
    (hf : ReturnsWithin (R := R) 3 fuel (parseTerm fuel))
    (hl : ∀ node, ReturnsWithin (R := R) 1 fuel (parseValueLoop fuel node)) :
    ReturnsWithin (R := R) 4 (fuel + 1) (parseValue (fuel + 1)) := by
  intro s hs
  rw [parseValue_succ]
  have h1 := hf s (by omega)
  rcases hx : parseTerm fuel s with _ | ⟨_ | node, s1⟩
  · exact absurd hx h1
  · simp
  · simp only
    obtain ⟨toks, ht, -⟩ := (expression_sound fuel).2.2.1 _ _ _ hx
    have hle := ahead_length_le ht
    exact hl _ s1 (by omega)

/-- With a bound of four times the number of tokens in front of the end of the
input, and a little more, every function of the expression parser returns or
throws. -/
theorem expression_returns [Stod R] (fuel : Nat) :
    ReturnsWithin (R := R) 1 fuel (parsePrimary fuel)
      ∧ ReturnsWithin (R := R) 2 fuel (parseFactor fuel)
      ∧ (∀ node, ReturnsWithin (R := R) 1 fuel (parseTermLoop fuel node))
      ∧ ReturnsWithin (R := R) 3 fuel (parseTerm fuel)
      ∧ (∀ node, ReturnsWithin (R := R) 1 fuel (parseValueLoop fuel node))
      ∧ ReturnsWithin (R := R) 4 fuel (parseValue fuel) := by
  induction fuel with
  | zero =>
    refine ⟨?_, ?_, ?_, ?_, ?_, ?_⟩
    · intro s h
      omega
    · intro s h
      omega
    · intro node s h
      omega
    · intro s h
      omega
    · intro node s h
      omega
    · intro s h
      omega
  | succ n ih =>
    obtain ⟨h1, h2, h3, h4, h5, h6⟩ := ih
    exact ⟨parsePrimary_returns n h6, parseFactor_returns n h1, parseTermLoop_returns n h2 h3,
      parseTerm_returns n h2 h3, parseValueLoop_returns n h4 h5, parseValue_returns n h4 h5⟩

theorem parseAssign_returns [Stod R] (fuel : Nat) (s : ParserState R)
    (h : 4 * s.ahead.length ≤ fuel + 4) : parseAssign fuel s ≠ none := by
  rw [parseAssign_eq]
  split
  · rename_i h1
    split
    · rename_i h2
      have hlen1 := ahead_length_advance s (by rw [h1]; decide)
      have hlen2 := ahead_length_advance s.advance (by rw [h2]; decide)
      have hv := (expression_returns fuel).2.2.2.2.2 s.advance.advance (by omega)
      rcases hx : parseValue fuel s.advance.advance with _ | ⟨_ | v, s1⟩
      · exact absurd hx hv
      · simp
      · simp
    · simp
  · simp

theorem parseStatement_returns [Stod R] (fuel : Nat)
    (hc : ReturnsWithin (R := R) 1 fuel (parseCompound fuel)) :
    ReturnsWithin (R := R) 2 (fuel + 1) (parseStatement (fuel + 1)) := by
  intro s hs
  rw [parseStatement_succ]
  split
  · exact parseAssign_returns fuel s (by omega)
  · split
    · have h1 := hc s (by omega)
      rcases hx : parseCompound fuel s with _ | ⟨_ | stmts, s1⟩
      · exact absurd hx h1
      · simp
      · simp
    · split
      · simp
      · split <;> simp

theorem parseCompoundLoop_returns [Stod R] (fuel : Nat)
    (hs : ReturnsWithin (R := R) 2 fuel (parseStatement fuel))
    (hl : ∀ stmts, ReturnsWithin (R := R) 1 fuel (parseCompoundLoop fuel stmts))
    (stmts : List (Statement R)) :
    ReturnsWithin (R := R) 1 (fuel + 1) (parseCompoundLoop (fuel + 1) stmts) := by
  intro s hf
  rw [parseCompoundLoop_succ]
  split
  · rename_i h1
    split
    · simp
    · have hlen := ahead_length_advance s (by rw [h1]; decide)
      have h2 := hs s.advance (by omega)
      rcases hx : parseStatement fuel s.advance with _ | ⟨_ | next, s1⟩
      · exact absurd hx h2
      · simp
      · simp only
        obtain ⟨toks, ht, -⟩ := (statement_sound fuel).1 _ _ _ hx
        have hle := ahead_length_le ht
        exact hl _ s1 (by omega)
  · split <;> simp

theorem parseCompound_returns [Stod R] (fuel : Nat)
    (hs : ReturnsWithin (R := R) 2 fuel (parseStatement fuel))
    (hl : ∀ stmts, ReturnsWithin (R := R) 1 fuel (parseCompoundLoop fuel stmts)) :
    ReturnsWithin (R := R) 1 (fuel + 1) (parseCompound (fuel + 1)) := by
  intro s hf
  rw [parseCompound_succ]
  split
  · rename_i h1
    have hlen := ahead_length_advance s (by rw [h1]; decide)
    have h2 := hs s.advance (by omega)
    rcases hx : parseStatement fuel s.advance with _ | ⟨_ | first, s1⟩
    · exact absurd hx h2
    · simp
    · simp only
      obtain ⟨toks, ht, -⟩ := (statement_sound fuel).1 _ _ _ hx
      have hle := ahead_length_le ht
      exact hl _ s1 (by omega)
  · simp

/-- With a bound of four times the number of tokens in front of the end of the
input, and a little more, every function of the statement parser returns or
throws. -/
theorem statement_returns [Stod R] (fuel : Nat) :
    ReturnsWithin (R := R) 2 fuel (parseStatement fuel)
      ∧ ReturnsWithin (R := R) 1 fuel (parseCompound fuel)
      ∧ (∀ stmts, ReturnsWithin (R := R) 1 fuel (parseCompoundLoop fuel stmts)) := by
  induction fuel with
  | zero =>
    refine ⟨?_, ?_, ?_⟩
    · intro s h
      omega
    · intro s h
      omega
    · intro stmts s h
      omega
  | succ n ih =>
    obtain ⟨h1, h2, h3⟩ := ih
    exact ⟨parseStatement_returns n h2, parseCompound_returns n h1 h3,
      parseCompoundLoop_returns n h1 h3⟩

theorem parseDeclaration_ahead [Double R] (s s1 : ParserState R) (u : Unit)
    (h : parseDeclaration s = (.ok u, s1)) : s.ahead.length = s1.ahead.length + 4 := by
  rw [parseDeclaration_unfold] at h
  split at h
  · rename_i h1
    split at h
    · rename_i h2
      split at h
      · rename_i h3
        split at h
        · rename_i h4
          split at h
          · cases h
          · simp only [Prod.mk.injEq, Except.ok.injEq, true_and] at h
            subst h
            have hne : s.advance.advance.lookahead ≠ .TOK_EOF := by
              rcases h3 with h | h <;> rw [h] <;> decide
            rw [ahead_length_advance s (by rw [h1]; decide),
              ahead_length_advance s.advance (by rw [h2]; decide),
              ahead_length_advance s.advance.advance hne,
              ahead_length_advance s.advance.advance.advance (by rw [h4]; decide)]
            rfl
        · cases h
      · cases h
    · cases h
  · cases h

theorem parseDeclarations_returns [Double R] (fuel : Nat) :
    ReturnsWithin (R := R) 1 fuel (parseDeclarations fuel) := by
  induction fuel with
  | zero =>
    intro s h
    omega
  | succ n ih =>
    intro s hf
    rw [parseDeclarations_succ]
    split
    · rcases hx : parseDeclaration s with ⟨_ | u, s1⟩
      · simp
      · simp only
        have hlen := parseDeclaration_ahead s s1 u hx
        exact ih s1 (by omega)
    · simp

theorem parseBlock_returns [Double R] [Stod R] (fuel : Nat) :
    ReturnsWithin (R := R) 1 fuel (parseBlock fuel) := by
  intro s hf
  rw [parseBlock_eq]
  split
  · rename_i h1
    have hlen := ahead_length_advance s (by rw [h1]; decide)
    have h2 := parseDeclarations_returns fuel s.advance (by omega)
    rcases hx : parseDeclarations fuel s.advance with _ | ⟨_ | u, s1⟩
    · exact absurd hx h2
    · simp
    · simp only
      obtain ⟨toks, ds, ht, -, -⟩ := parseDeclarations_sound fuel _ _ hx
      have hle := ahead_length_le ht
      have h3 := (statement_returns fuel).2.1 s1 (by omega)
      rcases hy : parseCompound fuel s1 with _ | ⟨_ | stmts, s2⟩
      · exact absurd hy h3
      · simp
      · simp
  · have h3 := (statement_returns fuel).2.1 s (by omega)
    rcases hy : parseCompound fuel s with _ | ⟨_ | stmts, s2⟩
    · exact absurd hy h3
    · simp
    · simp

/-- With a bound of four times the number of tokens in front of the end of the
input, plus one, parseProgram returns or throws. -/
theorem parseProgram_returns [Double R] [Stod R] (fuel : Nat) :
    ReturnsWithin (R := R) 1 fuel (parseProgram fuel) := by
  intro s hf
  rw [parseProgram_eq]
  split
  · rename_i h1
    split
    · rename_i h2
      split
      · rename_i h3
        have hlen1 := ahead_length_advance s (by rw [h1]; decide)
        have hlen2 := ahead_length_advance s.advance (by rw [h2]; decide)
        have hlen3 := ahead_length_advance s.advance.advance (by rw [h3]; decide)
        have h4 := parseBlock_returns fuel s.advance.advance.advance (by omega)
        rcases hx : parseBlock fuel s.advance.advance.advance with _ | ⟨_ | block, s1⟩
        · exact absurd hx h4
        · simp
        · simp only
          split <;> simp
      · simp
    · simp
  · simp

/-! ### No phrase of the grammar holds an unknown lexeme -/

theorem Derives.expr_no_unknown [Stod R] {unary : Token → ValueNode R → ValueNode R}
    {c : Phrase} {toks : List (Token × String)} {e : ValueNode R}
    (h : Derives unary c toks e) : ∀ t ∈ toks, t.1 ≠ .UNKNOWN := by
  induction h with
  | intlit x v h => simp
  | floatlit x v h => simp
  | ident x => simp
  | paren a b toks e h ih =>
    simp only [List.cons_append, List.forall_mem_cons, List.forall_mem_append,
      List.mem_singleton, forall_eq]
    exact ⟨by simp, ih, by simp⟩
  | plain toks e h ih => exact ih
  | incdec op x toks e hop h ih =>
    simp only [List.forall_mem_cons]
    refine ⟨?_, ih⟩
    rcases hop with h | h <;> simp [h]
  | single toks e h ih => exact ih
  | mulOp op x l r el er hl hop hr ihl ihr =>
    simp only [List.forall_mem_append, List.forall_mem_cons]
    refine ⟨ihl, ?_, ihr⟩
    rcases hop with h | h | h | h <;> simp [h]
  | lone toks e h ih => exact ih
  | addOp op x l r el er hl hop hr ihl ihr =>
    simp only [List.forall_mem_append, List.forall_mem_cons]
    refine ⟨ihl, ?_, ihr⟩
    rcases hop with h | h <;> simp [h]

theorem StmtDerives.stmt_no_unknown [Stod R] {unary : Token → ValueNode R → ValueNode R}
    {trailing : Bool} {c : StmtPhrase R} {toks : List (Token × String)}
    (h : StmtDerives unary trailing c toks) : ∀ t ∈ toks, t.1 ≠ .UNKNOWN := by
  induction h with
  | assign x a toks e h =>
    simp only [List.forall_mem_cons]
    exact ⟨by simp, by simp, h.expr_no_unknown⟩
  | read r o x c => simp
  | write w o x c k hk =>
    simp only [List.forall_mem_cons]
    refine ⟨by simp, by simp, ?_, by simp⟩
    rcases hk with h | h <;> simp [h]
  | nested toks stmts h ih => exact ih
  | first toks st h ih => exact ih
  | next m l r stmts st hl hr ihl ihr =>
    simp only [List.forall_mem_append, List.forall_mem_cons]
    exact ⟨ihl, by simp, ihr⟩
  | compound b e toks stmts h ih =>
    simp only [List.cons_append, List.forall_mem_cons, List.forall_mem_append,
      List.mem_singleton, forall_eq]
    exact ⟨by simp, ih, by simp⟩
  | compoundSemi b m e toks stmts ht h ih =>
    simp only [List.cons_append, List.forall_mem_cons, List.forall_mem_append]
    exact ⟨by simp, ih, by simp⟩

theorem DeclsDerive.decls_no_unknown {toks : List (Token × String)} {ds : List (String × Token)}
    (h : DeclsDerive toks ds) : ∀ t ∈ toks, t.1 ≠ .UNKNOWN := by
  induction h with
  | nil => simp
  | cons x c t m k rest ds hk h ih =>
    simp only [List.forall_mem_cons]
    refine ⟨by simp, by simp, ?_, by simp, ih⟩
    rcases hk with h | h <;> simp [h]

theorem ProgramDerives.program_no_unknown [Stod R] {unary : Token → ValueNode R → ValueNode R}
    {trailing : Bool} {toks : List (Token × String)} {p : Program R}
    (h : ProgramDerives unary trailing toks p) : ∀ t ∈ toks, t.1 ≠ .UNKNOWN := by
  obtain ⟨a, x, m, rest, ds, b, rfl, ⟨decls, body, stmts, rfl, hd, hc, -⟩, -⟩ := h
  simp only [List.forall_mem_cons, List.forall_mem_append]
  refine ⟨by simp, by simp, by simp, ?_, hc.stmt_no_unknown⟩
  rcases hd with ⟨rfl, -⟩ | ⟨v, dtoks, rfl, hdd⟩
  · simp
  · simp only [List.forall_mem_cons]
    exact ⟨by simp, hdd.decls_no_unknown⟩

/-! ### The expression parser parses every value of the grammar -/

theorem ahead_cons_inv (s : ParserState R) (k : Token) (x : String)
    (rest : List (Token × String)) (h : s.ahead = (k, x) :: rest) :
    s.lookahead = k ∧ s.lookaheadLex = x ∧ s.advance.ahead = rest ∧ k ≠ .TOK_EOF := by
  by_cases he : s.lookahead = .TOK_EOF
  · rw [ahead_of_eof s he] at h
    cases h
  · rw [ahead_of_ne s he] at h
    simp only [List.cons.injEq, Prod.mk.injEq] at h
    obtain ⟨⟨h1, h2⟩, h3⟩ := h
    exact ⟨h1, h2, h3, h1 ▸ he⟩

theorem lookahead_of_ahead (s : ParserState R) (P : Token → Prop) (hP : ¬ P .TOK_EOF)
    (h : ∀ t, s.ahead.head? = some t → ¬ P t.1) : ¬ P s.lookahead := by
  by_cases he : s.lookahead = .TOK_EOF
  · rw [he]
    exact hP
  · exact h (s.lookahead, s.lookaheadLex) (by rw [ahead_of_ne s he]; rfl)

theorem not_isMultiplicative_eof : ¬ Token.TOK_EOF.isMultiplicative := by decide

theorem not_isAdditive_eof : ¬ Token.TOK_EOF.isAdditive := by decide

theorem isAdditive_not_isMultiplicative (t : Token) (h : t.isAdditive) :
    ¬ t.isMultiplicative := by
  rcases h with h | h <;> rw [h] <;> decide

theorem Runs.of_succ {α : Type} {m : Nat → ParseF R α} {s : ParserState R}
    {r : Except Err α × ParserState R} (f0 : Nat)
    (h : ∀ f, f0 ≤ f → m (f + 1) s = some r) : Runs m s r := by
  refine ⟨f0 + 1, ?_⟩
  intro f hf
  obtain ⟨g, rfl⟩ : ∃ g, f = g + 1 := ⟨f - 1, by omega⟩
  exact h g (by omega)

theorem parseTermLoop_done [Stod R] (node : ValueNode R) (s : ParserState R)
    (h : ¬ s.lookahead.isMultiplicative) :
    Runs (fun f => parseTermLoop f node) s (.ok node, s.peeked) := by
  refine Runs.of_succ 0 ?_
  intro f _
  show parseTermLoop (f + 1) node s = _
  rw [parseTermLoop_succ, if_neg h]

theorem parseValueLoop_done [Stod R] (node : ValueNode R) (s : ParserState R)
    (h : ¬ s.lookahead.isAdditive) :
    Runs (fun f => parseValueLoop f node) s (.ok node, s.peeked) := by
  refine Runs.of_succ 0 ?_
  intro f _
  show parseValueLoop (f + 1) node s = _
  rw [parseValueLoop_succ, if_neg h]

theorem parseTermLoop_step [Stod R] (node rhs : ValueNode R) (s s1 : ParserState R)
    (r : Except Err (ValueNode R) × ParserState R) (h : s.lookahead.isMultiplicative)
    (hf : Runs parseFactor s.advance (.ok rhs, s1))
    (hl : Runs (fun f => parseTermLoop f (.BinaryOp s.lookahead node rhs)) s1 r) :
    Runs (fun f => parseTermLoop f node) s r := by
  obtain ⟨f1, h1⟩ := hf
  obtain ⟨f2, h2⟩ := hl
  refine Runs.of_succ (max f1 f2) ?_
  intro f hle
  show parseTermLoop (f + 1) node s = _
  rw [parseTermLoop_succ, if_pos h, h1 f (by omega)]
  exact h2 f (by omega)

theorem parseValueLoop_step [Stod R] (node rhs : ValueNode R) (s s1 : ParserState R)
    (r : Except Err (ValueNode R) × ParserState R) (h : s.lookahead.isAdditive)
    (hf : Runs parseTerm s.advance (.ok rhs, s1))
    (hl : Runs (fun f => parseValueLoop f (.BinaryOp s.lookahead node rhs)) s1 r) :
    Runs (fun f => parseValueLoop f node) s r := by
  obtain ⟨f1, h1⟩ := hf
  obtain ⟨f2, h2⟩ := hl
  refine Runs.of_succ (max f1 f2) ?_
  intro f hle
  show parseValueLoop (f + 1) node s = _
  rw [parseValueLoop_succ, if_pos h, h1 f (by omega)]
  exact h2 f (by omega)

theorem parseTerm_intro [Stod R] (node : ValueNode R) (s s1 : ParserState R)
    (r : Except Err (ValueNode R) × ParserState R)
    (hf : Runs parseFactor s (.ok node, s1))
    (hl : Runs (fun f => parseTermLoop f node) s1 r) : Runs parseTerm s r := by
  obtain ⟨f1, h1⟩ := hf
  obtain ⟨f2, h2⟩ := hl
  refine Runs.of_succ (max f1 f2) ?_
  intro f hle
  rw [parseTerm_succ, h1 f (by omega)]
  exact h2 f (by omega)

theorem parseValue_intro [Stod R] (node : ValueNode R) (s s1 : ParserState R)
    (r : Except Err (ValueNode R) × ParserState R)
    (hf : Runs parseTerm s (.ok node, s1))
    (hl : Runs (fun f => parseValueLoop f node) s1 r) : Runs parseValue s r := by
  obtain ⟨f1, h1⟩ := hf
  obtain ⟨f2, h2⟩ := hl
  refine Runs.of_succ (max f1 f2) ?_
  intro f hle
  rw [parseValue_succ, h1 f (by omega)]
  exact h2 f (by omega)

theorem parseValueLoop_peeked [Stod R] (fuel : Nat) (node : ValueNode R) (s : ParserState R) :
    parseValueLoop fuel node s.peeked = parseValueLoop fuel node s := by
  cases fuel with
  | zero => rfl
  | succ n =>
    rw [parseValueLoop_succ, parseValueLoop_succ]
    simp only [lookahead_peeked, advance_peeked, peeked_peeked]

theorem Derives.primary_first [Stod R] {unary : Token → ValueNode R → ValueNode R}
    {toks : List (Token × String)} {e : ValueNode R} (h : Derives unary .primary toks e) :
    ∃ k x tail, toks = (k, x) :: tail ∧ k ≠ .INCREMENT ∧ k ≠ .DECREMENT := by
  cases h with
  | intlit x v h => exact ⟨_, _, _, rfl, by decide, by decide⟩
  | floatlit x v h => exact ⟨_, _, _, rfl, by decide, by decide⟩
  | ident x => exact ⟨_, _, _, rfl, by decide, by decide⟩
  | paren a b toks e h => exact ⟨_, _, _, rfl, by decide, by decide⟩

/-- Every phrase of the expression grammar is parsed into its tree. -/
theorem Derives.completes [Stod R] {c : Phrase} {toks : List (Token × String)}
    {e : ValueNode R} (h : Derives returnedUnary c toks e) : Completes c toks e := by
  induction h with
  | intlit x v h =>
    intro s rest hs
    obtain ⟨h1, h2, h3, -⟩ := ahead_cons_inv s _ _ _ hs
    refine ⟨s.advance, h3, Runs.of_succ 0 ?_⟩
    intro f _
    rw [parsePrimary_succ, h1, h2, h]
    rfl
  | floatlit x v h =>
    intro s rest hs
    obtain ⟨h1, h2, h3, -⟩ := ahead_cons_inv s _ _ _ hs
    refine ⟨s.advance, h3, Runs.of_succ 0 ?_⟩
    intro f _
    rw [parsePrimary_succ, h1, h2, h]
    rfl
  | ident x =>
    intro s rest hs
    obtain ⟨h1, h2, h3, -⟩ := ahead_cons_inv s _ _ _ hs
    refine ⟨s.advance, h3, Runs.of_succ 0 ?_⟩
    intro f _
    rw [parsePrimary_succ, h1, h2]
    rfl
  | paren a b toks e h ih =>
    intro s rest hs
    obtain ⟨h1, -, h3, -⟩ := ahead_cons_inv s _ _ _ hs
    have hs1 : s.advance.ahead = toks ++ ((.CLOSEPAREN, b) :: rest) := by
      rw [h3]
      simp
    obtain ⟨s1, q1, q2⟩ := ih s.advance _ hs1 (by
      intro t ht
      cases ht
      show ¬ Token.CLOSEPAREN.isMultiplicative
      decide)
    obtain ⟨c1, -, c3, -⟩ := ahead_cons_inv s1 _ _ _ q1
    obtain ⟨f1, hv⟩ := q2 _ (parseValueLoop_done e s1 (by rw [c1]; decide))
    refine ⟨s1.advance, c3, Runs.of_succ f1 ?_⟩
    intro f hf
    rw [parsePrimary_succ, h1, hv f hf]
    simp only [reduceCtorEq, if_false, if_true, lookahead_peeked, c1, advance_peeked]
  | plain toks e h ih =>
    intro s rest hs
    obtain ⟨s1, q1, f1, q2⟩ := ih s rest hs
    obtain ⟨k, x, tail, rfl, hk1, hk2⟩ := h.primary_first
    obtain ⟨h1, -, -, -⟩ := ahead_cons_inv s _ _ _ hs
    refine ⟨s1, q1, Runs.of_succ f1 ?_⟩
    intro f hf
    rw [parseFactor_succ, if_neg (by rw [h1]; exact not_or.mpr ⟨hk1, hk2⟩)]
    exact q2 f hf
  | incdec op x toks e hop h ih =>
    intro s rest hs
    obtain ⟨h1, -, h3, -⟩ := ahead_cons_inv s _ _ _ hs
    obtain ⟨s1, q1, f1, q2⟩ := ih s.advance rest h3
    refine ⟨s1, q1, Runs.of_succ f1 ?_⟩
    intro f hf
    rw [parseFactor_succ, if_pos (by rw [h1]; exact hop), q2 f hf]
    rfl
  | single toks e h ih =>
    intro s rest hs
    obtain ⟨s1, q1, q2⟩ := ih s rest hs
    exact ⟨s1, q1, fun r hr => parseTerm_intro e s s1 r q2 hr⟩
  | mulOp op x l r el er hl hop hr ihl ihr =>
    intro s rest hs
    have hs1 : s.ahead = l ++ ((op, x) :: r ++ rest) := by
      rw [hs]
      simp
    obtain ⟨s1, q1, q2⟩ := ihl s _ hs1
    obtain ⟨c1, -, c3, -⟩ := ahead_cons_inv s1 _ _ _ q1
    obtain ⟨s2, p1, p2⟩ := ihr s1.advance rest c3
    refine ⟨s2, p1, fun res hres => q2 res ?_⟩
    refine parseTermLoop_step el er s1 s2 res (by rw [c1]; exact hop) p2 ?_
    rw [c1]
    exact hres
  | lone toks e h ih =>
    intro s rest hs hrest
    obtain ⟨s1, q1, q2⟩ := ih s rest hs
    have hnm : ¬ s1.lookahead.isMultiplicative :=
      lookahead_of_ahead s1 _ not_isMultiplicative_eof (by rw [q1]; exact hrest)
    refine ⟨s1.peeked, by rw [ahead_peeked]; exact q1, fun res hres => ?_⟩
    exact parseValue_intro e s s1.peeked res (q2 _ (parseTermLoop_done e s1 hnm)) hres
  | addOp op x l r el er hl hop hr ihl ihr =>
    intro s rest hs hrest
    have hs1 : s.ahead = l ++ ((op, x) :: r ++ rest) := by
      rw [hs]
      simp
    obtain ⟨s1, q1, q2⟩ := ihl s _ hs1 (by
      intro t ht
      cases ht
      exact isAdditive_not_isMultiplicative op hop)
    obtain ⟨c1, -, c3, -⟩ := ahead_cons_inv s1 _ _ _ q1
    obtain ⟨s2, p1, p2⟩ := ihr s1.advance rest c3
    have hnm : ¬ s2.lookahead.isMultiplicative :=
      lookahead_of_ahead s2 _ not_isMultiplicative_eof (by rw [p1]; exact hrest)
    refine ⟨s2.peeked, by rw [ahead_peeked]; exact p1, fun res hres => q2 res ?_⟩
    refine parseValueLoop_step el er s1 s2.peeked res (by rw [c1]; exact hop)
      (p2 _ (parseTermLoop_done er s2 hnm)) ?_
    rw [c1]
    exact hres

/-- For tokens without ++ and -- the tree of the grammar does not depend on the
node built for them. -/
theorem Derives.unary_irrelevant [Stod R] {u1 u2 : Token → ValueNode R → ValueNode R}
    {c : Phrase} {toks : List (Token × String)} {e : ValueNode R}
    (h : Derives u1 c toks e)
    (hn : ∀ t ∈ toks, t.1 ≠ .INCREMENT ∧ t.1 ≠ .DECREMENT) : Derives u2 c toks e := by
  induction h with
  | intlit x v h => exact Derives.intlit x v h
  | floatlit x v h => exact Derives.floatlit x v h
  | ident x => exact Derives.ident x
  | paren a b toks e h ih =>
    refine Derives.paren a b toks e (ih ?_)
    intro t ht
    exact hn t (by simp [ht])
  | plain toks e h ih => exact Derives.plain toks e (ih hn)
  | incdec op x toks e hop h ih =>
    have := hn (op, x) (by simp)
    rcases hop with h1 | h1
    · exact absurd h1 this.1
    · exact absurd h1 this.2
  | single toks e h ih => exact Derives.single toks e (ih hn)
  | mulOp op x l r el er hl hop hr ihl ihr =>
    refine Derives.mulOp op x l r el er (ihl ?_) hop (ihr ?_)
    · intro t ht
      exact hn t (by simp [ht])
    · intro t ht
      exact hn t (by simp [ht])
  | lone toks e h ih => exact Derives.lone toks e (ih hn)
  | addOp op x l r el er hl hop hr ihl ihr =>
    refine Derives.addOp op x l r el er (ihl ?_) hop (ihr ?_)
    · intro t ht
      exact hn t (by simp [ht])
    · intro t ht
      exact hn t (by simp [ht])

theorem Derives.identValue [Stod R] (unary : Token → ValueNode R → ValueNode R) (x : String) :
    Derives unary .value [(.IDENT, x)] (.IdentNode x) :=
  Derives.lone _ _ (Derives.single _ _ (Derives.plain _ _ (Derives.ident x)))

theorem Derives.identTerm [Stod R] (unary : Token → ValueNode R → ValueNode R) (x : String) :
    Derives unary .term [(.IDENT, x)] (.IdentNode x) :=
  Derives.single _ _ (Derives.plain _ _ (Derives.ident x))

/-! ### The statement parser and the symbol table -/

theorem peeked_withTable (s : ParserState R) (t : SymbolTable R) :
    (s.withTable t).peeked = s.peeked.withTable t := by
  unfold ParserState.peeked peek ParserState.withTable yylex
  by_cases h : s.havePeek = true
  · simp [h]
  · simp only [h]
    cases s.input <;> rfl

theorem lookahead_withTable (s : ParserState R) (t : SymbolTable R) :
    (s.withTable t).lookahead = s.lookahead := by
  show (s.withTable t).peeked.peekTok = s.peeked.peekTok
  rw [peeked_withTable]
  rfl

theorem lookaheadLex_withTable (s : ParserState R) (t : SymbolTable R) :
    (s.withTable t).lookaheadLex = s.lookaheadLex := by
  show (s.withTable t).peeked.peekLex = s.peeked.peekLex
  rw [peeked_withTable]
  rfl

theorem advance_withTable (s : ParserState R) (t : SymbolTable R) :
    (s.withTable t).advance = s.advance.withTable t := by
  show { (s.withTable t).peeked with havePeek := false }
    = ({ s.peeked with havePeek := false } : ParserState R).withTable t
  rw [peeked_withTable]
  rfl

theorem withTable_self (s : ParserState R) : s.withTable s.symbolTable = s := rfl

theorem blindP_pure {α : Type} (a : α) : TableBlindP (pure a : Parse R α) :=
  fun _ _ => rfl

theorem blindP_throw {α : Type} (e : Err) : TableBlindP (Parse.throw e : Parse R α) :=
  fun _ _ => rfl

theorem blindP_bind {α β : Type} {m : Parse R α} {f : α → Parse R β}
    (hm : TableBlindP m) (hf : ∀ a, TableBlindP (f a)) : TableBlindP (m >>= f) := by
  intro s t
  show Parse.bind m f (s.withTable t) = ((Parse.bind m f s).1, (Parse.bind m f s).2.withTable t)
  unfold Parse.bind
  rw [hm s t]
  rcases m s with ⟨_ | a, s1⟩
  · rfl
  · exact hf a s1 t

theorem blindP_get_bind {β : Type} {f : ParserState R → Parse R β}
    (h : ∀ s0 t, f (s0.withTable t) = f s0) (hf : ∀ s0, TableBlindP (f s0)) :
    TableBlindP (Parse.get >>= f) := by
  intro s t
  show f (s.withTable t) (s.withTable t) = _
  rw [h]
  exact hf s s t

theorem blindP_peek : TableBlindP (peek : Parse R Token) := by
  intro s t
  rw [peek_eq, peek_eq, lookahead_withTable, peeked_withTable]

theorem blindP_expect (want : Token) (msg : String) :
    TableBlindP (expect want msg : Parse R Token) := by
  intro s t
  rw [expect_eq, expect_eq, lookahead_withTable, advance_withTable]
  by_cases h : s.lookahead = want
  · simp only [h, if_true]
  · simp only [h, if_false]
    rfl

theorem blindP_ofExcept {α : Type} (x : Except Err α) :
    TableBlindP (Parse.ofExcept x : Parse R α) := by
  cases x <;> exact fun _ _ => rfl

theorem blindP_parseRead : TableBlindP (parseRead : Parse R (Statement R)) :=
  blindP_bind (blindP_expect _ _) fun _ =>
    blindP_bind (blindP_expect _ _) fun _ =>
    blindP_bind (blindP_expect _ _) fun _ =>
    blindP_get_bind (fun _ _ => rfl) fun _ =>
    blindP_bind (blindP_expect _ _) fun _ => blindP_pure _

theorem blindP_parseWrite : TableBlindP (parseWrite : Parse R (Statement R)) := by
  refine blindP_bind (blindP_expect _ _) fun _ =>
    blindP_bind (blindP_expect _ _) fun _ =>
    blindP_bind blindP_peek fun type => ?_
  split
  · exact blindP_throw _
  · exact blindP_get_bind (fun _ _ => rfl) fun _ =>
      blindP_bind (blindP_expect _ _) fun _ =>
      blindP_bind (blindP_expect _ _) fun _ => blindP_pure _

theorem blind_pure {α : Type} (a : α) : TableBlind (pure a : ParseF R α) :=
  fun _ _ => rfl

theorem blind_stop {α : Type} : TableBlind (ParseF.stop : ParseF R α) :=
  fun _ _ => rfl

theorem blind_lift {α : Type} {m : Parse R α} (hm : TableBlindP m) :
    TableBlind (ParseF.lift m) := by
  intro s t
  show some (m (s.withTable t)) = some _
  rw [hm s t]

theorem blind_bind {α β : Type} {m : ParseF R α} {f : α → ParseF R β}
    (hm : TableBlind m) (hf : ∀ a, TableBlind (f a)) : TableBlind (m >>= f) := by
  intro s t
  rw [bind_apply, bind_apply, hm s t]
  rcases m s with _ | ⟨_ | a, s1⟩
  · rfl
  · rfl
  · exact hf a s1 t

theorem blind_get_bind {β : Type} {f : ParserState R → ParseF R β}
    (h : ∀ s0 t, f (s0.withTable t) = f s0) (hf : ∀ s0, TableBlind (f s0)) :
    TableBlind (ParseF.lift Parse.get >>= f) := by
  intro s t
  rw [bind_get, bind_get, h]
  exact hf s s t

theorem blind_expect_bind {β : Type} (want : Token) (msg : String)
    {f : Token → ParseF R β} (hf : ∀ a, TableBlind (f a)) :
    TableBlind (ParseF.lift (expect want msg) >>= f) :=
  blind_bind (blind_lift (blindP_expect want msg)) hf

theorem blind_peek_bind {β : Type} {f : Token → ParseF R β}
    (hf : ∀ a, TableBlind (f a)) : TableBlind (ParseF.lift peek >>= f) :=
  blind_bind (blind_lift blindP_peek) hf

theorem blind_parsePrimary [Stod R] (fuel : Nat)
    (hv : TableBlind (R := R) (parseValue fuel)) :
    TableBlind (R := R) (parsePrimary (fuel + 1)) := by
  rw [parsePrimary]
  refine blind_peek_bind fun type => ?_
  split
  · exact blind_get_bind (fun _ _ => rfl) fun _ =>
      blind_expect_bind _ _ fun _ =>
      blind_bind (blind_lift (blindP_ofExcept _)) fun _ => blind_pure _
  · exact blind_get_bind (fun _ _ => rfl) fun _ =>
      blind_expect_bind _ _ fun _ =>
      blind_bind (blind_lift (blindP_ofExcept _)) fun _ => blind_pure _
  · exact blind_get_bind (fun _ _ => rfl) fun _ =>
      blind_expect_bind _ _ fun _ => blind_pure _
  · exact blind_expect_bind _ _ fun _ =>
      blind_bind hv fun _ => blind_expect_bind _ _ fun _ => blind_pure _
  · exact blind_lift (blindP_throw _)

theorem blind_parseFactor [Stod R] (fuel : Nat)
    (hp : TableBlind (R := R) (parsePrimary fuel)) :
    TableBlind (R := R) (parseFactor (fuel + 1)) := by
  rw [parseFactor]
  refine blind_peek_bind fun type => ?_
  split
  · exact blind_expect_bind _ _ fun _ => blind_bind hp fun _ => blind_pure _
  · exact hp

theorem blind_parseTermLoop [Stod R] (fuel : Nat)
    (hf : TableBlind (R := R) (parseFactor fuel))
    (hl : ∀ node, TableBlind (R := R) (parseTermLoop fuel node)) (node : ValueNode R) :
    TableBlind (R := R) (parseTermLoop (fuel + 1) node) := by
  rw [parseTermLoop]
  refine blind_peek_bind fun type => ?_
  split
  · exact blind_expect_bind _ _ fun _ => blind_bind hf fun _ => hl _
  · exact blind_pure _

theorem blind_parseValueLoop [Stod R] (fuel : Nat)
    (hf : TableBlind (R := R) (parseTerm fuel))
    (hl : ∀ node, TableBlind (R := R) (parseValueLoop fuel node)) (node : ValueNode R) :
    TableBlind (R := R) (parseValueLoop (fuel + 1) node) := by
  rw [parseValueLoop]
  refine blind_peek_bind fun type => ?_
  split
  · exact blind_expect_bind _ _ fun _ => blind_bind hf fun _ => hl _
  · exact blind_pure _

theorem expression_tableBlind [Stod R] (fuel : Nat) :
    TableBlind (R := R) (parsePrimary fuel)
      ∧ TableBlind (R := R) (parseFactor fuel)
      ∧ (∀ node, TableBlind (R := R) (parseTermLoop fuel node))
      ∧ TableBlind (R := R) (parseTerm fuel)
      ∧ (∀ node, TableBlind (R := R) (parseValueLoop fuel node))
      ∧ TableBlind (R := R) (parseValue fuel) := by
  induction fuel with
  | zero =>
    refine ⟨?_, ?_, ?_, ?_, ?_, ?_⟩
    · rw [parsePrimary]; exact blind_stop
    · rw [parseFactor]; exact blind_stop
    · intro node; rw [parseTermLoop]; exact blind_stop
    · rw [parseTerm]; exact blind_stop
    · intro node; rw [parseValueLoop]; exact blind_stop
    · rw [parseValue]; exact blind_stop
  | succ fuel ih =>
    obtain ⟨hp, hf, htl, ht, hvl, hv⟩ := ih
    refine ⟨blind_parsePrimary fuel hv, blind_parseFactor fuel hp,
      blind_parseTermLoop fuel hf htl, ?_, blind_parseValueLoop fuel ht hvl, ?_⟩
    · rw [parseTerm]
      exact blind_bind hf htl
    · rw [parseValue]
      exact blind_bind ht hvl

theorem blind_parseAssign [Stod R] (fuel : Nat) :
    TableBlind (R := R) (parseAssign fuel) :=
  blind_expect_bind _ _ fun _ =>
    blind_get_bind (fun _ _ => rfl) fun _ =>
    blind_expect_bind _ _ fun _ =>
    blind_bind (expression_tableBlind fuel).2.2.2.2.2 fun _ => blind_pure _

theorem statement_tableBlind [Stod R] (fuel : Nat) :
    TableBlind (R := R) (parseStatement fuel)
      ∧ TableBlind (R := R) (parseCompound fuel)
      ∧ (∀ stmts, TableBlind (R := R) (parseCompoundLoop fuel stmts)) := by
  induction fuel with
  | zero =>
    refine ⟨?_, ?_, ?_⟩
    · rw [parseStatement]; exact blind_stop
    · rw [parseCompound]; exact blind_stop
    · intro stmts; rw [parseCompoundLoop]; exact blind_stop
  | succ fuel ih =>
    obtain ⟨hs, hc, hl⟩ := ih
    refine ⟨?_, ?_, ?_⟩
    · rw [parseStatement]
      refine blind_peek_bind fun t => ?_
      split
      · exact blind_parseAssign fuel
      · exact blind_bind hc fun _ => blind_pure _
      · exact blind_lift blindP_parseRead
      · exact blind_lift blindP_parseWrite
      · exact blind_lift (blindP_throw _)
    · rw [parseCompound]
      exact blind_expect_bind _ _ fun _ => blind_bind hs fun _ => hl _
    · intro stmts
      rw [parseCompoundLoop]
      refine blind_peek_bind fun t => ?_
      split
      · refine blind_expect_bind _ _ fun _ => blind_peek_bind fun t2 => ?_
        split
        · exact blind_expect_bind _ _ fun _ => blind_pure _
        · exact blind_bind hs fun _ => hl _
      · exact blind_expect_bind _ _ fun _ => blind_pure _

theorem blind_symbolTable_eq {α : Type} {m : ParseF R α} (hm : TableBlind m)
    {s s' : ParserState R} {r : Except Err α} (h : m s = some (r, s')) :
    s'.symbolTable = s.symbolTable := by
  have h1 := hm s s.symbolTable
  rw [withTable_self, h] at h1
  simp only [Option.map_some', Option.some.injEq, Prod.mk.injEq, true_and] at h1
  rw [h1]
  rfl


/-! ### A larger bound gives the same result -/

theorem extends_refl {α : Type} (m : ParseF R α) : Extends m m := fun _ _ h => h

theorem extends_stop {α : Type} (m : ParseF R α) : Extends ParseF.stop m := by
  intro s r h
  cases h

theorem extends_bind {α β : Type} {m m2 : ParseF R α} {f f2 : α → ParseF R β}
    (hm : Extends m m2) (hf : ∀ a, Extends (f a) (f2 a)) : Extends (m >>= f) (m2 >>= f2) := by
  intro s r h
  rw [bind_apply] at h ⊢
  cases hms : m s with
  | none => rw [hms] at h; cases h
  | some x =>
    rw [hms] at h
    rw [hm s x hms]
    rcases x with ⟨_ | a, s1⟩
    · exact h
    · exact hf a s1 r h

theorem extends_parsePrimary [Stod R] (fuel : Nat)
    (hv : Extends (R := R) (parseValue fuel) (parseValue (fuel + 1))) :
    Extends (R := R) (parsePrimary (fuel + 1)) (parsePrimary (fuel + 1 + 1)) := by
  rw [parsePrimary, parsePrimary]
  refine extends_bind (extends_refl _) fun type => ?_
  cases type <;> first
    | exact extends_refl _
    | exact extends_bind (extends_refl _) fun _ => extends_bind hv fun _ => extends_refl _

theorem extends_parseFactor [Stod R] (fuel : Nat)
    (hp : Extends (R := R) (parsePrimary fuel) (parsePrimary (fuel + 1))) :
    Extends (R := R) (parseFactor (fuel + 1)) (parseFactor (fuel + 1 + 1)) := by
  rw [parseFactor, parseFactor]
  refine extends_bind (extends_refl _) fun type => ?_
  by_cases h : type = .INCREMENT ∨ type = .DECREMENT
  · rw [if_pos h, if_pos h]
    exact extends_bind (extends_refl _) fun _ => extends_bind hp fun _ => extends_refl _
  · rw [if_neg h, if_neg h]
    exact hp

theorem extends_parseTermLoop [Stod R] (fuel : Nat)
    (hf : Extends (R := R) (parseFactor fuel) (parseFactor (fuel + 1)))
    (hl : ∀ node, Extends (R := R) (parseTermLoop fuel node) (parseTermLoop (fuel + 1) node))
    (node : ValueNode R) :
    Extends (R := R) (parseTermLoop (fuel + 1) node) (parseTermLoop (fuel + 1 + 1) node) := by
  rw [parseTermLoop, parseTermLoop]
  refine extends_bind (extends_refl _) fun type => ?_
  by_cases h : type = .MULTIPLY ∨ type = .DIVIDE ∨ type = .MOD ∨ type = .CUSTOM_OPER
  · rw [if_pos h, if_pos h]
    exact extends_bind (extends_refl _) fun _ => extends_bind hf fun _ => hl _
  · rw [if_neg h, if_neg h]
    exact extends_refl _

theorem extends_parseValueLoop [Stod R] (fuel : Nat)
    (hf : Extends (R := R) (parseTerm fuel) (parseTerm (fuel + 1)))
    (hl : ∀ node, Extends (R := R) (parseValueLoop fuel node) (parseValueLoop (fuel + 1) node))
    (node : ValueNode R) :
    Extends (R := R) (parseValueLoop (fuel + 1) node) (parseValueLoop (fuel + 1 + 1) node) := by
  rw [parseValueLoop, parseValueLoop]
  refine extends_bind (extends_refl _) fun type => ?_
  by_cases h : type = .PLUS ∨ type = .MINUS
  · rw [if_pos h, if_pos h]
    exact extends_bind (extends_refl _) fun _ => extends_bind hf fun _ => hl _
  · rw [if_neg h, if_neg h]
    exact extends_refl _

theorem expression_extends [Stod R] (fuel : Nat) :
    Extends (R := R) (parsePrimary fuel) (parsePrimary (fuel + 1))
      ∧ Extends (R := R) (parseFactor fuel) (parseFactor (fuel + 1))
      ∧ (∀ node, Extends (R := R) (parseTermLoop fuel node) (parseTermLoop (fuel + 1) node))
      ∧ Extends (R := R) (parseTerm fuel) (parseTerm (fuel + 1))
      ∧ (∀ node, Extends (R := R) (parseValueLoop fuel node) (parseValueLoop (fuel + 1) node))
      ∧ Extends (R := R) (parseValue fuel) (parseValue (fuel + 1)) := by
  induction fuel with
  | zero =>
    refine ⟨?_, ?_, ?_, ?_, ?_, ?_⟩
    · rw [parsePrimary]; exact extends_stop _
    · rw [parseFactor]; exact extends_stop _
    · intro node; rw [parseTermLoop]; exact extends_stop _
    · rw [parseTerm]; exact extends_stop _
    · intro node; rw [parseValueLoop]; exact extends_stop _
    · rw [parseValue]; exact extends_stop _
  | succ fuel ih =>
    obtain ⟨hp, hf, htl, ht, hvl, hv⟩ := ih
    refine ⟨extends_parsePrimary fuel hv, extends_parseFactor fuel hp,
      extends_parseTermLoop fuel hf htl, ?_, extends_parseValueLoop fuel ht hvl, ?_⟩
    · rw [parseTerm, parseTerm]
      exact extends_bind hf htl
    · rw [parseValue, parseValue]
      exact extends_bind ht hvl

theorem extends_parseAssign [Stod R] (fuel : Nat) :
    Extends (R := R) (parseAssign fuel) (parseAssign (fuel + 1)) :=
  extends_bind (extends_refl _) fun _ =>
    extends_bind (extends_refl _) fun _ =>
    extends_bind (extends_refl _) fun _ =>
    extends_bind (expression_extends fuel).2.2.2.2.2 fun _ => extends_refl _

theorem statement_extends [Stod R] (fuel : Nat) :
    Extends (R := R) (parseStatement fuel) (parseStatement (fuel + 1))
      ∧ Extends (R := R) (parseCompound fuel) (parseCompound (fuel + 1))
      ∧ (∀ stmts, Extends (R := R) (parseCompoundLoop fuel stmts)
          (parseCompoundLoop (fuel + 1) stmts)) := by
  induction fuel with
  | zero =>
    refine ⟨?_, ?_, ?_⟩
    · rw [parseStatement]; exact extends_stop _
    · rw [parseCompound]; exact extends_stop _
    · intro stmts; rw [parseCompoundLoop]; exact extends_stop _
  | succ fuel ih =>
    obtain ⟨hs, hc, hl⟩ := ih
    refine ⟨?_, ?_, ?_⟩
    · rw [parseStatement, parseStatement]
      refine extends_bind (extends_refl _) fun t => ?_
      cases t <;> first
        | exact extends_refl _
        | exact extends_parseAssign fuel
        | exact extends_bind hc fun _ => extends_refl _
    · rw [parseCompound, parseCompound]
      exact extends_bind (extends_refl _) fun _ => extends_bind hs fun _ => hl _
    · intro stmts
      rw [parseCompoundLoop, parseCompoundLoop]
      refine extends_bind (extends_refl _) fun t => ?_
      by_cases h : t = .SEMICOLON
      · rw [if_pos h, if_pos h]
        refine extends_bind (extends_refl _) fun _ => extends_bind (extends_refl _) fun t2 => ?_
        by_cases h2 : t2 = .END
        · rw [if_pos h2, if_pos h2]
          exact extends_refl _
        · rw [if_neg h2, if_neg h2]
          exact extends_bind hs fun _ => hl _
      · rw [if_neg h, if_neg h]
        exact extends_refl _

theorem parseDeclarations_extends [Double R] (fuel : Nat) :
    Extends (R := R) (parseDeclarations fuel) (parseDeclarations (fuel + 1)) := by
  induction fuel with
  | zero => rw [parseDeclarations]; exact extends_stop _
  | succ fuel ih =>
    rw [parseDeclarations, parseDeclarations]
    refine extends_bind (extends_refl _) fun t => ?_
    by_cases h : t = .IDENT
    · rw [if_pos h, if_pos h]
      exact extends_bind (extends_refl _) fun _ => ih
    · rw [if_neg h, if_neg h]
      exact extends_refl _

theorem parseBlock_extends [Double R] [Stod R] (fuel : Nat) :
    Extends (R := R) (parseBlock fuel) (parseBlock (fuel + 1)) := by
  unfold parseBlock
  refine extends_bind (extends_refl _) fun t => ?_
  dsimp only
  by_cases h : t = .VAR
  · rw [if_pos h, if_pos h]
    exact extends_bind (extends_refl _) fun _ =>
      extends_bind (parseDeclarations_extends fuel) fun _ =>
      extends_bind (statement_extends (R := R) fuel).2.1 fun _ => extends_refl _
  · rw [if_neg h, if_neg h]
    exact extends_bind (extends_refl _) fun _ =>
      extends_bind (statement_extends (R := R) fuel).2.1 fun _ => extends_refl _

theorem parseProgram_extends [Double R] [Stod R] (fuel : Nat) :
    Extends (R := R) (parseProgram fuel) (parseProgram (fuel + 1)) :=
  extends_bind (extends_refl _) fun _ =>
    extends_bind (extends_refl _) fun _ =>
    extends_bind (extends_refl _) fun _ =>
    extends_bind (extends_refl _) fun _ =>
    extends_bind (parseBlock_extends fuel) fun _ => extends_refl _

theorem parseProgram_stable [Double R] [Stod R] (s : ParserState R)
    (r : Except Err (Program R) × ParserState R) (fuel : Nat)
    (h : parseProgram fuel s = some r) :
    ∀ fuel2, fuel ≤ fuel2 → parseProgram fuel2 s = some r := by
  intro fuel2 hle
  induction hle with
  | refl => exact h
  | step _ ih => exact parseProgram_extends _ s r ih

theorem parseDeclaration_changes [Double R] (s s1 : ParserState R) (u : Unit)
    (h : parseDeclaration s = (.ok u, s1)) :
    s.symbolTable.find s.lookaheadLex = none
      ∧ s1.symbolTable
          = s.symbolTable.insert s.lookaheadLex (declDefault s.advance.advance.lookahead) := by
  rw [parseDeclaration_unfold] at h
  split at h
  · split at h
    · split at h
      · split at h
        · split at h
          · cases h
          · rename_i hf
            simp only [Prod.mk.injEq, true_and] at h
            subst h
            refine ⟨?_, rfl⟩
            cases hq : s.symbolTable.find s.lookaheadLex with
            | none => rfl
            | some v => rw [hq] at hf; exact absurd rfl hf
        · cases h
      · cases h
    · cases h
  · cases h

theorem parseDeclaration_keeps [Double R] (s s1 : ParserState R) (e : Err)
    (h : parseDeclaration s = (.error e, s1)) : s1.symbolTable = s.symbolTable := by
  rw [parseDeclaration_unfold] at h
  split at h
  · split at h
    · split at h
      · split at h
        · split at h
          · simp only [Prod.mk.injEq] at h
            rw [← h.2]
            simp only [symbolTable_advance]
          · cases h
        · simp only [Prod.mk.injEq] at h
          rw [← h.2]
          simp only [symbolTable_advance]
      · simp only [Prod.mk.injEq] at h
        rw [← h.2]
        simp only [symbolTable_advance, symbolTable_peeked]
    · simp only [Prod.mk.injEq] at h
      rw [← h.2]
      simp only [symbolTable_advance]
  · simp only [Prod.mk.injEq] at h
    rw [← h.2]
    simp only [symbolTable_advance]

/-! ### The names in the trees -/

theorem parseAssign_names [Stod R] (fuel : Nat) (s s' : ParserState R) (st : Statement R)
    (h : parseAssign fuel s = some (.ok st, s')) :
    ∃ id rhs a toks, st = .assignStmt id rhs
      ∧ s.ahead = (.IDENT, id) :: (.ASSIGN, a) :: toks ++ s'.ahead
      ∧ Derives returnedUnary .value toks rhs := by
  rw [parseAssign_eq] at h
  split at h
  · rename_i h1
    split at h
    · rename_i h2
      split at h
      · cases h
      · rename_i v s1 hv
        cases h
        obtain ⟨toks, ht, hd⟩ := (expression_sound (R := R) fuel).2.2.2.2.1 _ _ _ hv
        refine ⟨s.lookaheadLex, v, s.advance.lookaheadLex, toks, rfl, ?_, hd⟩
        rw [expect_ahead s _ h1 (by decide), expect_ahead s.advance _ h2 (by decide), ht]
        rfl
      · cases h
    · cases h
  · cases h

theorem parseRead_names (s s' : ParserState R) (st : Statement R)
    (h : parseRead s = (.ok st, s')) :
    ∃ target r o c, st = .readStmt target
      ∧ s.ahead = [(.READ, r), (.OPENPAREN, o), (.IDENT, target), (.CLOSEPAREN, c)]
          ++ s'.ahead := by
  rw [parseRead_eq] at h
  split at h
  · rename_i h1
    split at h
    · rename_i h2
      split at h
      · rename_i h3
        split at h
        · rename_i h4
          cases h
          refine ⟨s.advance.advance.lookaheadLex, s.lookaheadLex, s.advance.lookaheadLex,
            s.advance.advance.advance.lookaheadLex, rfl, ?_⟩
          rw [expect_ahead s _ h1 (by decide), expect_ahead s.advance _ h2 (by decide),
            expect_ahead s.advance.advance _ h3 (by decide),
            expect_ahead s.advance.advance.advance _ h4 (by decide)]
          rfl
        · cases h
      · cases h
    · cases h
  · cases h

theorem parseWrite_names (s s' : ParserState R) (st : Statement R)
    (h : parseWrite s = (.ok st, s')) :
    ∃ content type w o c, st = .writeStmt content type
      ∧ (type = .STRINGLIT ∨ type = .IDENT)
      ∧ s.ahead = [(.WRITE, w), (.OPENPAREN, o), (type, content), (.CLOSEPAREN, c)]
          ++ s'.ahead := by
  rw [parseWrite_eq] at h
  split at h
  · rename_i h1
    split at h
    · rename_i h2
      split at h
      · rename_i h3
        split at h
        · rename_i h4
          cases h
          have hne : s.advance.advance.lookahead ≠ .TOK_EOF := by
            rcases h3 with h3 | h3 <;> rw [h3] <;> decide
          refine ⟨s.advance.advance.lookaheadLex, s.advance.advance.lookahead, s.lookaheadLex,
            s.advance.lookaheadLex, s.advance.advance.advance.lookaheadLex, rfl, h3, ?_⟩
          rw [expect_ahead s _ h1 (by decide), expect_ahead s.advance _ h2 (by decide),
            ahead_of_ne s.advance.advance hne,
            expect_ahead s.advance.advance.advance _ h4 (by decide)]
          rfl
        · cases h
      · cases h
    · cases h
  · cases h

theorem parseDeclaration_names [Double R] (s s' : ParserState R) (u : Unit)
    (h : parseDeclaration s = (.ok u, s')) :
    ∃ x c ty tx m,
      s.ahead = (.IDENT, x) :: (.COLON, c) :: (ty, tx) :: (.SEMICOLON, m) :: s'.ahead
      ∧ (ty = .INTEGER ∨ ty = .REAL)
      ∧ s'.symbolTable = s.symbolTable.insert x (declDefault ty) := by
  rw [parseDeclaration_unfold] at h
  split at h
  · rename_i h1
    split at h
    · rename_i h2
      split at h
      · rename_i h3
        split at h
        · rename_i h4
          split at h
          · cases h
          · cases h
            have hne : s.advance.advance.lookahead ≠ .TOK_EOF := by
              rcases h3 with h3 | h3 <;> rw [h3] <;> decide
            refine ⟨s.lookaheadLex, s.advance.lookaheadLex, s.advance.advance.lookahead,
              s.advance.advance.lookaheadLex, s.advance.advance.advance.lookaheadLex, ?_,
              h3, rfl⟩
            rw [expect_ahead s _ h1 (by decide), expect_ahead s.advance _ h2 (by decide),
              ahead_of_ne s.advance.advance hne,
              expect_ahead s.advance.advance.advance _ h4 (by decide)]
            rfl
        · cases h
      · cases h
    · cases h
  · cases h

/-! ### The operators in the trees -/

theorem apply_known [Double R] (op : Token) (a b : Value R)
    (h : op.isAdditive ∨ op.isMultiplicative) (e : Err)
    (he : BinaryOp.apply op a b = .error e) : ¬ e.isOperatorError := by
  unfold Err.isOperatorError
  rcases h with (h | h) | (h | h | h | h) <;> subst h <;> cases a <;> cases b <;>
    simp [BinaryOp.apply, as_int_strict] at he <;>
    first
      | (subst he; decide)
      | (split at he <;> first | (cases he; decide) | cases he)

theorem step_known [Double R] (op : Token) (sub : ValueNode R) (t : SymbolTable R) (e : Err)
    (he : (UnaryOp.step op sub t).1 = .error e) : ¬ e.isOperatorError := by
  unfold UnaryOp.step at he
  unfold Err.isOperatorError
  split at he
  · split at he <;> cases he
  · cases he
    decide

theorem ValueNode.eval_known [Double R] (e : ValueNode R) (h : e.OperatorsKnown) :
    ∀ (t : SymbolTable R) (err : Err), (e.interpret t).1 = .error err →
      ¬ err.isOperatorError := by
  induction e with
  | null => intro t err he; cases he; unfold Err.isOperatorError; decide
  | IntLitNode v => intro t err he; cases he
  | RealLitNode v => intro t err he; cases he
  | IdentNode name =>
    intro t err he
    unfold ValueNode.interpret at he
    split at he
    · cases he
    · cases he; unfold Err.isOperatorError; decide
  | UnaryOp op sub ih =>
    intro t err he
    unfold ValueNode.OperatorsKnown at h
    have hm : op ≠ .MINUS := by
      rcases h.1 with h1 | h1 <;> rw [h1] <;> decide
    unfold ValueNode.interpret at he
    rw [if_neg hm, if_pos h.1] at he
    exact step_known op sub t err he
  | BinaryOp op left right ihl ihr =>
    intro t err he
    unfold ValueNode.OperatorsKnown at h
    unfold ValueNode.interpret at he
    split at he
    · rename_i e1 t1 hl
      have := ihl h.2.1 t e1 (by rw [hl])
      cases he
      exact this
    · rename_i a t1 hl
      split at he
      · rename_i e2 t2 hr
        have := ihr h.2.2 t1 e2 (by rw [hr])
        cases he
        exact this
      · rename_i b t2 hr
        exact apply_known op a b h.1 err he


mutual
theorem Statement.exec_known {I : Type} [Double R] [Cin R I] :
    ∀ (s : Statement R), s.OperatorsKnown → ∀ (st : State R I) (err : Err),
      (s.interpret st).1 = some err → ¬ err.isOperatorError
  | .assignStmt id rhs, h, st, err, he => by
    unfold Statement.OperatorsKnown at h
    unfold Statement.interpret at he
    split at he
    · rename_i e1 t1 hr
      have := ValueNode.eval_known rhs h st.symbolTable e1 (by rw [hr])
      cases he
      exact this
    · split at he
      · cases he; unfold Err.isOperatorError; decide
      · split at he
        · split at he
          · cases he
          · split at he
            · cases he
            · cases he; unfold Err.isOperatorError; decide
        · cases he
  | .readStmt target, _, st, err, he => by
    unfold Statement.interpret at he
    split at he
    · cases he; unfold Err.isOperatorError; decide
    · cases he
    · cases he
  | .writeStmt content type, _, st, err, he => by
    unfold Statement.interpret at he
    split at he
    · split at he
      · cases he; unfold Err.isOperatorError; decide
      · cases he
      · cases he
    · cases he
  | .compoundStmt stmts, h, st, err, he => by
    unfold Statement.OperatorsKnown at h
    unfold Statement.interpret at he
    exact Statement.interpretAll_known stmts h st err he
theorem Statement.interpretAll_known {I : Type} [Double R] [Cin R I] :
    ∀ (l : List (Statement R)), Statement.AllOperatorsKnown l →
      ∀ (st : State R I) (err : Err),
      (Statement.interpretAll l st).1 = some err → ¬ err.isOperatorError
  | [], _, st, err, he => by
    unfold Statement.interpretAll at he
    cases he
  | s :: rest, h, st, err, he => by
    unfold Statement.AllOperatorsKnown at h
    unfold Statement.interpretAll at he
    split at he
    · rename_i e1 st1 hs
      have := Statement.exec_known s h.1 st e1 (by rw [hs])
      cases he
      exact this
    · rename_i st1 hs
      exact Statement.interpretAll_known rest h.2 st1 err he
end

theorem Program.run_known {I : Type} [Double R] [Cin R I] (p : Program R)
    (h : p.OperatorsKnown) (st : State R I) (err : Err)
    (he : (p.interpret st).1 = some err) : ¬ err.isOperatorError := by
  unfold Program.interpret at he
  split at he
  · rename_i b hb
    unfold Block.interpret at he
    split at he
    · rename_i stmts hc
      exact Statement.exec_known (.compoundStmt stmts)
        (by unfold Statement.OperatorsKnown; exact h b hb stmts hc) st err he
    · cases he
  · cases he

theorem Statement.allOperatorsKnown_append (l1 l2 : List (Statement R))
    (h1 : Statement.AllOperatorsKnown l1) (h2 : Statement.AllOperatorsKnown l2) :
    Statement.AllOperatorsKnown (l1 ++ l2) := by
  induction l1 with
  | nil => exact h2
  | cons s rest ih =>
    unfold Statement.AllOperatorsKnown at h1
    show Statement.AllOperatorsKnown (s :: (rest ++ l2))
    unfold Statement.AllOperatorsKnown
    exact ⟨h1.1, ih h1.2⟩

theorem Derives.expr_operatorsKnown [Stod R] {unary : Token → ValueNode R → ValueNode R}
    (hu : ∀ op e, (op = .INCREMENT ∨ op = .DECREMENT) → e.OperatorsKnown →
      (unary op e).OperatorsKnown)
    {c : Phrase} {toks : List (Token × String)} {e : ValueNode R}
    (h : Derives unary c toks e) : e.OperatorsKnown := by
  induction h with
  | intlit x v _ => trivial
  | floatlit x v _ => trivial
  | ident x => trivial
  | paren a b toks e _ ih => exact ih
  | plain toks e _ ih => exact ih
  | incdec op x toks e hop _ ih => exact hu op e hop ih
  | single toks e _ ih => exact ih
  | mulOp op x l r el er _ hop _ ihl ihr =>
    unfold ValueNode.OperatorsKnown
    exact ⟨Or.inr hop, ihl, ihr⟩
  | lone toks e _ ih => exact ih
  | addOp op x l r el er _ hop _ ihl ihr =>
    unfold ValueNode.OperatorsKnown
    exact ⟨Or.inl hop, ihl, ihr⟩

theorem StmtDerives.stmt_operatorsKnown [Stod R] {unary : Token → ValueNode R → ValueNode R}
    (hu : ∀ op e, (op = .INCREMENT ∨ op = .DECREMENT) → e.OperatorsKnown →
      (unary op e).OperatorsKnown)
    {trailing : Bool} {c : StmtPhrase R} {toks : List (Token × String)}
    (h : StmtDerives unary trailing c toks) : c.OperatorsKnown := by
  induction h with
  | assign x a toks e hd =>
    unfold StmtPhrase.OperatorsKnown Statement.OperatorsKnown
    exact Derives.expr_operatorsKnown hu hd
  | read r o x c => unfold StmtPhrase.OperatorsKnown Statement.OperatorsKnown; trivial
  | write w o x c k hk => unfold StmtPhrase.OperatorsKnown Statement.OperatorsKnown; trivial
  | nested toks stmts _ ih =>
    unfold StmtPhrase.OperatorsKnown at ih ⊢
    unfold Statement.OperatorsKnown
    exact ih
  | first toks st _ ih =>
    unfold StmtPhrase.OperatorsKnown at ih ⊢
    unfold Statement.AllOperatorsKnown
    exact ⟨ih, by unfold Statement.AllOperatorsKnown; trivial⟩
  | next m l r stmts st _ _ ihl ihr =>
    unfold StmtPhrase.OperatorsKnown at ihl ihr ⊢
    exact Statement.allOperatorsKnown_append stmts [st] ihl
      (by unfold Statement.AllOperatorsKnown
          exact ⟨ihr, by unfold Statement.AllOperatorsKnown; trivial⟩)
  | compound b e toks stmts _ ih => exact ih
  | compoundSemi b m e toks stmts _ _ ih => exact ih

theorem ProgramDerives.program_operatorsKnown [Stod R]
    {unary : Token → ValueNode R → ValueNode R}
    (hu : ∀ op e, (op = .INCREMENT ∨ op = .DECREMENT) → e.OperatorsKnown →
      (unary op e).OperatorsKnown)
    {trailing : Bool} {toks : List (Token × String)} {p : Program R}
    (h : ProgramDerives unary trailing toks p) : p.OperatorsKnown := by
  obtain ⟨a, x, m, rest, ds, b, _, hb, hp⟩ := h
  obtain ⟨decls, body, stmts, _, _, hs, hbs⟩ := hb
  have hk := StmtDerives.stmt_operatorsKnown hu hs
  unfold StmtPhrase.OperatorsKnown at hk
  intro b2 hb2 stmts2 hs2
  rw [hp] at hb2
  cases hb2
  rw [hbs] at hs2
  cases hs2
  exact hk

theorem returnedUnary_known (op : Token) (e : ValueNode R)
    (_hop : op = .INCREMENT ∨ op = .DECREMENT) (_he : e.OperatorsKnown) :
    (returnedUnary op e).OperatorsKnown := by
  unfold returnedUnary ValueNode.OperatorsKnown
  trivial

theorem requiredUnary_known (op : Token) (e : ValueNode R)
    (hop : op = .INCREMENT ∨ op = .DECREMENT) (he : e.OperatorsKnown) :
    (requiredUnary op e).OperatorsKnown := by
  unfold requiredUnary ValueNode.OperatorsKnown
  exact ⟨hop, he⟩

end ParserLemmas

section ParserClaims

variable {R : Type}

/-- C20: expect(want) returns exactly when the lookahead token has kind want, and
then the globals are those after consuming that one token.  Otherwise it throws
a runtime_error whose text is, in this order, the line number in yylineno, the
name of want, the caller's message, the name of the lookahead token and its
lexeme in yytext.  A lookahead pulled from the scanner carries the kind, lexeme
and line the scanner delivers next, and a lookahead already held by an earlier
peek gives the same result. -/
theorem C20_expect_contract (s : ParserState R) (want : Token) (msg : String) :
    ((∃ v, (expect want msg s).1 = .ok v) ↔ s.lookahead = want)
    ∧ (s.lookahead = want → expect want msg s = (.ok want, s.advance))
    ∧ (s.lookahead ≠ want →
        expect want msg s
          = (.error (.runtime_error
              ("Parse error (line " ++ toString s.advance.yylineno ++ "): expected "
                ++ tokName want ++ " — " ++ msg ++ ", got " ++ tokName s.lookahead
                ++ " [" ++ s.advance.yytext ++ "]")), s.advance))
    ∧ (∀ (l : Lexeme) (rest : List Lexeme), s.havePeek = false → s.input = l :: rest →
        s.lookahead = l.kind ∧ s.advance.yylineno = l.line ∧ s.advance.yytext = l.text
        ∧ s.advance.input = rest ∧ s.advance.havePeek = false)
    ∧ (s.havePeek = false → s.input = [] →
        s.lookahead = .TOK_EOF ∧ s.advance.input = [] ∧ s.advance.havePeek = false)
    ∧ (s.havePeek = true →
        s.lookahead = s.peekTok ∧ s.advance = { s with havePeek := false })
    ∧ expect want msg (peek s).2 = expect want msg s := by
  refine ⟨?_, ?_, ?_, ?_, ?_, ?_, expect_peeked s want msg⟩
  · rw [expect_eq]
    by_cases h : s.lookahead = want
    · simp [h]
    · simp [h]
  · intro h
    rw [expect_eq, if_pos h]
  · intro h
    rw [expect_eq, if_neg h]
    rfl
  · intro l rest hp hi
    obtain ⟨h1, _, h3⟩ := lookahead_fresh s l rest hp hi
    rw [h3]
    exact ⟨h1, rfl, rfl, rfl, rfl⟩
  · intro hp hi
    obtain ⟨h1, h2⟩ := lookahead_fresh_eof s hp hi
    rw [h2]
    exact ⟨h1, hi, rfl⟩
  · intro hp
    obtain ⟨h1, _, h3⟩ := lookahead_held s hp
    exact ⟨h1, h3⟩

/-- A worked instance of C20: the scanner delivers IDENT x on line 3; expect(IDENT)
consumes it, and expect(VAR) throws the located diagnostic. -/
theorem C20_expect_contract_witness :
    ((ParserState.init ℚ [Lexeme.mk .IDENT "x" 3, Lexeme.mk .SEMICOLON ";" 3] "" 4).lookahead
        = .IDENT
      ∧ (ParserState.init ℚ [Lexeme.mk .IDENT "x" 3, Lexeme.mk .SEMICOLON ";" 3] "" 4).lookahead
        ≠ .VAR)
    ∧ expect .IDENT "name"
        (ParserState.init ℚ [Lexeme.mk .IDENT "x" 3, Lexeme.mk .SEMICOLON ";" 3] "" 4)
      = (.ok .IDENT,
         { input := [Lexeme.mk .SEMICOLON ";" 3], eofText := "", eofLine := 4, yytext := "x",
           yylineno := 3, havePeek := false, peekTok := .IDENT, peekLex := "x",
           symbolTable := [] })
    ∧ (expect .VAR "start"
        (ParserState.init ℚ [Lexeme.mk .IDENT "x" 3, Lexeme.mk .SEMICOLON ";" 3] "" 4)).1
      = .error (.runtime_error "Parse error (line 3): expected VAR — start, got IDENT [x]") :=
  ⟨⟨rfl, (by decide)⟩,
   (C20_expect_contract
      (ParserState.init ℚ [Lexeme.mk .IDENT "x" 3, Lexeme.mk .SEMICOLON ";" 3] "" 4)
      .IDENT "name").2.1 rfl,
   congrArg Prod.fst ((C20_expect_contract
      (ParserState.init ℚ [Lexeme.mk .IDENT "x" 3, Lexeme.mk .SEMICOLON ";" 3] "" 4)
      .VAR "start").2.2.1 (by decide))⟩

/-- C18: when the coming tokens are IDENT(x) ':' INTEGER-or-REAL ';' and x is in
the symbol table, parseDeclaration throws the runtime_error "parseDeclaration:
duplicate" (after the four tokens are consumed) and the symbol table is the
one before the call, x holding the value it held.  Consequently parseBlock and
parseProgram throw that error on a VAR block of well-formed declarations in
which a name occurs twice (or is in the table already). -/
theorem C18_duplicate_declaration [Double R] [Stod R] :
    (∀ (s : ParserState R) (x : String) (ty : Token) (v : Value R),
        s.lookahead = .IDENT → s.lookaheadLex = x → s.advance.lookahead = .COLON →
        s.advance.advance.lookahead = ty → (ty = .INTEGER ∨ ty = .REAL) →
        s.advance.advance.advance.lookahead = .SEMICOLON →
        s.symbolTable.find x = some v →
        parseDeclaration s
          = (.error (.runtime_error "parseDeclaration: duplicate"),
             s.advance.advance.advance.advance)
        ∧ (parseDeclaration s).2.symbolTable = s.symbolTable
        ∧ (parseDeclaration s).2.symbolTable.find x = some v)
    ∧ (∀ (ds : List DeclLexemes) (s : ParserState R) (v : Lexeme) (tail : List Lexeme)
        (fuel : Nat),
        (∀ d ∈ ds, d.WellFormed) → s.havePeek = false → v.kind = .VAR →
        s.input = v :: ((ds.map DeclLexemes.toList).flatten ++ tail) →
        ds.length ≤ fuel →
        ((∃ d ∈ ds, (s.symbolTable.find d.ident.text).isSome)
          ∨ ¬ (ds.map (fun d => d.ident.text)).Nodup) →
        ∃ s1, parseBlock fuel s
          = some (.error (.runtime_error "parseDeclaration: duplicate"), s1))
    ∧ (∀ (ds : List DeclLexemes) (s : ParserState R) (p n sc v : Lexeme)
        (tail : List Lexeme) (fuel : Nat),
        (∀ d ∈ ds, d.WellFormed) → s.havePeek = false →
        (p.kind = .PROGRAM ∧ n.kind = .IDENT ∧ sc.kind = .SEMICOLON ∧ v.kind = .VAR) →
        s.input = p :: n :: sc :: v :: ((ds.map DeclLexemes.toList).flatten ++ tail) →
        ds.length ≤ fuel →
        ((∃ d ∈ ds, (s.symbolTable.find d.ident.text).isSome)
          ∨ ¬ (ds.map (fun d => d.ident.text)).Nodup) →
        ∃ s1, parseProgram fuel s
          = some (.error (.runtime_error "parseDeclaration: duplicate"), s1)) := by
  refine ⟨?_, ?_, ?_⟩
  · intro s x ty v h1 hx h2 h3 hty h4 hfind
    have h := parseDeclaration_eq s x ty h1 hx h2 h3 hty h4
    rw [hfind] at h
    simp only [Option.isSome_some, if_true] at h
    rw [h]
    refine ⟨rfl, ?_, ?_⟩
    · simp only [symbolTable_advance]
    · simp only [symbolTable_advance]
      exact hfind
  · intro ds s v tail fuel hwf hp hv hi hfuel hdup
    exact parseBlock_duplicate ds hwf s v tail fuel hp hv hi hfuel hdup
  · intro ds s p n sc v tail fuel hwf hp hk hi hfuel hdup
    exact parseProgram_duplicate ds hwf s p n sc v tail fuel hp hk hi hfuel hdup

/-- C19: when the coming tokens are IDENT(x) ':' type ';' with type INTEGER or
REAL and x is not in the symbol table, parseDeclaration returns, and the table
afterwards is the old one with x added: x holds int 0 for INTEGER and the
double 0.0 for REAL, and every other name holds what it held. -/
theorem C19_declaration_defaults [Double R] (s : ParserState R) (x : String) (ty : Token)
    (h1 : s.lookahead = .IDENT) (hx : s.lookaheadLex = x)
    (h2 : s.advance.lookahead = .COLON)
    (h3 : s.advance.advance.lookahead = ty) (hty : ty = .INTEGER ∨ ty = .REAL)
    (h4 : s.advance.advance.advance.lookahead = .SEMICOLON)
    (hfresh : s.symbolTable.find x = none) :
    (parseDeclaration s).1 = .ok ()
    ∧ (parseDeclaration s).2.symbolTable = s.symbolTable.insert x (declDefault ty)
    ∧ (parseDeclaration s).2.symbolTable.find x = some (declDefault ty)
    ∧ (∀ other, other ≠ x →
        (parseDeclaration s).2.symbolTable.find other = s.symbolTable.find other)
    ∧ (declDefault .INTEGER : Value R) = .int 0
    ∧ (declDefault .REAL : Value R) = .real (Double.ofInt 0) := by
  have h := parseDeclaration_eq s x ty h1 hx h2 h3 hty h4
  rw [hfresh] at h
  simp only [Option.isSome_none, Bool.false_eq_true, if_false] at h
  rw [h]
  exact ⟨rfl, rfl, SymbolTable.find_insert_self _ _ _,
    fun other hne => SymbolTable.find_insert_of_ne _ _ _ _ hne, rfl, rfl⟩

/-- A worked instance of C19: on x : INTEGER ; with an empty table the table
becomes x = int 0. -/
theorem C19_declaration_defaults_witness :
    ((ParserState.init ℚ [Lexeme.mk .IDENT "x" 1, Lexeme.mk .COLON ":" 1,
          Lexeme.mk .INTEGER "INTEGER" 1, Lexeme.mk .SEMICOLON ";" 1] "" 2).lookahead = .IDENT
      ∧ (ParserState.init ℚ [Lexeme.mk .IDENT "x" 1, Lexeme.mk .COLON ":" 1,
          Lexeme.mk .INTEGER "INTEGER" 1, Lexeme.mk .SEMICOLON ";" 1] "" 2).symbolTable.find "x"
        = none)
    ∧ (parseDeclaration (ParserState.init ℚ [Lexeme.mk .IDENT "x" 1, Lexeme.mk .COLON ":" 1,
          Lexeme.mk .INTEGER "INTEGER" 1, Lexeme.mk .SEMICOLON ";" 1] "" 2)).2.symbolTable
        = [("x", .int 0)] :=
  ⟨⟨rfl, rfl⟩,
   (C19_declaration_defaults
      (ParserState.init ℚ [Lexeme.mk .IDENT "x" 1, Lexeme.mk .COLON ":" 1,
          Lexeme.mk .INTEGER "INTEGER" 1, Lexeme.mk .SEMICOLON ";" 1] "" 2)
      "x" .INTEGER rfl rfl rfl rfl (Or.inl rfl) rfl rfl).2.1⟩

/-- A worked instance of C18: with x = int 7 in the table, x : REAL ; throws and
x still holds int 7; and a block VAR x : INTEGER ; x : REAL ; throws. -/
theorem C18_duplicate_declaration_witness :
    (redeclareX.lookahead = .IDENT ∧ redeclareX.symbolTable.find "x" = some (.int 7)
      ∧ (List.map (fun d : DeclLexemes => d.ident.text)
            [DeclLexemes.mk (Lexeme.mk .IDENT "x" 2) (Lexeme.mk .COLON ":" 2)
               (Lexeme.mk .INTEGER "INTEGER" 2) (Lexeme.mk .SEMICOLON ";" 2),
             DeclLexemes.mk (Lexeme.mk .IDENT "x" 3) (Lexeme.mk .COLON ":" 3)
               (Lexeme.mk .REAL "REAL" 3) (Lexeme.mk .SEMICOLON ";" 3)]) = ["x", "x"])
    ∧ ((parseDeclaration redeclareX).1 = .error (.runtime_error "parseDeclaration: duplicate")
      ∧ (parseDeclaration redeclareX).2.symbolTable = [("x", .int 7)])
    ∧ ∃ s1, parseBlock 2
        (ParserState.init ℚ
          (Lexeme.mk .VAR "VAR" 1 ::
            ((List.map DeclLexemes.toList
              [DeclLexemes.mk (Lexeme.mk .IDENT "x" 2) (Lexeme.mk .COLON ":" 2)
                 (Lexeme.mk .INTEGER "INTEGER" 2) (Lexeme.mk .SEMICOLON ";" 2),
               DeclLexemes.mk (Lexeme.mk .IDENT "x" 3) (Lexeme.mk .COLON ":" 3)
                 (Lexeme.mk .REAL "REAL" 3) (Lexeme.mk .SEMICOLON ";" 3)]).flatten
              ++ [Lexeme.mk .TOK_BEGIN "BEGIN" 4])) "" 5)
        = some (.error (.runtime_error "parseDeclaration: duplicate"), s1) :=
  ⟨⟨rfl, rfl, rfl⟩,
   ⟨congrArg Prod.fst ((C18_duplicate_declaration (R := ℚ)).1 redeclareX "x" .REAL (.int 7)
      rfl rfl rfl rfl (Or.inr rfl) rfl rfl).1,
    ((C18_duplicate_declaration (R := ℚ)).1 redeclareX "x" .REAL (.int 7)
      rfl rfl rfl rfl (Or.inr rfl) rfl rfl).2.1⟩,
   (C18_duplicate_declaration (R := ℚ)).2.1 _ _ (Lexeme.mk .VAR "VAR" 1)
      [Lexeme.mk .TOK_BEGIN "BEGIN" 4] 2
      (by simp [DeclLexemes.WellFormed]) rfl rfl rfl (by simp) (Or.inr (by simp))⟩

/-- C14 as stated fails: the int sum 2147483647 + 1 does not evaluate to
2147483648 (the embedding gives the wrapped value -2147483648), and on the
INTLIT lexeme 2147483648 parsePrimary throws std::out_of_range from stoi
instead of building an IntLitNode. -/
theorem C14_int_is_64_bit_counterexample :
    (ValueNode.BinaryOp .PLUS (.IntLitNode 2147483647) (.IntLitNode 1)).interpret
        ([] : SymbolTable ℚ) = (.ok (.int (-2147483648)), [])
    ∧ (ValueNode.BinaryOp .PLUS (.IntLitNode 2147483647) (.IntLitNode 1)).interpret
        ([] : SymbolTable ℚ) ≠ (.ok (.int 2147483648), [])
    ∧ parsePrimary 1 (ParserState.init ℚ [Lexeme.mk .INTLIT "2147483648" 1] "" 1)
        = some (.error .out_of_range,
            (ParserState.init ℚ [Lexeme.mk .INTLIT "2147483648" 1] "" 1).advance) := by
  refine ⟨rfl, ?_, rfl⟩
  simp [ValueNode.interpret, BinaryOp.apply, wrapInt]

/-- C14 amended to the C++ type int: an INTLIT lexeme made of decimal digits,
with or without a leading minus sign, that denotes a number n with
-2147483648 ≤ n ≤ 2147483647 makes parsePrimary return IntLitNode n (the
decimal numeral of every natural number is a lexeme of digits and denotes that
number), and the int operations +, - and * return the exact result whenever it
lies in the 32-bit range. -/
theorem C14_int_is_32_bit [Double R] [Stod R] :
    (∀ (fuel : Nat) (s : ParserState R) (cs : List Char),
        cs ≠ [] → (∀ c ∈ cs, c.isDigit = true) → s.lookahead = .INTLIT →
        (s.lookaheadLex = String.mk cs → digitsValue cs ≤ 2147483647 →
          parsePrimary (fuel + 1) s = some (.ok (.IntLitNode (digitsValue cs)), s.advance))
        ∧ (s.lookaheadLex = String.mk ('-' :: cs) → digitsValue cs ≤ 2147483648 →
          parsePrimary (fuel + 1) s
            = some (.ok (.IntLitNode (-(digitsValue cs : Int))), s.advance)))
    ∧ (∀ n : Nat, (Nat.repr n).data ≠ [] ∧ (∀ c ∈ (Nat.repr n).data, c.isDigit = true)
        ∧ digitsValue (Nat.repr n).data = n)
    ∧ (∀ x y : Int,
        (InIntRange (x + y) →
          BinaryOp.apply .PLUS (Value.int x : Value R) (.int y) = .ok (.int (x + y)))
        ∧ (InIntRange (x - y) →
          BinaryOp.apply .MINUS (Value.int x : Value R) (.int y) = .ok (.int (x - y)))
        ∧ (InIntRange (x * y) →
          BinaryOp.apply .MULTIPLY (Value.int x : Value R) (.int y) = .ok (.int (x * y)))) := by
  refine ⟨?_, ?_, ?_⟩
  · intro fuel s cs hne hd hlook
    constructor
    · intro hlex hle
      rw [parsePrimary_intlit fuel s _ hlook hlex, stoi_digits cs hne hd, if_pos hle]
    · intro hlex hle
      rw [parsePrimary_intlit fuel s _ hlook hlex, stoi_neg_digits cs hne hd, if_pos hle]
  · intro n
    refine ⟨toDigitsCore_ne_nil _ _ _ (Or.inl (Nat.succ_pos n)),
      isDigit_toDigitsCore _ _ _ (fun c hc => by cases hc), ?_⟩
    exact foldl_toDigitsCore (n + 1) n [] (Nat.lt_succ_self n)
  · intro x y
    refine ⟨fun h => ?_, fun h => ?_, fun h => ?_⟩
    · simp [BinaryOp.apply, wrapInt_of_inRange _ h]
    · simp [BinaryOp.apply, wrapInt_of_inRange _ h]
    · simp [BinaryOp.apply, wrapInt_of_inRange _ h]

/-- A worked instance of the amended C14: the lexeme 2147483647 gives
IntLitNode 2147483647, and 2147483646 + 1 is 2147483647. -/
theorem C14_int_is_32_bit_witness :
    (['2', '1', '4', '7', '4', '8', '3', '6', '4', '7'] ≠ ([] : List Char)
      ∧ (ParserState.init ℚ [Lexeme.mk .INTLIT "2147483647" 1] "" 1).lookahead = .INTLIT
      ∧ digitsValue ['2', '1', '4', '7', '4', '8', '3', '6', '4', '7'] ≤ 2147483647
      ∧ InIntRange (2147483646 + 1))
    ∧ parsePrimary 1 (ParserState.init ℚ [Lexeme.mk .INTLIT "2147483647" 1] "" 1)
        = some (.ok (.IntLitNode 2147483647),
            (ParserState.init ℚ [Lexeme.mk .INTLIT "2147483647" 1] "" 1).advance)
    ∧ BinaryOp.apply .PLUS (Value.int 2147483646 : Value ℚ) (.int 1) = .ok (.int 2147483647) :=
  ⟨⟨(by simp), rfl, (by decide), (by decide)⟩,
   ((C14_int_is_32_bit (R := ℚ)).1 0
      (ParserState.init ℚ [Lexeme.mk .INTLIT "2147483647" 1] "" 1)
      ['2', '1', '4', '7', '4', '8', '3', '6', '4', '7'] (by simp) (by decide) rfl).1 rfl
      (by decide),
   ((C14_int_is_32_bit (R := ℚ)).2.2 2147483646 1).1 (by decide)⟩

/-- C21: a second call of peek returns the same kind as the first and leaves the
globals, the lexeme in peekLex among them, as the first call left them; the
first call takes at most one result from the scanner; and the kind peek returned
is the kind the next nextTok returns and the next expect compares. -/
theorem C21_peek_idempotent (s : ParserState R) (want : Token) (msg : String) :
    ∃ t : Token, (peek s).1 = .ok t
      ∧ peek (peek s).2 = (.ok t, (peek s).2)
      ∧ ((peek s).2.input = s.input ∨ ∃ l, s.input = l :: (peek s).2.input)
      ∧ (nextTok (peek s).2).1 = .ok t
      ∧ ((expect want msg (peek s).2).1 = .ok want ↔ t = want)
      ∧ expect want msg (peek s).2 = expect want msg s := by
  refine ⟨s.lookahead, by rw [peek_eq], ?_, ?_, ?_, ?_, ?_⟩
  · rw [peek_peek, peek_eq]
  · unfold peek yylex
    by_cases h : s.havePeek = true
    · simp [h]
    · rcases hi : s.input with _ | ⟨l, rest⟩
      · simp [h]
      · simp [h]
  · rw [peek_eq, nextTok_eq, lookahead_peeked]
  · rw [peek_eq, expect_eq, lookahead_peeked]
    by_cases h : s.lookahead = want
    · simp [h]
    · simp [h]
  · rw [peek_eq]
    exact expect_peeked s want msg

/-- C25: when the lookahead is ++ or -- and parsePrimary parses what follows the
operator, parseFactor returns the empty pointer: the UnaryOp it built is not
what it returns. -/
theorem C25_incdec_factor_is_null [Stod R] (fuel : Nat) (s s' : ParserState R)
    (p : ValueNode R) (hop : s.lookahead = .INCREMENT ∨ s.lookahead = .DECREMENT)
    (hp : parsePrimary fuel s.advance = some (.ok p, s')) :
    parseFactor (fuel + 1) s = some (.ok .null, s') := by
  rw [parseFactor]
  simp only [bind_peek, hop, if_true, bind_expect, lookahead_peeked, advance_peeked]
  rw [bind_apply, hp]
  rfl

theorem C25_incdec_factor_is_null_witness :
    parsePrimary 1 incrementX.advance
        = some (.ok (.IdentNode "x"), incrementX.advance.advance)
      ∧ parseFactor 2 incrementX = some (.ok .null, incrementX.advance.advance) :=
  ⟨rfl, C25_incdec_factor_is_null 1 incrementX _ _ (Or.inl rfl) rfl⟩

/-- C22: four places where the lookahead does not fit the grammar throw a fixed
text, the same for every line and every offending token, so that it names
neither the line nor the expected or the actual token: the default branches of
parseStatement and parsePrimary, and the kind checks of parseWrite and
parseDeclaration. -/
theorem C22_unlocated_diagnostics [Double R] [Stod R] (fuel : Nat) (s : ParserState R) :
    (s.lookahead ≠ .IDENT → s.lookahead ≠ .TOK_BEGIN → s.lookahead ≠ .READ
        → s.lookahead ≠ .WRITE →
      parseStatement (fuel + 1) s
        = some (.error (.runtime_error "parseStatement: Token Not accepted"), s.peeked))
    ∧ (s.lookahead ≠ .FLOATLIT → s.lookahead ≠ .INTLIT → s.lookahead ≠ .IDENT
        → s.lookahead ≠ .OPENPAREN →
      parsePrimary (fuel + 1) s
        = some (.error (.runtime_error "parsePrimary: Invalid Token"), s.peeked))
    ∧ (s.lookahead = .WRITE → s.advance.lookahead = .OPENPAREN
        → s.advance.advance.lookahead ≠ .STRINGLIT → s.advance.advance.lookahead ≠ .IDENT →
      parseWrite s
        = (.error (.runtime_error "parseWrite: Expected a String Lit or an Identifier"),
            s.advance.advance.peeked))
    ∧ (s.lookahead = .IDENT → s.advance.lookahead = .COLON
        → s.advance.advance.lookahead ≠ .INTEGER → s.advance.advance.lookahead ≠ .REAL →
      parseDeclaration s
        = (.error (.runtime_error "parseDeclaration: Expect type to be an integer or real"),
            s.advance.advance.peeked)) := by
  refine ⟨?_, ?_, ?_, ?_⟩
  · intro h1 h2 h3 h4
    rw [parseStatement]
    simp only [bind_peek]
    rfl
  · intro h1 h2 h3 h4
    rw [parsePrimary]
    simp only [bind_peek]
    rfl
  · intro h1 h2 h3 h4
    unfold parseWrite
    simp only [bind, Parse.bind, expect_eq, h1, h2, if_true, peek_eq, h3, h4, ne_eq,
      not_false_eq_true, and_self]
    rfl
  · intro h1 h2 h3 h4
    unfold parseDeclaration
    simp only [bind, Parse.bind, expect_eq, h1, h2, if_true, peek_eq, h3, h4, ne_eq,
      not_false_eq_true, and_self, Parse.get]
    rfl

theorem C22_unlocated_diagnostics_witness :
    parseProgram 3 emptyBody
        = some (.error (.runtime_error "parseStatement: Token Not accepted"),
            ParserState.mk [] "" 6 "END" 5 true .END "END" [])
      ∧ parseStatement 1 (ParserState.mk [Lexeme.mk .END "END" 5] "" 6 "BEGIN" 4 false
            .TOK_BEGIN "BEGIN" ([] : SymbolTable ℚ))
        = some (.error (.runtime_error "parseStatement: Token Not accepted"),
            ParserState.mk [] "" 6 "END" 5 true .END "END" []) :=
  ⟨by
    simp only [emptyBody, ParserState.init, parseProgram, parseBlock, parseCompound,
      parseStatement, bind_bind, bind_expect, bind_peek, bind_get, bind_pure, bind_throw,
      lookahead_cons, advance_cons, peeked_cons, lookahead_mk_held, advance_mk_held,
      peeked_mk_held, if_true, if_false, reduceCtorEq],
   (C22_unlocated_diagnostics 0 _).1 (by decide) (by decide) (by decide) (by decide)⟩

/-- C23 as worded fails: parseCompound returns a compound on the tokens
BEGIN WRITE ( x ) ; END, which it consumes to the last, although the semicolon
is followed by END and by no statement; these tokens are no compound of the
grammar of the specification. -/
theorem C23_trailing_semicolon_counterexample :
    ∃ s', parseCompound 2 trailingSemicolon = some (.ok [.writeStmt "x" .IDENT], s')
      ∧ trailingSemicolon.ahead
          = [(.TOK_BEGIN, "BEGIN"), (.WRITE, "WRITE"), (.OPENPAREN, "("), (.IDENT, "x"),
             (.CLOSEPAREN, ")")] ++ [(.SEMICOLON, ";"), (.END, "END")]
      ∧ s'.ahead = []
      ∧ ∀ stmts : List (Statement ℚ),
          ¬ StmtDerives requiredUnary false (.compound stmts)
            ([(.TOK_BEGIN, "BEGIN"), (.WRITE, "WRITE"), (.OPENPAREN, "("), (.IDENT, "x"),
              (.CLOSEPAREN, ")")] ++ [(.SEMICOLON, ";"), (.END, "END")]) := by
  refine ⟨ParserState.mk [] "" 2 "END" 1 false .END "END" [], ?_, ?_, ?_, ?_⟩
  · simp only [trailingSemicolon, ParserState.init, parseCompound, parseCompoundLoop,
      parseStatement, bind_bind, bind_expect, bind_peek, bind_pure, bind_parseWrite,
      pure_apply, lookahead_cons, advance_cons, peeked_cons, lookaheadLex_cons,
      lookahead_mk_held, advance_mk_held, peeked_mk_held, if_true, if_false, reduceCtorEq,
      or_true, List.nil_append]
  · rfl
  · rfl
  · intro stmts
    exact StmtDerives.not_semicolon_end stmts _ _ _

/-- C23, amended: whenever parseCompound returns, the tokens it has consumed
are BEGIN Statement (; Statement)* END or BEGIN Statement (; Statement)* ; END,
each Statement being one of the grammar, and the list it returns holds the
trees of these statements in source order, one for each. -/
theorem C23_compound_grammar [Stod R] (fuel : Nat) (s s' : ParserState R)
    (stmts : List (Statement R)) (h : parseCompound fuel s = some (.ok stmts, s')) :
    ∃ toks, s.ahead = toks ++ s'.ahead
      ∧ StmtDerives returnedUnary true (.compound stmts) toks :=
  (statement_sound fuel).2.1 s stmts s' h

theorem C23_compound_grammar_witness :
    ∃ toks, twoStatements.ahead
        = toks ++ (ParserState.mk [] "" 4 "END" 3 false .END "END"
            ([] : SymbolTable ℚ)).ahead
      ∧ StmtDerives (returnedUnary (R := ℚ)) true
          (.compound [Statement.readStmt "x", Statement.writeStmt "x" .IDENT]) toks :=
  C23_compound_grammar 3 twoStatements _ _ (by
    simp only [twoStatements, ParserState.init, parseCompound, parseCompoundLoop,
      parseStatement, bind_bind, bind_expect, bind_peek, bind_pure, bind_parseRead,
      bind_parseWrite, pure_apply, lookahead_cons, advance_cons, peeked_cons,
      lookaheadLex_cons, lookahead_mk_held, advance_mk_held, peeked_mk_held, if_true,
      if_false, reduceCtorEq, or_true, List.nil_append, List.cons_append])

/-- C26: parseProgram returns a program only if the lookahead tokens are PROGRAM,
IDENT and a semicolon, parseBlock returns a block on what follows, and the
lookahead after the block is the end of the input, so that the block has
consumed every token up to there; and when parseBlock returns with any other
token as lookahead, parseProgram throws the error of expect(TOK_EOF). -/
theorem C26_whole_input [Double R] [Stod R] (fuel : Nat) (s : ParserState R) :
    (∀ p s', parseProgram fuel s = some (.ok p, s') →
      ∃ b sb, parseBlock fuel s.advance.advance.advance = some (.ok b, sb)
        ∧ sb.lookahead = .TOK_EOF ∧ sb.ahead = []
        ∧ (∃ blockToks, s.advance.advance.advance.ahead = blockToks ++ sb.ahead
            ∧ s.ahead = (.PROGRAM, s.lookaheadLex) :: (.IDENT, p.name)
                :: (.SEMICOLON, s.advance.advance.lookaheadLex) :: blockToks)
        ∧ p = { name := s.advance.lookaheadLex, block := some b } ∧ s' = sb.advance)
    ∧ (∀ b sb, s.lookahead = .PROGRAM → s.advance.lookahead = .IDENT →
        s.advance.advance.lookahead = .SEMICOLON →
        parseBlock fuel s.advance.advance.advance = some (.ok b, sb) →
        sb.lookahead ≠ .TOK_EOF →
        parseProgram fuel s
          = some (.error (.runtime_error (expectMessage sb.advance.yylineno .TOK_EOF
                "at end of file (no trailing tokens after program)" sb.lookahead
                sb.advance.yytext)), sb.advance)) := by
  constructor
  · intro p s' h
    rw [parseProgram_eq] at h
    split at h
    · rename_i h1
      split at h
      · rename_i h2
        split at h
        · rename_i h3
          split at h
          · cases h
          · rename_i block s1 hb
            split at h
            · rename_i h4
              cases h
              obtain ⟨toks, ds, ht, -⟩ := parseBlock_sound fuel _ _ _ hb
              refine ⟨block, s1, hb, h4, ahead_of_eof s1 h4, ⟨toks, ht, ?_⟩, rfl, rfl⟩
              rw [expect_ahead s _ h1 (by decide), expect_ahead s.advance _ h2 (by decide),
                expect_ahead s.advance.advance _ h3 (by decide), ht, ahead_of_eof s1 h4]
              simp
            · cases h
          · cases h
        · cases h
      · cases h
    · cases h
  · intro b sb h1 h2 h3 hb hne
    rw [parseProgram_eq, if_pos h1, if_pos h2, if_pos h3, hb]
    simp only [hne, if_false]

theorem C26_whole_input_witness :
    parseProgram 2 extraEnd
        = some (.error (.runtime_error (expectMessage 2 .TOK_EOF
              "at end of file (no trailing tokens after program)" .END "END")),
            ParserState.mk [] "" 3 "END" 2 false .END "END" [])
      ∧ expectMessage 2 .TOK_EOF "at end of file (no trailing tokens after program)" .END "END"
        = "Parse error (line 2): expected EOF — at end of file (no trailing tokens after program), got END [END]" :=
  ⟨(C26_whole_input 2 extraEnd).2 { compound := some [.readStmt "x"] }
      (ParserState.mk [Lexeme.mk .END "END" 2] "" 3 "END" 1 false .END "END" [])
      rfl rfl rfl (by
        simp only [extraEnd, ParserState.init, parseBlock, parseCompound, parseCompoundLoop,
          parseStatement, bind_bind, bind_expect, bind_peek, bind_pure, bind_parseRead,
          pure_apply, lookahead_cons, advance_cons, peeked_cons, lookaheadLex_cons,
          lookahead_mk_held, advance_mk_held, peeked_mk_held, if_true, if_false, reduceCtorEq])
      (by decide), by decide⟩

/-- C27: when a lexeme of kind UNKNOWN is among the tokens in front of the end of
the input, parseProgram returns no program, whatever the bound, and with a bound
of four times the number of these tokens, plus one, it ends with an
exception. -/
theorem C27_unknown_is_fatal [Double R] [Stod R] (s : ParserState R)
    (h : ∃ t ∈ s.ahead, t.1 = .UNKNOWN) :
    (∀ fuel p s', parseProgram fuel s ≠ some (.ok p, s'))
      ∧ ∀ fuel, 4 * s.ahead.length + 1 ≤ fuel →
          ∃ e s', parseProgram fuel s = some (.error e, s') := by
  have h1 : ∀ fuel p s', parseProgram fuel s ≠ some (.ok p, s') := by
    intro fuel p s' hp
    obtain ⟨t, ht, hu⟩ := h
    exact (parseProgram_sound fuel s s' p hp).program_no_unknown t ht hu
  refine ⟨h1, ?_⟩
  intro fuel hf
  have h2 := parseProgram_returns fuel s hf
  rcases hx : parseProgram fuel s with _ | ⟨e | p, s'⟩
  · exact absurd hx h2
  · exact ⟨e, s', rfl⟩
  · exact absurd hx (h1 fuel p s')

theorem C27_unknown_is_fatal_witness :
    (∀ fuel p s', parseProgram fuel unknownInside ≠ some (.ok p, s'))
      ∧ ∀ fuel, 4 * unknownInside.ahead.length + 1 ≤ fuel →
          ∃ e s', parseProgram fuel unknownInside = some (.error e, s') :=
  C27_unknown_is_fatal unknownInside ⟨(.UNKNOWN, "?"), by decide, rfl⟩

/-- C24: every list of tokens that forms a Value of the grammar, in front of
tokens that do not start with an operator, is parsed by parseValue, with any
bound that is large enough, into the tree the grammar gives it, and is
consumed exactly.  In that tree the left operand of + or - is the tree of the
whole value to its left and its right operand is one term, and the left
operand of an operator of a term is the tree of the whole term to its left and
its right operand is one factor: the operators of a term bind tighter, and
operators of one level associate to the left. -/
theorem C24_precedence_and_associativity [Stod R] (toks rest : List (Token × String))
    (e : ValueNode R) (s : ParserState R) (h : Derives returnedUnary .value toks e)
    (hs : s.ahead = toks ++ rest) (hrest : NoOperatorNext rest) :
    ∃ s1, s1.ahead = rest ∧ ∃ f0, ∀ f, f0 ≤ f → parseValue f s = some (.ok e, s1) := by
  obtain ⟨s1, q1, q2⟩ := h.completes s rest hs (fun t ht => (hrest t ht).2)
  have hna : ¬ s1.lookahead.isAdditive :=
    lookahead_of_ahead s1 _ not_isAdditive_eof (by
      rw [q1]
      exact fun t ht => (hrest t ht).1)
  exact ⟨s1.peeked, by rw [ahead_peeked]; exact q1, q2 _ (parseValueLoop_done e s1 hna)⟩

theorem C24_precedence_and_associativity_witness :
    (∃ s1, s1.ahead = [] ∧ ∃ f0, ∀ f, f0 ≤ f → parseValue f aMinusBMinusC
        = some (.ok (.BinaryOp .MINUS (.BinaryOp .MINUS (.IdentNode "a") (.IdentNode "b"))
            (.IdentNode "c")), s1))
      ∧ (∃ s1, s1.ahead = [] ∧ ∃ f0, ∀ f, f0 ≤ f → parseValue f aPlusBTimesC
        = some (.ok (.BinaryOp .PLUS (.IdentNode "a")
            (.BinaryOp .MULTIPLY (.IdentNode "b") (.IdentNode "c"))), s1))
      ∧ (∃ s1, s1.ahead = [] ∧ ∃ f0, ∀ f, f0 ≤ f → parseValue f aDivBTimesC
        = some (.ok (.BinaryOp .MULTIPLY (.BinaryOp .DIVIDE (.IdentNode "a") (.IdentNode "b"))
            (.IdentNode "c")), s1)) :=
  ⟨C24_precedence_and_associativity _ [] _ aMinusBMinusC
      (Derives.addOp .MINUS "-" _ _ _ _
        (Derives.addOp .MINUS "-" _ _ _ _ (Derives.identValue _ "a") (Or.inr rfl)
          (Derives.identTerm _ "b"))
        (Or.inr rfl) (Derives.identTerm _ "c"))
      rfl (fun t ht => by cases ht),
   C24_precedence_and_associativity _ [] _ aPlusBTimesC
      (Derives.addOp .PLUS "+" _ _ _ _ (Derives.identValue _ "a") (Or.inl rfl)
        (Derives.mulOp .MULTIPLY "*" _ _ _ _ (Derives.identTerm _ "b") (Or.inl rfl)
          (Derives.plain _ _ (Derives.ident "c"))))
      rfl (fun t ht => by cases ht),
   C24_precedence_and_associativity _ [] _ aDivBTimesC
      (Derives.lone _ _
        (Derives.mulOp .MULTIPLY "*" _ _ _ _
          (Derives.mulOp .DIVIDE "/" _ _ _ _ (Derives.identTerm _ "a") (Or.inr (Or.inl rfl))
            (Derives.plain _ _ (Derives.ident "b")))
          (Or.inl rfl) (Derives.plain _ _ (Derives.ident "c"))))
      rfl (fun t ht => by cases ht)⟩

/-- C37: parseCompound, parseStatement, parseAssign, parseValue, parseRead and
parseWrite, run on globals whose symbol table is replaced by any other table,
return the same tree or throw the same exception and end in the same globals
but for the table, which is the one they were given: they neither read nor
change it.  In particular the table after each of them is the table before.
A call of parseDeclaration that returns has found its identifier absent and has
added it to the table with the default of its type; one that throws leaves the
table as it was. -/
theorem C37_statement_parsing_frame [Double R] [Stod R] (fuel : Nat) (s : ParserState R) :
    (∀ t : SymbolTable R,
        parseCompound fuel (s.withTable t)
          = (parseCompound fuel s).map (fun r => (r.1, r.2.withTable t))
        ∧ parseStatement fuel (s.withTable t)
          = (parseStatement fuel s).map (fun r => (r.1, r.2.withTable t))
        ∧ parseAssign fuel (s.withTable t)
          = (parseAssign fuel s).map (fun r => (r.1, r.2.withTable t))
        ∧ parseValue fuel (s.withTable t)
          = (parseValue fuel s).map (fun r => (r.1, r.2.withTable t))
        ∧ (parseRead (s.withTable t) : Except Err (Statement R) × ParserState R)
          = ((parseRead s).1, (parseRead s).2.withTable t)
        ∧ (parseWrite (s.withTable t) : Except Err (Statement R) × ParserState R)
          = ((parseWrite s).1, (parseWrite s).2.withTable t))
    ∧ (∀ r s', parseCompound fuel s = some (r, s') → s'.symbolTable = s.symbolTable)
    ∧ (∀ r s', parseStatement fuel s = some (r, s') → s'.symbolTable = s.symbolTable)
    ∧ (∀ r s', parseAssign fuel s = some (r, s') → s'.symbolTable = s.symbolTable)
    ∧ (∀ r s', parseValue fuel s = some (r, s') → s'.symbolTable = s.symbolTable)
    ∧ (parseRead s : Except Err (Statement R) × ParserState R).2.symbolTable = s.symbolTable
    ∧ (parseWrite s : Except Err (Statement R) × ParserState R).2.symbolTable = s.symbolTable
    ∧ (∀ s1, parseDeclaration s = (.ok (), s1) →
        s.symbolTable.find s.lookaheadLex = none
        ∧ s1.symbolTable
            = s.symbolTable.insert s.lookaheadLex (declDefault s.advance.advance.lookahead)
        ∧ s1.symbolTable ≠ s.symbolTable)
    ∧ (∀ e s1, parseDeclaration s = (.error e, s1) → s1.symbolTable = s.symbolTable) := by
  have hst := statement_tableBlind (R := R) fuel
  have hex := expression_tableBlind (R := R) fuel
  have has := blind_parseAssign (R := R) fuel
  refine ⟨fun t => ⟨hst.2.1 s t, hst.1 s t, has s t, hex.2.2.2.2.2 s t,
      blindP_parseRead s t, blindP_parseWrite s t⟩,
    fun r s' h => blind_symbolTable_eq hst.2.1 h,
    fun r s' h => blind_symbolTable_eq hst.1 h,
    fun r s' h => blind_symbolTable_eq has h,
    fun r s' h => blind_symbolTable_eq hex.2.2.2.2.2 h, ?_, ?_, ?_, ?_⟩
  · have h := blindP_parseRead s s.symbolTable
    rw [withTable_self] at h
    rw [h]
    rfl
  · have h := blindP_parseWrite s s.symbolTable
    rw [withTable_self] at h
    rw [h]
    rfl
  · intro s1 h
    obtain ⟨h1, h2⟩ := parseDeclaration_changes s s1 () h
    refine ⟨h1, h2, ?_⟩
    intro heq
    have h3 := SymbolTable.find_insert_self s.symbolTable s.lookaheadLex
      (declDefault s.advance.advance.lookahead)
    rw [← h2, heq, h1] at h3
    cases h3
  · intro e s1 h
    exact parseDeclaration_keeps s s1 e h

/-- A worked instance of C37: BEGIN READ ( x ) ; WRITE ( x ) END is parsed into
the same two statements with the empty table and with a table that holds y,
and the table is the same afterwards; x is in neither. -/
theorem C37_statement_parsing_frame_witness :
    parseCompound 3 twoStatements
        = some (.ok [.readStmt "x", .writeStmt "x" .IDENT],
            ParserState.mk [] "" 4 "END" 3 false .END "END" [])
      ∧ parseCompound 3 (twoStatements.withTable [("y", .real 0)])
        = some (.ok [.readStmt "x", .writeStmt "x" .IDENT],
            ParserState.mk [] "" 4 "END" 3 false .END "END" [("y", .real 0)])
      ∧ (ParserState.mk [] "" 4 "END" 3 false .END "END" ([] : SymbolTable ℚ)).symbolTable
        = twoStatements.symbolTable := by
  have h : parseCompound 3 twoStatements
      = some (.ok [.readStmt "x", .writeStmt "x" .IDENT],
          ParserState.mk [] "" 4 "END" 3 false .END "END" []) := by
    simp only [twoStatements, ParserState.init, parseCompound, parseCompoundLoop,
      parseStatement, bind_bind, bind_expect, bind_peek, bind_pure, bind_parseRead,
      bind_parseWrite, pure_apply, lookahead_cons, advance_cons, peeked_cons,
      lookaheadLex_cons, lookahead_mk_held, advance_mk_held, peeked_mk_held, if_true,
      if_false, reduceCtorEq, or_true, List.nil_append, List.cons_append]
  refine ⟨h, ?_, (C37_statement_parsing_frame 3 twoStatements).2.1 _ _ h⟩
  rw [((C37_statement_parsing_frame 3 twoStatements).1 [("y", .real 0)]).1, h]
  rfl

/-- C36: on every state of the scanner (the results it is going to deliver are
a finite list, and TOK_EOF ever after) parseProgram returns a program or throws:
there is one outcome that the run gives with every bound from four times the
number of tokens in front of the end of the input, plus one, and a result
found with any bound is the result with every larger bound.  Each iteration
of a loop begins by consuming a token, and nothing is given back: the loops of
parseValue and parseTerm consume the operator, the loop of parseCompound the
semicolon, the loop of parseBlock a declaration; parsePrimary consumes the
open parenthesis before it calls parseValue, and parseStatement reaches
parseStatement again through parseCompound only after BEGIN is consumed. -/
theorem C36_parser_terminates [Double R] [Stod R] (s : ParserState R) :
    (∃ r : Except Err (Program R) × ParserState R,
        ∀ fuel, 4 * s.ahead.length + 1 ≤ fuel → parseProgram fuel s = some r)
    ∧ (∀ fuel node rhs s1, s.lookahead.isAdditive →
        parseTerm fuel s.advance = some (.ok rhs, s1) →
        parseValueLoop (fuel + 1) node s
            = parseValueLoop fuel (.BinaryOp s.lookahead node rhs) s1
          ∧ s1.ahead.length < s.ahead.length)
    ∧ (∀ fuel node rhs s1, s.lookahead.isMultiplicative →
        parseFactor fuel s.advance = some (.ok rhs, s1) →
        parseTermLoop (fuel + 1) node s
            = parseTermLoop fuel (.BinaryOp s.lookahead node rhs) s1
          ∧ s1.ahead.length < s.ahead.length)
    ∧ (∀ fuel stmts next s1, s.lookahead = .SEMICOLON → s.advance.lookahead ≠ .END →
        parseStatement fuel s.advance = some (.ok next, s1) →
        parseCompoundLoop (fuel + 1) stmts s = parseCompoundLoop fuel (stmts ++ [next]) s1
          ∧ s1.ahead.length < s.ahead.length)
    ∧ (∀ fuel s1, s.lookahead = .IDENT → parseDeclaration s = (.ok (), s1) →
        parseDeclarations (fuel + 1) s = parseDeclarations fuel s1
          ∧ s1.ahead.length < s.ahead.length)
    ∧ (∀ fuel, s.lookahead = .OPENPAREN →
        parsePrimary (fuel + 1) s
            = (parseValue fuel >>= fun node =>
                ParseF.lift (expect .CLOSEPAREN "parsePrimary: Expected a CLOSEPAREN")
                  >>= fun _ => pure node) s.advance
          ∧ s.advance.ahead.length < s.ahead.length)
    ∧ (∀ fuel, s.lookahead = .TOK_BEGIN →
        parseStatement (fuel + 2) s
            = (parseStatement fuel >>= fun first =>
                parseCompoundLoop fuel [first] >>= fun stmts =>
                pure (.compoundStmt stmts)) s.advance
          ∧ s.advance.ahead.length < s.ahead.length)
    ∧ (∀ fuel fuel2 (r : Except Err (Program R) × ParserState R),
        parseProgram fuel s = some r → fuel ≤ fuel2 → parseProgram fuel2 s = some r) := by
  refine ⟨?_, ?_, ?_, ?_, ?_, ?_, ?_,
    fun fuel fuel2 r h hle => parseProgram_stable s r fuel h fuel2 hle⟩
  · have h := parseProgram_returns (R := R) (4 * s.ahead.length + 1) s (le_refl _)
    cases hr : parseProgram (4 * s.ahead.length + 1) s with
    | none => exact absurd hr h
    | some r => exact ⟨r, fun fuel hf => parseProgram_stable s r _ hr fuel hf⟩
  · intro fuel node rhs s1 hop ht
    constructor
    · rw [parseValueLoop_succ, if_pos hop, ht]
    · obtain ⟨toks, htoks, _⟩ := (expression_sound (R := R) fuel).2.2.1 s.advance rhs s1 ht
      have h1 := ahead_length_advance s (isAdditive_ne_eof _ hop)
      have h2 := ahead_length_le htoks
      omega
  · intro fuel node rhs s1 hop ht
    constructor
    · rw [parseTermLoop_succ, if_pos hop, ht]
    · obtain ⟨toks, htoks, _⟩ := (expression_sound (R := R) fuel).2.1 s.advance rhs s1 ht
      have h1 := ahead_length_advance s (isMultiplicative_ne_eof _ hop)
      have h2 := ahead_length_le htoks
      omega
  · intro fuel stmts next s1 hsemi hend ht
    constructor
    · rw [parseCompoundLoop_succ, if_pos hsemi, if_neg hend, ht]
    · obtain ⟨toks, htoks, _⟩ := (statement_sound (R := R) fuel).1 s.advance next s1 ht
      have h1 := ahead_length_advance s (by rw [hsemi]; decide)
      have h2 := ahead_length_le htoks
      omega
  · intro fuel s1 hid hd
    constructor
    · rw [parseDeclarations_succ, if_pos hid, hd]
    · have h := parseDeclaration_ahead s s1 () hd
      omega
  · intro fuel hp
    constructor
    · rw [parsePrimary_succ]
      simp only [hp, reduceCtorEq, if_false, if_true]
      rw [bind_apply]
      rcases parseValue fuel s.advance with _ | ⟨_ | node, s1⟩
      · rfl
      · rfl
      · simp only [bind_expect]
        rfl
    · have h1 := ahead_length_advance s (by rw [hp]; decide)
      omega
  · intro fuel hb
    constructor
    · rw [parseStatement_succ]
      simp only [hb, reduceCtorEq, if_false, if_true]
      rw [parseCompound_succ, if_pos hb, bind_apply]
      rcases parseStatement fuel s.advance with _ | ⟨_ | first, s1⟩
      · rfl
      · rfl
      · simp only []
        rw [bind_apply]
        rcases parseCompoundLoop fuel [first] s1 with _ | ⟨_ | stmts, s2⟩ <;> rfl
    · have h1 := ahead_length_advance s (by rw [hb]; decide)
      omega

/-- A worked instance of C36: PROGRAM p ; BEGIN END has five tokens; the
parser throws the error of parseStatement with the bound 21, and with the
bound 1000 as well.  In front of - b the loop of parseValue consumes both
tokens in one iteration. -/
theorem C36_parser_terminates_witness :
    (4 * emptyBody.ahead.length + 1 ≤ 21
      ∧ minusB.lookahead.isAdditive
      ∧ parseTerm 3 minusB.advance
        = some (.ok (.IdentNode "b"), ParserState.mk [] "" 2 "" 2 true .TOK_EOF "" []))
      ∧ parseProgram 21 emptyBody
        = some (.error (.runtime_error "parseStatement: Token Not accepted"),
            ParserState.mk [] "" 6 "END" 5 true .END "END" [])
      ∧ parseProgram 1000 emptyBody
        = some (.error (.runtime_error "parseStatement: Token Not accepted"),
            ParserState.mk [] "" 6 "END" 5 true .END "END" [])
      ∧ (ParserState.mk [] "" 2 "" 2 true .TOK_EOF "" ([] : SymbolTable ℚ)).ahead.length
          < minusB.ahead.length := by
  obtain ⟨r, hr⟩ := (C36_parser_terminates emptyBody).1
  have h21 := hr 21 (by decide)
  have he : parseProgram 21 emptyBody
      = some (.error (.runtime_error "parseStatement: Token Not accepted"),
          ParserState.mk [] "" 6 "END" 5 true .END "END" []) := by
    simp only [emptyBody, ParserState.init, parseProgram, parseBlock, parseCompound,
      parseCompoundLoop, parseStatement, bind_bind, bind_expect, bind_peek, bind_get, bind_pure,
      bind_throw, pure_apply, lookahead_cons, advance_cons, peeked_cons, lookaheadLex_cons,
      lookahead_mk_held, advance_mk_held, peeked_mk_held, if_true, if_false, reduceCtorEq,
      or_true, List.nil_append]
  rw [he] at h21
  have ht : parseTerm 3 minusB.advance
      = some (.ok (.IdentNode "b"), ParserState.mk [] "" 2 "" 2 true .TOK_EOF "" []) := rfl
  refine ⟨⟨by decide, by decide, ht⟩, he, ?_,
    ((C36_parser_terminates minusB).2.1 3 (.IdentNode "a") _ _ (by decide) ht).2⟩
  rw [hr 1000 (by decide), h21]

/-- C38: when parseProgram returns a program, its name is the lexeme of the
second token, the IDENT after PROGRAM, and every node of the program is the
node the grammar builds from the tokens consumed, names included.  When
parseAssign returns, the statement is an assignment whose target is the lexeme
of the IDENT in front of the assign token; when parseRead returns, a read
whose target is the lexeme of the IDENT between the parentheses; when
parseWrite returns, a write whose content is the lexeme of the STRINGLIT or
IDENT between the parentheses and whose type is the kind of that token; when
parseDeclaration returns, the key added to the table is the lexeme of the
IDENT in front of the colon. -/
theorem C38_names_from_consumed_token [Double R] [Stod R] (fuel : Nat)
    (s s' : ParserState R) :
    (∀ p, parseProgram fuel s = some (.ok p, s') →
        p.name = s.advance.lookaheadLex
        ∧ (∃ a m rest,
            s.ahead = (.PROGRAM, a) :: (.IDENT, p.name) :: (.SEMICOLON, m) :: rest)
        ∧ ProgramDerives returnedUnary true s.ahead p)
    ∧ (∀ st, parseAssign fuel s = some (.ok st, s') →
        ∃ id rhs a toks, st = .assignStmt id rhs
          ∧ s.ahead = (.IDENT, id) :: (.ASSIGN, a) :: toks ++ s'.ahead
          ∧ Derives returnedUnary .value toks rhs)
    ∧ (∀ st, parseRead s = (.ok st, s') →
        ∃ target r o c, st = .readStmt target
          ∧ s.ahead = [(.READ, r), (.OPENPAREN, o), (.IDENT, target), (.CLOSEPAREN, c)]
              ++ s'.ahead)
    ∧ (∀ st, parseWrite s = (.ok st, s') →
        ∃ content type w o c, st = .writeStmt content type
          ∧ (type = .STRINGLIT ∨ type = .IDENT)
          ∧ s.ahead = [(.WRITE, w), (.OPENPAREN, o), (type, content), (.CLOSEPAREN, c)]
              ++ s'.ahead)
    ∧ (parseDeclaration s = (.ok (), s') →
        ∃ x c ty tx m,
          s.ahead = (.IDENT, x) :: (.COLON, c) :: (ty, tx) :: (.SEMICOLON, m) :: s'.ahead
          ∧ (ty = .INTEGER ∨ ty = .REAL)
          ∧ s'.symbolTable = s.symbolTable.insert x (declDefault ty)) := by
  refine ⟨?_, fun st h => parseAssign_names fuel s s' st h,
    fun st h => parseRead_names s s' st h, fun st h => parseWrite_names s s' st h,
    fun h => parseDeclaration_names s s' () h⟩
  intro p h
  have hd := parseProgram_sound fuel s s' p h
  obtain ⟨a, x, m, rest, ds, b, htoks, _, hp⟩ := hd
  have h1 := ahead_cons_inv s _ _ _ htoks
  have h2 := ahead_cons_inv s.advance _ _ _ h1.2.2.1
  refine ⟨?_, ⟨a, m, rest, ?_⟩, parseProgram_sound fuel s s' p h⟩
  · rw [hp, h2.2.1]
  · rw [hp]
    exact htoks

/-- A worked instance of C38: PROGRAM prog ; BEGIN x := y + 2 ; WRITE ( hi ) END
is parsed into the program named prog, not named by the semicolon that
follows, with the assignment to x and the write of the string. -/
theorem C38_names_from_consumed_token_witness :
    parseProgram 8 namedProgram
        = some (.ok namedProgramTree, ParserState.mk [] "" 6 "" 6 false .TOK_EOF "" [])
      ∧ namedProgramTree.name = "prog"
      ∧ namedProgram.advance.lookaheadLex = "prog"
      ∧ namedProgram.advance.advance.lookaheadLex = ";"
      ∧ ∃ a m rest, namedProgram.ahead
          = (.PROGRAM, a) :: (.IDENT, namedProgramTree.name) :: (.SEMICOLON, m) :: rest := by
  have h : parseProgram 8 namedProgram
      = some (.ok namedProgramTree, ParserState.mk [] "" 6 "" 6 false .TOK_EOF "" []) := by
    simp only [namedProgram, namedProgramTree, ParserState.init, parseProgram, parseBlock,
      parseCompound, parseCompoundLoop, parseStatement, parseAssign, parseValue,
      parseValueLoop, parseTerm, parseTermLoop, parseFactor, parsePrimary, bind_bind,
      bind_expect, bind_peek, bind_get, bind_pure, bind_throw, bind_parseRead, bind_parseWrite,
      bind_ofExcept, pure_apply, lookahead_cons, advance_cons, peeked_cons, lookaheadLex_cons,
      lookahead_nil, advance_nil, peeked_nil,
      lookahead_mk_held, advance_mk_held, peeked_mk_held, lookaheadLex_mk_held, if_true,
      if_false, reduceCtorEq, or_true, true_or, or_false, false_or, List.nil_append,
      List.cons_append]
    rfl
  exact ⟨h, rfl, rfl, rfl, ((C38_names_from_consumed_token 8 namedProgram _).1 _ h).2.1⟩

/-- C34: in a program that parseProgram returns, every BinaryOp node has one of
the operators + - * / MOD ^^ and every UnaryOp node has ++ or -- (the same
holds of every program of the grammar, with the UnaryOp nodes it asks for), and
interpreting a program with that property, from any state, never ends with the
exception "BinaryOp: Fails to match any case." nor with "Unknown unary
operator". -/
theorem C34_operator_errors_unreachable {I : Type} [Double R] [Stod R] [Cin R I]
    (fuel : Nat) (s s' : ParserState R) (p : Program R)
    (h : parseProgram fuel s = some (.ok p, s')) :
    p.OperatorsKnown
    ∧ (∀ st : State R I,
        (p.interpret st).1 ≠ some (.runtime_error "BinaryOp: Fails to match any case.")
        ∧ (p.interpret st).1 ≠ some (.runtime_error "Unknown unary operator"))
    ∧ (∀ (trailing : Bool) (toks : List (Token × String)) (q : Program R),
        ProgramDerives requiredUnary trailing toks q →
        q.OperatorsKnown
        ∧ ∀ st : State R I,
            (q.interpret st).1 ≠ some (.runtime_error "BinaryOp: Fails to match any case.")
            ∧ (q.interpret st).1 ≠ some (.runtime_error "Unknown unary operator")) := by
  have key : ∀ q : Program R, q.OperatorsKnown → ∀ st : State R I,
      (q.interpret st).1 ≠ some (.runtime_error "BinaryOp: Fails to match any case.")
      ∧ (q.interpret st).1 ≠ some (.runtime_error "Unknown unary operator") := by
    intro q hq st
    constructor
    · intro he
      exact Program.run_known q hq st _ he (Or.inl rfl)
    · intro he
      exact Program.run_known q hq st _ he (Or.inr rfl)
  have hk := ProgramDerives.program_operatorsKnown returnedUnary_known
    (parseProgram_sound fuel s s' p h)
  refine ⟨hk, key p hk, ?_⟩
  intro trailing toks q hq
  have hq2 := ProgramDerives.program_operatorsKnown requiredUnary_known hq
  exact ⟨hq2, key q hq2⟩

/-- A worked instance of C34: the program parsed from
PROGRAM prog ; BEGIN x := y + 2 ; WRITE ( hi ) END, run with y = 1/2 and x
absent, completes; it raises neither of the two exceptions. -/
theorem C34_operator_errors_unreachable_witness :
    parseProgram 8 namedProgram
        = some (.ok namedProgramTree, ParserState.mk [] "" 6 "" 6 false .TOK_EOF "" [])
      ∧ (namedProgramTree.interpret (State.mk [("y", .real (1 / 2))] () "")).1
          ≠ some (.runtime_error "BinaryOp: Fails to match any case.")
      ∧ (namedProgramTree.interpret (State.mk [("y", .real (1 / 2))] () "")).1
          ≠ some (.runtime_error "Unknown unary operator") := by
  have h : parseProgram 8 namedProgram
      = some (.ok namedProgramTree, ParserState.mk [] "" 6 "" 6 false .TOK_EOF "" []) := by
    simp only [namedProgram, namedProgramTree, ParserState.init, parseProgram, parseBlock,
      parseCompound, parseCompoundLoop, parseStatement, parseAssign, parseValue,
      parseValueLoop, parseTerm, parseTermLoop, parseFactor, parsePrimary, bind_bind,
      bind_expect, bind_peek, bind_get, bind_pure, bind_throw, bind_parseRead, bind_parseWrite,
      bind_ofExcept, pure_apply, lookahead_cons, advance_cons, peeked_cons, lookaheadLex_cons,
      lookahead_nil, advance_nil, peeked_nil,
      lookahead_mk_held, advance_mk_held, peeked_mk_held, lookaheadLex_mk_held, if_true,
      if_false, reduceCtorEq, or_true, true_or, or_false, false_or, List.nil_append,
      List.cons_append]
    rfl
  exact ⟨h, (C34_operator_errors_unreachable (I := Unit) 8 namedProgram _ _ h).2.1 _⟩

end ParserClaims

/-! ## Claims about Lab 2 -/

namespace Lab2

section SentenceLemmas

theorem expect_unfold (tok : Token) (msg : String) (s : Globals) :
    expect tok msg s
      = if s.lookahead = tok then (.ok s.yytext, s.step)
        else (.error (.runtime_error msg), s) := by
  unfold expect Globals.step
  by_cases h : s.lookahead = tok
  · simp only [h, if_true]
  · simp only [h, if_false]

theorem seq_apply {α β : Type} (m : Parser α) (f : α → Parser β) (s : Globals) :
    (m >>= f) s
      = match m s with
        | (.ok a, s1) => f a s1
        | (.error e, s1) => (.error e, s1) := rfl

theorem seq_lookahead {β : Type} (f : Token → Parser β) (s : Globals) :
    (Parser.lookahead >>= f) s = f s.lookahead s := rfl

theorem seq_expect {β : Type} (tok : Token) (msg : String) (f : String → Parser β)
    (s : Globals) :
    (expect tok msg >>= f) s
      = if s.lookahead = tok then f s.yytext s.step
        else (.error (.runtime_error msg), s) := by
  rw [seq_apply, expect_unfold]
  by_cases h : s.lookahead = tok
  · simp only [h, if_true]
  · simp only [h, if_false]

theorem ret_apply {α : Type} (a : α) (s : Globals) :
    (pure a : Parser α) s = (.ok a, s) := rfl

theorem throw_apply {α : Type} (msg : String) (s : Globals) :
    (Parser.throw msg : Parser α) s = (.error (.runtime_error msg), s) := rfl

theorem parseAdjectivePhrase_eq (s : Globals) :
    parseAdjectivePhrase s
      = if s.lookahead = .ARTICLE ∨ s.lookahead = .POSSESSIVE then
          if s.step.lookahead = .ADJECTIVE then
            (.ok { detType := detTypeOf s.lookahead, detLexeme := s.yytext,
                   adjLexeme := s.step.yytext }, s.step.step)
          else
            (.error (.runtime_error "<adjective phrase> did not have an adjective."), s.step)
        else
          (.error (.runtime_error
            "<adjective phrase> did not start with an article or possessive."), s) := by
  unfold parseAdjectivePhrase
  by_cases h1 : s.lookahead = .ARTICLE
  · simp only [seq_lookahead, h1, ne_eq, not_true_eq_false, false_and, if_false, if_true,
      seq_expect, true_or, detTypeOf]
    by_cases h2 : s.step.lookahead = .ADJECTIVE
    · simp only [h2, if_true, ret_apply]
    · simp only [h2, if_false]
  · by_cases h2 : s.lookahead = .POSSESSIVE
    · simp only [seq_lookahead, h2, ne_eq, not_true_eq_false, and_false, if_false,
        seq_expect, if_true, or_true, detTypeOf, reduceCtorEq]
      by_cases h3 : s.step.lookahead = .ADJECTIVE
      · simp only [h3, if_true, ret_apply]
      · simp only [h3, if_false]
    · simp only [seq_lookahead, ne_eq, h1, not_false_eq_true, h2, and_self, if_true,
        throw_apply, or_self, if_false]

theorem parseNounPhrase_eq (s : Globals) :
    parseNounPhrase s
      = if s.lookahead = .ARTICLE ∨ s.lookahead = .POSSESSIVE then
          if s.step.lookahead = .ADJECTIVE then
            if s.step.step.lookahead = .NOUN then
              (.ok { adj := { detType := detTypeOf s.lookahead, detLexeme := s.yytext,
                              adjLexeme := s.step.yytext },
                     nounLexeme := s.step.step.yytext }, s.step.step.step)
            else (.error (.runtime_error "<noun phrase> did not have a noun."), s.step.step)
          else
            (.error (.runtime_error "<adjective phrase> did not have an adjective."), s.step)
        else
          (.error (.runtime_error
            "<noun phrase> did not start with an article or possessive"), s) := by
  unfold parseNounPhrase
  simp only [seq_lookahead]
  by_cases h : s.lookahead = .ARTICLE ∨ s.lookahead = .POSSESSIVE
  · have hn : ¬ (s.lookahead ≠ .ARTICLE ∧ s.lookahead ≠ .POSSESSIVE) := by
      rcases h with h | h <;> simp [h]
    simp only [hn, if_false, h, if_true]
    rw [seq_apply, parseAdjectivePhrase_eq]
    simp only [h, if_true]
    by_cases h2 : s.step.lookahead = .ADJECTIVE
    · simp only [h2, if_true, seq_expect]
      by_cases h3 : s.step.step.lookahead = .NOUN
      · simp only [h3, if_true, ret_apply]
      · simp only [h3, if_false]
    · simp only [h2, if_false]
  · have hn : s.lookahead ≠ .ARTICLE ∧ s.lookahead ≠ .POSSESSIVE := by
      constructor
      · intro h1
        exact h (Or.inl h1)
      · intro h1
        exact h (Or.inr h1)
    rw [if_pos hn, if_neg h]
    rfl

/-! ### The tokens still to come -/

theorem stream_of_eof (s : Globals) (h : s.lookahead = .TOK_EOF) : s.stream = [] := by
  unfold Globals.stream
  simp [h]

theorem stream_of_ne (s : Globals) (h : s.lookahead ≠ .TOK_EOF) :
    s.stream = (s.lookahead, s.yytext) :: s.step.stream := by
  unfold Globals.stream Globals.step next
  rcases hi : s.input with _ | ⟨⟨k, t⟩, rest⟩
  · simp [h]
  · simp [h]

theorem stream_cons_inv (s : Globals) (k : Token) (t : String) (rest : List (Token × String))
    (h : s.stream = (k, t) :: rest) :
    s.lookahead = k ∧ s.yytext = t ∧ s.step.stream = rest ∧ k ≠ .TOK_EOF := by
  by_cases he : s.lookahead = .TOK_EOF
  · rw [stream_of_eof s he] at h
    cases h
  · rw [stream_of_ne s he] at h
    simp only [List.cons.injEq, Prod.mk.injEq] at h
    obtain ⟨⟨h1, h2⟩, h3⟩ := h
    exact ⟨h1, h2, h3, h1 ▸ he⟩

theorem stream_nil_inv (s : Globals) (h : s.stream = []) : s.lookahead = .TOK_EOF := by
  by_contra he
  rw [stream_of_ne s he] at h
  cases h

theorem stream_step_init (s : Globals) :
    s.step.stream = s.input.takeWhile (fun p => p.1 ≠ .TOK_EOF) := by
  unfold Globals.stream Globals.step next
  rcases hi : s.input with _ | ⟨⟨k, t⟩, rest⟩
  · simp
  · simp

/-! ### The adverb loop and the larger phrases -/

theorem parseAdverbs_eq (adverbs : List String) (s : Globals) :
    parseAdverbs adverbs s
      = if s.lookahead = .ADVERB then parseAdverbs (adverbs ++ [s.yytext]) s.step
        else (.ok adverbs, s) := by
  rw [parseAdverbs]
  by_cases h : s.lookahead = .ADVERB
  · simp only [h, dite_true, if_true]
    have he := expect_unfold .ADVERB "..." s
    rw [if_pos h] at he
    split
    · rename_i lex s1 h1
      rw [he] at h1
      cases h1
      rfl
    · rename_i e s1 h1
      rw [he] at h1
      cases h1
  · simp only [h, dite_false, if_false]

/-- The loop returns: it pushes the lexemes of the adverbs at the front of the
tokens still to come and stops in front of the first token that is not an
adverb. -/
theorem parseAdverbs_spec (n : Nat) :
    ∀ (s : Globals) (adverbs : List String), s.stream.length ≤ n →
      ∃ (more : List String) (s1 : Globals),
        parseAdverbs adverbs s = (.ok (adverbs ++ more), s1)
          ∧ s.stream = more.map (fun a => (Token.ADVERB, a)) ++ s1.stream
          ∧ s1.lookahead ≠ .ADVERB := by
  induction n with
  | zero =>
    intro s adverbs hn
    have h0 : s.stream = [] := List.length_eq_zero.mp (Nat.le_zero.mp hn)
    have he := stream_nil_inv s h0
    refine ⟨[], s, ?_, by simp, by rw [he]; decide⟩
    rw [parseAdverbs_eq, he]
    simp
  | succ n ih =>
    intro s adverbs hn
    by_cases h : s.lookahead = .ADVERB
    · have hne : s.lookahead ≠ .TOK_EOF := by rw [h]; decide
      have hs := stream_of_ne s hne
      have hlen : s.step.stream.length ≤ n := by
        rw [hs] at hn
        simpa using hn
      obtain ⟨more, s1, h1, h2, h3⟩ := ih s.step (adverbs ++ [s.yytext]) hlen
      refine ⟨s.yytext :: more, s1, ?_, ?_, h3⟩
      · rw [parseAdverbs_eq, if_pos h, h1]
        simp
      · rw [hs, h2, h]
        simp
    · refine ⟨[], s, ?_, by simp, h⟩
      rw [parseAdverbs_eq, if_neg h]
      simp

theorem parseVerbPhrase_eq (s : Globals) :
    parseVerbPhrase s
      = if s.lookahead = .VERB ∨ s.lookahead = .ADVERB then
          match parseAdverbs [] s with
          | (.ok adverbs, s1) =>
            if s1.lookahead = .VERB then
              (.ok { adverbs := adverbs, verbLexeme := s1.yytext }, s1.step)
            else
              (.error (.runtime_error
                "<verb phrase> did not start with a verb or an adverb"), s1)
          | (.error e, s1) => (.error e, s1)
        else
          (.error (.runtime_error
            "<verb phrase> did not start with a verb or an adverb."), s) := by
  unfold parseVerbPhrase
  simp only [seq_lookahead]
  by_cases h : s.lookahead = .VERB ∨ s.lookahead = .ADVERB
  · have hn : ¬ (s.lookahead ≠ .VERB ∧ s.lookahead ≠ .ADVERB) := by
      rcases h with h | h <;> simp [h]
    rw [if_neg hn, if_pos h, seq_apply]
    rcases parseAdverbs [] s with ⟨_ | adverbs, s1⟩
    · rfl
    · simp only [seq_expect]
      by_cases h2 : s1.lookahead = .VERB
      · simp only [h2, if_true, ret_apply]
      · simp only [h2, if_false]
  · have hn : s.lookahead ≠ .VERB ∧ s.lookahead ≠ .ADVERB := by
      constructor
      · intro h1
        exact h (Or.inl h1)
      · intro h1
        exact h (Or.inr h1)
    rw [if_pos hn, if_neg h]
    rfl

theorem parseSentence_eq (s : Globals) :
    parseSentence s
      = if s.lookahead = .ARTICLE ∨ s.lookahead = .POSSESSIVE then
          match parseNounPhrase s with
          | (.ok subjectNP, s1) =>
            match parseVerbPhrase s1 with
            | (.ok verbP, s2) =>
              match parseNounPhrase s2 with
              | (.ok objectNP, s3) =>
                (.ok { subjectNP := subjectNP, verbP := verbP, objectNP := objectNP }, s3)
              | (.error e, s3) => (.error e, s3)
            | (.error e, s2) => (.error e, s2)
          | (.error e, s1) => (.error e, s1)
        else
          (.error (.runtime_error
            "<sentence> did not start with an article or possessive."), s) := by
  unfold parseSentence
  simp only [seq_lookahead]
  by_cases h : s.lookahead = .ARTICLE ∨ s.lookahead = .POSSESSIVE
  · have hn : ¬ (s.lookahead ≠ .ARTICLE ∧ s.lookahead ≠ .POSSESSIVE) := by
      rcases h with h | h <;> simp [h]
    rw [if_neg hn, if_pos h, seq_apply]
    rcases parseNounPhrase s with ⟨_ | subjectNP, s1⟩
    · rfl
    · simp only [seq_apply]
      rcases parseVerbPhrase s1 with ⟨_ | verbP, s2⟩
      · rfl
      · simp only
        rcases parseNounPhrase s2 with ⟨_ | objectNP, s3⟩
        · rfl
        · rfl
  · have hn : s.lookahead ≠ .ARTICLE ∧ s.lookahead ≠ .POSSESSIVE := by
      constructor
      · intro h1
        exact h (Or.inl h1)
      · intro h1
        exact h (Or.inr h1)
    rw [if_pos hn, if_neg h]
    rfl

theorem next_eq (s : Globals) : next s = (.ok (), s.step) := by
  unfold Globals.step next
  rcases s.input with _ | ⟨⟨k, t⟩, rest⟩ <;> rfl

theorem parseStart_eq (s : Globals) :
    parseStart s
      = match parseSentence s.step with
        | (.ok root, s1) =>
          if s1.lookahead = .TOK_EOF then (.ok root, s1)
          else (.error (.runtime_error "Extra input after complete sentence."), s1)
        | (.error e, s1) => (.error e, s1) := by
  unfold parseStart
  rw [seq_apply, next_eq]
  simp only [seq_apply]
  rcases parseSentence s.step with ⟨_ | root, s1⟩
  · rfl
  · simp only [Parser.lookahead]
    by_cases h : s1.lookahead = .TOK_EOF
    · simp only [h, ne_eq, not_true_eq_false, if_false, if_true, ret_apply]
    · simp only [h, ne_eq, not_false_eq_true, if_true, if_false, throw_apply]

/-- A noun phrase is parsed exactly when the three tokens still to come first
are a determiner, an adjective and a noun. -/
theorem parseNounPhrase_ok (s s1 : Globals) (node : NounPhrase) :
    parseNounPhrase s = (.ok node, s1)
      ↔ ∃ k, (k = .ARTICLE ∨ k = .POSSESSIVE) ∧ node.adj.detType = detTypeOf k
          ∧ s.stream = node.tokens k ++ s1.stream ∧ s1 = s.step.step.step := by
  rw [parseNounPhrase_eq]
  constructor
  · intro h
    split at h
    · rename_i h1
      split at h
      · rename_i h2
        split at h
        · rename_i h3
          simp only [Prod.mk.injEq, Except.ok.injEq] at h
          obtain ⟨rfl, rfl⟩ := h
          refine ⟨s.lookahead, h1, rfl, ?_, rfl⟩
          have e1 : s.lookahead ≠ .TOK_EOF := by
            rcases h1 with h1 | h1 <;> rw [h1] <;> decide
          have e2 : s.step.lookahead ≠ .TOK_EOF := by rw [h2]; decide
          have e3 : s.step.step.lookahead ≠ .TOK_EOF := by rw [h3]; decide
          rw [stream_of_ne s e1, stream_of_ne _ e2, stream_of_ne _ e3, h2, h3]
          rfl
        · cases h
      · cases h
    · cases h
  · rintro ⟨k, hk, hd, hs, rfl⟩
    obtain ⟨a1, a2, a3, _⟩ := stream_cons_inv s _ _ _ hs
    obtain ⟨b1, b2, b3, _⟩ := stream_cons_inv s.step _ _ _ a3
    obtain ⟨c1, c2, _, _⟩ := stream_cons_inv s.step.step _ _ _ b3
    rw [a1, b1, c1, if_pos hk, if_pos rfl, if_pos rfl, a2, b2, c2, ← hd]

theorem adverbs_unique (advs : List String) :
    ∀ (more : List String) (s1 : Globals) (v : String) (rest : List (Token × String)),
      advs.map (fun a => (Token.ADVERB, a)) ++ (Token.VERB, v) :: rest
          = more.map (fun a => (Token.ADVERB, a)) ++ s1.stream →
      s1.lookahead ≠ .ADVERB →
      more = advs ∧ s1.stream = (Token.VERB, v) :: rest := by
  induction advs with
  | nil =>
    intro more s1 v rest h hne
    rcases more with _ | ⟨m, ms⟩
    · exact ⟨rfl, by simpa using h.symm⟩
    · simp at h
  | cons a as ih =>
    intro more s1 v rest h hne
    rcases more with _ | ⟨m, ms⟩
    · simp only [List.map_cons, List.cons_append, List.map_nil, List.nil_append] at h
      exact absurd (stream_cons_inv s1 _ _ _ h.symm).1 hne
    · simp only [List.map_cons, List.cons_append, List.cons.injEq, Prod.mk.injEq,
        true_and] at h
      obtain ⟨rfl, h⟩ := h
      obtain ⟨rfl, h2⟩ := ih ms s1 v rest h hne
      exact ⟨rfl, h2⟩

/-- A verb phrase is parsed exactly when the tokens still to come first are
adverbs followed by a verb. -/
theorem parseVerbPhrase_ok (s s1 : Globals) (node : VerbPhrase) :
    parseVerbPhrase s = (.ok node, s1) ↔ s.stream = node.tokens ++ s1.stream
      ∧ ∃ s0, parseAdverbs [] s = (.ok node.adverbs, s0) ∧ s1 = s0.step := by
  obtain ⟨more, s0, p1, p2, p3⟩ := parseAdverbs_spec s.stream.length s [] (Nat.le_refl _)
  rw [List.nil_append] at p1
  rw [parseVerbPhrase_eq, p1]
  constructor
  · intro h
    split at h
    · rename_i h1
      simp only at h
      split at h
      · rename_i h2
        simp only [Prod.mk.injEq, Except.ok.injEq] at h
        obtain ⟨rfl, rfl⟩ := h
        have e : s0.lookahead ≠ .TOK_EOF := by rw [h2]; decide
        refine ⟨?_, s0, rfl, rfl⟩
        rw [p2, stream_of_ne s0 e, h2]
        simp [VerbPhrase.tokens]
      · cases h
    · cases h
  · rintro ⟨hs, s0', hq, rfl⟩
    simp only [Prod.mk.injEq, Except.ok.injEq] at hq
    obtain ⟨rfl, rfl⟩ := hq
    rw [p2] at hs
    unfold VerbPhrase.tokens at hs
    simp only [List.append_assoc, List.cons_append, List.nil_append,
      List.append_cancel_left_eq] at hs
    obtain ⟨q1, q2, _, _⟩ := stream_cons_inv s0 _ _ _ hs
    have hfirst : s.lookahead = .VERB ∨ s.lookahead = .ADVERB := by
      by_cases ha : s.lookahead = .ADVERB
      · exact Or.inr ha
      · rw [parseAdverbs_eq, if_neg ha] at p1
        simp only [Prod.mk.injEq, Except.ok.injEq] at p1
        rw [← p1.2] at q1
        exact Or.inl q1
    rw [if_pos hfirst]
    simp only [q1, if_true, q2]

end SentenceLemmas

section SentenceClaims

/-- C28: parseStart returns a sentence exactly when the tokens in front of
the end of the input are (ARTICLE | POSSESSIVE) ADJECTIVE NOUN ADVERB* VERB
(ARTICLE | POSSESSIVE) ADJECTIVE NOUN; the sentence it returns holds the
lexemes of these tokens in the matching fields, the kinds of the two
determiners in detType, and the lexemes of the adverbs in input order. -/
theorem C28_sentence_grammar (s : Globals) (node : Sentence) :
    (∃ s1, parseStart s = (.ok node, s1))
      ↔ IsSentence (s.input.takeWhile (fun p => p.1 ≠ .TOK_EOF)) node := by
  rw [← stream_step_init, parseStart_eq, parseSentence_eq]
  constructor
  · rintro ⟨s4, h⟩
    split at h
    · rename_i root s4' hroot
      split at hroot
      · rename_i hfirst
        split at hroot
        · rename_i subjectNP s1 h1
          split at hroot
          · rename_i verbP s2 h2
            split at hroot
            · rename_i objectNP s3 h3
              simp only [Prod.mk.injEq, Except.ok.injEq] at hroot
              obtain ⟨rfl, rfl⟩ := hroot
              split at h
              · rename_i heof
                simp only [Prod.mk.injEq, Except.ok.injEq] at h
                obtain ⟨rfl, rfl⟩ := h
                obtain ⟨k1, hk1, hd1, hs1, -⟩ := (parseNounPhrase_ok _ _ _).mp h1
                obtain ⟨hs2, -⟩ := (parseVerbPhrase_ok _ _ _).mp h2
                obtain ⟨k2, hk2, hd2, hs3, -⟩ := (parseNounPhrase_ok _ _ _).mp h3
                refine ⟨k1, k2, hk1, hk2, hd1, hd2, ?_⟩
                rw [hs1, hs2, hs3, stream_of_eof _ heof]
                simp
              · cases h
            · cases hroot
          · cases hroot
        · cases hroot
      · cases hroot
    · cases h
  · rintro ⟨k1, k2, hk1, hk2, hd1, hd2, hs⟩
    have hs0 := hs
    unfold NounPhrase.tokens at hs
    simp only [List.cons_append, List.nil_append, List.append_assoc] at hs
    obtain ⟨a1, -, a3, -⟩ := stream_cons_inv _ _ _ _ hs
    obtain ⟨-, -, b3, -⟩ := stream_cons_inv _ _ _ _ a3
    obtain ⟨-, -, c3, -⟩ := stream_cons_inv _ _ _ _ b3
    have n1 : parseNounPhrase s.step = (.ok node.subjectNP, s.step.step.step.step) := by
      refine (parseNounPhrase_ok _ _ _).mpr ⟨k1, hk1, hd1, ?_, rfl⟩
      rw [c3, hs]
      simp [NounPhrase.tokens]
    obtain ⟨more, s0, p1, p2, p3⟩ :=
      parseAdverbs_spec s.step.step.step.step.stream.length s.step.step.step.step []
        (Nat.le_refl _)
    rw [List.nil_append] at p1
    have hv : s.step.step.step.step.stream
        = node.verbP.adverbs.map (fun a => (Token.ADVERB, a))
            ++ (Token.VERB, node.verbP.verbLexeme)
              :: [(k2, node.objectNP.adj.detLexeme), (.ADJECTIVE, node.objectNP.adj.adjLexeme),
                  (.NOUN, node.objectNP.nounLexeme)] := by
      rw [c3]
      simp [VerbPhrase.tokens]
    obtain ⟨rfl, q2⟩ := adverbs_unique _ _ _ _ _ (hv.symm.trans p2) p3
    obtain ⟨-, -, d3, -⟩ := stream_cons_inv _ _ _ _ q2
    have n2 : parseVerbPhrase s.step.step.step.step = (.ok node.verbP, s0.step) := by
      refine (parseVerbPhrase_ok _ _ _).mpr ⟨?_, s0, p1, rfl⟩
      rw [hv, d3]
      simp [VerbPhrase.tokens]
    obtain ⟨-, -, e3, -⟩ := stream_cons_inv _ _ _ _ d3
    obtain ⟨-, -, f3, -⟩ := stream_cons_inv _ _ _ _ e3
    obtain ⟨-, -, g3, -⟩ := stream_cons_inv _ _ _ _ f3
    have n3 : parseNounPhrase s0.step = (.ok node.objectNP, s0.step.step.step.step) := by
      refine (parseNounPhrase_ok _ _ _).mpr ⟨k2, hk2, hd2, ?_, rfl⟩
      rw [g3, d3]
      simp [NounPhrase.tokens]
    have hfirst : s.step.lookahead = .ARTICLE ∨ s.step.lookahead = .POSSESSIVE := by
      rw [a1]
      exact hk1
    refine ⟨s0.step.step.step.step, ?_⟩
    rw [if_pos hfirst, n1]
    simp only [n2, n3, stream_nil_inv _ g3, if_true]

theorem C28_sentence_grammar_witness :
    ∃ s1, parseStart (Globals.init greenDogTokens "") = (.ok greenDog, s1) :=
  (C28_sentence_grammar (Globals.init greenDogTokens "") greenDog).mpr
    ⟨.ARTICLE, .POSSESSIVE, Or.inl rfl, Or.inr rfl, rfl, rfl, rfl⟩

/-- C29: two of the messages parseSentence can end with lack the final period of
the required strings: the one parseNounPhrase throws when the lookahead is
neither ARTICLE nor POSSESSIVE, and the one parseVerbPhrase throws when its
adverbs are not followed by a VERB. -/
theorem C29_error_strings (s : Globals) :
    (s.lookahead ≠ .ARTICLE → s.lookahead ≠ .POSSESSIVE →
      parseNounPhrase s
        = (.error (.runtime_error "<noun phrase> did not start with an article or possessive"),
            s))
    ∧ (∀ (adverbs : List String) (s1 : Globals), s.lookahead = .ADVERB →
        parseAdverbs [] s = (.ok adverbs, s1) → s1.lookahead ≠ .VERB →
        parseVerbPhrase s
          = (.error (.runtime_error "<verb phrase> did not start with a verb or an adverb"),
              s1)) := by
  constructor
  · intro h1 h2
    rw [parseNounPhrase_eq, if_neg]
    rintro (h | h)
    · exact h1 h
    · exact h2 h
  · intro adverbs s1 h1 h2 h3
    rw [parseVerbPhrase_eq, if_pos (Or.inr h1), h2]
    simp only [h3, if_false]

theorem C29_error_strings_witness :
    parseStart (Globals.init [(.ARTICLE, "the"), (.ADJECTIVE, "green"), (.NOUN, "dog"),
        (.VERB, "eats")] "")
        = (.error (.runtime_error "<noun phrase> did not start with an article or possessive"),
            Globals.mk [] "" .TOK_EOF "")
      ∧ parseNounPhrase (Globals.mk [] "" .TOK_EOF "")
        = (.error (.runtime_error "<noun phrase> did not start with an article or possessive"),
            Globals.mk [] "" .TOK_EOF "")
      ∧ "<noun phrase> did not start with an article or possessive"
          ≠ "<noun phrase> did not start with an article or possessive."
      ∧ parseStart (Globals.init [(.ARTICLE, "the"), (.ADJECTIVE, "green"), (.NOUN, "dog"),
        (.ADVERB, "quickly"), (.NOUN, "dog")] "")
        = (.error (.runtime_error "<verb phrase> did not start with a verb or an adverb"),
            Globals.mk [] "" .NOUN "dog") :=
  ⟨by
    simp [parseStart_eq, parseSentence_eq, parseNounPhrase_eq, parseVerbPhrase_eq,
      parseAdverbs_eq, Globals.step, next, Globals.init, detTypeOf],
   (C29_error_strings _).1 (by decide) (by decide), by decide, by
    simp [parseStart_eq, parseSentence_eq, parseNounPhrase_eq, parseVerbPhrase_eq,
      parseAdverbs_eq, Globals.step, next, Globals.init, detTypeOf]⟩

end SentenceClaims

section PrinterLemmas

theorem unlines_append (a b : List String) : unlines (a ++ b) = unlines a ++ unlines b := by
  unfold unlines
  apply String.ext
  simp [String.data_append, String.data_join]

theorem append_unlines (os : String) (a b : List String) :
    os ++ unlines a ++ unlines b = os ++ unlines (a ++ b) := by
  rw [String.append_assoc, unlines_append]

theorem append_unlines_nil (os : String) : os ++ unlines [] = os := by
  unfold unlines
  apply String.ext
  simp [String.data_append, String.data_join]

theorem columns_snoc (stk : List Bool) (b : Bool) :
    columns (stk ++ [b]) = columns stk ++ column (!b) := by
  unfold columns column
  apply String.ext
  cases b <;> simp [String.data_append, String.data_join]

theorem printLine_snoc (tag lexeme : String) (isLast : Bool) (os : String) (stk : List Bool)
    (b : Bool) :
    (Printer.mk os (stk ++ [b])).printLine tag lexeme isLast
      = Printer.mk (os ++ unlines [columns stk ++ branch isLast ++ leafShown tag lexeme])
          (stk ++ [b]) := by
  unfold Printer.printLine unlines columns branch leafShown leafText
  have h : (stk ++ [b]).isEmpty = false := by cases stk <;> rfl
  simp only [h, List.dropLast_concat, Bool.false_eq_true, if_false]
  congr 1
  apply String.ext
  by_cases hl : lexeme = ""
  · simp [hl, String.data_append, String.data_join]
  · simp [hl, String.data_append, String.data_join]

theorem printNonterminal_snoc (tag : String) (os : String) (stk : List Bool) (b : Bool) :
    (Printer.mk os (stk ++ [b])).printNonterminal tag
      = Printer.mk (os ++ unlines [columns stk ++ branch (!b) ++ tag]) (stk ++ [b]) := by
  unfold Printer.printNonterminal currentIsLast
  rw [List.getLast?_concat, printLine_snoc]
  rfl

theorem beginChildren_mk (os : String) (stk : List Bool) :
    (Printer.mk os stk).beginChildren = Printer.mk os (stk ++ [false]) := rfl

theorem setBack_snoc (os : String) (stk : List Bool) (b c : Bool) :
    (Printer.mk os (stk ++ [b])).setBack c = Printer.mk os (stk ++ [c]) := by
  unfold Printer.setBack
  simp only [List.dropLast_concat]

theorem endChildren_snoc (os : String) (stk : List Bool) (b : Bool) :
    (Printer.mk os (stk ++ [b])).endChildren = Printer.mk os stk := by
  unfold Printer.endChildren
  have h : (stk ++ [b]).isEmpty = false := by cases stk <;> rfl
  simp only [h, Bool.false_eq_true, if_false, List.dropLast_concat]

theorem visitAdjectivePhrase_snoc (node : AdjectivePhrase) (os : String) (stk : List Bool)
    (b : Bool) :
    (Printer.mk os (stk ++ [b])).visitAdjectivePhrase node
      = Printer.mk (os ++ unlines (adjectivePhraseLines leafShown (columns stk) (!b) node))
          (stk ++ [b]) := by
  unfold Printer.visitAdjectivePhrase Printer.printARTICLE Printer.printPOSSESSIVE
    Printer.printADJECTIVE
  simp only [printNonterminal_snoc, beginChildren_mk, setBack_snoc]
  have h : (if node.detType = DetType.Article then
              (Printer.mk (os ++ unlines [columns stk ++ branch (!b) ++ "<adjective phrase>"])
                ((stk ++ [b]) ++ [true])).printLine "ARTICLE" node.detLexeme false
            else
              (Printer.mk (os ++ unlines [columns stk ++ branch (!b) ++ "<adjective phrase>"])
                ((stk ++ [b]) ++ [true])).printLine "POSSESSIVE" node.detLexeme false)
          = (Printer.mk (os ++ unlines [columns stk ++ branch (!b) ++ "<adjective phrase>"])
                ((stk ++ [b]) ++ [true])).printLine (detTag node.detType) node.detLexeme false := by
    cases node.detType <;> rfl
  rw [h]
  simp only [printLine_snoc, setBack_snoc, endChildren_snoc, columns_snoc, append_unlines]
  rfl

theorem visitNounPhrase_snoc (node : NounPhrase) (os : String) (stk : List Bool) (b : Bool) :
    (Printer.mk os (stk ++ [b])).visitNounPhrase node
      = Printer.mk (os ++ unlines (nounPhraseLines leafShown (columns stk) (!b) node))
          (stk ++ [b]) := by
  unfold Printer.visitNounPhrase Printer.printNOUN
  simp only [printNonterminal_snoc, beginChildren_mk, setBack_snoc, visitAdjectivePhrase_snoc,
    printLine_snoc, endChildren_snoc, columns_snoc, append_unlines]
  rfl

theorem foldl_printADVERB (adverbs : List String) (os : String) (stk : List Bool) (b c : Bool) :
    ((adverbs.foldl (fun q adverb => (q.setBack true).printADVERB adverb false)
        (Printer.mk os (stk ++ [b]))).setBack c)
      = Printer.mk (os ++ unlines (adverbs.map
            (fun a => columns stk ++ branch false ++ leafShown "ADVERB" a))) (stk ++ [c]) := by
  induction adverbs generalizing os b with
  | nil =>
    simp only [List.foldl_nil, setBack_snoc, List.map_nil, append_unlines_nil]
  | cons a rest ih =>
    simp only [List.foldl_cons, setBack_snoc, Printer.printADVERB, printLine_snoc]
    have h := ih (os ++ unlines [columns stk ++ branch false ++ leafShown "ADVERB" a]) true
    simp only [Printer.printADVERB] at h
    rw [h, append_unlines]
    rfl

theorem visitVerbPhrase_snoc (node : VerbPhrase) (os : String) (stk : List Bool) (b : Bool) :
    (Printer.mk os (stk ++ [b])).visitVerbPhrase node
      = Printer.mk (os ++ unlines (verbPhraseLines leafShown (columns stk) (!b) node))
          (stk ++ [b]) := by
  unfold Printer.visitVerbPhrase Printer.printVERB
  simp only [printNonterminal_snoc, beginChildren_mk, foldl_printADVERB,
    printLine_snoc, endChildren_snoc, columns_snoc, append_unlines]
  rfl

theorem printNonterminal_mk (tag os : String) (stk : List Bool) :
    ∃ os1, (Printer.mk os stk).printNonterminal tag = Printer.mk os1 stk :=
  ⟨_, rfl⟩

theorem visitAdjectivePhrase_mk (node : AdjectivePhrase) (os : String) (stk : List Bool) :
    ∃ os1, (Printer.mk os stk).visitAdjectivePhrase node = Printer.mk os1 stk := by
  obtain ⟨os1, h1⟩ := printNonterminal_mk "<adjective phrase>" os stk
  unfold Printer.visitAdjectivePhrase Printer.printARTICLE Printer.printPOSSESSIVE
    Printer.printADJECTIVE
  simp only [h1, beginChildren_mk, setBack_snoc]
  split <;> simp only [printLine_snoc, setBack_snoc, endChildren_snoc] <;> exact ⟨_, rfl⟩

theorem visitNounPhrase_mk (node : NounPhrase) (os : String) (stk : List Bool) :
    ∃ os1, (Printer.mk os stk).visitNounPhrase node = Printer.mk os1 stk := by
  obtain ⟨os1, h1⟩ := printNonterminal_mk "<noun phrase>" os stk
  unfold Printer.visitNounPhrase Printer.printNOUN
  simp only [h1, beginChildren_mk, setBack_snoc, visitAdjectivePhrase_snoc, printLine_snoc,
    endChildren_snoc]
  exact ⟨_, rfl⟩

theorem visitVerbPhrase_mk (node : VerbPhrase) (os : String) (stk : List Bool) :
    ∃ os1, (Printer.mk os stk).visitVerbPhrase node = Printer.mk os1 stk := by
  obtain ⟨os1, h1⟩ := printNonterminal_mk "<verb phrase>" os stk
  unfold Printer.visitVerbPhrase Printer.printVERB
  simp only [h1, beginChildren_mk, foldl_printADVERB, printLine_snoc, endChildren_snoc]
  exact ⟨_, rfl⟩

theorem visitSentence_mk (node : Sentence) (os : String) (stk : List Bool) :
    ∃ os1, (Printer.mk os stk).visitSentence node = Printer.mk os1 stk := by
  unfold Printer.visitSentence
  simp only [beginChildren_mk, setBack_snoc, visitNounPhrase_snoc, visitVerbPhrase_snoc,
    endChildren_snoc]
  exact ⟨_, rfl⟩

theorem visitSentence_nil (node : Sentence) (os : String) :
    (Printer.mk os []).visitSentence node
      = Printer.mk (os ++ unlines (sentenceLines leafShown node)) [] := by
  unfold Printer.visitSentence
  simp only [beginChildren_mk]
  rw [show (Printer.mk (os ++ "<sentence>\n") ([] ++ [false])).setBack true
        = Printer.mk (os ++ "<sentence>\n") ([] ++ [true]) from setBack_snoc _ _ _ _]
  have h1 : os ++ "<sentence>\n" = os ++ unlines ["<sentence>"] := by
    congr 1
  rw [h1]
  simp only [visitNounPhrase_snoc, visitVerbPhrase_snoc, setBack_snoc, endChildren_snoc,
    append_unlines]
  rfl

end PrinterLemmas

section PrinterClaims

/-- C30, amended: on a printer whose stack is empty, visit(Sentence) appends to
the stream exactly the lines of the required tree shape, each ended by a
newline, and leaves the stack empty; these are 13 + n lines for n adverbs; a
leaf whose lexeme is not empty is the tag, two spaces and the lexeme in
parentheses, and a leaf whose lexeme is empty is the tag alone. -/
theorem C30_tree_shape (node : Sentence) (os : String) :
    (Printer.new os).visitSentence node
        = { os := os ++ unlines (sentenceLines leafShown node), branchStack := [] }
      ∧ (sentenceLines leafShown node).length = 13 + node.verbP.adverbs.length
      ∧ (∀ tag lexeme : String, lexeme ≠ "" →
          leafShown tag lexeme = tag ++ "  (" ++ lexeme ++ ")")
      ∧ (∀ tag : String, leafShown tag "" = tag) := by
  refine ⟨?_, ?_, ?_, ?_⟩
  · unfold Printer.visitSentence Printer.new
    simp only [beginChildren_mk]
    have h0 : ([] : List Bool) ++ [false] = [] ++ [false] := rfl
    rw [show (Printer.mk (os ++ "<sentence>\n") ([] ++ [false])).setBack true
          = Printer.mk (os ++ "<sentence>\n") ([] ++ [true]) from setBack_snoc _ _ _ _]
    have h1 : os ++ "<sentence>\n" = os ++ unlines ["<sentence>"] := by
      congr 1
    rw [h1]
    simp only [visitNounPhrase_snoc, visitVerbPhrase_snoc, setBack_snoc, endChildren_snoc,
      append_unlines]
    rfl
  · simp [sentenceLines, nounPhraseLines, verbPhraseLines, adjectivePhraseLines]
    omega
  · intro tag lexeme h
    simp [leafShown, leafText, h]
  · intro tag
    simp [leafShown]

set_option maxRecDepth 100000 in
theorem C30_tree_shape_witness :
    ((Printer.new "").visitSentence greenDog).os
      = "<sentence>\n├─ <noun phrase>\n│  ├─ <adjective phrase>\n│  │  ├─ ARTICLE  (the)\n│  │  └─ ADJECTIVE  (green)\n│  └─ NOUN  (dog)\n├─ <verb phrase>\n│  ├─ ADVERB  (quickly)\n│  └─ VERB  (eats)\n└─ <noun phrase>\n   ├─ <adjective phrase>\n   │  ├─ POSSESSIVE  (my)\n   │  └─ ADJECTIVE  (red)\n   └─ NOUN  (bone)\n" := by
  rw [(C30_tree_shape greenDog "").1]
  decide

set_option maxRecDepth 100000 in
/-- C30 as worded fails: the last leaf of a sentence whose object noun has
the empty lexeme is printed as the tag NOUN alone, not as the tag, two spaces
and empty parentheses. -/
theorem C30_empty_lexeme_counterexample :
    ((Printer.new "").visitSentence emptyNoun).os
        ≠ unlines (sentenceLines leafText emptyNoun)
      ∧ (sentenceLines leafText emptyNoun).getLast? = some "   └─ NOUN  ()"
      ∧ ((Printer.new "").visitSentence emptyNoun).os
        = "<sentence>\n├─ <noun phrase>\n│  ├─ <adjective phrase>\n│  │  ├─ ARTICLE  (the)\n│  │  └─ ADJECTIVE  (green)\n│  └─ NOUN  (dog)\n├─ <verb phrase>\n│  ├─ ADVERB  (quickly)\n│  └─ VERB  (eats)\n└─ <noun phrase>\n   ├─ <adjective phrase>\n   │  ├─ POSSESSIVE  (my)\n   │  └─ ADJECTIVE  (red)\n   └─ NOUN\n" := by
  refine ⟨by decide, by decide, by decide⟩

/-- C39: whatever branchStack holds before, each of the four visit functions
leaves it with the same entries afterwards (it pushes one entry, changes only
that entry, and pops it).  A printer made on a stream has the empty stack, has
it again after visit(Sentence), and a second visit of the same sentence appends
the same lines once more. -/
theorem C39_stack_balance (p : Printer) :
    (∀ node : AdjectivePhrase, (p.visitAdjectivePhrase node).branchStack = p.branchStack)
    ∧ (∀ node : NounPhrase, (p.visitNounPhrase node).branchStack = p.branchStack)
    ∧ (∀ node : VerbPhrase, (p.visitVerbPhrase node).branchStack = p.branchStack)
    ∧ (∀ node : Sentence, (p.visitSentence node).branchStack = p.branchStack)
    ∧ (∀ (node : Sentence) (os : String),
        (Printer.new os).branchStack = []
        ∧ ((Printer.new os).visitSentence node).branchStack = []
        ∧ ((Printer.new os).visitSentence node).os
            = os ++ unlines (sentenceLines leafShown node)
        ∧ (((Printer.new os).visitSentence node).visitSentence node).os
            = os ++ unlines (sentenceLines leafShown node)
                ++ unlines (sentenceLines leafShown node)
        ∧ (((Printer.new os).visitSentence node).visitSentence node).branchStack = []) := by
  obtain ⟨os0, stk⟩ := p
  refine ⟨?_, ?_, ?_, ?_, ?_⟩
  · intro node
    obtain ⟨os1, h⟩ := visitAdjectivePhrase_mk node os0 stk
    rw [h]
  · intro node
    obtain ⟨os1, h⟩ := visitNounPhrase_mk node os0 stk
    rw [h]
  · intro node
    obtain ⟨os1, h⟩ := visitVerbPhrase_mk node os0 stk
    rw [h]
  · intro node
    obtain ⟨os1, h⟩ := visitSentence_mk node os0 stk
    rw [h]
  · intro node os
    unfold Printer.new
    rw [visitSentence_nil, visitSentence_nil]
    exact ⟨rfl, rfl, rfl, rfl, rfl⟩

end PrinterClaims

end Lab2

end CustomLang
